import Mathlib

/-!
# update-tracker: the runner (`internal/app/runner.go`)

A shallow embedding of the scheduler of `peeomid/update-tracker` and of the
classification it performs for every configured source.

Modelling conventions

* A Go `string` is a Lean `String` (a sequence of Unicode code points); the
  functions of package `strings` that the runner calls are written out on the
  list of code points.
* A Go `error` value is the record `GoError` of the four observations the
  runner makes of it; the `nil` error is `none`.
* Calls that reach the outside world (a probe's `Check`, the exec runner's
  `Run`) thread an explicit world state `W`.  A `context.Context` and its
  deadline are part of that world.
* Functions of the Go standard library whose behaviour is not fixed by this
  repository (the Unicode lower-case table, `regexp.Compile` on a pattern
  supplied by the user, `json.Unmarshal`) are the fields of the class `GoLib`.
-/

namespace UpdateTracker

/-! ## Package `strings` -/

/-- The code points for which `unicode.IsSpace` holds. -/
def isSpace (c : Char) : Bool :=
  let n := c.toNat
  (9 ≤ n && n ≤ 13) || n == 0x20 || n == 0x85 || n == 0xA0 || n == 0x1680 ||
  (0x2000 ≤ n && n ≤ 0x200A) || n == 0x2028 || n == 0x2029 || n == 0x202F ||
  n == 0x205F || n == 0x3000

/-- Drop the white space at the end of a list of code points. -/
def trimRight (l : List Char) : List Char :=
  (l.reverse.dropWhile isSpace).reverse

/-- The list form of `strings.TrimSpace`. -/
def trimSpaceList (l : List Char) : List Char :=
  trimRight (l.dropWhile isSpace)

/-- The function `strings.TrimSpace`: leading and trailing white space removed. -/
def TrimSpace (s : String) : String :=
  ⟨trimSpaceList s.data⟩

/-- The function `strings.HasPrefix(s, p)`. -/
def HasPrefix (s p : String) : Bool :=
  p.data.isPrefixOf s.data

/-- Whether `sub` occurs in `l` as a contiguous block. -/
def hasInfix : List Char → List Char → Bool
  | [], sub => sub.isPrefixOf []
  | c :: cs, sub => sub.isPrefixOf (c :: cs) || hasInfix cs sub

/-- The function `strings.Contains(s, sub)`. -/
def Contains (s sub : String) : Bool :=
  hasInfix s.data sub.data

/-! ## Errors and decoded payloads -/

/-- A non-nil Go `error`, as the runner observes it. -/
structure GoError where
  /-- The text `err.Error()`. -/
  Error : String
  /-- The value of `errors.Is(err, context.DeadlineExceeded)`. -/
  isDeadlineExceeded : Bool := false
  /-- The value of `errors.Is(err, context.Canceled)`. -/
  isCanceled : Bool := false
  /-- Whether `errors.As(err, &ne)` finds a `net.Error` in the chain. -/
  asNetError : Bool := false
deriving DecidableEq, Repr

/-- The `link` element of an Atom entry (`atomEntry.Links`). -/
structure atomLink where
  Href : String := ""
  Rel : String := ""
deriving DecidableEq, Repr

/-- The `content` element of an Atom entry (`atomEntry.Content`). -/
structure atomContent where
  Type_ : String := ""
  Body : String := ""
deriving DecidableEq, Repr

/-- The record `trackers.atomEntry`. -/
structure atomEntry where
  ID : String := ""
  Title : String := ""
  Content : atomContent := {}
  Links : List atomLink := []
deriving DecidableEq, Repr

/-- The record `trackers.atomFeed`. -/
structure atomFeed where
  Entries : List atomEntry := []
deriving DecidableEq, Repr

/-- The field `Head` of `trackers.githubPRResp`. -/
structure githubPRHead where
  SHA : String := ""
deriving DecidableEq, Repr

/-- The record `trackers.githubPRResp`. -/
structure githubPRResp where
  Number : Int := 0
  State : String := ""
  Draft : Bool := false
  Merged : Bool := false
  HTMLURL : String := ""
  Head : githubPRHead := {}
deriving DecidableEq, Repr

/-- The record `trackers.githubCommitStatusResp`. -/
structure githubCommitStatusResp where
  State : String := ""
deriving DecidableEq, Repr

/-- An element of `githubCheckRunsResp.CheckRuns`; a `nil` conclusion is `none`. -/
structure checkRun where
  Status : String := ""
  Conclusion : Option String := none
deriving DecidableEq, Repr

/-- The record `trackers.githubCheckRunsResp`. -/
structure githubCheckRunsResp where
  TotalCount : Int := 0
  CheckRuns : List checkRun := []
deriving DecidableEq, Repr

/-- The field `Versions` of an element of `brewInfoV2.Formulae`. -/
structure brewVersions where
  Stable : String := ""
deriving DecidableEq, Repr

/-- An element of `brewInfoV2.Formulae`. -/
structure brewFormulaInfo where
  Name : String := ""
  Homepage : String := ""
  Versions : brewVersions := {}
deriving DecidableEq, Repr

/-- The record `trackers.brewInfoV2`. -/
structure brewInfoV2 where
  Formulae : List brewFormulaInfo := []
deriving DecidableEq, Repr

/-- Functions of the Go runtime library that the repository calls and whose
    behaviour it does not fix. -/
class GoLib where
  /-- The value of `unicode.ToLower` on a code point outside ASCII. -/
  unicodeToLower : Char → Char
  /-- The call `regexp.Compile(p)`: an error text, or the `FindString` method of
      the compiled expression. -/
  regexpCompile : String → Except String (String → String)
  /-- The call `json.Unmarshal` into the `npmList` record of `parseNpmListJSON`:
      `none` on a decoding error; otherwise the `Dependencies` map, itself
      `none` when it is left `nil`, as a lookup from package name to the
      `version` field. -/
  unmarshalNpmList : String → Option (Option (String → Option String))
  /-- The function `html.UnescapeString`. -/
  htmlUnescape : String → String
  /-- The call `xml.Unmarshal` of a response body into a zero `atomFeed`. -/
  unmarshalAtomFeed : String → Except GoError atomFeed
  /-- The call `json.Unmarshal` of a response body into a zero `githubPRResp`. -/
  unmarshalPR : String → Except GoError githubPRResp
  /-- The call `json.Unmarshal` of a response body into a zero
      `githubCheckRunsResp`. -/
  unmarshalCheckRuns : String → Except GoError githubCheckRunsResp
  /-- The call `json.Unmarshal` of a response body into a zero
      `githubCommitStatusResp`. -/
  unmarshalCommitStatus : String → Except GoError githubCommitStatusResp
  /-- The call `json.Unmarshal` of a command output into a zero `brewInfoV2`. -/
  unmarshalBrewInfo : String → Except GoError brewInfoV2

/-- The function `unicode.ToLower`: fixed on ASCII, the library table elsewhere. -/
def toLowerRune [GoLib] (c : Char) : Char :=
  if c.toNat < 128 then
    (if 'A'.toNat ≤ c.toNat ∧ c.toNat ≤ 'Z'.toNat then Char.ofNat (c.toNat + 32) else c)
  else GoLib.unicodeToLower c

/-- The function `strings.ToLower`. -/
def ToLower [GoLib] (s : String) : String :=
  ⟨s.data.map toLowerRune⟩

/-! ## The version pattern

`versionRe` is `[0-9]+(\.[0-9]+){2}(-[0-9A-Za-z.-]+)?`.  Go's `FindString`
returns the leftmost match and prefers, at that position, the greedy choice of
every repetition. -/

/-- The class `[0-9]`. -/
def isDigit (c : Char) : Bool :=
  '0'.toNat ≤ c.toNat && c.toNat ≤ '9'.toNat

/-- The class `[0-9A-Za-z.-]`. -/
def isSuffixChar (c : Char) : Bool :=
  isDigit c || ('A'.toNat ≤ c.toNat && c.toNat ≤ 'Z'.toNat) ||
  ('a'.toNat ≤ c.toNat && c.toNat ≤ 'z'.toNat) || c == '.' || c == '-'

/-- Match `[0-9]+` greedily at the head of `l`: the digits and the rest. -/
def matchDigits (l : List Char) : Option (List Char × List Char) :=
  let ds := l.takeWhile isDigit
  if ds.isEmpty then none else some (ds, l.dropWhile isDigit)

/-- Match `\.[0-9]+` at the head of `l`. -/
def matchDotDigits : List Char → Option (List Char × List Char)
  | '.' :: rest =>
    match matchDigits rest with
    | some (ds, rest') => some ('.' :: ds, rest')
    | none => none
  | _ => none

/-- Match `(-[0-9A-Za-z.-]+)?` at the head of `l`: the text matched, empty when
    the group does not take part. -/
def matchSuffix : List Char → List Char
  | '-' :: rest =>
    let body := rest.takeWhile isSuffixChar
    if body.isEmpty then [] else '-' :: body
  | _ => []

/-- Match the whole of `versionRe` at the head of `l`. -/
def matchVersionAt (l : List Char) : Option (List Char) :=
  match matchDigits l with
  | none => none
  | some (a, r1) =>
    match matchDotDigits r1 with
    | none => none
    | some (b, r2) =>
      match matchDotDigits r2 with
      | none => none
      | some (c, r3) => some (a ++ b ++ c ++ matchSuffix r3)

/-- The leftmost match of `versionRe` in `l`, or the empty list. -/
def findVersion : List Char → List Char
  | [] => []
  | c :: cs =>
    match matchVersionAt (c :: cs) with
    | some m => m
    | none => findVersion cs

/-- The call `versionRe.FindString(s)`. -/
def versionReFindString (s : String) : String :=
  ⟨findVersion s.data⟩

/-! ## Configuration, state, report -/

/-- The record `config.LocalEntry`. -/
structure LocalEntry where
  Type_ : String := ""
  Command : String := ""
  Regex : String := ""
  Path : String := ""
  Package : String := ""
deriving DecidableEq, Repr

/-- The record `config.TrackerEntry`, with the field `PR` that the trackers
    package reads. -/
structure TrackerEntry where
  Name : String := ""
  Type_ : String := ""
  Label : String := ""
  Group : String := ""
  Display : String := ""
  Mode : String := ""
  Repo : String := ""
  Branch : String := ""
  /-- Modelled from the spec: the pull-request number of a pr source
      (`SourceConfig`: "for pr, a pull-request number"), which `Registry.Build`
      reads as `cfg.PR`; `config.go` as listed declares no such field. -/
  PR : Int := 0
  Formula : String := ""
  NpmPackage : String := ""
  Local : LocalEntry := {}
deriving DecidableEq, Repr

/-- An instant (`time.Time`); the zero value is `0`. -/
abbrev Time := Int

/-- The record `state.Item`. -/
structure Item where
  LastCheckedAt : Time := 0
  LastSeen : String := ""
  LastStatus : String := ""
  LastError : String := ""
deriving DecidableEq, Repr

/-- A Go `map[string]string`; `nil` and the empty map are both `[]`. -/
abbrev Links := List (String × String)

/-- The record `app.ReportItem`. -/
structure ReportItem where
  Name : String := ""
  Type_ : String := ""
  Mode : String := ""
  Label : String := ""
  Group : String := ""
  Display : String := ""
  Status : String := ""
  Prev : String := ""
  Current : String := ""
  Latest : String := ""
  Local : String := ""
  Message : String := ""
  Links : Links := []
  Highlights : String := ""
  Error : String := ""
  LocalError : String := ""
deriving DecidableEq, Repr

/-- The record `trackers.Options`. -/
structure Options where
  IncludeNotes : Bool := false
deriving DecidableEq, Repr

/-- The record `trackers.Result`. -/
structure Result where
  Current : String := ""
  Message : String := ""
  Links : Links := []
  Highlights : String := ""
deriving DecidableEq, Repr

/-- The record `state.State`; a `nil` map is `none`.  A Go map is the lookup it
    supports. -/
structure State where
  Items : Option (String → Option Item) := none

/-- The interface `trackers.Tracker`: one call of `Check` takes the previous
    observed value and the options, and returns a result and an error. -/
structure Tracker (W : Type) where
  Check : String → Options → W → (Result × Option GoError) × W

/-- The interface `execx.Runner`: one call of `Run` takes a program name and
    its arguments, and returns the output and an error. -/
structure ExecRunner (W : Type) where
  Run : String → List String → W → (String × Option GoError) × W

/-- The record `trackers.Registry` as the runner uses it: the method `Build`,
    which yields a probe or a construction error, and the field `Exec`.  The
    runner reaches the five probe variants only through the interface
    `Tracker`, so `Build` stands for any assignment of probes to configs. -/
structure Registry (W : Type) where
  Build : TrackerEntry → Except GoError (Tracker W)
  Exec : ExecRunner W

/-- The record `app.runner`.  `Options` is `app.Options`, which has the same
    single field as `trackers.Options`. -/
structure runner (W : Type) where
  Registry : Registry W
  Timeout : Int := 0
  Retries : Int := 0
  Concurrency : Int := 0
  RunAt : Time := 0
  Options : Options := {}

/-! ## `runner.go` -/

variable {W : Type}

/-- The function `errorItem`. -/
def errorItem (cfg : TrackerEntry) (msg : String) : ReportItem :=
  { Name := cfg.Name, Type_ := cfg.Type_, Mode := cfg.Mode, Label := cfg.Label,
    Group := cfg.Group, Display := cfg.Display, Status := "error",
    Message := "ERROR", Error := msg }

/-- The function `isRetryable`. -/
def isRetryable [GoLib] (err : Option GoError) : Bool :=
  match err with
  | none => false
  | some e =>
    if e.isDeadlineExceeded || e.isCanceled then true
    else if e.asNetError then true
    else
      let msg := ToLower e.Error
      if Contains msg "timeout" || Contains msg "connection reset" ||
          Contains msg "tls" || Contains msg "temporary" then true
      else false

/-- The function `normalizeLatest`. -/
def normalizeLatest (cfg : TrackerEntry) (current : String) : String :=
  let current := TrimSpace current
  if current = "" then ""
  else if cfg.Type_ = "github" ∧ cfg.Mode = "release" ∧ versionReFindString current ≠ "" then
    versionReFindString current
  else current

/-- The function `parseNpmListJSON`. -/
def parseNpmListJSON [GoLib] (out : String) (pkg : String) : String :=
  let out := TrimSpace out
  if out = "" then ""
  else
    match GoLib.unmarshalNpmList out with
    | none => ""
    | some none => ""
    | some (some deps) =>
      match deps pkg with
      | none => ""
      | some version => TrimSpace version

/-- The function `runLocalCheck`: the local value and the error text. -/
def runLocalCheck [GoLib] (r : runner W) (cfg : TrackerEntry) (w : W) : (String × String) × W :=
  let ty := TrimSpace cfg.Local.Type_
  if ty = "" then (("", ""), w)
  else if ty = "command" then
    let res := r.Registry.Exec.Run "zsh" ["-lc", cfg.Local.Command] w
    match res.1.2 with
    | some err => (("", err.Error), res.2)
    | none =>
      let out := TrimSpace res.1.1
      if out = "" then (("unknown", ""), res.2)
      else if TrimSpace cfg.Local.Regex = "" then
        (if versionReFindString out ≠ "" then ((versionReFindString out, ""), res.2)
         else (("unknown", ""), res.2))
      else
        match GoLib.regexpCompile cfg.Local.Regex with
        | .error msg => (("", "invalid local.regex: " ++ msg), res.2)
        | .ok find =>
          if find out ≠ "" then ((find out, ""), res.2) else (("unknown", ""), res.2)
  else if ty = "git" then
    let res := r.Registry.Exec.Run "git" ["-C", cfg.Local.Path, "rev-parse", "HEAD"] w
    match res.1.2 with
    | some err => (("", err.Error), res.2)
    | none =>
      let out := TrimSpace res.1.1
      if out = "" then (("unknown", ""), res.2) else ((out, ""), res.2)
  else if ty = "npm" then
    let pkg := if TrimSpace cfg.Local.Package ≠ "" then cfg.Local.Package else cfg.NpmPackage
    if TrimSpace pkg = "" then (("", "missing npm package"), w)
    else
      let res := r.Registry.Exec.Run "npm" ["list", pkg, "--depth=0", "-g", "--json"] w
      let v := parseNpmListJSON res.1.1 pkg
      if v ≠ "" then ((v, ""), res.2)
      else
        match res.1.2 with
        | some err =>
          let msg := ToLower err.Error
          if Contains msg "missing" || Contains msg "not installed" || Contains msg "empty" then
            (("not-installed", ""), res.2)
          else (("", err.Error), res.2)
        | none => (("unknown", ""), res.2)
  else (("", "unknown local.type: " ++ cfg.Local.Type_), w)

/-- The function `localUpdateAvailable`. -/
def localUpdateAvailable (cfg : TrackerEntry) (local_ : String) (latest : String) : Bool :=
  let local_ := TrimSpace local_
  let latest := TrimSpace latest
  if TrimSpace cfg.Local.Type_ = "" then false
  else if local_ = "" ∨ local_ = "unknown" then false
  else if latest = "" then false
  else if cfg.Type_ = "github" then
    if cfg.Mode = "commit" then
      (if HasPrefix latest local_ || HasPrefix local_ latest then false
       else decide (local_ ≠ latest))
    else decide (local_ ≠ latest)
  else if cfg.Type_ = "npm" then
    (if local_ = "not-installed" then true else decide (local_ ≠ latest))
  else decide (local_ ≠ latest)

/-- The variables of `runOne` that the retry loop assigns. -/
structure loopVars where
  current : String := ""
  latest : String := ""
  message : String := ""
  links : Links := []
  highlights : String := ""
  lastErr : Option GoError := none
deriving DecidableEq, Repr

/-- The assignments one attempt makes from the outcome of `Check`. -/
def attemptVars (cfg : TrackerEntry) (out : Result × Option GoError) : loopVars :=
  { current := out.1.Current, message := out.1.Message, links := out.1.Links,
    highlights := out.1.Highlights, latest := normalizeLatest cfg out.1.Current,
    lastErr := out.2 }

/-- The retry loop of `runOne` (`for attempt := 0; attempt <= r.Retries; attempt++`).
    The first argument is the number of values of `attempt` still to come, which
    is `r.Retries + 1` at entry (none when `r.Retries` is negative); the counter
    itself is not read by the body.  The Go counter is a 64-bit `int`: the
    embedding is exact for `r.Retries < 2^63 - 1`, where the counter cannot wrap
    around. -/
def retryLoop [GoLib] (tr : Tracker W) (cfg : TrackerEntry) (prevSeen : String)
    (includeNotes : Bool) : Nat → loopVars → W → loopVars × W
  | 0, v, w => (v, w)
  | n + 1, _, w =>
    let out := tr.Check prevSeen { IncludeNotes := includeNotes } w
    let v := attemptVars cfg out.1
    if v.lastErr = none then (v, out.2)
    else if !isRetryable v.lastErr then (v, out.2)
    else retryLoop tr cfg prevSeen includeNotes n v out.2

/-- The method `runner.runOne`. -/
def runOne [GoLib] (r : runner W) (cfg : TrackerEntry) (prev : Item) (w : W) :
    (ReportItem × Item) × W :=
  match r.Registry.Build cfg with
  | .error err =>
    ((errorItem cfg err.Error,
      { LastCheckedAt := r.RunAt, LastSeen := prev.LastSeen, LastStatus := "error",
        LastError := err.Error }), w)
  | .ok tr =>
    let looped := retryLoop tr cfg prev.LastSeen r.Options.IncludeNotes (r.Retries + 1).toNat {} w
    let v := looped.1
    match v.lastErr with
    | some lastErr =>
      (({ Name := cfg.Name, Type_ := cfg.Type_, Mode := cfg.Mode, Label := cfg.Label,
          Group := cfg.Group, Display := cfg.Display, Status := "error",
          Message := "ERROR", Links := v.links, Error := lastErr.Error },
        { LastCheckedAt := r.RunAt, LastSeen := prev.LastSeen, LastStatus := "error",
          LastError := lastErr.Error }), looped.2)
    | none =>
      let prevSeen := TrimSpace prev.LastSeen
      let currSeen := TrimSpace v.current
      let lc := runLocalCheck r cfg looped.2
      let local_ := TrimSpace lc.1.1
      let localErr := lc.1.2
      let remoteChanged : Bool := prevSeen ≠ "" ∧ currSeen ≠ "" ∧ prevSeen ≠ currSeen
      let localChanged := localUpdateAvailable cfg local_ v.latest
      let status := if remoteChanged || localChanged then "update" else "ok"
      let backfill : String × W :=
        if status = "update" ∧ remoteChanged = false ∧ cfg.Type_ = "github" ∧
            cfg.Mode = "release" ∧ TrimSpace v.highlights = "" ∧
            r.Options.IncludeNotes = true then
          let res2 := tr.Check "force-notes" { IncludeNotes := true } lc.2
          (if res2.1.2 = none ∧ TrimSpace res2.1.1.Highlights ≠ "" then res2.1.1.Highlights
           else v.highlights, res2.2)
        else (v.highlights, lc.2)
      (({ Name := cfg.Name, Type_ := cfg.Type_, Mode := cfg.Mode, Label := cfg.Label,
          Group := cfg.Group, Display := cfg.Display, Status := status,
          Prev := prevSeen, Current := currSeen, Latest := TrimSpace v.latest,
          Local := local_, Message := v.message, Links := v.links,
          Highlights := backfill.1, LocalError := TrimSpace localErr },
        { LastCheckedAt := r.RunAt, LastSeen := currSeen, LastStatus := status,
          LastError := "" }), backfill.2)

/-- The worker count of `runner.Run`: the configured concurrency, at most the
    number of jobs, at least one. -/
def workerCount (r : runner W) (jobs : Nat) : Int :=
  let workerCount := if r.Concurrency > (jobs : Int) then (jobs : Int) else r.Concurrency
  if workerCount < 1 then 1 else workerCount

/-- The variables `results` and `nextState.Items` of `runner.Run`, and the world. -/
structure runVars (W : Type) where
  results : List ReportItem
  nextItems : String → Option Item
  world : W

/-- The body of a worker of `runner.Run` for the job with index `idx`:
    `runOne` on the job's config and on the previous item of that name (the
    zero item when the name is unknown), then the two writes. -/
def runJob [GoLib] (r : runner W) (trackerCfgs : List TrackerEntry)
    (prevItems : String → Option Item) (acc : runVars W) (idx : Nat) : runVars W :=
  match trackerCfgs[idx]? with
  | none => acc
  | some cfg =>
    let out := runOne r cfg ((prevItems cfg.Name).getD {}) acc.world
    { results := acc.results.set idx out.1.1,
      nextItems := fun k => if k = cfg.Name then some out.1.2 else acc.nextItems k,
      world := out.2 }

/-- The previous item that `runner.Run` reads for a source name
    (`prevItems[j.Cfg.Name]`): the item stored under the name, or the zero item. -/
def prevItem (st : State) (name : String) : Item :=
  match st.Items with
  | none => {}
  | some m => (m name).getD {}

/-- The method `runner.Run`.  The jobs are sent on the channel in input order
    and every job is received by exactly one worker, which runs `runOne` and
    writes the item to `results[j.Idx]` and the record to the next-state map.
    The worker pool is represented by `sched`, the order in which the jobs
    are carried out, each job in one step of the world: with one worker it is
    the input order, with several it can be any order of the job indices.  The
    copies `prevItems` and `nextState.Items` of the previous map are that map. -/
def Run [GoLib] (r : runner W) (trackerCfgs : List TrackerEntry) (st : State)
    (sched : List Nat) (w : W) : (List ReportItem × State) × W :=
  let items : String → Option Item := match st.Items with
    | none => fun _ => none
    | some m => m
  let prevItems := items
  let start : runVars W :=
    { results := List.replicate trackerCfgs.length {}, nextItems := prevItems, world := w }
  let fin := sched.foldl (runJob r trackerCfgs prevItems) start
  ((fin.results, { Items := some fin.nextItems }), fin.world)

/-- The loop variables and the world of `runOne` when its retry loop has
    ended, for the probe `tr` that `Build` returned. -/
abbrev afterLoop [GoLib] (r : runner W) (cfg : TrackerEntry) (prev : Item) (tr : Tracker W)
    (w : W) : loopVars × W :=
  retryLoop tr cfg prev.LastSeen r.Options.IncludeNotes (r.Retries + 1).toNat {} w

/-- The condition `remoteChanged` in the words of the specification: the
    previous and the current observed value, trimmed, are both non-empty and
    differ. -/
abbrev remoteChangedSpec (prevSeen currSeen : String) : Prop :=
  TrimSpace prevSeen ≠ "" ∧ TrimSpace currSeen ≠ "" ∧ TrimSpace prevSeen ≠ TrimSpace currSeen

/-- Containment ignoring letter case, in the words of the specification: some
    contiguous part of `msg` agrees with `kw` once the letters of both are put
    in lower case. -/
def containsIgnoringCase [GoLib] (msg kw : String) : Prop :=
  ∃ mid : List Char, mid <:+: msg.data ∧ mid.map toLowerRune = kw.data.map toLowerRune

/-! ## More of package `strings`, and byte offsets

`len(s)`, `s[:n]`, `s[n:]` and `strings.Index` count bytes of the UTF-8
encoding.  A cut that falls inside the encoding of a code point leaves, in Go,
bytes that are no character; the embedding leaves them out. -/

/-- The value `len(s)` for a list of code points: the bytes of its encoding. -/
def utf8Len : List Char → Nat
  | [] => 0
  | c :: cs => c.utf8Size + utf8Len cs

/-- The value `len(s)`. -/
def byteLen (s : String) : Nat :=
  utf8Len s.data

/-- The code points that lie wholly within the first `n` bytes. -/
def takeBytes : Nat → List Char → List Char
  | _, [] => []
  | n, c :: cs => if c.utf8Size ≤ n then c :: takeBytes (n - c.utf8Size) cs else []

/-- The code points that begin at or after byte `n`. -/
def dropBytes : Nat → List Char → List Char
  | _, [] => []
  | n, c :: cs => if n = 0 then c :: cs else dropBytes (n - c.utf8Size) cs

/-- The slice `s[:n]`. -/
def sliceTo (s : String) (n : Nat) : String :=
  ⟨takeBytes n s.data⟩

/-- The slice `s[n:]`. -/
def sliceFrom (s : String) (n : Nat) : String :=
  ⟨dropBytes n s.data⟩

/-- The byte offset of the first occurrence of `sub` in `l`, counted from
    `off`, or `-1`. -/
def indexFrom (sub : List Char) : List Char → Nat → Int
  | [], off => if sub.isPrefixOf [] then (off : Int) else -1
  | c :: cs, off =>
    if sub.isPrefixOf (c :: cs) then (off : Int) else indexFrom sub cs (off + c.utf8Size)

/-- The function `strings.Index(s, sub)`. -/
def Index (s sub : String) : Int :=
  indexFrom sub.data s.data 0

/-- The fields of a list of code points; `cur` holds, reversed, the field
    that is being read. -/
def fieldsList : List Char → List Char → List (List Char)
  | [], cur => if cur.isEmpty then [] else [cur.reverse]
  | c :: cs, cur =>
    if isSpace c then
      (if cur.isEmpty then fieldsList cs [] else cur.reverse :: fieldsList cs [])
    else fieldsList cs (c :: cur)

/-- The function `strings.Fields`: the maximal runs without white space. -/
def Fields (s : String) : List String :=
  (fieldsList s.data []).map String.mk

/-- The list form of `strings.Join`. -/
def joinList (sep : List Char) : List (List Char) → List Char
  | [] => []
  | [a] => a
  | a :: b :: rest => a ++ sep ++ joinList sep (b :: rest)

/-- The function `strings.Join(elems, sep)`. -/
def Join (elems : List String) (sep : String) : String :=
  ⟨joinList sep.data (elems.map String.data)⟩

/-- The function `strconv.Itoa`, also the verb `%d` of `fmt.Sprintf`. -/
def Itoa (n : Int) : String :=
  toString n

/-- The verb `%t` of `fmt.Sprintf`. -/
def formatBool (b : Bool) : String :=
  if b then "true" else "false"

/-! ## `trackers/util.go` -/

/-- The function `shortSHA`. -/
def shortSHA (s : String) : String :=
  if byteLen s ≤ 12 then s else sliceTo s 12

/-- Whether a list begins with `<li`, letter case ignored (`(?i)<li`). -/
def startsOpenLi : List Char → Bool
  | '<' :: l :: i :: _ => (l == 'l' || l == 'L') && (i == 'i' || i == 'I')
  | _ => false

/-- Whether a list begins with `</li>`, letter case ignored (`(?i)</li>`). -/
def startsCloseLi : List Char → Bool
  | '<' :: '/' :: l :: i :: '>' :: _ => (l == 'l' || l == 'L') && (i == 'i' || i == 'I')
  | _ => false

/-- Match `[^>]*>` at the head of a list: the number of code points matched. -/
def matchToGt : List Char → Option Nat
  | [] => none
  | c :: cs => if c == '>' then some 1 else (matchToGt cs).map (· + 1)

/-- Match `(.*?)</li>` at the head of a list, with `.` matching every code
    point (`(?s)`): the text of the group and the number of code points matched. -/
def matchToCloseLi : List Char → Option (List Char × Nat)
  | [] => none
  | c :: cs =>
    if startsCloseLi (c :: cs) then some ([], 5)
    else (matchToCloseLi cs).map (fun m => (c :: m.1, m.2 + 1))

/-- Match `liRe`, which is `(?is)<li[^>]*>(.*?)</li>`, at the head of a list:
    the text of the group and the number of code points matched. -/
def liMatchAt (l : List Char) : Option (List Char × Nat) :=
  if startsOpenLi l then
    match matchToGt (l.drop 3) with
    | none => none
    | some k =>
      match matchToCloseLi (l.drop (3 + k)) with
      | none => none
      | some m => some (m.1, 3 + k + m.2)
  else none

/-- The groups of the successive matches of `liRe`; `skip` code points of the
    match found last are still to be passed over. -/
def liFindAll : Nat → List Char → List (List Char)
  | _, [] => []
  | skip + 1, _ :: cs => liFindAll skip cs
  | 0, c :: cs =>
    match liMatchAt (c :: cs) with
    | some m => m.1 :: liFindAll (m.2 - 1) cs
    | none => liFindAll 0 cs

/-- The call `liRe.FindAllStringSubmatch(s, -1)`, each match given by its
    group `m[1]`. -/
def liReFindAllStringSubmatch (s : String) : List String :=
  (liFindAll 0 s.data).map String.mk

/-- Match `tagRe`, which is `(?is)<[^>]+>`, at the head of a list: the number
    of code points matched. -/
def tagMatchAt : List Char → Option Nat
  | '<' :: c :: cs => if c == '>' then none else (matchToGt cs).map (· + 2)
  | _ => none

/-- The text left when the successive matches of `tagRe` are removed; `skip`
    code points of the match found last are still to be passed over. -/
def stripTags : Nat → List Char → List Char
  | _, [] => []
  | skip + 1, _ :: cs => stripTags skip cs
  | 0, c :: cs =>
    match tagMatchAt (c :: cs) with
    | some n => stripTags (n - 1) cs
    | none => c :: stripTags 0 cs

/-- The call `tagRe.ReplaceAllString(s, "")`. -/
def tagReReplaceAllString (s : String) : String :=
  ⟨stripTags 0 s.data⟩

/-- The text of one bullet, from the group of a match of `liRe`. -/
def bulletText [GoLib] (m : String) : String :=
  let txt := tagReReplaceAllString m
  let txt := GoLib.htmlUnescape txt
  let txt := TrimSpace txt
  Join (Fields txt) " "

/-- The loop of `extractHighlightsFromHTML` over the matches: a match without
    text is passed over, and the loop ends when six lines are there. -/
def bulletLoop [GoLib] : List String → List String → List String
  | [], lines => lines
  | m :: rest, lines =>
    if bulletText m = "" then bulletLoop rest lines
    else if (lines ++ ["- " ++ bulletText m]).length ≥ 6 then lines ++ ["- " ++ bulletText m]
    else bulletLoop rest (lines ++ ["- " ++ bulletText m])

/-- The text `strings.Join(lines, "\n")` of `extractHighlightsFromHTML`,
    before it is cut to length. -/
def joinedBullets [GoLib] (raw : String) : String :=
  let raw := TrimSpace raw
  let idx := Index (ToLower raw) "highlights"
  let candidates := if idx ≥ 0 then sliceFrom raw idx.toNat else raw
  let found := liReFindAllStringSubmatch candidates
  let found := if found.length = 0 ∧ candidates ≠ raw then liReFindAllStringSubmatch raw
    else found
  Join (bulletLoop found []) "\n"

/-- The function `extractHighlightsFromHTML`. -/
def extractHighlightsFromHTML [GoLib] (raw : String) : String :=
  if TrimSpace raw = "" then ""
  else if byteLen (joinedBullets raw) > 500 then sliceTo (joinedBullets raw) 500 ++ "..."
  else joinedBullets raw

/-! ## Package `trackers`: the probes -/

/-- The interface `httpx.Fetcher`: one call of `Get` takes a URL and the
    request headers, and returns the body and an error. -/
structure Fetcher (W : Type) where
  Get : String → Links → W → (String × Option GoError) × W

/-- The assignment `m[k] = v` on a Go map: the entry of the key is replaced,
    or a new entry is added. -/
def mapSet : Links → String → String → Links
  | [], k, v => [(k, v)]
  | e :: rest, k, v => if e.1 = k then (k, v) :: rest else e :: mapSet rest k v

/-- The read `m[k]` on a Go map: the zero value when the key is absent. -/
def mapGet (m : Links) (k : String) : String :=
  (m.lookup k).getD ""

/-- The error `fmt.Errorf(pfx + "%w", err)`: the text of `err` behind a
    prefix, around the same chain. -/
def wrapErr (pfx : String) (err : GoError) : GoError :=
  { err with Error := pfx ++ err.Error }

/-- The record `trackers.githubCommit`. -/
structure githubCommit (W : Type) where
  Exec : ExecRunner W
  Repo : String := ""
  Branch : String := ""

/-- The method `githubCommit.Check`. -/
def githubCommit.Check (g : githubCommit W) (prevSeen : String) (_opts : Options) (w : W) :
    (Result × Option GoError) × W :=
  let repoURL := "https://github.com/" ++ g.Repo
  let remote := "https://github.com/" ++ g.Repo ++ ".git"
  let ref := "refs/heads/" ++ g.Branch
  let res := g.Exec.Run "git" ["ls-remote", remote, ref] w
  match res.1.2 with
  | some err => (({}, some (wrapErr "git ls-remote: " err)), res.2)
  | none =>
    match Fields res.1.1 with
    | [] => (({}, some { Error := "git ls-remote: empty output" }), res.2)
    | sha :: _ =>
      let prev := TrimSpace prevSeen
      let links : Links := [("repo", repoURL)]
      let links := if prev ≠ "" ∧ prev ≠ sha then
          mapSet links "compare" (repoURL ++ "/compare/" ++ prev ++ "..." ++ sha)
        else links
      let msg := if prev ≠ "" ∧ prev ≠ sha then
          "new commits on " ++ g.Branch ++ " (" ++ shortSHA prev ++ " -> " ++ shortSHA sha ++ ")"
        else "latest commit on " ++ g.Branch ++ " (" ++ shortSHA sha ++ ")"
      (({ Current := sha, Message := msg, Links := links }, none), res.2)

/-- The record `trackers.githubReleaseOrCommit`. -/
structure githubReleaseOrCommit (W : Type) where
  HTTP : Fetcher W
  Exec : ExecRunner W
  UserAgent : String := ""
  Repo : String := ""
  Fallback : githubCommit W

/-- The loop of `githubReleaseOrCommit.Check` over the links of the entry: the
    `href` of the first link whose `rel` is empty or `alternate`. -/
def releaseLinkLoop : List atomLink → String
  | [] => ""
  | l :: rest => if l.Rel = "" ∨ l.Rel = "alternate" then l.Href else releaseLinkLoop rest

/-- The release link of `githubReleaseOrCommit.Check`: the result of the loop,
    or the `href` of the first link when the loop leaves it empty. -/
def releaseLinkOf (links : List atomLink) : String :=
  match links with
  | [] => releaseLinkLoop links
  | first :: _ => if releaseLinkLoop links = "" then first.Href else releaseLinkLoop links

/-- The address `repoURL` of `githubReleaseOrCommit.Check`. -/
def githubReleaseOrCommit.repoURL (g : githubReleaseOrCommit W) : String :=
  "https://github.com/" ++ g.Repo

/-- The address `feedURL` of `githubReleaseOrCommit.Check`. -/
def githubReleaseOrCommit.feedURL (g : githubReleaseOrCommit W) : String :=
  g.repoURL ++ "/releases.atom"

/-- The method `githubReleaseOrCommit.Check`. -/
def githubReleaseOrCommit.Check [GoLib] (g : githubReleaseOrCommit W) (prevSeen : String)
    (opts : Options) (w : W) : (Result × Option GoError) × W :=
  let repoURL := g.repoURL
  let feedURL := g.feedURL
  let res := g.HTTP.Get feedURL [("User-Agent", g.UserAgent)] w
  match res.1.2 with
  | some err => (({}, some (wrapErr "fetch atom: " err)), res.2)
  | none =>
    match GoLib.unmarshalAtomFeed res.1.1 with
    | .error err => (({}, some (wrapErr "parse atom: " err)), res.2)
    | .ok feed =>
      match feed.Entries with
      | [] =>
        let fb := g.Fallback.Check prevSeen opts res.2
        match fb.1.2 with
        | some err => (({}, some (wrapErr "no releases; fallback commit failed: " err)), fb.2)
        | none =>
          (({ Current := fb.1.1.Current, Message := "no releases; " ++ fb.1.1.Message,
              Links := mapSet fb.1.1.Links "feed" feedURL,
              Highlights := fb.1.1.Highlights }, none), fb.2)
      | entry :: _ =>
        let title := if TrimSpace entry.Title = "" then TrimSpace entry.ID
          else TrimSpace entry.Title
        if title = "" then (({}, some { Error := "atom: missing entry title/id" }), res.2)
        else
          let releaseLink := releaseLinkOf entry.Links
          let links : Links := [("repo", repoURL), ("feed", feedURL)]
          let links := if releaseLink ≠ "" then mapSet links "release" releaseLink else links
          let prev := TrimSpace prevSeen
          let msg := if prev ≠ "" ∧ prev ≠ title then "new release " ++ title
            else "latest release " ++ title
          let highlights := if prev ≠ "" ∧ prev ≠ title ∧ opts.IncludeNotes = true then
              extractHighlightsFromHTML entry.Content.Body
            else ""
          (({ Current := title, Message := msg, Links := links, Highlights := highlights },
            none), res.2)

/-- The record `trackers.githubPR`. -/
structure githubPR (W : Type) where
  HTTP : Fetcher W
  UserAgent : String := ""
  Repo : String := ""
  PR : Int := 0

/-- The flags of the loop of `summarizeCheckRuns`. -/
structure checkFlags where
  anyPending : Bool := false
  anyFailure : Bool := false
  anySuccess : Bool := false
deriving DecidableEq, Repr

/-- The body of the loop of `summarizeCheckRuns` for one run. -/
def checkRunStep [GoLib] (f : checkFlags) (r : checkRun) : checkFlags :=
  if ToLower (TrimSpace r.Status) ≠ "completed" then { f with anyPending := true }
  else
    match r.Conclusion with
    | none => { f with anyPending := true }
    | some conclusion =>
      let c := ToLower (TrimSpace conclusion)
      if c = "success" ∨ c = "neutral" ∨ c = "skipped" then { f with anySuccess := true }
      else if c = "failure" ∨ c = "cancelled" ∨ c = "timed_out" ∨ c = "action_required" ∨
          c = "startup_failure" ∨ c = "stale" then { f with anyFailure := true }
      else { f with anyPending := true }

/-- The function `summarizeCheckRuns`. -/
def summarizeCheckRuns [GoLib] (cr : githubCheckRunsResp) : String :=
  if cr.TotalCount ≤ 0 ∨ cr.CheckRuns.length = 0 then "none"
  else
    let f := cr.CheckRuns.foldl checkRunStep {}
    if f.anyPending then "pending"
    else if f.anyFailure then "failure"
    else if f.anySuccess then "success"
    else "none"

/-- The headers that `githubPR` sends. -/
def githubPR.headers (g : githubPR W) : Links :=
  [("User-Agent", g.UserAgent), ("Accept", "application/vnd.github+json")]

/-- The address `prURL` of `githubPR.Check`. -/
def githubPR.prURL (g : githubPR W) : String :=
  "https://api.github.com/repos/" ++ g.Repo ++ "/pulls/" ++ Itoa g.PR

/-- The address `checkURL` of `githubPR.checksSummary`. -/
def githubPR.checkURL (g : githubPR W) (sha : String) : String :=
  "https://api.github.com/repos/" ++ g.Repo ++ "/commits/" ++ sha ++ "/check-runs?per_page=100"

/-- The address `statusURL` of `githubPR.checksSummary`. -/
def githubPR.statusURL (g : githubPR W) (sha : String) : String :=
  "https://api.github.com/repos/" ++ g.Repo ++ "/commits/" ++ sha ++ "/status"

/-- The switch at the end of `githubPR.checksSummary` on the state of the
    combined commit status. -/
def combinedStatusSummary [GoLib] (state : String) : String :=
  let s := ToLower (TrimSpace state)
  if s = "success" then "success"
  else if s = "failure" ∨ s = "error" then "failure"
  else if s = "pending" then "pending"
  else "none"

/-- The second half of `githubPR.checksSummary`: the query of the combined
    commit status. -/
def githubPR.statusSummary [GoLib] (g : githubPR W) (sha : String) (w : W) : String × W :=
  let res := g.HTTP.Get (g.statusURL sha) g.headers w
  match res.1.2 with
  | some _ => ("unknown", res.2)
  | none =>
    match GoLib.unmarshalCommitStatus res.1.1 with
    | .error _ => ("unknown", res.2)
    | .ok st => (combinedStatusSummary st.State, res.2)

/-- The method `githubPR.checksSummary`. -/
def githubPR.checksSummary [GoLib] (g : githubPR W) (sha : String) (w : W) : String × W :=
  let sha := TrimSpace sha
  if sha = "" then ("none", w)
  else
    let res := g.HTTP.Get (g.checkURL sha) g.headers w
    match res.1.2 with
    | some _ => g.statusSummary sha res.2
    | none =>
      match GoLib.unmarshalCheckRuns res.1.1 with
      | .error _ => g.statusSummary sha res.2
      | .ok cr =>
        if summarizeCheckRuns cr ≠ "" then (summarizeCheckRuns cr, res.2)
        else g.statusSummary sha res.2

/-- The method `githubPR.Check`. -/
def githubPR.Check [GoLib] (g : githubPR W) (_prevSeen : String) (_opts : Options) (w : W) :
    (Result × Option GoError) × W :=
  let res := g.HTTP.Get g.prURL g.headers w
  match res.1.2 with
  | some err => (({}, some (wrapErr "fetch pr: " err)), res.2)
  | none =>
    match GoLib.unmarshalPR res.1.1 with
    | .error err => (({}, some (wrapErr "parse pr json: " err)), res.2)
    | .ok pr =>
      let number := if pr.Number = 0 then g.PR else pr.Number
      if TrimSpace pr.Head.SHA = "" then (({}, some { Error := "pr: missing head sha" }), res.2)
      else
        let state := ToLower (TrimSpace pr.State)
        let state := if pr.Merged then "merged" else state
        let state := if state = "" then "unknown" else state
        let checks := g.checksSummary pr.Head.SHA res.2
        let currentSeen := state ++ "|draft=" ++ formatBool pr.Draft ++ "|checks=" ++ checks.1
        let repoWebURL := "https://github.com/" ++ g.Repo
        let prWebURL := if TrimSpace pr.HTMLURL = "" then repoWebURL ++ "/pull/" ++ Itoa number
          else pr.HTMLURL
        let msg := if pr.Draft then
            "PR #" ++ Itoa number ++ " " ++ state ++ " (draft), checks=" ++ checks.1
          else "PR #" ++ Itoa number ++ " " ++ state ++ ", checks=" ++ checks.1
        (({ Current := currentSeen, Message := msg,
            Links := [("repo", repoWebURL), ("pr", prWebURL)] }, none), checks.2)

/-- The record `trackers.brewFormula`. -/
structure brewFormula (W : Type) where
  Exec : ExecRunner W
  Formula : String := ""

/-- The method `brewFormula.Check`. -/
def brewFormula.Check [GoLib] (b : brewFormula W) (prevSeen : String) (_opts : Options)
    (w : W) : (Result × Option GoError) × W :=
  let res := b.Exec.Run "brew" ["info", "--json=v2", b.Formula] w
  match res.1.2 with
  | some err => (({}, some (wrapErr "brew info: " err)), res.2)
  | none =>
    match GoLib.unmarshalBrewInfo res.1.1 with
    | .error err => (({}, some (wrapErr "brew info json: " err)), res.2)
    | .ok info =>
      match info.Formulae with
      | [] => (({}, some { Error := "brew info json: missing formulae" }), res.2)
      | f :: _ =>
        let version := TrimSpace f.Versions.Stable
        if version = "" then (({}, some { Error := "brew info: missing stable version" }), res.2)
        else
          let links : Links := if TrimSpace f.Homepage ≠ "" then [("homepage", f.Homepage)]
            else []
          let prev := TrimSpace prevSeen
          let msg := if prev ≠ "" ∧ prev ≠ version then "new version " ++ version
            else "latest stable " ++ version
          (({ Current := version, Message := msg, Links := links }, none), res.2)

/-- The record `trackers.npmPackage`. -/
structure npmPackage (W : Type) where
  Exec : ExecRunner W
  Package : String := ""

/-- The method `npmPackage.Check`. -/
def npmPackage.Check (n : npmPackage W) (prevSeen : String) (_opts : Options) (w : W) :
    (Result × Option GoError) × W :=
  let res := n.Exec.Run "npm" ["view", n.Package, "version"] w
  match res.1.2 with
  | some err => (({}, some (wrapErr "npm view: " err)), res.2)
  | none =>
    let version := TrimSpace res.1.1
    if version = "" then (({}, some { Error := "npm view: empty version" }), res.2)
    else
      let links : Links := [("npm", "https://www.npmjs.com/package/" ++ n.Package)]
      let prev := TrimSpace prevSeen
      let msg := if prev ≠ "" ∧ prev ≠ version then "new version " ++ version
        else "latest " ++ version
      (({ Current := version, Message := msg, Links := links }, none), res.2)

/-! ## `trackers/registry.go` -/

/-- The record `trackers.Registry` with its three fields. -/
structure trackers.Registry (W : Type) where
  HTTP : Fetcher W
  Exec : ExecRunner W
  UserAgent : String := ""

/-- The method `Registry.Build` of package `trackers`. -/
def trackers.Registry.Build [GoLib] (r : trackers.Registry W) (cfg : TrackerEntry) :
    Except GoError (Tracker W) :=
  if cfg.Type_ = "github" then
    if cfg.Mode = "commit" then
      let g : githubCommit W := { Exec := r.Exec, Repo := cfg.Repo, Branch := cfg.Branch }
      .ok { Check := g.Check }
    else if cfg.Mode = "release" then
      let branch := if cfg.Branch = "" then "main" else cfg.Branch
      let g : githubReleaseOrCommit W :=
        { HTTP := r.HTTP, Exec := r.Exec, UserAgent := r.UserAgent, Repo := cfg.Repo,
          Fallback := { Exec := r.Exec, Repo := cfg.Repo, Branch := branch } }
      .ok { Check := g.Check }
    else if cfg.Mode = "pr" then
      let g : githubPR W :=
        { HTTP := r.HTTP, UserAgent := r.UserAgent, Repo := cfg.Repo, PR := cfg.PR }
      .ok { Check := g.Check }
    else
      .error { Error := "tracker " ++ cfg.Name ++ ": github mode must be release|commit|pr" }
  else if cfg.Type_ = "brew" then
    let b : brewFormula W := { Exec := r.Exec, Formula := cfg.Formula }
    .ok { Check := b.Check }
  else if cfg.Type_ = "npm" then
    let n : npmPackage W := { Exec := r.Exec, Package := cfg.NpmPackage }
    .ok { Check := n.Check }
  else
    .error { Error := "tracker " ++ cfg.Name ++ ": unknown type: " ++ cfg.Type_ }

/-- The registry that `app.Run` hands to the runner: the probes of
    `Registry.Build` and the exec runner of the record. -/
def trackers.Registry.toRegistry [GoLib] (r : trackers.Registry W) :
    UpdateTracker.Registry W :=
  { Build := r.Build, Exec := r.Exec }

/-! ## Observing the calls of a probe -/

/-- The outcome and the world of the call of `Check` with index `k` (from 0) in
    a run of successive calls with the same arguments. -/
def nthCall (tr : Tracker W) (prevSeen : String) (opts : Options) :
    Nat → W → (Result × Option GoError) × W
  | 0, w => tr.Check prevSeen opts w
  | k + 1, w => nthCall tr prevSeen opts k (tr.Check prevSeen opts w).2

/-- A probe that also counts, in a second component of the world, how often
    its `Check` is invoked. -/
def Tracker.counting (tr : Tracker W) : Tracker (W × Nat) :=
  { Check := fun p o s => ((tr.Check p o s.1).1, ((tr.Check p o s.1).2, s.2 + 1)) }

/-- An exec runner on the world with a counter, which it leaves alone. -/
def ExecRunner.lifted (e : ExecRunner W) : ExecRunner (W × Nat) :=
  { Run := fun name args s => ((e.Run name args s.1).1, ((e.Run name args s.1).2, s.2)) }

/-- A registry whose probes count their invocations. -/
def Registry.counting (reg : Registry W) : Registry (W × Nat) :=
  { Build := fun cfg =>
      match reg.Build cfg with
      | .error e => .error e
      | .ok tr => .ok tr.counting,
    Exec := reg.Exec.lifted }

/-- A runner whose probes count their invocations. -/
def runner.counting (r : runner W) : runner (W × Nat) :=
  { Registry := r.Registry.counting, Timeout := r.Timeout, Retries := r.Retries,
    Concurrency := r.Concurrency, RunAt := r.RunAt, Options := r.Options }

/-- Whether the retry loop stops after an attempt with this outcome: the
    attempt succeeded, or its error is not retryable. -/
def stopsRetrying [GoLib] (out : Result × Option GoError) : Bool :=
  out.2.isNone || !isRetryable out.2

/-! ## Concrete collaborators used in the examples -/

/-- A library instance for the examples: code points outside ASCII have no
    case, no user pattern compiles, no payload decodes, no text has entities. -/
def plainLib : GoLib :=
  { unicodeToLower := fun c => c,
    regexpCompile := fun _ => .error "unsupported pattern",
    unmarshalNpmList := fun _ => none,
    htmlUnescape := fun s => s,
    unmarshalAtomFeed := fun _ => .error { Error := "EOF" },
    unmarshalPR := fun _ => .error { Error := "unexpected end of JSON input" },
    unmarshalCheckRuns := fun _ => .error { Error := "unexpected end of JSON input" },
    unmarshalCommitStatus := fun _ => .error { Error := "unexpected end of JSON input" },
    unmarshalBrewInfo := fun _ => .error { Error := "unexpected end of JSON input" } }

/-- A probe without state that always returns the same outcome. -/
def constTracker (res : Result) (err : Option GoError) : Tracker Unit :=
  { Check := fun _ _ w => ((res, err), w) }

/-- An exec runner without state that always returns the same outcome. -/
def constExec (out : String) (err : Option GoError) : ExecRunner Unit :=
  { Run := fun _ _ w => ((out, err), w) }

/-- A probe whose world is the list of outcomes still to come; when the list
    is used up it fails with a terminal error. -/
def scriptedTracker : Tracker (List (Result × Option GoError)) :=
  { Check := fun _ _ w =>
      match w with
      | [] => (({}, some { Error := "script exhausted" }), [])
      | o :: rest => (o, rest) }

/-! ## Sample inputs -/

/-- A release source without a local observation. -/
def sampleRelease : TrackerEntry :=
  { Name := "tool", Type_ := "github", Mode := "release", Repo := "acme/tool" }

/-- An npm source with a local observation. -/
def sampleNpm : TrackerEntry :=
  { Name := "left-pad", Type_ := "npm", NpmPackage := "left-pad", Local := { Type_ := "npm" } }

/-- A commit source with a local clone. -/
def sampleCommit : TrackerEntry :=
  { Name := "dotfiles", Type_ := "github", Mode := "commit", Repo := "acme/dotfiles",
    Branch := "main", Local := { Type_ := "git", Path := "/src/dotfiles" } }

/-- A runner with one retry whose probes all return the release `v1.2.4`. -/
def sampleRunner : runner Unit :=
  { Registry :=
      { Build := fun _ =>
          .ok (constTracker { Current := " v1.2.4 ", Message := "new release v1.2.4" } none),
        Exec := constExec "" none },
    Retries := 1, Concurrency := 2, RunAt := 1700000000 }

/-- A runner whose probes all return the release titled `v1.2.3`. -/
def releaseRunner : runner Unit :=
  { Registry :=
      { Build := fun _ =>
          .ok (constTracker { Current := "v1.2.3", Message := "latest release v1.2.3" } none),
        Exec := constExec "" none },
    Retries := 1, Concurrency := 2, RunAt := 1700000000 }

/-- A release source with a local command. -/
def releaseWithLocal : TrackerEntry :=
  { Name := "tool", Type_ := "github", Mode := "release", Repo := "acme/tool",
    Local := { Type_ := "command", Command := "tool --version" } }

/-- A runner whose probes return the release `v1.2.4` and whose exec runner
    fails. -/
def brokenLocalRunner : runner Unit :=
  { Registry :=
      { Build := fun _ =>
          .ok (constTracker { Current := " v1.2.4 ", Message := "latest release v1.2.4" } none),
        Exec := constExec "" (some { Error := "exit status 127: zsh: command not found: tool" }) },
    Retries := 1, Concurrency := 2, RunAt := 1700000000 }

/-- A runner with one retry whose probes all fail with a terminal error. -/
def failingRunner : runner Unit :=
  { Registry :=
      { Build := fun _ => .ok (constTracker {} (some { Error := "npm view: empty version" })),
        Exec := constExec "" none },
    Retries := 1, Concurrency := 2, RunAt := 1700000000 }

/-- A runner with two retries whose probes all fail with a time-out. -/
def timeoutRunner : runner Unit :=
  { Registry :=
      { Build := fun _ => .ok (constTracker {} (some { Error := "fetch atom: request timeout" })),
        Exec := constExec "" none },
    Retries := 2, Concurrency := 2, RunAt := 1700000000 }

/-- A runner with three retries whose probes read their outcomes from the world. -/
def scriptedRunner : runner (List (Result × Option GoError)) :=
  { Registry :=
      { Build := fun _ => .ok scriptedTracker,
        Exec := { Run := fun _ _ w => (("", none), w) } },
    Retries := 3, Concurrency := 1, RunAt := 1700000000 }

/-- A script: a time-out, then the release `v1.2.4`, then the release `v1.2.5`. -/
def sampleScript : List (Result × Option GoError) :=
  [({}, some { Error := "fetch atom: request timeout" }),
   ({ Current := "v1.2.4" }, none), ({ Current := "v1.2.5" }, none)]

/-! ## Notions of the specification for the probes -/

/-- The conclusions that count as success. -/
def successConclusions : List String :=
  ["success", "neutral", "skipped"]

/-- The conclusions that count as failure. -/
def failureConclusions : List String :=
  ["failure", "cancelled", "timed_out", "action_required", "startup_failure", "stale"]

/-- Whether the conclusion of a run, trimmed and in lower case, is among the
    given names; a run with a null conclusion has none. -/
def conclusionAmong [GoLib] (names : List String) (r : checkRun) : Bool :=
  match r.Conclusion with
  | none => false
  | some c => decide (ToLower (TrimSpace c) ∈ names)

/-- Whether a run counts as pending in the words of the specification: it is
    not completed, or has a null conclusion, or has a conclusion that is not
    recognized. -/
def runCountsAsPending [GoLib] (r : checkRun) : Bool :=
  decide (ToLower (TrimSpace r.Status) ≠ "completed") || r.Conclusion.isNone ||
    !(conclusionAmong successConclusions r || conclusionAmong failureConclusions r)

/-- The state word of a pull request in the words of the specification:
    "merged" when the merged flag is set, else the trimmed state in lower case,
    else "unknown". -/
def prStateWord [GoLib] (pr : githubPRResp) : String :=
  if pr.Merged = true then "merged"
  else if ToLower (TrimSpace pr.State) ≠ "" then ToLower (TrimSpace pr.State)
  else "unknown"

/-- The title of a feed entry in the words of the specification: the trimmed
    title, or the trimmed id when the title is blank. -/
def entryTitle (entry : atomEntry) : String :=
  if TrimSpace entry.Title = "" then TrimSpace entry.ID else TrimSpace entry.Title

/-- The `href` that decides on the release link: that of the first link whose
    `rel` is empty or `alternate` when it is not empty, and else that of the
    first link; empty when there is no link. -/
def selectedHref (links : List atomLink) : String :=
  match links.find? (fun l => decide (l.Rel = "" ∨ l.Rel = "alternate")) with
  | some l => if l.Href ≠ "" then l.Href else ((links.head?).map atomLink.Href).getD ""
  | none => ((links.head?).map atomLink.Href).getD ""

/-- The lines of a list of code points: the parts between line feeds. -/
def splitLines : List Char → List (List Char)
  | [] => [[]]
  | c :: cs =>
    if c = '\n' then [] :: splitLines cs
    else
      match splitLines cs with
      | [] => [[c]]
      | h :: t => (c :: h) :: t

/-- The lines of a text; the empty text has no line. -/
def textLines (s : String) : List String :=
  if s.data = [] then [] else (splitLines s.data).map String.mk

/-! ## Collaborators and payloads for the examples of the probes -/

/-- A fetcher like `mapFetcher` of the tests: the body is looked up by URL in
    a table, a URL outside the table gives the error `http 404`; the world is
    the list of the URLs requested so far. -/
def tableFetcher (table : List (String × String)) : Fetcher (List String) :=
  { Get := fun url _ log =>
      match table.lookup url with
      | some body => ((body, none), log ++ [url])
      | none => (("", some { Error := "http 404" }), log ++ [url]) }

/-- An exec runner on the same world that answers every command with the
    output of `git ls-remote` for one branch. -/
def lsRemoteExec : ExecRunner (List String) :=
  { Run := fun _ _ log => (("3f2a9c1d4e5b6a7f8091a2b3c4d5e6f708192a3b\trefs/heads/main", none), log) }

/-- The entry of the feed of `TestGitHubAtomParsing`. -/
def sampleEntry : atomEntry :=
  { ID := "tag:github.com,2008:Repository/1/v1.2.3", Title := "v1.2.3",
    Content :=
      { Type_ := "html",
        Body := "<h3>Highlights</h3><ul><li>Fix A</li><li>Add B</li></ul>" },
    Links := [{ Rel := "alternate", Href := "https://github.com/a/b/releases/tag/v1.2.3" }] }

/-- An entry whose only link has no `href`. -/
def entryWithoutHref : atomEntry :=
  { ID := "tag:github.com,2008:Repository/1/v2.0.0", Title := "v2.0.0",
    Links := [{ Rel := "alternate", Href := "" }] }

/-- The pull request of `TestGitHubPRCurrentSeenIgnoresHeadSHA`. -/
def samplePR : githubPRResp :=
  { Number := 123, State := "open", Draft := false, Merged := false,
    HTMLURL := "https://github.com/a/b/pull/123",
    Head := { SHA := "aaaaaaaaaaaaaaaaaaaaaaaaaaaaaaaaaaaaaaaa" } }

/-- The body of a feed with the entry of the test. -/
def feedBody : String :=
  "<feed><entry><title>v1.2.3</title></entry></feed>"

/-- The body of a feed whose entry has a link without `href`. -/
def feedWithoutHrefBody : String :=
  "<feed><entry><title>v2.0.0</title><link rel=\"alternate\"/></entry></feed>"

/-- The body of a feed without entries. -/
def emptyFeedBody : String :=
  "<feed></feed>"

/-- The body of the pull request of the test. -/
def prBody : String :=
  "\x7b\"number\":123,\"state\":\"open\",\"head\":\x7b\"sha\":\"aaaa\"\x7d\x7d"

/-- The body of a check-runs response without runs. -/
def noCheckRunsBody : String :=
  "\x7b\"total_count\":0,\"check_runs\":[]\x7d"

/-- The body of the check-runs response of the test. -/
def oneCheckRunBody : String :=
  "\x7b\"total_count\":1,\"check_runs\":[\x7b\"status\":\"completed\"," ++
    "\"conclusion\":\"success\"\x7d]\x7d"

/-- The body of a combined status that is pending. -/
def pendingStatusBody : String :=
  "\x7b\"state\":\"pending\"\x7d"

/-- The body of a combined status that is success. -/
def successStatusBody : String :=
  "\x7b\"state\":\"success\"\x7d"

/-- A library instance for the examples of the probes: it decodes the
    payloads named above and nothing else. -/
def sampleLib : GoLib :=
  { unicodeToLower := fun c => c,
    regexpCompile := fun _ => .error "unsupported pattern",
    unmarshalNpmList := fun _ => none,
    htmlUnescape := fun s => s,
    unmarshalAtomFeed := fun body =>
      if body = feedBody then .ok { Entries := [sampleEntry] }
      else if body = feedWithoutHrefBody then .ok { Entries := [entryWithoutHref] }
      else if body = emptyFeedBody then .ok { Entries := [] }
      else .error { Error := "EOF" },
    unmarshalPR := fun body =>
      if body = prBody then .ok samplePR
      else .error { Error := "unexpected end of JSON input" },
    unmarshalCheckRuns := fun body =>
      if body = noCheckRunsBody then .ok {}
      else if body = oneCheckRunBody then
        .ok { TotalCount := 1,
              CheckRuns := [{ Status := "completed", Conclusion := some "success" }] }
      else .error { Error := "unexpected end of JSON input" },
    unmarshalCommitStatus := fun body =>
      if body = pendingStatusBody then .ok { State := "pending" }
      else if body = successStatusBody then .ok { State := "success" }
      else .error { Error := "unexpected end of JSON input" },
    unmarshalBrewInfo := fun _ => .error { Error := "unexpected end of JSON input" } }

/-- The pull-request probe of the test, for the repository `a/b`. -/
def samplePRProbe (table : List (String × String)) : githubPR (List String) :=
  { HTTP := tableFetcher table, UserAgent := "x", Repo := "a/b", PR := 123 }

/-- The address of the pull request of the test. -/
def samplePRURL : String :=
  "https://api.github.com/repos/a/b/pulls/123"

/-- The address of the check runs of a commit of `a/b`. -/
def checkRunsURL (sha : String) : String :=
  "https://api.github.com/repos/a/b/commits/" ++ sha ++ "/check-runs?per_page=100"

/-- The address of the combined status of a commit of `a/b`. -/
def statusURL (sha : String) : String :=
  "https://api.github.com/repos/a/b/commits/" ++ sha ++ "/status"

/-- The release probe of `TestGitHubAtomParsing`, for the repository `a/b`. -/
def sampleReleaseProbe (table : List (String × String)) :
    githubReleaseOrCommit (List String) :=
  { HTTP := tableFetcher table, Exec := lsRemoteExec, UserAgent := "x", Repo := "a/b",
    Fallback := { Exec := lsRemoteExec, Repo := "a/b", Branch := "main" } }

/-- The address of the release feed of `a/b`. -/
def sampleFeedURL : String :=
  "https://github.com/a/b/releases.atom"

/-- A release source for the repository `a/b`. -/
def releaseAB : TrackerEntry :=
  { Name := "ab", Type_ := "github", Mode := "release", Repo := "a/b" }

/-- A runner as `app.Run` builds it, over the table fetcher. -/
def tableRunner [GoLib] (table : List (String × String)) : runner (List String) :=
  { Registry := trackers.Registry.toRegistry
      { HTTP := tableFetcher table, Exec := lsRemoteExec, UserAgent := "x" },
    Retries := 1, Concurrency := 2, RunAt := 1700000000, Options := { IncludeNotes := true } }

/-- A list item with 497 letters followed by a short one. -/
def longItemHTML : String :=
  ⟨"<li>".data ++ List.replicate 497 'a' ++ "</li><li>b</li>".data⟩

/-- A list item with 167 euro signs, of three bytes each. -/
def euroItemHTML : String :=
  ⟨"<li>".data ++ List.replicate 167 '€' ++ "</li>".data⟩

/-! ## Packages `execx` and `httpx`: the caches

The map `cache` of a cache is part of the world, beside the world of the
inner collaborator.  A call is one step of that world: the calls of a sequence
are made one after the other, each returning before the next begins. -/

/-- The record `execx.CachedRunner`. -/
structure CachedRunner (W : Type) where
  Inner : ExecRunner W

/-- The key of `CachedRunner.Run`: `name + "\x00" + strings.Join(args, "\x00")`. -/
def CachedRunner.key (name : String) (args : List String) : String :=
  name ++ "\x00" ++ Join args "\x00"

/-- The method `CachedRunner.Run`. -/
def CachedRunner.Run (c : CachedRunner W) (name : String) (args : List String)
    (s : Links × W) : (String × Option GoError) × (Links × W) :=
  match s.1.lookup (CachedRunner.key name args) with
  | some v => ((v, none), s)
  | none =>
    match (c.Inner.Run name args s.2).1.2 with
    | some err => (((c.Inner.Run name args s.2).1.1, some err), (s.1, (c.Inner.Run name args s.2).2))
    | none =>
      (((c.Inner.Run name args s.2).1.1, none),
        (mapSet s.1 (CachedRunner.key name args) (c.Inner.Run name args s.2).1.1,
          (c.Inner.Run name args s.2).2))

/-- The record `httpx.CachedFetcher`. -/
structure CachedFetcher (W : Type) where
  Inner : Fetcher W

/-- The method `CachedFetcher.Get`; the `nil` body of a failed call is the
    empty text. -/
def CachedFetcher.Get (c : CachedFetcher W) (url : String) (headers : Links)
    (s : Links × W) : (String × Option GoError) × (Links × W) :=
  match s.1.lookup url with
  | some v => ((v, none), s)
  | none =>
    match (c.Inner.Get url headers s.2).1.2 with
    | some err => (("", some err), (s.1, (c.Inner.Get url headers s.2).2))
    | none =>
      (((c.Inner.Get url headers s.2).1.1, none),
        (mapSet s.1 url (c.Inner.Get url headers s.2).1.1, (c.Inner.Get url headers s.2).2))

/-- The two caches have one shape: look the key up; on a miss make the inner
    call, and store its value when it succeeds.  `failOut` gives what a failed
    call returns beside the error. -/
def memoCall {V : Type} (key : String) (inner : V → (String × Option GoError) × V)
    (failOut : String → String) (s : Links × V) : (String × Option GoError) × (Links × V) :=
  match s.1.lookup key with
  | some v => ((v, none), s)
  | none =>
    match (inner s.2).1.2 with
    | some err => ((failOut (inner s.2).1.1, some err), (s.1, (inner s.2).2))
    | none => (((inner s.2).1.1, none), (mapSet s.1 key (inner s.2).1.1, (inner s.2).2))

/-- A sequence of calls of one operation on a state, made one after the other:
    the outcomes in order, and the final state. -/
def runCalls {α β S : Type} (step : α → S → β × S) : List α → S → List β × S
  | [], s => ([], s)
  | a :: rest, s =>
    ((step a s).1 :: (runCalls step rest (step a s).2).1, (runCalls step rest (step a s).2).2)

/-- A fetcher that also counts, in a second component of the world, how often
    its `Get` is invoked. -/
def Fetcher.counting (f : Fetcher W) : Fetcher (W × Nat) :=
  { Get := fun url headers s => ((f.Get url headers s.1).1, ((f.Get url headers s.1).2, s.2 + 1)) }

/-- An exec runner that also counts, in a second component of the world, how
    often its `Run` is invoked. -/
def ExecRunner.counting (e : ExecRunner W) : ExecRunner (W × Nat) :=
  { Run := fun name args s => ((e.Run name args s.1).1, ((e.Run name args s.1).2, s.2 + 1)) }

/-- A sequence of calls of `CachedFetcher.Get`, each given by its URL and its
    headers. -/
def CachedFetcher.calls (c : CachedFetcher W) (reqs : List (String × Links)) (s : Links × W) :
    List (String × Option GoError) × (Links × W) :=
  runCalls (fun q => c.Get q.1 q.2) reqs s

/-- A sequence of calls of `CachedRunner.Run`, each given by its program name
    and its arguments. -/
def CachedRunner.calls (c : CachedRunner W) (reqs : List (String × List String))
    (s : Links × W) : List (String × Option GoError) × (Links × W) :=
  runCalls (fun q => c.Run q.1 q.2) reqs s

/-- An exec runner whose world is the list of the outcomes still to come;
    when the list is used up it fails. -/
def scriptedExec : ExecRunner (List (String × Option GoError)) :=
  { Run := fun _ _ w =>
      match w with
      | [] => (("", some { Error := "script exhausted" }), [])
      | o :: rest => (o, rest) }

/-- A fetcher whose world is the list of the outcomes still to come; when the
    list is used up it fails. -/
def scriptedFetcher : Fetcher (List (String × Option GoError)) :=
  { Get := fun _ _ w =>
      match w with
      | [] => (("", some { Error := "script exhausted" }), [])
      | o :: rest => (o, rest) }

/-! ## More notions of the specification -/

/-- The bullet lines built from the list items of a text, joined by line feeds. -/
def bulletsFrom [GoLib] (s : String) : String :=
  Join (bulletLoop (liReFindAllStringSubmatch s) []) "\n"

/-- A text cut to 500 bytes, with "..." behind it when it was longer. -/
def cutHighlights (out : String) : String :=
  if byteLen out > 500 then sliceTo out 500 ++ "..." else out

/-- A three-component dotted version token in the words of the specification:
    three non-empty runs of digits separated by dots, optionally followed by a
    pre-release part, which is a hyphen and a non-empty run of letters, digits,
    dots and hyphens. -/
def isVersionToken (t : List Char) : Prop :=
  ∃ a b c suf : List Char, t = a ++ ('.' :: b) ++ ('.' :: c) ++ suf ∧
    a ≠ [] ∧ b ≠ [] ∧ c ≠ [] ∧
    (∀ x ∈ a, isDigit x = true) ∧ (∀ x ∈ b, isDigit x = true) ∧ (∀ x ∈ c, isDigit x = true) ∧
    (suf = [] ∨ ∃ body, suf = '-' :: body ∧ body ≠ [] ∧ ∀ x ∈ body, isSuffixChar x = true)

/-- Whether a version token begins at position `i` of a list. -/
def tokenAt (l : List Char) (i : Nat) (t : List Char) : Prop :=
  isVersionToken t ∧ t <+: l.drop i

/-- An earlier call with the key `k` succeeded: `keys` are the keys of the
    calls made so far, `outs` their outcomes, in order. -/
def servedBefore (keys : List String) (outs : List (String × Option GoError)) (k : String) :
    Prop :=
  ∃ p ∈ List.zip keys outs, p.1 = k ∧ p.2.2 = none

/-! ## More collaborators and payloads for the examples -/

/-- A fetcher without state that serves nothing. -/
def noFetcher : Fetcher Unit :=
  { Get := fun _ _ w => (("", some { Error := "http 404" }), w) }

/-- Notes whose only list item stands before the word `Highlights`. -/
def itemBeforeWordHTML : String :=
  "<ul><li>Old</li></ul><h3>Highlights</h3><p>None</p>"

/-- The commit probe for the branch `main` of the repository `a/b`. -/
def sampleCommitProbe : githubCommit (List String) :=
  { Exec := lsRemoteExec, Repo := "a/b", Branch := "main" }

/-- The output of `brew info --json=v2` for a formula that is not there. -/
def noFormulaeBody : String :=
  "\x7b\"formulae\":[],\"casks\":[]\x7d"

/-- The output of `brew info --json=v2 jq`. -/
def jqFormulaBody : String :=
  "\x7b\"formulae\":[\x7b\"name\":\"jq\",\"homepage\":\"https://jqlang.github.io/jq/\"," ++
    "\"versions\":\x7b\"stable\":\"1.7.1\"\x7d\x7d],\"casks\":[]\x7d"

/-- The output of `npm list left-pad --depth=0 -g --json` when the package is
    not installed. -/
def emptyListingBody : String :=
  "\x7b\"name\":\"lib\",\"dependencies\":\x7b\x7d\x7d"

/-- The output of `npm list left-pad --depth=0 -g --json` when the package is
    installed. -/
def leftPadListingBody : String :=
  "\x7b\"name\":\"lib\",\"dependencies\":\x7b\"left-pad\":\x7b\"version\":\"1.3.0\"\x7d\x7d\x7d"

/-- The leftmost run of digits of a text: `FindString` for the pattern `[0-9]+`. -/
def findDigits (s : String) : String :=
  ⟨(s.data.dropWhile (fun c => !isDigit c)).takeWhile isDigit⟩

/-- A library instance for the examples of the local checks and of the
    Homebrew probe: it compiles the pattern `[0-9]+`, rejects the pattern `(`
    as the Go library does, and decodes the payloads named above. -/
def localLib : GoLib :=
  { unicodeToLower := fun c => c,
    regexpCompile := fun p =>
      if p = "[0-9]+" then .ok findDigits
      else if p = "(" then .error "error parsing regexp: missing closing )"
      else .error "unsupported pattern",
    unmarshalNpmList := fun body =>
      if body = emptyListingBody then some (some (fun _ => none))
      else if body = leftPadListingBody then
        some (some (fun k => if k = "left-pad" then some "1.3.0" else none))
      else none,
    htmlUnescape := fun s => s,
    unmarshalAtomFeed := fun _ => .error { Error := "EOF" },
    unmarshalPR := fun _ => .error { Error := "unexpected end of JSON input" },
    unmarshalCheckRuns := fun _ => .error { Error := "unexpected end of JSON input" },
    unmarshalCommitStatus := fun _ => .error { Error := "unexpected end of JSON input" },
    unmarshalBrewInfo := fun body =>
      if body = noFormulaeBody then .ok {}
      else if body = jqFormulaBody then
        .ok { Formulae := [{ Name := "jq", Homepage := "https://jqlang.github.io/jq/",
                             Versions := { Stable := "1.7.1" } }] }
      else .error { Error := "unexpected end of JSON input" } }

/-- A Homebrew source. -/
def sampleBrew : TrackerEntry :=
  { Name := "jq", Type_ := "brew", Formula := "jq" }

/-- A runner as `app.Run` builds it, whose exec runner always prints `out`. -/
def printingRunner [GoLib] (out : String) (err : Option GoError) : runner Unit :=
  { Registry := trackers.Registry.toRegistry
      { HTTP := noFetcher, Exec := constExec out err, UserAgent := "x" },
    Retries := 1, Concurrency := 2, RunAt := 1700000000 }

/-- A source with a local command and a pattern that does not compile. -/
def badRegexSource : TrackerEntry :=
  { Name := "tool", Type_ := "github", Mode := "release", Repo := "acme/tool",
    Local := { Type_ := "command", Command := "tool --version", Regex := "(" } }

/-- A source with a local command and the pattern `[0-9]+`. -/
def digitsRegexSource : TrackerEntry :=
  { Name := "tool", Type_ := "github", Mode := "release", Repo := "acme/tool",
    Local := { Type_ := "command", Command := "tool --version", Regex := "[0-9]+" } }

/-- A source of a type that does not exist. -/
def unknownTypeSource : TrackerEntry :=
  { Name := "x", Type_ := "pypi" }

/-- An exec runner on the world of the table fetcher that answers every
    command with the version line of a tool. -/
def versionExec : ExecRunner (List String) :=
  { Run := fun _ _ log => (("tool 1.0.0", none), log) }

/-- A release source for the repository `a/b` with a local command. -/
def releaseABWithLocal : TrackerEntry :=
  { Name := "ab", Type_ := "github", Mode := "release", Repo := "a/b",
    Local := { Type_ := "command", Command := "tool --version" } }

/-- A runner as `app.Run` builds it, over the feed of the test, whose local
    commands print the version `1.0.0`; notes are requested. -/
def notesRunner [GoLib] : runner (List String) :=
  { Registry := trackers.Registry.toRegistry
      { HTTP := tableFetcher [(sampleFeedURL, feedBody)], Exec := versionExec, UserAgent := "x" },
    Retries := 1, Concurrency := 2, RunAt := 1700000000, Options := { IncludeNotes := true } }

/-- A release entry whose title is the previous value with which `runOne` asks
    for the notes. -/
def sentinelEntry : atomEntry :=
  { ID := "tag:github.com,2008:Repository/1/force-notes", Title := "force-notes",
    Content :=
      { Type_ := "html",
        Body := "<h3>Highlights</h3><ul><li>Fix A</li><li>Add B</li></ul>" },
    Links := [{ Rel := "alternate", Href := "https://github.com/a/b/releases/tag/force-notes" }] }

/-- The body of a feed whose entry is titled `force-notes`. -/
def sentinelFeedBody : String :=
  "<feed><entry><title>force-notes</title></entry></feed>"

/-- A library that decodes the feed titled `force-notes`. -/
def sentinelLib : GoLib :=
  { sampleLib with
    unmarshalAtomFeed := fun body =>
      if body = sentinelFeedBody then .ok { Entries := [sentinelEntry] }
      else .error { Error := "EOF" } }

/-- A runner as `app.Run` builds it, over the feed titled `force-notes`, whose
    local commands print the version `1.0.0`; notes are requested. -/
def sentinelRunner [GoLib] : runner (List String) :=
  { Registry := trackers.Registry.toRegistry
      { HTTP := tableFetcher [(sampleFeedURL, sentinelFeedBody)], Exec := versionExec,
        UserAgent := "x" },
    Retries := 1, Concurrency := 2, RunAt := 1700000000, Options := { IncludeNotes := true } }

/-! ## Package `config` -/

/-- The record `config.Defaults`. -/
structure Defaults where
  TimeoutSeconds : Int := 0
  Retries : Int := 0
  Concurrency : Int := 0
  UserAgent : String := ""
deriving DecidableEq, Repr

/-- The record `config.Config`. -/
structure Config where
  Version : Int := 0
  Defaults : Defaults := {}
  Trackers : List TrackerEntry := []
deriving DecidableEq, Repr

/-- An error of `Config.Validate` about the tracker with index `i`:
    `fmt.Errorf("config: trackers[%d]...", i)`. -/
def trackerErr (i : Nat) (rest : String) : Option GoError :=
  some { Error := "config: trackers[" ++ Itoa i ++ "]" ++ rest }

/-- The switch on `t.Type` in the loop of `Config.Validate`. -/
def validateType (i : Nat) (t : TrackerEntry) : Option GoError :=
  if t.Type_ = "github" then
    if TrimSpace t.Repo = "" then trackerErr i ".repo is required (github)"
    else if t.Mode ≠ "release" ∧ t.Mode ≠ "commit" then
      trackerErr i ".mode must be release|commit (github)"
    else if t.Mode = "commit" ∧ TrimSpace t.Branch = "" then
      trackerErr i ".branch is required (github commit)"
    else if TrimSpace t.Formula ≠ "" ∨ TrimSpace t.NpmPackage ≠ "" then
      trackerErr i " has fields not allowed for github"
    else if TrimSpace t.Local.Type_ ≠ "" then
      if t.Mode = "release" then
        if t.Local.Type_ ≠ "command" then
          trackerErr i ".local.type must be command (github release)"
        else if TrimSpace t.Local.Command = "" then
          trackerErr i ".local.command is required (github release)"
        else none
      else if t.Mode = "commit" then
        if t.Local.Type_ ≠ "git" then
          trackerErr i ".local.type must be git (github commit)"
        else if TrimSpace t.Local.Path = "" then
          trackerErr i ".local.path is required (github commit)"
        else none
      else none
    else none
  else if t.Type_ = "brew" then
    if TrimSpace t.Formula = "" then trackerErr i ".formula is required (brew)"
    else if TrimSpace t.Mode ≠ "" then trackerErr i ".mode not allowed for type brew"
    else if TrimSpace t.Repo ≠ "" ∨ TrimSpace t.Branch ≠ "" ∨ TrimSpace t.NpmPackage ≠ "" then
      trackerErr i " has fields not allowed for brew"
    else if TrimSpace t.Local.Type_ ≠ "" then trackerErr i ".local not supported for brew"
    else none
  else if t.Type_ = "npm" then
    if TrimSpace t.NpmPackage = "" then trackerErr i ".package is required (npm)"
    else if TrimSpace t.Mode ≠ "" then trackerErr i ".mode not allowed for type npm"
    else if TrimSpace t.Repo ≠ "" ∨ TrimSpace t.Branch ≠ "" ∨ TrimSpace t.Formula ≠ "" then
      trackerErr i " has fields not allowed for npm"
    else if TrimSpace t.Local.Type_ ≠ "" then
      if t.Local.Type_ ≠ "npm" then trackerErr i ".local.type must be npm (npm)"
      else none
    else none
  else trackerErr i ".type must be github|brew|npm"

/-- The check of the local fields in the loop of `Config.Validate`. -/
def validateLocal (i : Nat) (t : TrackerEntry) : Option GoError :=
  if TrimSpace t.Local.Type_ ≠ "" then
    if t.Local.Type_ = "command" then
      if TrimSpace t.Local.Command = "" then
        trackerErr i ".local.command is required (command)"
      else if TrimSpace t.Local.Path ≠ "" ∨ TrimSpace t.Local.Package ≠ "" then
        trackerErr i ".local has fields not allowed for command"
      else none
    else if t.Local.Type_ = "git" then
      if TrimSpace t.Local.Path = "" then trackerErr i ".local.path is required (git)"
      else if TrimSpace t.Local.Command ≠ "" ∨ TrimSpace t.Local.Regex ≠ "" ∨
          TrimSpace t.Local.Package ≠ "" then
        trackerErr i ".local has fields not allowed for git"
      else none
    else if t.Local.Type_ = "npm" then
      if TrimSpace t.Local.Command ≠ "" ∨ TrimSpace t.Local.Regex ≠ "" ∨
          TrimSpace t.Local.Path ≠ "" then
        trackerErr i ".local has fields not allowed for npm"
      else none
    else trackerErr i ".local.type must be command|git|npm"
  else none

/-- The loop of `Config.Validate` over the trackers from index `i` on;
    `seenNames` holds the names of the trackers before. -/
def validateLoop : List TrackerEntry → Nat → List String → Option GoError
  | [], _, _ => none
  | t :: rest, i, seenNames =>
    if TrimSpace t.Name = "" then trackerErr i ".name is required"
    else if t.Name ∈ seenNames then
      some { Error := "config: duplicate tracker name: " ++ t.Name }
    else if TrimSpace t.Display ≠ "" ∧ ¬ (t.Display = "clawdbot" ∨ t.Display = "compare") then
      trackerErr i ".display must be clawdbot|compare (or empty)"
    else
      match validateType i t with
      | some e => some e
      | none =>
        match validateLocal i t with
        | some e => some e
        | none => validateLoop rest (i + 1) (t.Name :: seenNames)

/-- The method `Config.Validate`: the error, or `none` for `nil`. -/
def Config.Validate (c : Config) : Option GoError :=
  if c.Version ≠ 1 then some { Error := "config: version must be 1" }
  else if c.Trackers.length = 0 then some { Error := "config: trackers must not be empty" }
  else if c.Defaults.TimeoutSeconds ≤ 0 then
    some { Error := "config: defaults.timeoutSeconds must be > 0" }
  else if c.Defaults.Retries < 0 then some { Error := "config: defaults.retries must be >= 0" }
  else if c.Defaults.Concurrency ≤ 0 then
    some { Error := "config: defaults.concurrency must be > 0" }
  else validateLoop c.Trackers 0 []

/-- The configuration of `TestValidate_MissingRequired`. -/
def missingBranchConfig : Config :=
  { Version := 1,
    Defaults := { TimeoutSeconds := 10, Retries := 0, Concurrency := 1, UserAgent := "x" },
    Trackers := [{ Name := "x", Type_ := "github", Mode := "commit", Repo := "a/b" }] }

/-- The configuration of `SampleYAML`, decoded. -/
def sampleConfig : Config :=
  { Version := 1,
    Defaults := { TimeoutSeconds := 20, Retries := 1, Concurrency := 6,
                  UserAgent := "update-tracker/0.1" },
    Trackers :=
      [{ Name := "clawdbot", Label := "Clawdbot", Display := "clawdbot", Type_ := "github",
         Mode := "release", Repo := "anthropics/clawdbot",
         Local := { Type_ := "command", Command := "clawdbot --version" } },
       { Name := "lobster", Label := "Local Clone", Display := "compare", Type_ := "github",
         Mode := "commit", Repo := "openclaw/lobster", Branch := "main",
         Local := { Type_ := "git", Path := "/path/to/your/lobster" } },
       { Name := "ffmpeg", Type_ := "brew", Formula := "ffmpeg" },
       { Name := "npm-example", Label := "NPM Package", Display := "compare", Type_ := "npm",
         NpmPackage := "typescript", Local := { Type_ := "npm" } }] }

/-! ## More of the runtime library -/

/-- Functions of the Go runtime library that the package `output` calls and
    whose behaviour the repository does not fix. -/
class GoText where
  /-- The general case of `strings.EqualFold` on two code points that differ
      and are not both ASCII, the smaller one first: whether the orbit of
      `unicode.SimpleFold` leads from the first to the second. -/
  foldsTo : Char → Char → Bool
  /-- The value of `unicode.ToUpper` on a code point outside ASCII. -/
  unicodeToUpper : Char → Char
  /-- The call `t.Format(time.RFC3339)`. -/
  formatRFC3339 : Time → String

/-- One step of the loop of `strings.EqualFold`: whether the code points `sr`
    and `tr` are equal under simple case folding. -/
def equalFoldRune [GoText] (sr tr : Char) : Bool :=
  if tr = sr then true
  else
    let lo := if tr < sr then tr else sr
    let hi := if tr < sr then sr else tr
    if hi.toNat < 128 then
      decide ('A'.toNat ≤ lo.toNat ∧ lo.toNat ≤ 'Z'.toNat ∧ hi.toNat = lo.toNat + 32)
    else GoText.foldsTo lo hi

/-- The list form of `strings.EqualFold`. -/
def equalFoldList [GoText] : List Char → List Char → Bool
  | [], t => t.isEmpty
  | _ :: _, [] => false
  | sr :: s, tr :: t => equalFoldRune sr tr && equalFoldList s t

/-- The function `strings.EqualFold(s, t)`. -/
def EqualFold [GoText] (s t : String) : Bool :=
  equalFoldList s.data t.data

/-- The function `unicode.ToUpper`: fixed on ASCII, the library table elsewhere. -/
def toUpperRune [GoText] (c : Char) : Char :=
  if c.toNat < 128 then
    (if 'a'.toNat ≤ c.toNat ∧ c.toNat ≤ 'z'.toNat then Char.ofNat (c.toNat - 32) else c)
  else GoText.unicodeToUpper c

/-- The function `strings.ToUpper`. -/
def ToUpper [GoText] (s : String) : String :=
  ⟨s.data.map toUpperRune⟩

/-- The function `strings.TrimRight(s, cutset)`: the trailing code points that
    occur in `cutset` removed. -/
def TrimRight (s cutset : String) : String :=
  ⟨(s.data.reverse.dropWhile (fun c => cutset.data.contains c)).reverse⟩

/-- The parts of a list of code points between the occurrences of `sep`. -/
def splitAt (sep : Char) : List Char → List (List Char)
  | [] => [[]]
  | c :: cs =>
    if c = sep then [] :: splitAt sep cs
    else
      match splitAt sep cs with
      | [] => [[c]]
      | h :: t => (c :: h) :: t

/-! ## `cmd/upd/main.go` -/

/-- The two files that `main` writes to, `os.Stdout` and `os.Stderr`. -/
inductive stdFile where
  | Stdout
  | Stderr
deriving DecidableEq, Repr

/-- The functions that `main` calls: the handler of each command, from the
    arguments behind the command to the exit code, `usageRoot` on a file, and
    `fmt.Fprintf` of a text to a file. -/
structure Commands (W : Type) where
  runCheck : List String → W → Int × W
  runValidateConfig : List String → W → Int × W
  runSampleConfig : List String → W → Int × W
  runHelp : List String → W → Int × W
  usageRoot : stdFile → W → W
  Fprintf : stdFile → String → W → W

/-- The function `main` on the arguments `os.Args`: the status with which the
    program exits, and the world. -/
def main (c : Commands W) (osArgs : List String) (w : W) : Int × W :=
  if osArgs.length < 2 then (2, c.usageRoot .Stderr w)
  else if osArgs[1]! = "check" then c.runCheck (osArgs.drop 2) w
  else if osArgs[1]! = "validate-config" then c.runValidateConfig (osArgs.drop 2) w
  else if osArgs[1]! = "sample-config" then c.runSampleConfig (osArgs.drop 2) w
  else if osArgs[1]! = "help" then c.runHelp (osArgs.drop 2) w
  else if osArgs[1]! = "-h" ∨ osArgs[1]! = "--help" then (0, c.usageRoot .Stdout w)
  else
    (2, c.usageRoot .Stderr (c.Fprintf .Stderr ("unknown command: " ++ osArgs[1]! ++ "\n\n") w))

/-- The sample configuration with a github tracker in pr mode for the
    repository `a/b` behind its trackers, as a configuration file can hold it. -/
def prConfig : Config :=
  { sampleConfig with
    Trackers := sampleConfig.Trackers ++
      [{ Name := "a-b-pr-123", Type_ := "github", Mode := "pr", Repo := "a/b" }] }

/-- A library for the examples of the output: no folding and no upper case
    outside ASCII, and the instant of the tests. -/
def trackLib : GoText :=
  { foldsTo := fun _ _ => false,
    unicodeToUpper := fun c => c,
    formatRFC3339 := fun _ => "2026-02-04T01:02:03Z" }

/-! ## Package `output` -/

/-- The record `app.Summary`. -/
structure Summary where
  OK : Int := 0
  Update : Int := 0
  Error : Int := 0
deriving DecidableEq, Repr

/-- The record `app.Report`. -/
structure Report where
  SchemaVersion : Int := 0
  RunAt : Time := 0
  Summary : Summary := {}
  Items : List ReportItem := []
  RawConfigPath : String := ""
  Duration : Int := 0
deriving DecidableEq, Repr

/-- The function `short7`. -/
def short7 (s : String) : String :=
  let s := TrimSpace s
  if byteLen s ≥ 7 then sliceTo s 7 else s

/-- The function `renderClawdbot`. -/
def renderClawdbot (it : ReportItem) (label : String) : String :=
  let local_ := if TrimSpace it.Local = "" then "unknown" else TrimSpace it.Local
  let latest := if TrimSpace it.Latest = "" then "unknown" else TrimSpace it.Latest
  if it.Status = "update" then
    "🔄 **Clawdbot Update Available!**\n\n" ++ ("Current: " ++ local_ ++ "\n") ++
      ("Latest:  " ++ latest ++ "\n\n") ++ "(several versions behind)" ++
      (if TrimSpace it.Highlights ≠ "" then "\n\nHighlights:\n" ++ TrimSpace it.Highlights
       else "") ++
      (if TrimSpace (mapGet it.Links "release") ≠ "" then
         "\n\n🔗 " ++ TrimSpace (mapGet it.Links "release")
       else "")
  else if local_ = "unknown" ∨ latest = "unknown" then
    label ++ ": ⚠️ " ++ local_ ++ " (latest: " ++ latest ++ ")"
  else label ++ ": ✅ " ++ local_ ++ " (up-to-date)"

/-- The last four statements of `renderCompare`, which every item reaches that
    no case of the switch on the type has returned for. -/
def renderCompareRest (label local_ latest : String) : String :=
  if local_ ≠ "" ∧ latest ≠ "" ∧ local_ = latest then label ++ ": ✅ " ++ local_ ++ " (up-to-date)"
  else if local_ ≠ "" ∧ latest ≠ "" then label ++ ": 🔄 " ++ local_ ++ " → " ++ latest
  else if local_ ≠ "" then label ++ ": ⚠️ " ++ local_ ++ " (latest: " ++ latest ++ ")"
  else label ++ ": ⚠️ unknown"

/-- The function `renderCompare`. -/
def renderCompare (it : ReportItem) (label : String) : String :=
  let local_ := TrimSpace it.Local
  let latest := TrimSpace it.Latest
  if it.Status = "error" then
    if TrimSpace it.Error ≠ "" then label ++ ": ❌ " ++ TrimSpace it.Error
    else label ++ ": ❌ error"
  else if TrimSpace it.LocalError ≠ "" ∧ local_ = "" then label ++ ": ⚠️ local check failed"
  else if it.Type_ = "npm" then
    if local_ = "not-installed" then label ++ ": ❌ not installed"
    else if local_ ≠ "" ∧ latest ≠ "" ∧ local_ = latest then
      label ++ ": ✅ " ++ local_ ++ " (up-to-date)"
    else if local_ ≠ "" ∧ latest ≠ "" then label ++ ": 🔄 " ++ local_ ++ " → " ++ latest
    else if local_ ≠ "" then label ++ ": ⚠️ " ++ local_ ++ " (latest: " ++ latest ++ ")"
    else label ++ ": ⚠️ unknown"
  else if it.Type_ = "github" then
    if it.Mode = "commit" then
      let ls := short7 local_
      let rs := short7 latest
      if ls ≠ "" ∧ rs ≠ "" ∧
          (HasPrefix latest local_ = true ∨ HasPrefix local_ latest = true ∨ local_ = latest) then
        label ++ ": ✅ " ++ ls ++ " (up-to-date)"
      else if ls ≠ "" ∧ rs ≠ "" then label ++ ": 🔄 " ++ ls ++ " → " ++ rs
      else if ls ≠ "" then label ++ ": ⚠️ " ++ ls ++ " (remote: " ++ rs ++ ")"
      else label ++ ": ⚠️ unknown"
    else renderCompareRest label local_ latest
  else renderCompareRest label local_ latest

/-- The function `renderDiscordItem`. -/
def renderDiscordItem (it : ReportItem) : String :=
  let label := if TrimSpace it.Label = "" then it.Name else TrimSpace it.Label
  if TrimSpace it.Display = "clawdbot" then renderClawdbot it label
  else if TrimSpace it.Display = "compare" then renderCompare it label
  else
    let msg := if it.Status = "error" ∧ TrimSpace it.Error ≠ "" then it.Error else it.Message
    label ++ ": " ++ msg

/-- The type `group` of `discordMarkdown`. -/
structure group where
  Name : String := ""
  Items : List ReportItem := []
deriving DecidableEq, Repr

/-- The variables `groups` and `groupIdx` of `discordMarkdown`. -/
structure groupVars where
  groups : List group := []
  groupIdx : List (String × Nat) := []
deriving DecidableEq, Repr

/-- The assignment `groups[idx].Items = append(groups[idx].Items, it)`. -/
def appendAt : List group → Nat → ReportItem → List group
  | [], _, _ => []
  | g :: rest, 0, it => { g with Items := g.Items ++ [it] } :: rest
  | g :: rest, idx + 1, it => g :: appendAt rest idx it

/-- The closure `add` of `discordMarkdown`. -/
def add (v : groupVars) (g : String) (it : ReportItem) : groupVars :=
  let key := if TrimSpace g = "" then "__default__" else TrimSpace g
  match v.groupIdx.lookup key with
  | some idx => { v with groups := appendAt v.groups idx it }
  | none =>
    { groups := v.groups ++ [{ Name := key, Items := [it] }],
      groupIdx := (key, v.groups.length) :: v.groupIdx }

/-- The header that `discordMarkdown` writes for the Lobster group. -/
def lobsterHeader : String :=
  "🔄 **Lobster Update Available!**\n\n"

/-- The inner loop of `discordMarkdown`: the items of a group from index `ii`
    on are written to the builder `b`. -/
def writeItems : List ReportItem → Nat → String → String
  | [], _, b => b
  | it :: rest, ii, b =>
    writeItems rest (ii + 1) ((if ii > 0 then b ++ "\n\n" else b) ++ renderDiscordItem it)

/-- The outer loop of `discordMarkdown`: the groups from index `gi` on are
    written to the builder `b`. -/
def writeGroups [GoText] : List group → Nat → String → String
  | [], _, b => b
  | g :: rest, gi, b =>
    let b := if gi > 0 then b ++ "\n\n" else b
    let groupHasUpdate := g.Items.any (fun it => decide (it.Status = "update"))
    let b := if EqualFold g.Name "lobster" = true ∧ groupHasUpdate = true then b ++ lobsterHeader
      else b
    writeGroups rest (gi + 1) (writeItems g.Items 0 b)

/-- The function `discordMarkdown`. -/
def discordMarkdown [GoText] (r : Report) : String :=
  let v := r.Items.foldl (fun v it => add v it.Group it) {}
  TrimRight (writeGroups v.groups 0 "") " \n\t" ++ "\n"

/-- The loop of `Markdown` over the lines of the highlights. -/
def writeHighlights : List String → String → String
  | [], b => b
  | line :: rest, b =>
    let line := TrimRight line " \t"
    if line = "" then writeHighlights rest b
    else writeHighlights rest (b ++ "    " ++ line ++ "\n")

/-- The keys of a Go map, sorted by `sort.Strings`. -/
def sortedKeys (m : Links) : List String :=
  ((m.map Prod.fst).dedup).insertionSort (fun a b => a ≤ b)

/-- The loop of `Markdown` over the sorted keys of the links. -/
def writeLinks (m : Links) : List String → Nat → String → String
  | [], _, b => b
  | k :: rest, i, b =>
    writeLinks m rest (i + 1)
      ((if i > 0 then b ++ ", " else b) ++ ("[" ++ k ++ "](" ++ mapGet m k ++ ")"))

/-- The body of the loop of `Markdown` over the items. -/
def writePlainItem [GoText] (b : String) (it : ReportItem) : String :=
  let hasHighlights := TrimSpace it.Highlights ≠ ""
  let msg := if it.Status = "error" ∧ TrimSpace it.Error ≠ "" then it.Error else it.Message
  let b := b ++ "- `" ++ it.Name ++ "` **" ++ ToUpper it.Status ++ "** - " ++ msg
  let b := if hasHighlights then
      writeHighlights ((splitAt '\n' it.Highlights.data).map String.mk)
        (b ++ "\n" ++ "  - Highlights:\n")
    else b
  let b := if it.Links.length > 0 then
      writeLinks it.Links (sortedKeys it.Links) 0 (if hasHighlights then b ++ "  - " else b ++ " - ")
    else b
  b ++ "\n"

/-- The function `Markdown`. -/
def Markdown [GoText] (r : Report) : String :=
  if r.Items.any (fun it => decide (TrimSpace it.Display ≠ "" ∨ TrimSpace it.Label ≠ "" ∨
      TrimSpace it.Group ≠ "" ∨ TrimSpace it.Local ≠ "")) = true then discordMarkdown r
  else
    let b := "Run: `" ++ GoText.formatRFC3339 r.RunAt ++ "`\n\n"
    let b := r.Items.foldl writePlainItem b
    b ++ ("\nSummary: ok=" ++ Itoa r.Summary.OK ++ " update=" ++ Itoa r.Summary.Update ++
      " error=" ++ Itoa r.Summary.Error ++ "\n")

/-- The report of `TestMarkdown_DiscordStyle_CompareAndClawdbot`. -/
def compareReport : Report :=
  { SchemaVersion := 1, RunAt := 1770166923, Summary := { OK := 0, Update := 1, Error := 0 },
    Items :=
      [{ Name := "clawdbot-release", Label := "Clawdbot", Group := "clawdbot",
         Display := "clawdbot", Type_ := "github", Mode := "release", Status := "update",
         Latest := "2026.2.2", Local := "2026.1.24-3", Highlights := "- A\n- B",
         Links := [("release", "https://example.com/release")], Message := "ignored" },
       { Name := "lobster-npm", Label := "NPM Package", Group := "lobster", Display := "compare",
         Type_ := "npm", Status := "ok", Local := "2026.1.24", Latest := "2026.1.24",
         Message := "ignored" },
       { Name := "lobster", Label := "Local Clone", Group := "lobster", Display := "compare",
         Type_ := "github", Mode := "commit", Status := "ok",
         Local := "1006798459a17e11903137ce09198e64686a4dbb",
         Latest := "1006798459a17e11903137ce09198e64686a4dbb", Message := "ignored" }] }

/-- The report of `TestMarkdown_DiscordStyle_LobsterHeaderOnUpdate`. -/
def lobsterReport : Report :=
  { SchemaVersion := 1, RunAt := 1770166923, Summary := { OK := 0, Update := 1, Error := 0 },
    Items :=
      [{ Name := "lobster", Label := "Local Clone", Group := "lobster", Display := "compare",
         Type_ := "github", Mode := "commit", Status := "update", Local := "aaaaaaa1111111",
         Latest := "bbbbbbb2222222", Message := "ignored" }] }

/-- An npm item whose local and latest value are both `not-installed`. -/
def notInstalledItem : ReportItem :=
  { Name := "pkg", Display := "compare", Type_ := "npm", Status := "ok",
    Local := "not-installed", Latest := "not-installed" }

/-! ## Notions of the specification for the Discord-style output -/

/-- The name of the group of an item: its trimmed group, `__default__` when
    that is empty. -/
def groupKey (it : ReportItem) : String :=
  if TrimSpace it.Group = "" then "__default__" else TrimSpace it.Group

/-- The distinct values of a list in the order of their first appearance. -/
def firstAppearance : List String → List String
  | [] => []
  | k :: rest => k :: (firstAppearance rest).filter (fun x => decide (x ≠ k))

/-- Grouping in the words of the specification: one group for every group
    name, the names in the order of their first appearance, every group with
    the items of that name in the order of the report. -/
def groupedItems (items : List ReportItem) : List group :=
  (firstAppearance (items.map groupKey)).map
    (fun k => { Name := k, Items := items.filter (fun it => decide (groupKey it = k)) })

/-- The text of a group: the Lobster header when the group is named `lobster`
    in any letter case and holds an item with the status "update", then the
    renderings of its items with one blank line between them. -/
def groupText [GoText] (g : group) : String :=
  (if EqualFold g.Name "lobster" = true ∧
      g.Items.any (fun it => decide (it.Status = "update")) = true then lobsterHeader else "") ++
    Join (g.Items.map renderDiscordItem) "\n\n"

/-- The label that the Discord-style output shows for an item: its trimmed
    label, or its name when that is empty. -/
def itemLabel (it : ReportItem) : String :=
  if TrimSpace it.Label = "" then it.Name else TrimSpace it.Label

/-! ## The classification of a successful check -/

/-- The status that `runOne` reports when the retry loop ends without an error. -/
theorem runOne_status_of_success [GoLib] (r : runner W) (cfg : TrackerEntry) (prev : Item)
    (w : W) (tr : Tracker W) (hbuild : r.Registry.Build cfg = .ok tr)
    (hok : (afterLoop r cfg prev tr w).1.lastErr = none) :
    (runOne r cfg prev w).1.1.Status =
      if (decide (remoteChangedSpec prev.LastSeen (afterLoop r cfg prev tr w).1.current) ||
          localUpdateAvailable cfg
            (TrimSpace (runLocalCheck r cfg (afterLoop r cfg prev tr w).2).1.1)
            (afterLoop r cfg prev tr w).1.latest) then "update" else "ok" := by
  unfold runOne
  simp only [hbuild, hok]

/-- C1: when the probe of a source succeeds, `runOne` reports the status
    "update" exactly when `remoteChanged` or `localChanged` holds and the status
    "ok" exactly when neither holds; `remoteChanged` says that the trimmed
    previous and current values are both non-empty and differ, `localChanged`
    is `localUpdateAvailable(cfg, local, latest)`. -/
theorem C1_status_update_iff_changed [GoLib] (r : runner W) (cfg : TrackerEntry) (prev : Item)
    (w : W) (tr : Tracker W) (hbuild : r.Registry.Build cfg = .ok tr)
    (hok : (afterLoop r cfg prev tr w).1.lastErr = none) :
    ((runOne r cfg prev w).1.1.Status = "update" ↔
      (remoteChangedSpec prev.LastSeen (afterLoop r cfg prev tr w).1.current ∨
        localUpdateAvailable cfg
          (TrimSpace (runLocalCheck r cfg (afterLoop r cfg prev tr w).2).1.1)
          (afterLoop r cfg prev tr w).1.latest = true)) ∧
    ((runOne r cfg prev w).1.1.Status = "ok" ↔
      ¬ (remoteChangedSpec prev.LastSeen (afterLoop r cfg prev tr w).1.current ∨
        localUpdateAvailable cfg
          (TrimSpace (runLocalCheck r cfg (afterLoop r cfg prev tr w).2).1.1)
          (afterLoop r cfg prev tr w).1.latest = true)) := by
  rw [runOne_status_of_success r cfg prev w tr hbuild hok]
  by_cases hc : (decide (remoteChangedSpec prev.LastSeen (afterLoop r cfg prev tr w).1.current) ||
          localUpdateAvailable cfg
            (TrimSpace (runLocalCheck r cfg (afterLoop r cfg prev tr w).2).1.1)
            (afterLoop r cfg prev tr w).1.latest) = true
  · have hc2 := hc
    rw [Bool.or_eq_true, decide_eq_true_iff] at hc2
    rw [if_pos hc]
    exact ⟨⟨fun _ => hc2, fun _ => rfl⟩, ⟨fun h => absurd h (by decide), fun h => absurd hc2 h⟩⟩
  · have hc2 := hc
    rw [Bool.or_eq_true, decide_eq_true_iff] at hc2
    rw [if_neg hc]
    exact ⟨⟨fun h => absurd h (by decide), fun h => absurd h hc2⟩, ⟨fun _ => hc2, fun _ => rfl⟩⟩

/-- C1 at a release source whose previous value is `v1.2.3` and whose probe
    returns `v1.2.4`: the status is "update". -/
theorem C1_status_update_iff_changed_witness :
    sampleRunner.Registry.Build sampleRelease =
        .ok (constTracker { Current := " v1.2.4 ", Message := "new release v1.2.4" } none) ∧
      (@afterLoop Unit plainLib sampleRunner sampleRelease { LastSeen := "v1.2.3" }
        (constTracker { Current := " v1.2.4 ", Message := "new release v1.2.4" } none) ()).1.lastErr
        = none ∧
      (@runOne Unit plainLib sampleRunner sampleRelease { LastSeen := "v1.2.3" } ()).1.1.Status
        = "update" :=
  ⟨rfl, by decide,
    ((@C1_status_update_iff_changed Unit plainLib sampleRunner sampleRelease
      { LastSeen := "v1.2.3" } () _ rfl (by decide)).1).2 (Or.inl (by decide))⟩

/-! ## The retry loop -/

/-- One turn of the retry loop, in terms of the stop condition. -/
theorem retryLoop_succ [GoLib] (tr : Tracker W) (cfg : TrackerEntry) (p : String) (notes : Bool)
    (n : Nat) (v : loopVars) (w : W) :
    retryLoop tr cfg p notes (n + 1) v w =
      if stopsRetrying (tr.Check p { IncludeNotes := notes } w).1 = true then
        (attemptVars cfg (tr.Check p { IncludeNotes := notes } w).1,
          (tr.Check p { IncludeNotes := notes } w).2)
      else
        retryLoop tr cfg p notes n (attemptVars cfg (tr.Check p { IncludeNotes := notes } w).1)
          (tr.Check p { IncludeNotes := notes } w).2 := by
  rw [retryLoop]
  simp only [stopsRetrying, attemptVars]
  cases h : (tr.Check p { IncludeNotes := notes } w).1.2 with
  | none => simp
  | some e =>
    by_cases hr : isRetryable (some e) = true
    · simp [hr]
    · simp [hr]

/-- The retry loop with a positive budget ends with the variables and the
    world of one of the calls within the budget; no earlier call stops the loop,
    and that call stops it unless it is the last of the budget. -/
theorem retryLoop_spec [GoLib] (tr : Tracker W) (cfg : TrackerEntry) (p : String) (notes : Bool) :
    ∀ (b : Nat) (v : loopVars) (w : W), ∃ k, k ≤ b ∧
      retryLoop tr cfg p notes (b + 1) v w =
        (attemptVars cfg (nthCall tr p { IncludeNotes := notes } k w).1,
          (nthCall tr p { IncludeNotes := notes } k w).2) ∧
      (∀ j, j < k → stopsRetrying (nthCall tr p { IncludeNotes := notes } j w).1 = false) ∧
      (k < b → stopsRetrying (nthCall tr p { IncludeNotes := notes } k w).1 = true) := by
  intro b
  induction b with
  | zero =>
    intro v w
    refine ⟨0, le_refl _, ?_, ?_, ?_⟩
    · rw [retryLoop_succ]
      split
      · rfl
      · rfl
    · intro j hj; exact absurd hj (Nat.not_lt_zero j)
    · intro h; exact absurd h (Nat.lt_irrefl 0)
  | succ b ih =>
    intro v w
    by_cases hs : stopsRetrying (tr.Check p { IncludeNotes := notes } w).1 = true
    · refine ⟨0, Nat.zero_le _, ?_, ?_, ?_⟩
      · rw [retryLoop_succ, if_pos hs]; rfl
      · intro j hj; exact absurd hj (Nat.not_lt_zero j)
      · intro _; exact hs
    · obtain ⟨k, hk, heq, hbefore, hstop⟩ :=
        ih (attemptVars cfg (tr.Check p { IncludeNotes := notes } w).1)
          (tr.Check p { IncludeNotes := notes } w).2
      refine ⟨k + 1, Nat.succ_le_succ hk, ?_, ?_, ?_⟩
      · rw [retryLoop_succ, if_neg hs, heq]; rfl
      · intro j hj
        cases j with
        | zero => simpa using hs
        | succ j => exact hbefore j (Nat.lt_of_succ_lt_succ hj)
      · intro h; exact hstop (Nat.lt_of_succ_lt_succ h)

/-- The calls of a counting probe return what the calls of the probe return,
    and the counter grows by one with every call. -/
theorem nthCall_counting (tr : Tracker W) (p : String) (o : Options) :
    ∀ (k : Nat) (w : W) (c : Nat),
      nthCall tr.counting p o k (w, c) =
        ((nthCall tr p o k w).1, ((nthCall tr p o k w).2, c + k + 1)) := by
  intro k
  induction k with
  | zero => intro w c; rfl
  | succ k ih =>
    intro w c
    show nthCall tr.counting p o k ((tr.Check p o w).2, c + 1) = _
    rw [ih]
    show _ = ((nthCall tr p o k (tr.Check p o w).2).1, ((nthCall tr p o k (tr.Check p o w).2).2, _))
    have : c + 1 + k + 1 = c + (k + 1) + 1 := by omega
    rw [this]

/-! ## Failed checks -/
/-- What `runOne` returns when the retry loop ends with an error. -/
theorem runOne_of_failure [GoLib] (r : runner W) (cfg : TrackerEntry) (prev : Item) (w : W)
    (tr : Tracker W) (hbuild : r.Registry.Build cfg = .ok tr) (e : GoError)
    (hfail : (afterLoop r cfg prev tr w).1.lastErr = some e) :
    runOne r cfg prev w =
      (({ Name := cfg.Name, Type_ := cfg.Type_, Mode := cfg.Mode, Label := cfg.Label,
          Group := cfg.Group, Display := cfg.Display, Status := "error",
          Message := "ERROR", Links := (afterLoop r cfg prev tr w).1.links, Error := e.Error },
        { LastCheckedAt := r.RunAt, LastSeen := prev.LastSeen, LastStatus := "error",
          LastError := e.Error }), (afterLoop r cfg prev tr w).2) := by
  unfold runOne
  simp only [hbuild, hfail]

/-- C2: when all attempts for a source fail, so that the retry loop ends with
    the error `e` of its final attempt, `runOne` returns an item with status
    "error" and error text `e`, and a next-state record with the previous
    `LastSeen` unchanged, `LastStatus` "error" and `LastError` the same text;
    `e` is the error of the call with some index `k` within the budget, every
    call up to `k` failed, and the loop made no call after it. -/
theorem C2_failure_preserves_last_seen [GoLib] (r : runner W) (cfg : TrackerEntry) (prev : Item)
    (w : W) (tr : Tracker W) (hbuild : r.Registry.Build cfg = .ok tr) (e : GoError)
    (hfail : (afterLoop r cfg prev tr w).1.lastErr = some e) :
    (runOne r cfg prev w).1.1.Status = "error" ∧
    (runOne r cfg prev w).1.1.Error = e.Error ∧
    (runOne r cfg prev w).1.2.LastSeen = prev.LastSeen ∧
    (runOne r cfg prev w).1.2.LastStatus = "error" ∧
    (runOne r cfg prev w).1.2.LastError = e.Error ∧
    ∃ k : Nat, (k : Int) ≤ r.Retries ∧
      (nthCall tr prev.LastSeen { IncludeNotes := r.Options.IncludeNotes } k w).1.2 = some e ∧
      (∀ j, j ≤ k →
        (nthCall tr prev.LastSeen { IncludeNotes := r.Options.IncludeNotes } j w).1.2 ≠ none) ∧
      (runOne r cfg prev w).2 =
        (nthCall tr prev.LastSeen { IncludeNotes := r.Options.IncludeNotes } k w).2 := by
  rw [runOne_of_failure r cfg prev w tr hbuild e hfail]
  refine ⟨rfl, rfl, rfl, rfl, rfl, ?_⟩
  cases hb : (r.Retries + 1).toNat with
  | zero =>
    have : (afterLoop r cfg prev tr w).1.lastErr = none := by
      show (retryLoop tr cfg prev.LastSeen r.Options.IncludeNotes (r.Retries + 1).toNat {} w).1.lastErr = none
      rw [hb]; rfl
    rw [this] at hfail
    exact absurd hfail (by simp)
  | succ b =>
    obtain ⟨k, hk, heq, hbefore, _⟩ :=
      retryLoop_spec tr cfg prev.LastSeen r.Options.IncludeNotes b {} w
    have hloop : afterLoop r cfg prev tr w =
        (attemptVars cfg (nthCall tr prev.LastSeen { IncludeNotes := r.Options.IncludeNotes } k w).1,
          (nthCall tr prev.LastSeen { IncludeNotes := r.Options.IncludeNotes } k w).2) := by
      show retryLoop tr cfg prev.LastSeen r.Options.IncludeNotes (r.Retries + 1).toNat {} w = _
      rw [hb, heq]
    have hk_err : (nthCall tr prev.LastSeen { IncludeNotes := r.Options.IncludeNotes } k w).1.2
        = some e := by
      rw [hloop] at hfail; exact hfail
    refine ⟨k, by omega, hk_err, ?_, ?_⟩
    · intro j hj
      rcases Nat.lt_or_eq_of_le hj with hlt | rfl
      · have hs := hbefore j hlt
        intro hnone
        simp [stopsRetrying, hnone] at hs
      · rw [hk_err]; simp
    · show (afterLoop r cfg prev tr w).2 = _
      rw [hloop]

/-- C2 at a source whose probe fails with a terminal error: the item is an
    error item and the previous value ` v1.2.3` is kept as it was. -/
theorem C2_failure_preserves_last_seen_witness :
    (@runOne Unit plainLib failingRunner sampleRelease { LastSeen := " v1.2.3" } ()).1.1.Status
        = "error" ∧
      (@runOne Unit plainLib failingRunner sampleRelease { LastSeen := " v1.2.3" } ()).1.1.Error
        = "npm view: empty version" ∧
      (@runOne Unit plainLib failingRunner sampleRelease { LastSeen := " v1.2.3" } ()).1.2.LastSeen
        = " v1.2.3" :=
  have h := @C2_failure_preserves_last_seen Unit plainLib failingRunner sampleRelease
    { LastSeen := " v1.2.3" } () (constTracker {} (some { Error := "npm view: empty version" }))
    rfl { Error := "npm view: empty version" } (by decide)
  ⟨h.1, h.2.1, h.2.2.1⟩

/-! ## The retry budget -/
/-- The retry loop on a counting probe: the variables and the world are those
    of one call `k` of the probe within the budget, the counter has grown by
    `k + 1`, no earlier call stops the loop and call `k` stops it unless it is
    the last of the budget. -/
theorem retryLoop_counting [GoLib] (tr : Tracker W) (cfg : TrackerEntry) (p : String)
    (notes : Bool) (b : Nat) (v : loopVars) (w : W) (c : Nat) :
    ∃ k, k ≤ b ∧
      retryLoop tr.counting cfg p notes (b + 1) v (w, c) =
        (attemptVars cfg (nthCall tr p { IncludeNotes := notes } k w).1,
          ((nthCall tr p { IncludeNotes := notes } k w).2, c + k + 1)) ∧
      (∀ j, j < k → stopsRetrying (nthCall tr p { IncludeNotes := notes } j w).1 = false) ∧
      (k < b → stopsRetrying (nthCall tr p { IncludeNotes := notes } k w).1 = true) := by
  obtain ⟨k, hk, heq, hbefore, hstop⟩ := retryLoop_spec tr.counting cfg p notes b v (w, c)
  refine ⟨k, hk, ?_, ?_, ?_⟩
  · rw [heq, nthCall_counting]
  · intro j hj
    have := hbefore j hj
    rw [nthCall_counting] at this
    exact this
  · intro h
    have := hstop h
    rw [nthCall_counting] at this
    exact this

/-- C4: the retry loop of `runOne` stops at the first attempt that succeeds or
    fails with an error that is not retryable.  With `n` the number of
    invocations of `Check` that the loop makes, `n` is at most the budget
    `retries + 1` and is positive when the budget is; no attempt before the
    last one made meets the stop condition; when the loop ends before the
    budget is used up, the last attempt made meets it; and an attempt that
    meets it at once leads to exactly one invocation. -/
theorem C4_retry_loop_stops_at_first_terminal [GoLib] (r : runner W) (cfg : TrackerEntry)
    (prev : Item) (tr : Tracker W) (w : W) :
    (afterLoop r.counting cfg prev tr.counting (w, 0)).2.2 ≤ (r.Retries + 1).toNat ∧
    (0 < (r.Retries + 1).toNat → 0 < (afterLoop r.counting cfg prev tr.counting (w, 0)).2.2) ∧
    (∀ j, j + 1 < (afterLoop r.counting cfg prev tr.counting (w, 0)).2.2 →
      stopsRetrying
        (nthCall tr prev.LastSeen { IncludeNotes := r.Options.IncludeNotes } j w).1 = false) ∧
    ((afterLoop r.counting cfg prev tr.counting (w, 0)).2.2 < (r.Retries + 1).toNat →
      stopsRetrying
        (nthCall tr prev.LastSeen { IncludeNotes := r.Options.IncludeNotes }
          ((afterLoop r.counting cfg prev tr.counting (w, 0)).2.2 - 1) w).1 = true) ∧
    (0 < (r.Retries + 1).toNat →
      stopsRetrying
        (nthCall tr prev.LastSeen { IncludeNotes := r.Options.IncludeNotes } 0 w).1 = true →
      (afterLoop r.counting cfg prev tr.counting (w, 0)).2.2 = 1) := by
  show (retryLoop tr.counting cfg prev.LastSeen r.Options.IncludeNotes (r.Retries + 1).toNat
      {} (w, 0)).2.2 ≤ _ ∧ (_ → 0 < (retryLoop tr.counting cfg prev.LastSeen
      r.Options.IncludeNotes (r.Retries + 1).toNat {} (w, 0)).2.2) ∧
    (∀ j, j + 1 < (retryLoop tr.counting cfg prev.LastSeen r.Options.IncludeNotes
      (r.Retries + 1).toNat {} (w, 0)).2.2 → _) ∧
    ((retryLoop tr.counting cfg prev.LastSeen r.Options.IncludeNotes (r.Retries + 1).toNat
      {} (w, 0)).2.2 < _ → stopsRetrying (nthCall tr prev.LastSeen
        { IncludeNotes := r.Options.IncludeNotes } ((retryLoop tr.counting cfg prev.LastSeen
        r.Options.IncludeNotes (r.Retries + 1).toNat {} (w, 0)).2.2 - 1) w).1 = true) ∧
    (_ → _ → (retryLoop tr.counting cfg prev.LastSeen r.Options.IncludeNotes
      (r.Retries + 1).toNat {} (w, 0)).2.2 = 1)
  cases hb : (r.Retries + 1).toNat with
  | zero =>
    refine ⟨Nat.le_refl _, fun h => absurd h (Nat.lt_irrefl 0), ?_, ?_, ?_⟩
    · intro j hj; exact absurd hj (Nat.not_lt_zero _)
    · intro h; exact absurd h (Nat.not_lt_zero _)
    · intro h; exact absurd h (Nat.lt_irrefl 0)
  | succ b =>
    obtain ⟨k, hk, heq, hbefore, hstop⟩ :=
      retryLoop_counting tr cfg prev.LastSeen r.Options.IncludeNotes b {} w 0
    rw [heq]
    simp only [Nat.zero_add, Nat.add_sub_cancel]
    refine ⟨Nat.succ_le_succ hk, fun _ => Nat.succ_pos k, ?_, ?_, ?_⟩
    · intro j hj; exact hbefore j (Nat.lt_of_succ_lt_succ hj)
    · intro h; exact hstop (Nat.lt_of_succ_lt_succ h)
    · intro _ h0
      cases k with
      | zero => rfl
      | succ k =>
        have := hbefore 0 (Nat.succ_pos k)
        rw [h0] at this
        exact absurd this (by decide)

/-- C4 at a probe whose first attempt fails with a terminal error, with one
    retry left: exactly one invocation; and at a probe that times out once and
    then succeeds, with three retries: two invocations, the second of which
    meets the stop condition. -/
theorem C4_retry_loop_stops_at_first_terminal_witness :
    0 < (failingRunner.Retries + 1).toNat ∧
      (@afterLoop (Unit × Nat) plainLib failingRunner.counting sampleRelease {}
        (constTracker {} (some { Error := "npm view: empty version" })).counting ((), 0)).2.2
        = 1 ∧
      (@afterLoop _ plainLib scriptedRunner.counting sampleRelease {}
        scriptedTracker.counting (sampleScript, 0)).2.2 = 2 ∧
      @stopsRetrying plainLib (nthCall scriptedTracker "" {} 1 sampleScript).1 = true :=
  ⟨by decide,
    (@C4_retry_loop_stops_at_first_terminal Unit plainLib failingRunner sampleRelease {}
      (constTracker {} (some { Error := "npm view: empty version" })) ()).2.2.2.2
      (by decide) (by decide),
    by decide,
    (@C4_retry_loop_stops_at_first_terminal _ plainLib scriptedRunner sampleRelease {}
      scriptedTracker sampleScript).2.2.2.1 (by decide)⟩

/-- Counting leaves the retry loop as it is: same variables, same world. -/
theorem retryLoop_counting_eq [GoLib] (tr : Tracker W) (cfg : TrackerEntry) (p : String)
    (notes : Bool) :
    ∀ (n : Nat) (v : loopVars) (w : W) (c : Nat),
      (retryLoop tr.counting cfg p notes n v (w, c)).1 = (retryLoop tr cfg p notes n v w).1 ∧
      (retryLoop tr.counting cfg p notes n v (w, c)).2.1 = (retryLoop tr cfg p notes n v w).2 := by
  intro n
  induction n with
  | zero => intro v w c; exact ⟨rfl, rfl⟩
  | succ n ih =>
    intro v w c
    rw [retryLoop_succ, retryLoop_succ]
    show (if stopsRetrying (tr.Check p { IncludeNotes := notes } w).1 = true then
        (attemptVars cfg (tr.Check p { IncludeNotes := notes } w).1,
          ((tr.Check p { IncludeNotes := notes } w).2, c + 1))
      else retryLoop tr.counting cfg p notes n
        (attemptVars cfg (tr.Check p { IncludeNotes := notes } w).1)
        ((tr.Check p { IncludeNotes := notes } w).2, c + 1)).1 = _ ∧
      (if stopsRetrying (tr.Check p { IncludeNotes := notes } w).1 = true then
        (attemptVars cfg (tr.Check p { IncludeNotes := notes } w).1,
          ((tr.Check p { IncludeNotes := notes } w).2, c + 1))
      else retryLoop tr.counting cfg p notes n
        (attemptVars cfg (tr.Check p { IncludeNotes := notes } w).1)
        ((tr.Check p { IncludeNotes := notes } w).2, c + 1)).2.1 = _
    split
    · exact ⟨rfl, rfl⟩
    · exact ih _ _ _

/-- Counting leaves the local check as it is, and the local check leaves the
    counter as it is. -/
theorem runLocalCheck_counting [GoLib] (r : runner W) (cfg : TrackerEntry) (w : W) (c : Nat) :
    runLocalCheck r.counting cfg (w, c) =
      ((runLocalCheck r cfg w).1, ((runLocalCheck r cfg w).2, c)) := by
  unfold runLocalCheck
  simp only [runner.counting, Registry.counting, ExecRunner.lifted]
  by_cases h1 : TrimSpace cfg.Local.Type_ = ""
  · simp only [h1, if_true]
  · simp only [h1, if_false]
    by_cases h2 : TrimSpace cfg.Local.Type_ = "command"
    · simp only [h2, if_true]
      generalize r.Registry.Exec.Run "zsh" ["-lc", cfg.Local.Command] w = e1
      rcases e1 with ⟨⟨o1, _ | err1⟩, w1⟩
      · simp only
        split_ifs
        · rfl
        · rfl
        · rfl
        · split <;> (try split_ifs) <;> rfl
      · rfl
    · simp only [h2, if_false]
      by_cases h3 : TrimSpace cfg.Local.Type_ = "git"
      · simp only [h3, if_true]
        generalize r.Registry.Exec.Run "git" ["-C", cfg.Local.Path, "rev-parse", "HEAD"] w = e2
        rcases e2 with ⟨⟨o2, _ | err2⟩, w2⟩
        · simp only
          split_ifs <;> rfl
        · rfl
      · simp only [h3, if_false]
        by_cases h4 : TrimSpace cfg.Local.Type_ = "npm"
        · simp only [h4, if_true]
          split_ifs <;> (try rfl) <;> (split <;> (try split_ifs) <;> rfl)
        · simp only [h4, if_false]

/-- Counting leaves `runOne` as it is: the same item, the same next-state
    record and the same world. -/
theorem runOne_counting [GoLib] (r : runner W) (cfg : TrackerEntry) (prev : Item) (w : W)
    (c : Nat) :
    (runOne r.counting cfg prev (w, c)).1 = (runOne r cfg prev w).1 ∧
    (runOne r.counting cfg prev (w, c)).2.1 = (runOne r cfg prev w).2 := by
  unfold runOne
  have hB : r.counting.Registry.Build cfg =
      (match r.Registry.Build cfg with
        | .error e => Except.error e
        | .ok tr => Except.ok tr.counting) := rfl
  rw [hB]
  cases r.Registry.Build cfg with
  | error e => exact ⟨rfl, rfl⟩
  | ok tr =>
    simp only
    have hL := retryLoop_counting_eq tr cfg prev.LastSeen r.Options.IncludeNotes
      (r.Retries + 1).toNat {} w c
    have hL2 : retryLoop tr.counting cfg prev.LastSeen r.counting.Options.IncludeNotes
        (r.counting.Retries + 1).toNat {} (w, c) =
        ((retryLoop tr cfg prev.LastSeen r.Options.IncludeNotes (r.Retries + 1).toNat {} w).1,
          ((retryLoop tr cfg prev.LastSeen r.Options.IncludeNotes (r.Retries + 1).toNat {} w).2,
            (retryLoop tr.counting cfg prev.LastSeen r.Options.IncludeNotes
              (r.Retries + 1).toNat {} (w, c)).2.2)) := by
      apply Prod.ext
      · exact hL.1
      · apply Prod.ext
        · exact hL.2
        · rfl
    rw [hL2]
    generalize (retryLoop tr.counting cfg prev.LastSeen r.Options.IncludeNotes
      (r.Retries + 1).toNat {} (w, c)).2.2 = c2
    generalize retryLoop tr cfg prev.LastSeen r.Options.IncludeNotes (r.Retries + 1).toNat {} w = L
    cases hE : L.1.lastErr with
    | some e => exact ⟨rfl, rfl⟩
    | none =>
      simp only [runLocalCheck_counting]
      have hO : r.counting.Options = r.Options := rfl
      have hR : r.counting.RunAt = r.RunAt := rfl
      simp only [hO, hR, Tracker.counting]
      split_ifs <;> exact ⟨rfl, rfl⟩

/-- What `runOne` returns on a runner whose probes count, when the retry loop
    ends with an error: the counter is the one the loop left. -/
theorem runOne_counting_of_failure [GoLib] (r : runner W) (cfg : TrackerEntry) (prev : Item)
    (w : W) (c : Nat) (tr : Tracker W) (hbuild : r.Registry.Build cfg = .ok tr) (e : GoError)
    (hfail : (afterLoop r.counting cfg prev tr.counting (w, c)).1.lastErr = some e) :
    (runOne r.counting cfg prev (w, c)).1.1.Error = e.Error ∧
    (runOne r.counting cfg prev (w, c)).2.2 =
      (afterLoop r.counting cfg prev tr.counting (w, c)).2.2 := by
  have hb : r.counting.Registry.Build cfg = .ok tr.counting := by
    show (match r.Registry.Build cfg with
      | .error e => Except.error e
      | .ok tr => Except.ok tr.counting) = _
    rw [hbuild]
  rw [runOne_of_failure r.counting cfg prev (w, c) tr.counting hb e hfail]
  exact ⟨rfl, rfl⟩

/-- C3, amended: for `retries = N ≥ 0` and a probe whose attempts all fail,
    the failures before the last attempt being retryable, `runOne` invokes
    `Check` exactly `N + 1` times (the counter of the counting run) and the
    error of the item is the error text of the last attempt, the call with
    index `N`. -/
theorem C3_retry_budget_of_retryable_failures [GoLib] (r : runner W) (cfg : TrackerEntry)
    (prev : Item) (w : W) (tr : Tracker W) (hbuild : r.Registry.Build cfg = .ok tr)
    (hN : 0 ≤ r.Retries)
    (hfail : ∀ k, k ≤ r.Retries.toNat →
      (nthCall tr prev.LastSeen { IncludeNotes := r.Options.IncludeNotes } k w).1.2 ≠ none)
    (hretry : ∀ k, k < r.Retries.toNat →
      isRetryable
        (nthCall tr prev.LastSeen { IncludeNotes := r.Options.IncludeNotes } k w).1.2 = true) :
    (runOne r.counting cfg prev (w, 0)).2.2 = r.Retries.toNat + 1 ∧
    ∃ e, (nthCall tr prev.LastSeen { IncludeNotes := r.Options.IncludeNotes }
        r.Retries.toNat w).1.2 = some e ∧
      (runOne r cfg prev w).1.1.Error = e.Error := by
  have hb : (r.Retries + 1).toNat = r.Retries.toNat + 1 := by omega
  obtain ⟨k, hk, heq, hbefore, hstop⟩ :=
    retryLoop_counting tr cfg prev.LastSeen r.Options.IncludeNotes r.Retries.toNat {} w 0
  have hkN : k = r.Retries.toNat := by
    rcases Nat.lt_or_eq_of_le hk with hlt | heq'
    · have h1 := hstop hlt
      have h2 := hretry k hlt
      have h3 := hfail k hk
      cases hc : (nthCall tr prev.LastSeen { IncludeNotes := r.Options.IncludeNotes } k w).1.2 with
      | none => exact absurd hc h3
      | some e =>
        rw [hc] at h2
        simp [stopsRetrying, hc, h2] at h1
    · exact heq'
  subst hkN
  have hloop : afterLoop r.counting cfg prev tr.counting (w, 0) =
      (attemptVars cfg (nthCall tr prev.LastSeen { IncludeNotes := r.Options.IncludeNotes }
          r.Retries.toNat w).1,
        ((nthCall tr prev.LastSeen { IncludeNotes := r.Options.IncludeNotes }
          r.Retries.toNat w).2, 0 + r.Retries.toNat + 1)) := by
    show retryLoop tr.counting cfg prev.LastSeen r.Options.IncludeNotes (r.Retries + 1).toNat
      {} (w, 0) = _
    rw [hb, heq]
  cases hc : (nthCall tr prev.LastSeen { IncludeNotes := r.Options.IncludeNotes }
      r.Retries.toNat w).1.2 with
  | none => exact absurd hc (hfail _ (Nat.le_refl _))
  | some e =>
    have hlast : (afterLoop r.counting cfg prev tr.counting (w, 0)).1.lastErr = some e := by
      rw [hloop]; exact hc
    obtain ⟨herr, hcount⟩ := runOne_counting_of_failure r cfg prev w 0 tr hbuild e hlast
    refine ⟨?_, e, rfl, ?_⟩
    · rw [hcount, hloop]
      simp
    · rw [← (runOne_counting r cfg prev w 0).1]
      exact herr

/-- C3 as stated fails: with `retries = 1`, a probe that fails on every
    attempt with the terminal error "npm view: empty version" is invoked once,
    not twice. -/
theorem C3_counterexample :
    (∀ (p : String) (o : Options) (w : Unit),
        ((constTracker {} (some { Error := "npm view: empty version" })).Check p o w).1.2
          ≠ none) ∧
      failingRunner.Registry.Build sampleRelease =
        .ok (constTracker {} (some { Error := "npm view: empty version" })) ∧
      failingRunner.Retries = 1 ∧
      (@runOne (Unit × Nat) plainLib failingRunner.counting sampleRelease {} ((), 0)).2.2 = 1 ∧
      (@runOne (Unit × Nat) plainLib failingRunner.counting sampleRelease {} ((), 0)).2.2
        ≠ (failingRunner.Retries + 1).toNat :=
  ⟨fun _ _ _ => Option.some_ne_none _, rfl, rfl, by decide, by decide⟩

/-- C3, amended, at a probe that times out on every attempt, with two
    retries: three invocations, and the item carries the time-out text. -/
theorem C3_retry_budget_of_retryable_failures_witness :
    (@runOne (Unit × Nat) plainLib timeoutRunner.counting sampleRelease {} ((), 0)).2.2 = 3 ∧
      ∃ e : GoError, e.Error = "fetch atom: request timeout" ∧
        (@runOne Unit plainLib timeoutRunner sampleRelease {} ()).1.1.Error = e.Error :=
  have h := @C3_retry_budget_of_retryable_failures Unit plainLib timeoutRunner sampleRelease {} ()
    (constTracker {} (some { Error := "fetch atom: request timeout" })) rfl (by decide)
    (fun k hk => by
      have hk2 : k ≤ 2 := hk
      interval_cases k <;> decide)
    (fun k hk => by
      have hk2 : k < 2 := hk
      interval_cases k <;> decide)
  ⟨h.1, by
    obtain ⟨e, he, herr⟩ := h.2
    refine ⟨e, ?_, herr⟩
    have : (some e : Option GoError) = some { Error := "fetch atom: request timeout" } := by
      rw [← he]; rfl
    rw [Option.some.inj this]⟩

/-! ## Retryable errors -/
/-- The function `hasInfix` decides whether a list occurs as a contiguous block. -/
theorem hasInfix_iff (l sub : List Char) : hasInfix l sub = true ↔ sub <:+: l := by
  induction l with
  | nil =>
    rw [hasInfix, List.isPrefixOf_iff_prefix, List.prefix_nil, List.infix_nil]
  | cons c cs ih =>
    rw [hasInfix, Bool.or_eq_true, List.isPrefixOf_iff_prefix, ih, List.infix_cons_iff]

/-- A block of the image of a list under a map is the image of a block. -/
theorem infix_map_iff {α β : Type} (f : α → β) (l : List α) (sub : List β) :
    sub <:+: l.map f ↔ ∃ mid, mid <:+: l ∧ mid.map f = sub := by
  constructor
  · rintro ⟨s, t, h⟩
    obtain ⟨l12, l3, hl, h12, _⟩ := List.map_eq_append_iff.mp h.symm
    obtain ⟨l1, l2, hl12, _, h2⟩ := List.map_eq_append_iff.mp h12
    refine ⟨l2, ⟨l1, l3, ?_⟩, h2⟩
    rw [hl, hl12]
  · rintro ⟨mid, ⟨s, t, h⟩, hmid⟩
    refine ⟨s.map f, t.map f, ?_⟩
    rw [← h, ← hmid, List.map_append, List.map_append]

/-- The code's test `strings.Contains(strings.ToLower(msg), kw)` for a key word
    in lower case says that `msg` contains the key word when letter case is
    ignored. -/
theorem contains_toLower_iff [GoLib] (msg kw : String)
    (hkw : kw.data.map toLowerRune = kw.data) :
    Contains (ToLower msg) kw = true ↔ containsIgnoringCase msg kw := by
  unfold Contains ToLower containsIgnoringCase
  rw [hasInfix_iff, infix_map_iff, hkw]

/-- C5: `isRetryable(err)` is true exactly when `err` is not nil and is or
    wraps deadline-exceeded or cancellation, or is a network-layer error, or
    has a message that contains, ignoring letter case, one of "timeout",
    "connection reset", "tls", "temporary"; it is false for nil and for every
    other error. -/
theorem C5_isRetryable_iff [GoLib] (err : Option GoError) :
    (isRetryable err = true ↔
      ∃ e, err = some e ∧
        (e.isDeadlineExceeded = true ∨ e.isCanceled = true ∨ e.asNetError = true ∨
          containsIgnoringCase e.Error "timeout" ∨
          containsIgnoringCase e.Error "connection reset" ∨
          containsIgnoringCase e.Error "tls" ∨
          containsIgnoringCase e.Error "temporary")) ∧
    isRetryable none = false := by
  refine ⟨?_, rfl⟩
  cases err with
  | none => simp [isRetryable]
  | some e =>
    simp only [Option.some.injEq, exists_eq_left']
    rw [← contains_toLower_iff e.Error "timeout" rfl,
      ← contains_toLower_iff e.Error "connection reset" rfl,
      ← contains_toLower_iff e.Error "tls" rfl,
      ← contains_toLower_iff e.Error "temporary" rfl]
    simp only [isRetryable]
    cases e.isDeadlineExceeded <;> cases e.isCanceled <;> cases e.asNetError <;>
      cases Contains (ToLower e.Error) "timeout" <;>
      cases Contains (ToLower e.Error) "connection reset" <;>
      cases Contains (ToLower e.Error) "tls" <;>
      cases Contains (ToLower e.Error) "temporary" <;> simp

/-! ## The report of a run -/
/-- Every item that `runOne` returns carries the name and the type of its config. -/
theorem runOne_name_type [GoLib] (r : runner W) (cfg : TrackerEntry) (prev : Item) (w : W) :
    (runOne r cfg prev w).1.1.Name = cfg.Name ∧ (runOne r cfg prev w).1.1.Type_ = cfg.Type_ := by
  unfold runOne
  cases r.Registry.Build cfg with
  | error err => exact ⟨rfl, rfl⟩
  | ok tr =>
    simp only
    split
    · exact ⟨rfl, rfl⟩
    · exact ⟨rfl, rfl⟩

/-- A job keeps the number of slots. -/
theorem runJob_results_length [GoLib] (r : runner W) (cfgs : List TrackerEntry)
    (prevItems : String → Option Item) (acc : runVars W) (idx : Nat) :
    (runJob r cfgs prevItems acc idx).results.length = acc.results.length := by
  unfold runJob
  cases cfgs[idx]? with
  | none => rfl
  | some cfg => simp

/-- A job leaves the slots of the other jobs alone. -/
theorem runJob_results_ne [GoLib] (r : runner W) (cfgs : List TrackerEntry)
    (prevItems : String → Option Item) (acc : runVars W) (idx i : Nat) (h : idx ≠ i) :
    (runJob r cfgs prevItems acc idx).results[i]? = acc.results[i]? := by
  unfold runJob
  cases cfgs[idx]? with
  | none => rfl
  | some cfg => simp [List.getElem?_set_ne h]

/-- A job writes the item of its config into its own slot. -/
theorem runJob_results_self [GoLib] (r : runner W) (cfgs : List TrackerEntry)
    (prevItems : String → Option Item) (acc : runVars W) (idx : Nat) (cfg : TrackerEntry)
    (hcfg : cfgs[idx]? = some cfg) (hlen : idx < acc.results.length) :
    (runJob r cfgs prevItems acc idx).results[idx]? =
      some (runOne r cfg ((prevItems cfg.Name).getD {}) acc.world).1.1 := by
  unfold runJob
  rw [hcfg]
  simp [List.getElem?_set_self hlen]

/-- The slots after a series of jobs without repetition: the length is kept,
    the slot of a job outside the series is as before, and the slot of a job of
    the series holds the item that `runOne` returned for its config. -/
theorem run_fold_results [GoLib] (r : runner W) (cfgs : List TrackerEntry)
    (prevItems : String → Option Item) :
    ∀ (sched : List Nat) (acc : runVars W), sched.Nodup →
      (sched.foldl (runJob r cfgs prevItems) acc).results.length = acc.results.length ∧
      (∀ i, i ∉ sched →
        (sched.foldl (runJob r cfgs prevItems) acc).results[i]? = acc.results[i]?) ∧
      (∀ i cfg, i ∈ sched → cfgs[i]? = some cfg → i < acc.results.length →
        ∃ w', (sched.foldl (runJob r cfgs prevItems) acc).results[i]? =
          some (runOne r cfg ((prevItems cfg.Name).getD {}) w').1.1) := by
  intro sched
  induction sched with
  | nil =>
    intro acc _
    exact ⟨rfl, fun _ _ => rfl, fun i _ hi => absurd hi (List.not_mem_nil i)⟩
  | cons idx rest ih =>
    intro acc hnd
    obtain ⟨hnot, hrest⟩ := List.nodup_cons.mp hnd
    obtain ⟨hlen, hout, hin⟩ := ih (runJob r cfgs prevItems acc idx) hrest
    rw [List.foldl_cons]
    refine ⟨?_, ?_, ?_⟩
    · rw [hlen, runJob_results_length]
    · intro i hi
      rw [List.mem_cons, not_or] at hi
      rw [hout i hi.2, runJob_results_ne r cfgs prevItems acc idx i (Ne.symm hi.1)]
    · intro i cfg hi hcfg hlt
      by_cases heq : i = idx
      · subst heq
        refine ⟨acc.world, ?_⟩
        rw [hout i hnot, runJob_results_self r cfgs prevItems acc i cfg hcfg hlt]
      · have hmem : i ∈ rest := by
          rcases List.mem_cons.mp hi with h | h
          · exact absurd h heq
          · exact h
        exact hin i cfg hmem hcfg (by rw [runJob_results_length]; exact hlt)

/-- C6: for every list of source configs, every concurrency setting and every
    order in which the jobs are carried out, `runner.Run` returns one item per
    config in input order: the result has the length of the config list, and
    its item with index `i` is what `runOne` returned for the config with
    index `i` and the previous item of that name, so it carries that config's
    name and type, whether the source failed or not; there is at least one
    worker to carry the jobs out. -/
theorem C6_run_reports_in_input_order [GoLib] (r : runner W) (cfgs : List TrackerEntry)
    (st : State) (sched : List Nat) (w : W)
    (hsched : sched.Perm (List.range cfgs.length)) :
    (Run r cfgs st sched w).1.1.length = cfgs.length ∧
    (∀ (i : Nat) (cfg : TrackerEntry), cfgs[i]? = some cfg →
      ∃ w', (Run r cfgs st sched w).1.1[i]? =
          some (runOne r cfg (prevItem st cfg.Name) w').1.1 ∧
        (runOne r cfg (prevItem st cfg.Name) w').1.1.Name = cfg.Name ∧
        (runOne r cfg (prevItem st cfg.Name) w').1.1.Type_ = cfg.Type_) ∧
    1 ≤ workerCount r cfgs.length := by
  have hnd : sched.Nodup := (hsched.nodup_iff).mpr (List.nodup_range _)
  obtain ⟨hlen, _, hin⟩ := run_fold_results r cfgs
    (match st.Items with
      | none => fun _ => none
      | some m => m) sched
    { results := List.replicate cfgs.length {}, nextItems :=
        (match st.Items with
          | none => fun _ => none
          | some m => m), world := w } hnd
  refine ⟨?_, ?_, ?_⟩
  · exact hlen.trans (List.length_replicate _ _)
  · intro i cfg hcfg
    have hi : i < cfgs.length := (List.getElem?_eq_some_iff.mp hcfg).1
    obtain ⟨w', hw'⟩ := hin i cfg (hsched.mem_iff.mpr (List.mem_range.mpr hi)) hcfg
      (by simpa using hi)
    refine ⟨w', ?_, runOne_name_type r cfg _ w'⟩
    have hprev : prevItem st cfg.Name =
        ((match st.Items with
          | none => fun _ => none
          | some m => m) cfg.Name).getD {} := by
      unfold prevItem
      cases st.Items <;> rfl
    rw [hprev]
    exact hw'
  · unfold workerCount
    simp only
    split <;> omega

/-- C6 at two sources carried out in the reverse of the input order: the
    report lists them in input order. -/
theorem C6_run_reports_in_input_order_witness :
    ([1, 0] : List Nat).Perm (List.range [sampleRelease, sampleNpm].length) ∧
      (@Run Unit plainLib sampleRunner [sampleRelease, sampleNpm] {} [1, 0] ()).1.1.length = 2 ∧
      ((@Run Unit plainLib sampleRunner [sampleRelease, sampleNpm] {} [1, 0] ()).1.1.map
        fun it => it.Name) = ["tool", "left-pad"] :=
  have h := @C6_run_reports_in_input_order Unit plainLib sampleRunner
    [sampleRelease, sampleNpm] {} [1, 0] () (by decide)
  ⟨by decide, h.1, by decide⟩

/-! ## The next-state record -/
/-- Every next-state record that `runOne` returns is stamped with `r.RunAt`. -/
theorem runOne_lastCheckedAt [GoLib] (r : runner W) (cfg : TrackerEntry) (prev : Item) (w : W) :
    (runOne r cfg prev w).1.2.LastCheckedAt = r.RunAt := by
  unfold runOne
  cases r.Registry.Build cfg with
  | error err => rfl
  | ok tr =>
    simp only
    split
    · rfl
    · rfl

/-- The next-state record that `runOne` returns when the retry loop ends
    without an error. -/
theorem runOne_next_of_success [GoLib] (r : runner W) (cfg : TrackerEntry) (prev : Item)
    (w : W) (tr : Tracker W) (hbuild : r.Registry.Build cfg = .ok tr)
    (hok : (afterLoop r cfg prev tr w).1.lastErr = none) :
    (runOne r cfg prev w).1.2 =
      { LastCheckedAt := r.RunAt,
        LastSeen := TrimSpace (afterLoop r cfg prev tr w).1.current,
        LastStatus := (runOne r cfg prev w).1.1.Status,
        LastError := "" } ∧
    (runOne r cfg prev w).1.1.Current = TrimSpace (afterLoop r cfg prev tr w).1.current ∧
    (runOne r cfg prev w).1.1.Latest = TrimSpace (afterLoop r cfg prev tr w).1.latest := by
  unfold runOne
  simp only [hbuild, hok]
  trivial

/-- The next-state map after a series of jobs: under every name that was
    already written, or that a job of the series carries, the map holds the
    record that `runOne` returned for a config of that name. -/
theorem run_fold_next [GoLib] (r : runner W) (cfgs : List TrackerEntry)
    (prevItems : String → Option Item) :
    ∀ (sched : List Nat) (acc : runVars W) (written : String → Prop),
      (∀ name, written name → ∃ cfg w', cfg ∈ cfgs ∧ cfg.Name = name ∧
        acc.nextItems name = some (runOne r cfg ((prevItems cfg.Name).getD {}) w').1.2) →
      ∀ name, (written name ∨ ∃ i cfg, i ∈ sched ∧ cfgs[i]? = some cfg ∧ cfg.Name = name) →
        ∃ cfg w', cfg ∈ cfgs ∧ cfg.Name = name ∧
          (sched.foldl (runJob r cfgs prevItems) acc).nextItems name =
            some (runOne r cfg ((prevItems cfg.Name).getD {}) w').1.2 := by
  intro sched
  induction sched with
  | nil =>
    intro acc written hacc name hname
    rcases hname with h | ⟨i, _, hi, _⟩
    · exact hacc name h
    · exact absurd hi (List.not_mem_nil i)
  | cons idx rest ih =>
    intro acc written hacc name hname
    rw [List.foldl_cons]
    apply ih (runJob r cfgs prevItems acc idx)
      (fun n => written n ∨ ∃ cfg, cfgs[idx]? = some cfg ∧ cfg.Name = n)
    · intro n hn
      unfold runJob
      cases hc : cfgs[idx]? with
      | none =>
        rcases hn with h | ⟨cfg, hcfg, _⟩
        · exact hacc n h
        · rw [hc] at hcfg; exact absurd hcfg (by simp)
      | some c =>
        by_cases hnc : n = c.Name
        · refine ⟨c, acc.world, List.getElem?_mem hc, hnc.symm, ?_⟩
          simp [hnc]
        · have hw : written n := by
            rcases hn with h | ⟨cfg, hcfg, hcn⟩
            · exact h
            · rw [hc] at hcfg
              have : c = cfg := Option.some.inj hcfg
              exact absurd (this ▸ hcn.symm) hnc
          obtain ⟨cfg, w', h1, h2, h3⟩ := hacc n hw
          refine ⟨cfg, w', h1, h2, ?_⟩
          simp [hnc, h3]
    · rcases hname with h | ⟨i, cfg, hi, hcfg, hn⟩
      · exact Or.inl (Or.inl h)
      · rcases List.mem_cons.mp hi with h | h
        · subst h
          exact Or.inl (Or.inr ⟨cfg, hcfg, hn⟩)
        · exact Or.inr ⟨i, cfg, h, hcfg, hn⟩

/-- C7: the next-state record of every source is stamped with the start time
    `r.RunAt` of the run, in `runOne` and hence under every configured name in
    the state that `Run` returns; when the probe succeeds, `LastSeen` is the
    trimmed current value that the probe returned (the value of the successful
    call), which is the item's `Current` and not its normalized `Latest`,
    `LastStatus` is the item's status and `LastError` is empty.  For a release
    titled `v1.2.3`, `LastSeen` is `v1.2.3` while `Latest` is `1.2.3`. -/
theorem C7_next_state_record [GoLib] (r : runner W) (cfg : TrackerEntry) (prev : Item) (w : W) :
    (runOne r cfg prev w).1.2.LastCheckedAt = r.RunAt ∧
    (∀ (cfgs : List TrackerEntry) (st : State) (sched : List Nat),
      sched.Perm (List.range cfgs.length) → ∀ c, c ∈ cfgs →
        ∃ m it, (Run r cfgs st sched w).1.2.Items = some m ∧ m c.Name = some it ∧
          it.LastCheckedAt = r.RunAt) ∧
    (∀ tr, r.Registry.Build cfg = .ok tr → (afterLoop r cfg prev tr w).1.lastErr = none →
      (runOne r cfg prev w).1.2.LastSeen = TrimSpace (afterLoop r cfg prev tr w).1.current ∧
      (runOne r cfg prev w).1.2.LastSeen = (runOne r cfg prev w).1.1.Current ∧
      (runOne r cfg prev w).1.2.LastStatus = (runOne r cfg prev w).1.1.Status ∧
      (runOne r cfg prev w).1.2.LastError = "" ∧
      (0 ≤ r.Retries → ∃ k,
        (nthCall tr prev.LastSeen { IncludeNotes := r.Options.IncludeNotes } k w).1.2 = none ∧
        (afterLoop r cfg prev tr w).1.current =
          (nthCall tr prev.LastSeen { IncludeNotes := r.Options.IncludeNotes } k w).1.1.Current)) ∧
    ((@runOne Unit plainLib releaseRunner sampleRelease {} ()).1.2.LastSeen = "v1.2.3" ∧
      (@runOne Unit plainLib releaseRunner sampleRelease {} ()).1.1.Latest = "1.2.3") := by
  refine ⟨runOne_lastCheckedAt r cfg prev w, ?_, ?_, by decide, by decide⟩
  · intro cfgs st sched hsched c hc
    obtain ⟨i, hi⟩ := List.mem_iff_getElem?.mp hc
    have hlt : i < cfgs.length := (List.getElem?_eq_some_iff.mp hi).1
    obtain ⟨c', w', _, _, hnext⟩ := run_fold_next r cfgs
      (match st.Items with
        | none => fun _ => none
        | some m => m) sched
      { results := List.replicate cfgs.length {}, nextItems :=
          (match st.Items with
            | none => fun _ => none
            | some m => m), world := w }
      (fun _ => False) (fun _ h => absurd h id) c.Name
      (Or.inr ⟨i, c, hsched.mem_iff.mpr (List.mem_range.mpr hlt), hi, rfl⟩)
    exact ⟨_, _, rfl, hnext, runOne_lastCheckedAt r c' _ w'⟩
  · intro tr hbuild hok
    obtain ⟨hnext, hcur, _⟩ := runOne_next_of_success r cfg prev w tr hbuild hok
    refine ⟨?_, ?_, ?_, ?_, ?_⟩
    · rw [hnext]
    · rw [hnext, hcur]
    · rw [hnext]
    · rw [hnext]
    · intro hN
      have hb : (r.Retries + 1).toNat = r.Retries.toNat + 1 := by omega
      obtain ⟨k, _, heq, _, _⟩ :=
        retryLoop_spec tr cfg prev.LastSeen r.Options.IncludeNotes r.Retries.toNat {} w
      have hloop : afterLoop r cfg prev tr w =
          (attemptVars cfg
            (nthCall tr prev.LastSeen { IncludeNotes := r.Options.IncludeNotes } k w).1,
            (nthCall tr prev.LastSeen { IncludeNotes := r.Options.IncludeNotes } k w).2) := by
        show retryLoop tr cfg prev.LastSeen r.Options.IncludeNotes (r.Retries + 1).toNat {} w = _
        rw [hb, heq]
      refine ⟨k, ?_, ?_⟩
      · rw [hloop] at hok; exact hok
      · rw [hloop]; rfl

/-- C7 at a source whose probe returns ` v1.2.4 `: the record holds the
    trimmed value and the start time of the run. -/
theorem C7_next_state_record_witness :
    (@runOne Unit plainLib sampleRunner sampleRelease { LastSeen := "v1.2.3" } ()).1.2.LastSeen
        = "v1.2.4" ∧
      (@runOne Unit plainLib sampleRunner sampleRelease { LastSeen := "v1.2.3" }
        ()).1.2.LastCheckedAt = 1700000000 ∧
      (@runOne Unit plainLib sampleRunner sampleRelease { LastSeen := "v1.2.3" } ()).1.2.LastError
        = "" :=
  have h := @C7_next_state_record Unit plainLib sampleRunner sampleRelease
    { LastSeen := "v1.2.3" } ()
  have hs := h.2.2.1 (constTracker { Current := " v1.2.4 ", Message := "new release v1.2.4" } none)
    rfl (by decide)
  ⟨hs.1.trans (by decide), h.1, hs.2.2.2.1⟩

/-! ## First runs -/
/-- C8: for a source with no previous observation (the previous `LastSeen` is
    empty or blank) `remoteChanged` is false, so a successful check has the
    status "update" exactly when `localChanged` holds, and the status "ok" when
    no local observation is configured. -/
theorem C8_no_previous_observation [GoLib] (r : runner W) (cfg : TrackerEntry) (prev : Item)
    (w : W) (tr : Tracker W) (hbuild : r.Registry.Build cfg = .ok tr)
    (hok : (afterLoop r cfg prev tr w).1.lastErr = none)
    (hprev : TrimSpace prev.LastSeen = "") :
    ¬ remoteChangedSpec prev.LastSeen (afterLoop r cfg prev tr w).1.current ∧
    ((runOne r cfg prev w).1.1.Status = "update" ↔
      localUpdateAvailable cfg
        (TrimSpace (runLocalCheck r cfg (afterLoop r cfg prev tr w).2).1.1)
        (afterLoop r cfg prev tr w).1.latest = true) ∧
    (TrimSpace cfg.Local.Type_ = "" → (runOne r cfg prev w).1.1.Status = "ok") := by
  have hnot : ¬ remoteChangedSpec prev.LastSeen (afterLoop r cfg prev tr w).1.current :=
    fun h => h.1 hprev
  rw [runOne_status_of_success r cfg prev w tr hbuild hok]
  rw [decide_eq_false hnot, Bool.false_or]
  refine ⟨hnot, ?_, ?_⟩
  · cases localUpdateAvailable cfg
        (TrimSpace (runLocalCheck r cfg (afterLoop r cfg prev tr w).2).1.1)
        (afterLoop r cfg prev tr w).1.latest
    · simp
    · simp
  · intro hlocal
    have : localUpdateAvailable cfg
        (TrimSpace (runLocalCheck r cfg (afterLoop r cfg prev tr w).2).1.1)
        (afterLoop r cfg prev tr w).1.latest = false := by
      unfold localUpdateAvailable
      simp only [hlocal, if_true]
    rw [this]
    rfl

/-- C8 at the first run of a release source without a local observation:
    the status is "ok". -/
theorem C8_no_previous_observation_witness :
    TrimSpace ({ LastSeen := "  " } : Item).LastSeen = "" ∧
      (@runOne Unit plainLib sampleRunner sampleRelease { LastSeen := "  " } ()).1.1.Status
        = "ok" :=
  ⟨by decide,
    (@C8_no_previous_observation Unit plainLib sampleRunner sampleRelease { LastSeen := "  " } ()
      (constTracker { Current := " v1.2.4 ", Message := "new release v1.2.4" } none)
      rfl (by decide) (by decide)).2.2 (by decide)⟩

/-! ## Local comparison -/
/-- Trimming at the end yields a prefix. -/
theorem trimRight_initial (l : List Char) : trimRight l <+: l :=
  List.rdropWhile_prefix isSpace l

/-- Trimming at the end is monotone for extension at the end. -/
theorem trimRight_append_initial (m s : List Char) : trimRight m <+: trimRight (m ++ s) := by
  unfold trimRight
  rw [List.reverse_append, List.dropWhile_append]
  split
  · exact List.prefix_refl _
  · rw [List.reverse_append, List.reverse_reverse]
    exact (trimRight_initial m).trans (List.prefix_append _ _)

/-- The trimmed form of a prefix is empty or a prefix of the trimmed form. -/
theorem trimSpaceList_initial (l₁ l₂ : List Char) (h : l₁ <+: l₂) :
    trimSpaceList l₁ = [] ∨ trimSpaceList l₁ <+: trimSpaceList l₂ := by
  obtain ⟨s, rfl⟩ := h
  unfold trimSpaceList
  rw [List.dropWhile_append]
  split
  · rename_i hempty
    left
    rw [List.isEmpty_iff.mp hempty]
    rfl
  · right
    exact trimRight_append_initial _ _

/-- The trimmed form of a prefix, as strings. -/
theorem TrimSpace_initial (a b : String) (h : HasPrefix b a = true) :
    TrimSpace a = "" ∨ HasPrefix (TrimSpace b) (TrimSpace a) = true := by
  unfold HasPrefix at h
  rw [ List.isPrefixOf_iff_prefix] at h
  rcases trimSpaceList_initial a.data b.data h with h0 | hp
  · left
    unfold TrimSpace
    rw [h0]
  · right
    unfold HasPrefix TrimSpace
    rw [ List.isPrefixOf_iff_prefix]
    exact hp

/-- C9: for a GitHub source in commit mode, when either of the local value
    and the latest value is a prefix of the other, as a 7-character local value
    is of the full latest SHA, `localUpdateAvailable` returns false. -/
theorem C9_commit_prefix_is_no_update (cfg : TrackerEntry) (local_ latest : String)
    (hty : cfg.Type_ = "github") (hmode : cfg.Mode = "commit")
    (hpre : HasPrefix latest local_ = true ∨ HasPrefix local_ latest = true) :
    localUpdateAvailable cfg local_ latest = false := by
  unfold localUpdateAvailable
  simp only [hty, hmode, if_true]
  split
  · rfl
  · split
    · rfl
    · rename_i hloc
      split
      · rfl
      · rename_i hlat
        rw [not_or] at hloc
        have hp : (HasPrefix (TrimSpace latest) (TrimSpace local_) ||
            HasPrefix (TrimSpace local_) (TrimSpace latest)) = true := by
          rcases hpre with h | h
          · rcases TrimSpace_initial local_ latest h with h0 | h1
            · exact absurd h0 hloc.1
            · rw [h1]; rfl
          · rcases TrimSpace_initial latest local_ h with h0 | h1
            · exact absurd h0 hlat
            · rw [h1, Bool.or_true]
        rw [if_pos hp]

/-- C9 at a commit source whose local value is the first seven characters of
    the latest SHA. -/
theorem C9_commit_prefix_is_no_update_witness :
    ("3f2a9c1" : String).length = 7 ∧
      HasPrefix "3f2a9c1d4e5b6a7f8091a2b3c4d5e6f708192a3b" "3f2a9c1" = true ∧
      localUpdateAvailable sampleCommit "3f2a9c1" "3f2a9c1d4e5b6a7f8091a2b3c4d5e6f708192a3b"
        = false :=
  ⟨by decide, by decide,
    C9_commit_prefix_is_no_update sampleCommit "3f2a9c1"
      "3f2a9c1d4e5b6a7f8091a2b3c4d5e6f708192a3b" rfl rfl (Or.inl (by decide))⟩

/-- C10 as stated fails: for an npm source with a local observation and the
    local value "not-installed", `localUpdateAvailable` returns false when the
    latest value is empty. -/
theorem C10_counterexample :
    sampleNpm.Type_ = "npm" ∧ sampleNpm.Local.Type_ = "npm" ∧
      localUpdateAvailable sampleNpm "not-installed" "" = false :=
  ⟨rfl, rfl, by decide⟩

/-- C10, amended: for an npm source with a local observation configured and
    the local value "not-installed", `localUpdateAvailable` returns true for
    every latest value that is not blank. -/
theorem C10_not_installed_is_update (cfg : TrackerEntry) (latest : String)
    (hty : cfg.Type_ = "npm") (hlocal : TrimSpace cfg.Local.Type_ ≠ "")
    (hlatest : TrimSpace latest ≠ "") :
    localUpdateAvailable cfg "not-installed" latest = true := by
  have htrim : TrimSpace "not-installed" = "not-installed" := by decide
  unfold localUpdateAvailable
  have h1 : ¬ (("not-installed" : String) = "" ∨ ("not-installed" : String) = "unknown") := by
    decide
  have h2 : ¬ (("npm" : String) = "github") := by decide
  simp only [htrim, hty, hlocal, hlatest, h1, h2, if_false, if_true]

/-- C10, amended, at an npm source with the latest value `1.3.0`. -/
theorem C10_not_installed_is_update_witness :
    localUpdateAvailable sampleNpm "not-installed" "1.3.0" = true :=
  C10_not_installed_is_update sampleNpm "1.3.0" rfl (by decide) (by decide)

/-! ## Failed local checks -/
/-- The local check returns an error text only together with an empty local
    value. -/
theorem runLocalCheck_value_or_error [GoLib] (r : runner W) (cfg : TrackerEntry) (w : W) :
    (runLocalCheck r cfg w).1.1 = "" ∨ (runLocalCheck r cfg w).1.2 = "" := by
  unfold runLocalCheck
  simp only
  by_cases h1 : TrimSpace cfg.Local.Type_ = ""
  · simp only [h1, if_true]
    exact Or.inl trivial
  · simp only [h1, if_false]
    by_cases h2 : TrimSpace cfg.Local.Type_ = "command"
    · simp only [h2, if_true]
      generalize r.Registry.Exec.Run "zsh" ["-lc", cfg.Local.Command] w = e1
      rcases e1 with ⟨⟨o1, _ | err1⟩, w1⟩
      · simp only
        split_ifs <;> (try split) <;> (try split_ifs) <;>
          first | exact Or.inl rfl | exact Or.inr rfl
      · exact Or.inl rfl
    · simp only [h2, if_false]
      by_cases h3 : TrimSpace cfg.Local.Type_ = "git"
      · simp only [h3, if_true]
        generalize r.Registry.Exec.Run "git" ["-C", cfg.Local.Path, "rev-parse", "HEAD"] w = e2
        rcases e2 with ⟨⟨o2, _ | err2⟩, w2⟩
        · simp only
          split_ifs <;> first | exact Or.inl rfl | exact Or.inr rfl
        · exact Or.inl rfl
      · simp only [h3, if_false]
        by_cases h4 : TrimSpace cfg.Local.Type_ = "npm"
        · simp only [h4, if_true]
          split_ifs <;> (try split) <;> (try split_ifs) <;>
            first | exact Or.inl rfl | exact Or.inr rfl
        · simp only [h4, if_false]
          exact Or.inl trivial

/-- The fields of the item of a successful check that come from the local
    check, and its empty `Error`. -/
theorem runOne_local_fields_of_success [GoLib] (r : runner W) (cfg : TrackerEntry) (prev : Item)
    (w : W) (tr : Tracker W) (hbuild : r.Registry.Build cfg = .ok tr)
    (hok : (afterLoop r cfg prev tr w).1.lastErr = none) :
    (runOne r cfg prev w).1.1.Local =
        TrimSpace (runLocalCheck r cfg (afterLoop r cfg prev tr w).2).1.1 ∧
    (runOne r cfg prev w).1.1.LocalError =
        TrimSpace (runLocalCheck r cfg (afterLoop r cfg prev tr w).2).1.2 ∧
    (runOne r cfg prev w).1.1.Error = "" := by
  unfold runOne
  simp only [hbuild, hok]
  trivial

/-- C11: a failed local check does not change the classification.  When
    `runLocalCheck` returns a non-empty error text its local value is empty, so
    `localChanged` is false; the status of a successfully probed source is then
    "update" exactly when `remoteChanged` holds and "ok" otherwise, never
    "error"; the item's `Error` is empty and the error text, trimmed, is in
    its `LocalError` field, and the next-state record has no error. -/
theorem C11_failed_local_check_is_advisory [GoLib] (r : runner W) (cfg : TrackerEntry)
    (prev : Item) (w : W) (tr : Tracker W) (hbuild : r.Registry.Build cfg = .ok tr)
    (hok : (afterLoop r cfg prev tr w).1.lastErr = none)
    (herr : (runLocalCheck r cfg (afterLoop r cfg prev tr w).2).1.2 ≠ "") :
    (runLocalCheck r cfg (afterLoop r cfg prev tr w).2).1.1 = "" ∧
    localUpdateAvailable cfg
      (TrimSpace (runLocalCheck r cfg (afterLoop r cfg prev tr w).2).1.1)
      (afterLoop r cfg prev tr w).1.latest = false ∧
    ((runOne r cfg prev w).1.1.Status = "update" ↔
      remoteChangedSpec prev.LastSeen (afterLoop r cfg prev tr w).1.current) ∧
    ((runOne r cfg prev w).1.1.Status = "ok" ↔
      ¬ remoteChangedSpec prev.LastSeen (afterLoop r cfg prev tr w).1.current) ∧
    (runOne r cfg prev w).1.1.Status ≠ "error" ∧
    (runOne r cfg prev w).1.1.Error = "" ∧
    (runOne r cfg prev w).1.1.Local = "" ∧
    (runOne r cfg prev w).1.1.LocalError =
      TrimSpace (runLocalCheck r cfg (afterLoop r cfg prev tr w).2).1.2 ∧
    (runOne r cfg prev w).1.2.LastError = "" := by
  have hval : (runLocalCheck r cfg (afterLoop r cfg prev tr w).2).1.1 = "" := by
    rcases runLocalCheck_value_or_error r cfg (afterLoop r cfg prev tr w).2 with h | h
    · exact h
    · exact absurd h herr
  have htrim : TrimSpace "" = "" := by decide
  have hloc : localUpdateAvailable cfg
      (TrimSpace (runLocalCheck r cfg (afterLoop r cfg prev tr w).2).1.1)
      (afterLoop r cfg prev tr w).1.latest = false := by
    rw [hval]
    unfold localUpdateAvailable
    simp only [htrim, true_or, if_true]
    split <;> rfl
  obtain ⟨hL, hLE, hE⟩ := runOne_local_fields_of_success r cfg prev w tr hbuild hok
  obtain ⟨hnext, _, _⟩ := runOne_next_of_success r cfg prev w tr hbuild hok
  have hst := runOne_status_of_success r cfg prev w tr hbuild hok
  rw [hloc, Bool.or_false] at hst
  refine ⟨hval, hloc, ?_, ?_, ?_, hE, ?_, hLE, ?_⟩
  · rw [hst]
    by_cases hc : remoteChangedSpec prev.LastSeen (afterLoop r cfg prev tr w).1.current
    · rw [if_pos (decide_eq_true hc)]
      exact ⟨fun _ => hc, fun _ => rfl⟩
    · rw [if_neg (fun h => hc (of_decide_eq_true h))]
      exact ⟨fun h => absurd h (by decide), fun h => absurd h hc⟩
  · rw [hst]
    by_cases hc : remoteChangedSpec prev.LastSeen (afterLoop r cfg prev tr w).1.current
    · rw [if_pos (decide_eq_true hc)]
      exact ⟨fun h => absurd h (by decide), fun h => absurd hc h⟩
    · rw [if_neg (fun h => hc (of_decide_eq_true h))]
      exact ⟨fun _ => hc, fun _ => rfl⟩
  · rw [hst]
    split <;> decide
  · rw [hL, hval, htrim]
  · rw [hnext]

/-- C11 at a release source whose local command fails: the status is "ok",
    the local value is empty and the text is in `LocalError`. -/
theorem C11_failed_local_check_is_advisory_witness :
    (@runLocalCheck Unit plainLib brokenLocalRunner releaseWithLocal ()).1.2 ≠ "" ∧
      (@runOne Unit plainLib brokenLocalRunner releaseWithLocal { LastSeen := "v1.2.4" }
        ()).1.1.Status = "ok" ∧
      (@runOne Unit plainLib brokenLocalRunner releaseWithLocal { LastSeen := "v1.2.4" }
        ()).1.1.LocalError = "exit status 127: zsh: command not found: tool" :=
  have h := @C11_failed_local_check_is_advisory Unit plainLib brokenLocalRunner releaseWithLocal
    { LastSeen := "v1.2.4" } ()
    (constTracker { Current := " v1.2.4 ", Message := "latest release v1.2.4" } none)
    rfl (by decide) (by decide)
  ⟨by decide, h.2.2.2.1.mpr (by decide), h.2.2.2.2.2.2.2.1.trans (by decide)⟩

/-! ## Check runs -/
/-- No conclusion counts both as success and as failure. -/
theorem conclusion_lists_disjoint (c : String) (hs : c ∈ successConclusions) :
    c ∉ failureConclusions := by
  unfold successConclusions at hs
  unfold failureConclusions
  simp only [List.mem_cons, List.mem_singleton, List.not_mem_nil, or_false] at hs ⊢
  rcases hs with h | h | h <;> subst h <;> decide

/-- The body of the loop of `summarizeCheckRuns` in terms of the three kinds
    of run: a pending one sets `anyPending`, one that concluded with success
    sets `anySuccess`, any other one `anyFailure`. -/
theorem checkRunStep_eq [GoLib] (f : checkFlags) (r : checkRun) :
    checkRunStep f r =
      if runCountsAsPending r = true then { f with anyPending := true }
      else if conclusionAmong successConclusions r = true then { f with anySuccess := true }
      else { f with anyFailure := true } := by
  unfold checkRunStep runCountsAsPending conclusionAmong
  by_cases hst : ToLower (TrimSpace r.Status) = "completed"
  · cases hc : r.Conclusion with
    | none => simp [hst]
    | some c =>
      simp only [hst, ne_eq, not_true_eq_false, if_false, decide_False, Option.isNone_some,
        Bool.false_or]
      by_cases h1 : ToLower (TrimSpace c) ∈ successConclusions
      · have h1' : ToLower (TrimSpace c) = "success" ∨ ToLower (TrimSpace c) = "neutral" ∨
            ToLower (TrimSpace c) = "skipped" := by
          simpa [successConclusions] using h1
        simp [h1, h1']
      · have h1' : ¬ (ToLower (TrimSpace c) = "success" ∨ ToLower (TrimSpace c) = "neutral" ∨
            ToLower (TrimSpace c) = "skipped") := by
          simpa [successConclusions] using h1
        by_cases h2 : ToLower (TrimSpace c) ∈ failureConclusions
        · have h2' : ToLower (TrimSpace c) = "failure" ∨ ToLower (TrimSpace c) = "cancelled" ∨
              ToLower (TrimSpace c) = "timed_out" ∨
              ToLower (TrimSpace c) = "action_required" ∨
              ToLower (TrimSpace c) = "startup_failure" ∨ ToLower (TrimSpace c) = "stale" := by
            simpa [failureConclusions] using h2
          simp [h1, h2, h1', h2']
        · have h2' : ¬ (ToLower (TrimSpace c) = "failure" ∨
              ToLower (TrimSpace c) = "cancelled" ∨ ToLower (TrimSpace c) = "timed_out" ∨
              ToLower (TrimSpace c) = "action_required" ∨
              ToLower (TrimSpace c) = "startup_failure" ∨ ToLower (TrimSpace c) = "stale") := by
            simpa [failureConclusions] using h2
          simp [h1, h2, h1', h2']
  · simp [hst]

/-- The flags after the loop of `summarizeCheckRuns`. -/
theorem checkRuns_fold [GoLib] (runs : List checkRun) :
    ∀ f : checkFlags,
      (runs.foldl checkRunStep f).anyPending = (f.anyPending || runs.any runCountsAsPending) ∧
      (runs.foldl checkRunStep f).anySuccess =
        (f.anySuccess ||
          runs.any (fun r => !runCountsAsPending r && conclusionAmong successConclusions r)) ∧
      (runs.foldl checkRunStep f).anyFailure =
        (f.anyFailure ||
          runs.any (fun r => !runCountsAsPending r && !conclusionAmong successConclusions r)) := by
  induction runs with
  | nil => intro f; simp
  | cons r rest ih =>
    intro f
    rw [List.foldl_cons]
    obtain ⟨h1, h2, h3⟩ := ih (checkRunStep f r)
    rw [h1, h2, h3, checkRunStep_eq]
    cases hp : runCountsAsPending r
    · cases hs : conclusionAmong successConclusions r
      · simp [hp, hs, Bool.or_assoc]
      · simp [hp, hs, Bool.or_assoc]
    · simp [hp, Bool.or_assoc]

/-- The summary of a response with a positive count and at least one run, from
    the three kinds of run. -/
theorem summarizeCheckRuns_eq [GoLib] (cr : githubCheckRunsResp) (hcount : 0 < cr.TotalCount)
    (hruns : cr.CheckRuns ≠ []) :
    summarizeCheckRuns cr =
      if cr.CheckRuns.any runCountsAsPending = true then "pending"
      else if cr.CheckRuns.any
          (fun r => !runCountsAsPending r && !conclusionAmong successConclusions r) = true
        then "failure"
      else if cr.CheckRuns.any
          (fun r => !runCountsAsPending r && conclusionAmong successConclusions r) = true
        then "success"
      else "none" := by
  unfold summarizeCheckRuns
  have hlen : ¬ (cr.TotalCount ≤ 0 ∨ cr.CheckRuns.length = 0) := by
    intro h
    rcases h with h | h
    · omega
    · exact hruns (List.length_eq_zero.mp h)
  obtain ⟨h1, h2, h3⟩ := checkRuns_fold cr.CheckRuns {}
  simp only [hlen, if_false, h1, h2, h3, Bool.false_or]

/-- A run that is not pending and did not conclude with success concluded
    with failure, and conversely. -/
theorem not_pending_failure_iff [GoLib] (r : checkRun) (hp : runCountsAsPending r = false) :
    conclusionAmong successConclusions r = false ↔
      conclusionAmong failureConclusions r = true := by
  unfold runCountsAsPending at hp
  simp only [Bool.or_eq_false_iff, Bool.not_eq_false', Bool.or_eq_true] at hp
  obtain ⟨_, hrec⟩ := hp
  constructor
  · intro hs
    rcases hrec with h | h
    · rw [hs] at h; exact absurd h (by decide)
    · exact h
  · intro hf
    cases hs : conclusionAmong successConclusions r
    · rfl
    · exfalso
      unfold conclusionAmong at hs hf
      cases hc : r.Conclusion with
      | none => rw [hc] at hs; exact absurd hs Bool.false_ne_true
      | some c =>
        rw [hc] at hs hf
        exact conclusion_lists_disjoint _ (of_decide_eq_true hs) (of_decide_eq_true hf)

/-- C12 as stated fails: a response with one run that is still in progress
    and a total count of zero is summarized as "none", not as "pending". -/
theorem C12_counterexample :
    ({ TotalCount := 0, CheckRuns := [{ Status := "in_progress" }] } :
        githubCheckRunsResp).CheckRuns.length = 1 ∧
      @runCountsAsPending plainLib { Status := "in_progress" } = true ∧
      @summarizeCheckRuns plainLib
        { TotalCount := 0, CheckRuns := [{ Status := "in_progress" }] } = "none" :=
  ⟨rfl, by decide, by decide⟩

/-- C12, amended: for every check-runs response with a positive total count
    and at least one run, `summarizeCheckRuns` returns "pending" if any run is
    not completed, has a null conclusion or has an unrecognized conclusion;
    otherwise "failure" if any conclusion is one of failure, cancelled,
    timed_out, action_required, startup_failure, stale; otherwise "success" if
    any conclusion is one of success, neutral, skipped.  It returns one of
    these three words, and "failure" only when no run counts as pending. -/
theorem C12_summarize_check_runs [GoLib] (cr : githubCheckRunsResp)
    (hcount : 0 < cr.TotalCount) (hruns : cr.CheckRuns ≠ []) :
    ((∃ r ∈ cr.CheckRuns, runCountsAsPending r = true) → summarizeCheckRuns cr = "pending") ∧
    ((∀ r ∈ cr.CheckRuns, runCountsAsPending r = false) →
      (∃ r ∈ cr.CheckRuns, conclusionAmong failureConclusions r = true) →
      summarizeCheckRuns cr = "failure") ∧
    ((∀ r ∈ cr.CheckRuns, runCountsAsPending r = false) →
      (∀ r ∈ cr.CheckRuns, conclusionAmong failureConclusions r = false) →
      (∃ r ∈ cr.CheckRuns, conclusionAmong successConclusions r = true) →
      summarizeCheckRuns cr = "success") ∧
    (summarizeCheckRuns cr = "pending" ∨ summarizeCheckRuns cr = "failure" ∨
      summarizeCheckRuns cr = "success") ∧
    (summarizeCheckRuns cr = "failure" → ∀ r ∈ cr.CheckRuns, runCountsAsPending r = false) := by
  rw [summarizeCheckRuns_eq cr hcount hruns]
  by_cases hp : cr.CheckRuns.any runCountsAsPending = true
  · rw [if_pos hp]
    refine ⟨fun _ => rfl, ?_, ?_, Or.inl rfl, fun h => absurd h (by decide)⟩
    · intro hall _
      obtain ⟨r, hr, hrp⟩ := List.any_eq_true.mp hp
      rw [hall r hr] at hrp
      exact absurd hrp (by decide)
    · intro hall _ _
      obtain ⟨r, hr, hrp⟩ := List.any_eq_true.mp hp
      rw [hall r hr] at hrp
      exact absurd hrp (by decide)
  · rw [if_neg hp]
    have hnone : ∀ r ∈ cr.CheckRuns, runCountsAsPending r = false := by
      intro r hr
      cases h : runCountsAsPending r
      · rfl
      · exact absurd (List.any_eq_true.mpr ⟨r, hr, h⟩) hp
    by_cases hf : cr.CheckRuns.any
        (fun r => !runCountsAsPending r && !conclusionAmong successConclusions r) = true
    · rw [if_pos hf]
      refine ⟨?_, fun _ _ => rfl, ?_, Or.inr (Or.inl rfl), fun _ => hnone⟩
      · rintro ⟨r, hr, hrp⟩
        rw [hnone r hr] at hrp
        exact absurd hrp (by decide)
      · intro _ hnof _
        obtain ⟨r, hr, hrf⟩ := List.any_eq_true.mp hf
        simp only [hnone r hr, Bool.not_false, Bool.true_and, Bool.not_eq_true'] at hrf
        have := (not_pending_failure_iff r (hnone r hr)).mp hrf
        rw [hnof r hr] at this
        exact absurd this (by decide)
    · rw [if_neg hf]
      have hsucc : ∀ r ∈ cr.CheckRuns, conclusionAmong successConclusions r = true := by
        intro r hr
        cases h : conclusionAmong successConclusions r
        · exfalso
          apply hf
          exact List.any_eq_true.mpr ⟨r, hr, by simp [hnone r hr, h]⟩
        · rfl
      obtain ⟨r0, rest, hcons⟩ := List.exists_cons_of_ne_nil hruns
      have hr0 : r0 ∈ cr.CheckRuns := by rw [hcons]; exact List.mem_cons_self _ _
      have hs : cr.CheckRuns.any
          (fun r => !runCountsAsPending r && conclusionAmong successConclusions r) = true :=
        List.any_eq_true.mpr ⟨r0, hr0, by simp [hnone r0 hr0, hsucc r0 hr0]⟩
      rw [if_pos hs]
      refine ⟨?_, ?_, fun _ _ _ => rfl, Or.inr (Or.inr rfl), fun h => absurd h (by decide)⟩
      · rintro ⟨r, hr, hrp⟩
        rw [hnone r hr] at hrp
        exact absurd hrp (by decide)
      · rintro _ ⟨r, hr, hrf⟩
        have := (not_pending_failure_iff r (hnone r hr)).mpr hrf
        rw [hsucc r hr] at this
        exact absurd this (by decide)

/-- C12, amended, at the response of the test (one completed run with the
    conclusion success) and at a response with a failed and a queued run. -/
theorem C12_summarize_check_runs_witness :
    @summarizeCheckRuns plainLib
        { TotalCount := 1, CheckRuns := [{ Status := "completed", Conclusion := some "success" }] }
        = "success" ∧
      @summarizeCheckRuns plainLib
        { TotalCount := 2,
          CheckRuns := [{ Status := "completed", Conclusion := some "failure" },
                        { Status := "queued" }] } = "pending" :=
  ⟨(@C12_summarize_check_runs plainLib
      { TotalCount := 1, CheckRuns := [{ Status := "completed", Conclusion := some "success" }] }
      (by decide) (by decide)).2.2.1 (by decide) (by decide) (by decide),
    (@C12_summarize_check_runs plainLib
      { TotalCount := 2,
        CheckRuns := [{ Status := "completed", Conclusion := some "failure" },
                      { Status := "queued" }] }
      (by decide) (by decide)).1 (by decide)⟩

/-! ## The checks of a pull request -/
/-- The summary of check runs is never the empty text. -/
theorem summarizeCheckRuns_ne_empty [GoLib] (cr : githubCheckRunsResp) :
    summarizeCheckRuns cr ≠ "" := by
  unfold summarizeCheckRuns
  simp only
  split_ifs <;> decide

/-- C13: not what the code does.  When the check-runs query succeeds and
    returns no entries, `checksSummary` returns "none" and does not query the
    combined commit status, although that status is "success" and is what
    `checksSummary` returns when the check-runs query fails; the summary of
    check runs is never empty, so the test `v != ""` never leads to the
    fallback. -/
theorem C13_empty_check_runs_do_not_fall_back :
    @githubPR.checksSummary _ sampleLib
        (samplePRProbe [(checkRunsURL "abc", noCheckRunsBody),
          (statusURL "abc", successStatusBody)]) "abc" []
        = ("none", [checkRunsURL "abc"]) ∧
      @githubPR.checksSummary _ sampleLib
        (samplePRProbe [(statusURL "abc", successStatusBody)]) "abc" []
        = ("success", [checkRunsURL "abc", statusURL "abc"]) ∧
      (∀ cr : githubCheckRunsResp, @summarizeCheckRuns sampleLib cr ≠ "") :=
  ⟨by decide, by decide, fun cr => @summarizeCheckRuns_ne_empty sampleLib cr⟩

/-- The summary when the check-runs query fails: that of the combined commit
    status. -/
theorem checksSummary_of_failed_query [GoLib] (g : githubPR W) (sha : String) (w : W)
    (e : GoError) (hsha : TrimSpace sha ≠ "")
    (hfail : (g.HTTP.Get (g.checkURL (TrimSpace sha)) g.headers w).1.2 = some e) :
    g.checksSummary sha w =
      g.statusSummary (TrimSpace sha) (g.HTTP.Get (g.checkURL (TrimSpace sha)) g.headers w).2 := by
  unfold githubPR.checksSummary
  simp only [hsha, if_false, hfail]

/-- The pull-request probe succeeds whenever the pull request is fetched and
    decoded and carries a head SHA, whatever the queries for the checks return. -/
theorem githubPR_Check_of_pr [GoLib] (g : githubPR W) (prevSeen : String) (opts : Options)
    (w : W) (pr : githubPRResp) (hget : (g.HTTP.Get g.prURL g.headers w).1.2 = none)
    (hpr : GoLib.unmarshalPR (g.HTTP.Get g.prURL g.headers w).1.1 = .ok pr)
    (hsha : TrimSpace pr.Head.SHA ≠ "") :
    (g.Check prevSeen opts w).1.2 = none ∧
    (g.Check prevSeen opts w).1.1.Current =
      (if (if pr.Merged = true then "merged" else ToLower (TrimSpace pr.State)) = "" then "unknown"
        else if pr.Merged = true then "merged" else ToLower (TrimSpace pr.State)) ++
        "|draft=" ++ formatBool pr.Draft ++ "|checks=" ++
        (g.checksSummary pr.Head.SHA (g.HTTP.Get g.prURL g.headers w).2).1 ∧
    (g.Check prevSeen opts w).1.1.Links =
      [("repo", "https://github.com/" ++ g.Repo),
       ("pr", if TrimSpace pr.HTMLURL = "" then
          "https://github.com/" ++ g.Repo ++ "/pull/" ++
            Itoa (if pr.Number = 0 then g.PR else pr.Number)
        else pr.HTMLURL)] := by
  unfold githubPR.Check
  simp only [hget, hpr, hsha, if_false]
  refine ⟨trivial, ?_, trivial⟩
  cases pr.Merged <;> simp

/-- C14: when the check-runs query of a pull-request probe fails,
    `checksSummary` is the summary of the combined commit status: "unknown" if
    the status query fails or its body does not decode, and otherwise the
    state, trimmed and in lower case, mapped as success to "success", failure
    or error to "failure", pending to "pending" and anything else to "none".
    In each of these cases `Check` succeeds once the pull request is fetched
    and decoded with a head SHA.  For a failing check-runs query and the status
    `"state":"pending"` the summary is "pending". -/
theorem C14_combined_status_fallback [GoLib] (g : githubPR W) (sha : String) (w : W)
    (e : GoError) (hsha : TrimSpace sha ≠ "")
    (hfail : (g.HTTP.Get (g.checkURL (TrimSpace sha)) g.headers w).1.2 = some e) :
    ((g.HTTP.Get (g.statusURL (TrimSpace sha)) g.headers
        (g.HTTP.Get (g.checkURL (TrimSpace sha)) g.headers w).2).1.2 ≠ none →
      (g.checksSummary sha w).1 = "unknown") ∧
    ((g.HTTP.Get (g.statusURL (TrimSpace sha)) g.headers
        (g.HTTP.Get (g.checkURL (TrimSpace sha)) g.headers w).2).1.2 = none →
      (∀ err, GoLib.unmarshalCommitStatus
          (g.HTTP.Get (g.statusURL (TrimSpace sha)) g.headers
            (g.HTTP.Get (g.checkURL (TrimSpace sha)) g.headers w).2).1.1 = .error err →
        (g.checksSummary sha w).1 = "unknown") ∧
      (∀ st, GoLib.unmarshalCommitStatus
          (g.HTTP.Get (g.statusURL (TrimSpace sha)) g.headers
            (g.HTTP.Get (g.checkURL (TrimSpace sha)) g.headers w).2).1.1 = .ok st →
        (ToLower (TrimSpace st.State) = "success" → (g.checksSummary sha w).1 = "success") ∧
        (ToLower (TrimSpace st.State) = "failure" ∨ ToLower (TrimSpace st.State) = "error" →
          (g.checksSummary sha w).1 = "failure") ∧
        (ToLower (TrimSpace st.State) = "pending" → (g.checksSummary sha w).1 = "pending") ∧
        (ToLower (TrimSpace st.State) ∉ ["success", "failure", "error", "pending"] →
          (g.checksSummary sha w).1 = "none"))) ∧
    (∀ (prevSeen : String) (opts : Options) (w0 : W) (pr : githubPRResp),
      (g.HTTP.Get g.prURL g.headers w0).1.2 = none →
      GoLib.unmarshalPR (g.HTTP.Get g.prURL g.headers w0).1.1 = .ok pr →
      TrimSpace pr.Head.SHA ≠ "" → (g.Check prevSeen opts w0).1.2 = none) ∧
    (@githubPR.checksSummary _ sampleLib
      (samplePRProbe [(statusURL "abc", pendingStatusBody)]) "abc" []).1
      = "pending" := by
  rw [checksSummary_of_failed_query g sha w e hsha hfail]
  refine ⟨?_, ?_, ?_, by decide⟩
  · intro hne
    unfold githubPR.statusSummary
    cases hq : (g.HTTP.Get (g.statusURL (TrimSpace sha)) g.headers
        (g.HTTP.Get (g.checkURL (TrimSpace sha)) g.headers w).2).1.2 with
    | none => exact absurd hq hne
    | some e2 => simp only [hq]
  · intro hq
    unfold githubPR.statusSummary
    simp only [hq]
    refine ⟨?_, ?_⟩
    · intro err herr
      simp only [herr]
    · intro st hst
      simp only [hst, combinedStatusSummary]
      refine ⟨?_, ?_, ?_, ?_⟩
      · intro h
        simp only [h, if_true]
      · intro h
        have h1 : ToLower (TrimSpace st.State) ≠ "success" := by
          rcases h with h | h <;> rw [h] <;> decide
        simp only [h1, h, if_false, if_true]
      · intro h
        have h1 : ¬ (("pending" : String) = "success") := by decide
        have h2 : ¬ (("pending" : String) = "failure" ∨ ("pending" : String) = "error") := by
          decide
        simp only [h, h1, h2, if_false, if_true]
      · intro h
        simp only [List.mem_cons, List.mem_singleton, List.not_mem_nil, or_false, not_or] at h
        obtain ⟨h1, h2, h3, h4⟩ := h
        simp only [h1, h2, h3, h4, or_self, if_false]
  · intro prevSeen opts w0 pr hget hpr hs
    exact (githubPR_Check_of_pr g prevSeen opts w0 pr hget hpr hs).1

/-- C14 at the probe of the test when the check-runs address is not served
    and the status is `"state":"pending"`: the summary is "pending" and `Check`
    succeeds. -/
theorem C14_combined_status_fallback_witness :
    (@githubPR.checksSummary _ sampleLib
        (samplePRProbe [(statusURL "abc", pendingStatusBody)]) "abc" []).1
        = "pending" ∧
      (@githubPR.Check _ sampleLib
        (samplePRProbe
          [(samplePRURL, prBody),
           (statusURL "aaaaaaaaaaaaaaaaaaaaaaaaaaaaaaaaaaaaaaaa", pendingStatusBody)])
        "" {} []).1.2 = none :=
  have h := @C14_combined_status_fallback _ sampleLib
    (samplePRProbe
      [(samplePRURL, prBody),
       (statusURL "aaaaaaaaaaaaaaaaaaaaaaaaaaaaaaaaaaaaaaaa", pendingStatusBody)])
    "aaaaaaaaaaaaaaaaaaaaaaaaaaaaaaaaaaaaaaaa" [samplePRURL] { Error := "http 404" }
    (by decide) (by decide)
  ⟨h.2.2.2, h.2.2.1 "" {} [] samplePR (by decide) rfl (by decide)⟩

/-! ## The current value of a pull request -/
/-- A text with a non-empty first part is not empty. -/
theorem append_ne_empty (a b : String) (h : a ≠ "") : a ++ b ≠ "" := by
  intro heq
  apply h
  have hd := congrArg String.data heq
  rw [String.data_append] at hd
  exact String.ext (List.append_eq_nil.mp hd).1

/-- A text that is not blank is not empty. -/
theorem ne_empty_of_TrimSpace_ne_empty (s : String) (h : TrimSpace s ≠ "") : s ≠ "" := by
  intro heq
  apply h
  rw [heq]
  decide

/-- C15: a pull-request check that succeeds has `Current` equal to
    `<state>|draft=<true|false>|checks=<summary>`, the state being "merged"
    when the merged flag is set, else the trimmed state in lower case, else
    "unknown"; it carries a non-empty "pr" link; and a second check whose
    response differs from the first only in its head SHA, with the same checks
    summary, has the same `Current`. -/
theorem C15_pr_current_ignores_head_sha [GoLib] (g : githubPR W) (prevSeen : String)
    (opts : Options) (w : W) (pr : githubPRResp)
    (hget : (g.HTTP.Get g.prURL g.headers w).1.2 = none)
    (hpr : GoLib.unmarshalPR (g.HTTP.Get g.prURL g.headers w).1.1 = .ok pr)
    (hsha : TrimSpace pr.Head.SHA ≠ "") :
    (g.Check prevSeen opts w).1.2 = none ∧
    (g.Check prevSeen opts w).1.1.Current =
      prStateWord pr ++ "|draft=" ++ formatBool pr.Draft ++ "|checks=" ++
        (g.checksSummary pr.Head.SHA (g.HTTP.Get g.prURL g.headers w).2).1 ∧
    mapGet (g.Check prevSeen opts w).1.1.Links "pr" ≠ "" ∧
    (∀ (g2 : githubPR W) (prev2 : String) (opts2 : Options) (w2 : W) (sha2 : String),
      (g2.HTTP.Get g2.prURL g2.headers w2).1.2 = none →
      GoLib.unmarshalPR (g2.HTTP.Get g2.prURL g2.headers w2).1.1 =
        .ok { pr with Head := { SHA := sha2 } } →
      TrimSpace sha2 ≠ "" →
      (g2.checksSummary sha2 (g2.HTTP.Get g2.prURL g2.headers w2).2).1 =
        (g.checksSummary pr.Head.SHA (g.HTTP.Get g.prURL g.headers w).2).1 →
      (g2.Check prev2 opts2 w2).1.1.Current = (g.Check prevSeen opts w).1.1.Current) := by
  obtain ⟨herr, hcur, hlinks⟩ := githubPR_Check_of_pr g prevSeen opts w pr hget hpr hsha
  have hstate : ∀ p : githubPRResp,
      (if (if p.Merged = true then "merged" else ToLower (TrimSpace p.State)) = "" then "unknown"
        else if p.Merged = true then "merged" else ToLower (TrimSpace p.State)) =
        prStateWord p := by
    intro p
    unfold prStateWord
    cases p.Merged
    · by_cases h : ToLower (TrimSpace p.State) = ""
      · simp [h]
      · simp [h]
    · have : ¬ (("merged" : String) = "") := by decide
      simp [this]
  rw [hstate] at hcur
  refine ⟨herr, hcur, ?_, ?_⟩
  · rw [hlinks]
    have hlook : ∀ a b : String, mapGet [("repo", a), ("pr", b)] "pr" = b := by
      intro a b
      have hne : (("pr" : String) == "repo") = false := by decide
      simp [mapGet, List.lookup, hne]
    rw [hlook]
    split
    · rw [String.append_assoc, String.append_assoc]
      exact append_ne_empty _ _ (by decide)
    · rename_i hurl
      exact ne_empty_of_TrimSpace_ne_empty _ hurl
  · intro g2 prev2 opts2 w2 sha2 hget2 hpr2 hsha2 hsum
    obtain ⟨_, hcur2, _⟩ := githubPR_Check_of_pr g2 prev2 opts2 w2
      { pr with Head := { SHA := sha2 } } hget2 hpr2 hsha2
    rw [hstate] at hcur2
    rw [hcur2, hcur]
    show prStateWord { pr with Head := { SHA := sha2 } } ++ "|draft=" ++ formatBool pr.Draft ++
      "|checks=" ++ (g2.checksSummary sha2 (g2.HTTP.Get g2.prURL g2.headers w2).2).1 = _
    rw [hsum]
    rfl

/-- C15 at the probe of `TestGitHubPRCurrentSeenIgnoresHeadSHA`: the value
    the test expects, and a "pr" link. -/
theorem C15_pr_current_ignores_head_sha_witness :
    (@githubPR.Check _ sampleLib
        (samplePRProbe [(samplePRURL, prBody),
          (checkRunsURL "aaaaaaaaaaaaaaaaaaaaaaaaaaaaaaaaaaaaaaaa", oneCheckRunBody)])
        "anything" {} []).1.1.Current = "open|draft=false|checks=success" ∧
      mapGet (@githubPR.Check _ sampleLib
        (samplePRProbe [(samplePRURL, prBody),
          (checkRunsURL "aaaaaaaaaaaaaaaaaaaaaaaaaaaaaaaaaaaaaaaa", oneCheckRunBody)])
        "anything" {} []).1.1.Links "pr" ≠ "" :=
  have h := @C15_pr_current_ignores_head_sha _ sampleLib
    (samplePRProbe [(samplePRURL, prBody),
      (checkRunsURL "aaaaaaaaaaaaaaaaaaaaaaaaaaaaaaaaaaaaaaaa", oneCheckRunBody)])
    "anything" {} [] samplePR (by decide) rfl (by decide)
  ⟨h.2.1.trans (by decide), h.2.2.1⟩

/-! ## The release probe -/
/-- After `m[k] = v` the key `k` holds `v`. -/
theorem lookup_mapSet_self (m : Links) (k v : String) : (mapSet m k v).lookup k = some v := by
  induction m with
  | nil => simp [mapSet, List.lookup]
  | cons e rest ih =>
    unfold mapSet
    by_cases he : e.1 = k
    · simp [he, List.lookup]
    · have hbeq : (k == e.1) = false := by
        simpa using fun h => he h.symm
      simp only [he, if_false, List.lookup, hbeq]
      exact ih

/-- The assignment `m[k] = v` leaves the other keys as they are. -/
theorem lookup_mapSet_ne (m : Links) (k v k2 : String) (hne : k2 ≠ k) :
    (mapSet m k v).lookup k2 = m.lookup k2 := by
  have hbeq : (k2 == k) = false := by simpa using hne
  induction m with
  | nil => simp [mapSet, List.lookup, hbeq]
  | cons e rest ih =>
    unfold mapSet
    by_cases he : e.1 = k
    · have hb2 : (k2 == e.1) = false := by rw [he]; exact hbeq
      simp only [he, if_true, List.lookup, hbeq, hb2]
    · simp only [he, if_false, List.lookup]
      cases (k2 == e.1)
      · exact ih
      · rfl

/-- The loop over the links of an entry finds the `href` of the first link
    whose `rel` is empty or `alternate`. -/
theorem releaseLinkLoop_eq (links : List atomLink) :
    releaseLinkLoop links =
      ((links.find? (fun l => decide (l.Rel = "" ∨ l.Rel = "alternate"))).map
        atomLink.Href).getD "" := by
  induction links with
  | nil => rfl
  | cons l rest ih =>
    unfold releaseLinkLoop
    by_cases h : l.Rel = "" ∨ l.Rel = "alternate"
    · simp [List.find?, h]
    · simp only [h, if_false, List.find?, decide_False]
      exact ih

/-- The release link that the code selects is the one the amended claim
    describes. -/
theorem releaseLinkOf_eq (links : List atomLink) : releaseLinkOf links = selectedHref links := by
  unfold releaseLinkOf selectedHref
  cases links with
  | nil => rfl
  | cons first rest =>
    simp only [releaseLinkLoop_eq, List.head?_cons, Option.map_some', Option.getD_some]
    cases hf : List.find? (fun l => decide (l.Rel = "" ∨ l.Rel = "alternate")) (first :: rest) with
    | none => simp
    | some l =>
      by_cases hh : l.Href = ""
      · simp [hh]
      · simp [hh]

/-- What the release probe returns for a feed that is fetched and decoded and
    has a first entry. -/
theorem release_Check_of_entry [GoLib] (g : githubReleaseOrCommit W) (prevSeen : String)
    (opts : Options) (w : W) (feed : atomFeed) (entry : atomEntry) (rest : List atomEntry)
    (hget : (g.HTTP.Get g.feedURL [("User-Agent", g.UserAgent)] w).1.2 = none)
    (hfeed : GoLib.unmarshalAtomFeed (g.HTTP.Get g.feedURL [("User-Agent", g.UserAgent)] w).1.1
      = .ok feed)
    (hentries : feed.Entries = entry :: rest) :
    g.Check prevSeen opts w =
      if entryTitle entry = "" then
        (({}, some { Error := "atom: missing entry title/id" }),
          (g.HTTP.Get g.feedURL [("User-Agent", g.UserAgent)] w).2)
      else
        (({ Current := entryTitle entry,
            Message := if TrimSpace prevSeen ≠ "" ∧ TrimSpace prevSeen ≠ entryTitle entry then
                "new release " ++ entryTitle entry
              else "latest release " ++ entryTitle entry,
            Links := if releaseLinkOf entry.Links ≠ "" then
                mapSet [("repo", g.repoURL), ("feed", g.feedURL)] "release"
                  (releaseLinkOf entry.Links)
              else [("repo", g.repoURL), ("feed", g.feedURL)],
            Highlights := if TrimSpace prevSeen ≠ "" ∧ TrimSpace prevSeen ≠ entryTitle entry ∧
                opts.IncludeNotes = true then extractHighlightsFromHTML entry.Content.Body
              else "" }, none),
          (g.HTTP.Get g.feedURL [("User-Agent", g.UserAgent)] w).2) := by
  unfold githubReleaseOrCommit.Check
  simp only [hget, hfeed, hentries, entryTitle]

/-- C16 as stated fails: the first entry of the feed has a link, with `rel`
    `alternate` and without `href`, and the result has no "release" link. -/
theorem C16_counterexample :
    entryWithoutHref.Links.length = 1 ∧
      (@githubReleaseOrCommit.Check _ sampleLib
        (sampleReleaseProbe [(sampleFeedURL, feedWithoutHrefBody)]) "" {} []).1.2 = none ∧
      (@githubReleaseOrCommit.Check _ sampleLib
        (sampleReleaseProbe [(sampleFeedURL, feedWithoutHrefBody)]) "" {} []).1.1.Links.lookup
        "release" = none :=
  ⟨rfl, by decide, by decide⟩

/-- C16, amended: for a release feed with at least one entry, `Current` is
    the trimmed title of the first entry, or its trimmed id when the title is
    blank, and `Check` fails when both are blank; the links of the result
    contain "repo" and "feed", and a "release" link exactly when the selected
    `href` is not empty, equal to it; the selected `href` is that of the first
    link whose `rel` is empty or `alternate` when it is not empty, and else
    that of the first link. -/
theorem C16_release_current_and_links [GoLib] (g : githubReleaseOrCommit W) (prevSeen : String)
    (opts : Options) (w : W) (feed : atomFeed) (entry : atomEntry) (rest : List atomEntry)
    (hget : (g.HTTP.Get g.feedURL [("User-Agent", g.UserAgent)] w).1.2 = none)
    (hfeed : GoLib.unmarshalAtomFeed (g.HTTP.Get g.feedURL [("User-Agent", g.UserAgent)] w).1.1
      = .ok feed)
    (hentries : feed.Entries = entry :: rest) :
    (TrimSpace entry.Title ≠ "" →
      (g.Check prevSeen opts w).1.2 = none ∧
      (g.Check prevSeen opts w).1.1.Current = TrimSpace entry.Title) ∧
    (TrimSpace entry.Title = "" → TrimSpace entry.ID ≠ "" →
      (g.Check prevSeen opts w).1.2 = none ∧
      (g.Check prevSeen opts w).1.1.Current = TrimSpace entry.ID) ∧
    (TrimSpace entry.Title = "" → TrimSpace entry.ID = "" →
      (g.Check prevSeen opts w).1.2 ≠ none) ∧
    ((g.Check prevSeen opts w).1.2 = none →
      (g.Check prevSeen opts w).1.1.Links.lookup "repo" = some g.repoURL ∧
      (g.Check prevSeen opts w).1.1.Links.lookup "feed" = some g.feedURL ∧
      (selectedHref entry.Links ≠ "" →
        (g.Check prevSeen opts w).1.1.Links.lookup "release" = some (selectedHref entry.Links)) ∧
      (selectedHref entry.Links = "" →
        (g.Check prevSeen opts w).1.1.Links.lookup "release" = none)) := by
  rw [release_Check_of_entry g prevSeen opts w feed entry rest hget hfeed hentries,
    releaseLinkOf_eq]
  have hrepo : ∀ a b : String, ([("repo", a), ("feed", b)] : Links).lookup "repo" = some a := by
    intro a b
    simp [List.lookup]
  have hfeedk : ∀ a b : String, ([("repo", a), ("feed", b)] : Links).lookup "feed" = some b := by
    intro a b
    have hne : (("feed" : String) == "repo") = false := by decide
    simp [List.lookup, hne]
  have hrel : ∀ a b : String, ([("repo", a), ("feed", b)] : Links).lookup "release" = none := by
    intro a b
    have h1 : (("release" : String) == "repo") = false := by decide
    have h2 : (("release" : String) == "feed") = false := by decide
    simp [List.lookup, h1, h2]
  refine ⟨?_, ?_, ?_, ?_⟩
  · intro ht
    have : entryTitle entry = TrimSpace entry.Title := by
      unfold entryTitle
      rw [if_neg ht]
    rw [this, if_neg ht]
    exact ⟨rfl, rfl⟩
  · intro ht hid
    have : entryTitle entry = TrimSpace entry.ID := by
      unfold entryTitle
      rw [if_pos ht]
    rw [this, if_neg hid]
    exact ⟨rfl, rfl⟩
  · intro ht hid
    have : entryTitle entry = "" := by
      unfold entryTitle
      rw [if_pos ht, hid]
    rw [if_pos this]
    exact Option.some_ne_none _
  · by_cases ht : entryTitle entry = ""
    · rw [if_pos ht]
      intro h
      exact absurd h (Option.some_ne_none _)
    · rw [if_neg ht]
      intro _
      by_cases hs : selectedHref entry.Links = ""
      · simp only [hs, ne_eq, not_true_eq_false, if_false]
        exact ⟨hrepo _ _, hfeedk _ _, fun h => h.elim, fun _ => hrel _ _⟩
      · simp only [ne_eq, hs, not_false_eq_true, if_true]
        refine ⟨?_, ?_, fun _ => lookup_mapSet_self _ _ _, fun h => h.elim⟩
        · rw [lookup_mapSet_ne _ _ _ _ (by decide)]
          exact hrepo _ _
        · rw [lookup_mapSet_ne _ _ _ _ (by decide)]
          exact hfeedk _ _

/-- C16, amended, at the feed of `TestGitHubAtomParsing`: the current value
    is `v1.2.3` and the release link is the `href` of the `alternate` link. -/
theorem C16_release_current_and_links_witness :
    (@githubReleaseOrCommit.Check _ sampleLib
        (sampleReleaseProbe [(sampleFeedURL, feedBody)]) "v1.0.0" { IncludeNotes := true }
        []).1.1.Current = "v1.2.3" ∧
      (@githubReleaseOrCommit.Check _ sampleLib
        (sampleReleaseProbe [(sampleFeedURL, feedBody)]) "v1.0.0" { IncludeNotes := true }
        []).1.1.Links.lookup "release" = some "https://github.com/a/b/releases/tag/v1.2.3" :=
  have h := @C16_release_current_and_links _ sampleLib
    (sampleReleaseProbe [(sampleFeedURL, feedBody)]) "v1.0.0" { IncludeNotes := true } []
    { Entries := [sampleEntry] } sampleEntry [] (by decide) rfl rfl
  have h1 := h.1 (by decide)
  ⟨h1.2.trans (by decide), ((h.2.2.2 h1.1).2.2.1 (by decide)).trans (by decide)⟩

/-- What the release probe returns for a feed that is fetched and decoded and
    has no entry. -/
theorem release_Check_of_no_entry [GoLib] (g : githubReleaseOrCommit W) (prevSeen : String)
    (opts : Options) (w : W) (feed : atomFeed)
    (hget : (g.HTTP.Get g.feedURL [("User-Agent", g.UserAgent)] w).1.2 = none)
    (hfeed : GoLib.unmarshalAtomFeed (g.HTTP.Get g.feedURL [("User-Agent", g.UserAgent)] w).1.1
      = .ok feed)
    (hentries : feed.Entries = []) :
    g.Check prevSeen opts w =
      match (g.Fallback.Check prevSeen opts
          (g.HTTP.Get g.feedURL [("User-Agent", g.UserAgent)] w).2).1.2 with
      | some err =>
        (({}, some (wrapErr "no releases; fallback commit failed: " err)),
          (g.Fallback.Check prevSeen opts
            (g.HTTP.Get g.feedURL [("User-Agent", g.UserAgent)] w).2).2)
      | none =>
        (({ Current := (g.Fallback.Check prevSeen opts
                (g.HTTP.Get g.feedURL [("User-Agent", g.UserAgent)] w).2).1.1.Current,
            Message := "no releases; " ++ (g.Fallback.Check prevSeen opts
                (g.HTTP.Get g.feedURL [("User-Agent", g.UserAgent)] w).2).1.1.Message,
            Links := mapSet (g.Fallback.Check prevSeen opts
                (g.HTTP.Get g.feedURL [("User-Agent", g.UserAgent)] w).2).1.1.Links
              "feed" g.feedURL,
            Highlights := (g.Fallback.Check prevSeen opts
                (g.HTTP.Get g.feedURL [("User-Agent", g.UserAgent)] w).2).1.1.Highlights }, none),
          (g.Fallback.Check prevSeen opts
            (g.HTTP.Get g.feedURL [("User-Agent", g.UserAgent)] w).2).2) := by
  unfold githubReleaseOrCommit.Check
  simp only [hget, hfeed, hentries]

/-- C17: for a source of type `github` and mode `release`, `Registry.Build`
    gives a probe which, when the feed is fetched and decoded and has no
    entry, returns what the commit probe of the same registry returns for the
    repository and the configured branch, "main" when no branch is configured,
    called with the same previous value and options after the fetch: the same
    current value and highlights, the message behind the text "no releases; ",
    and the links with the key "feed" set to the address of the feed and the
    other keys as they are; if the commit probe fails, the release probe fails. -/
theorem C17_no_releases_fall_back_to_commit [GoLib] (r : trackers.Registry W)
    (cfg : TrackerEntry) (prevSeen : String) (opts : Options) (w : W) (feed : atomFeed)
    (htype : cfg.Type_ = "github") (hmode : cfg.Mode = "release")
    (hget : (r.HTTP.Get ("https://github.com/" ++ cfg.Repo ++ "/releases.atom")
      [("User-Agent", r.UserAgent)] w).1.2 = none)
    (hfeed : GoLib.unmarshalAtomFeed (r.HTTP.Get
      ("https://github.com/" ++ cfg.Repo ++ "/releases.atom")
      [("User-Agent", r.UserAgent)] w).1.1 = .ok feed)
    (hentries : feed.Entries = []) :
    ∃ tr : Tracker W, r.Build cfg = .ok tr ∧
      ∀ fb : (Result × Option GoError) × W,
        fb = githubCommit.Check
          { Exec := r.Exec, Repo := cfg.Repo,
            Branch := if cfg.Branch = "" then "main" else cfg.Branch }
          prevSeen opts
          (r.HTTP.Get ("https://github.com/" ++ cfg.Repo ++ "/releases.atom")
            [("User-Agent", r.UserAgent)] w).2 →
        (fb.1.2 = none →
          (tr.Check prevSeen opts w).1.2 = none ∧
          (tr.Check prevSeen opts w).1.1.Current = fb.1.1.Current ∧
          (tr.Check prevSeen opts w).1.1.Highlights = fb.1.1.Highlights ∧
          (tr.Check prevSeen opts w).1.1.Message = "no releases; " ++ fb.1.1.Message ∧
          (tr.Check prevSeen opts w).1.1.Links.lookup "feed" =
            some ("https://github.com/" ++ cfg.Repo ++ "/releases.atom") ∧
          (∀ k, k ≠ "feed" →
            (tr.Check prevSeen opts w).1.1.Links.lookup k = fb.1.1.Links.lookup k) ∧
          (tr.Check prevSeen opts w).2 = fb.2) ∧
        (fb.1.2 ≠ none → (tr.Check prevSeen opts w).1.2 ≠ none) := by
  let g : githubReleaseOrCommit W :=
    { HTTP := r.HTTP, Exec := r.Exec, UserAgent := r.UserAgent, Repo := cfg.Repo,
      Fallback := { Exec := r.Exec, Repo := cfg.Repo,
                    Branch := if cfg.Branch = "" then "main" else cfg.Branch } }
  refine ⟨{ Check := g.Check }, ?_, ?_⟩
  · unfold trackers.Registry.Build
    rw [if_pos htype, if_neg (by rw [hmode]; decide), if_pos hmode]
  · intro fb hfb
    simp only
    rw [release_Check_of_no_entry g prevSeen opts w feed hget hfeed hentries]
    simp only [githubReleaseOrCommit.feedURL, githubReleaseOrCommit.repoURL]
    rw [← hfb]
    cases hq : fb.1.2 with
    | some err =>
      refine ⟨fun h => absurd h (Option.some_ne_none _), fun _ => ?_⟩
      exact Option.some_ne_none _
    | none =>
      refine ⟨fun _ => ⟨rfl, rfl, rfl, rfl, lookup_mapSet_self _ _ _, ?_, rfl⟩,
        fun h => absurd rfl h⟩
      intro k hk
      exact lookup_mapSet_ne _ _ _ _ hk

/-- C17 at a release source of the repository `a/b` without a branch, whose
    feed has no entry: the probe reports the commit of the branch `main`. -/
theorem C17_no_releases_fall_back_to_commit_witness :
    ∃ tr : Tracker (List String),
      @trackers.Registry.Build _ sampleLib
        { HTTP := tableFetcher [(sampleFeedURL, emptyFeedBody)], Exec := lsRemoteExec,
          UserAgent := "x" } releaseAB = .ok tr ∧
      (tr.Check "" {} []).1.2 = none ∧
      (tr.Check "" {} []).1.1.Current = "3f2a9c1d4e5b6a7f8091a2b3c4d5e6f708192a3b" ∧
      (tr.Check "" {} []).1.1.Message = "no releases; latest commit on main (3f2a9c1d4e5b)" ∧
      (tr.Check "" {} []).1.1.Links.lookup "feed" = some sampleFeedURL :=
  have h := @C17_no_releases_fall_back_to_commit _ sampleLib
    { HTTP := tableFetcher [(sampleFeedURL, emptyFeedBody)], Exec := lsRemoteExec,
      UserAgent := "x" } releaseAB "" {} [] { Entries := [] } rfl rfl (by decide) rfl rfl
  h.elim fun tr htr =>
    have hc := (htr.2 _ rfl).1 (by decide)
    ⟨tr, htr.1, hc.1, hc.2.1.trans (by decide), hc.2.2.2.1.trans (by decide),
      hc.2.2.2.2.1.trans (by decide)⟩

/-! ## Messages and highlights of the release probe -/
/-- Trimming a trimmed list of code points changes nothing. -/
theorem trimSpaceList_idem (l : List Char) : trimSpaceList (trimSpaceList l) = trimSpaceList l := by
  unfold trimSpaceList
  have hr : ∀ m : List Char, trimRight m = List.rdropWhile isSpace m := fun _ => rfl
  have hd : List.dropWhile isSpace (trimRight (List.dropWhile isSpace l)) =
      trimRight (List.dropWhile isSpace l) := by
    cases hm : List.dropWhile isSpace l with
    | nil => rfl
    | cons a t =>
      have ha : isSpace a = false := by
        have := List.head_dropWhile_not isSpace l (by rw [hm]; exact List.cons_ne_nil _ _)
        simpa [hm] using this
      obtain ⟨s, hs⟩ := trimRight_initial (a :: t)
      cases ht : trimRight (a :: t) with
      | nil => rfl
      | cons b u =>
        rw [ht] at hs
        have hb : b = a := by
          have := congrArg List.head? hs
          simpa using this
        rw [hb, List.dropWhile_cons_of_neg (by rw [ha]; exact Bool.false_ne_true)]
  rw [hd, hr, hr, List.rdropWhile_idempotent]

/-- Trimming a trimmed text changes nothing. -/
theorem TrimSpace_idem (s : String) : TrimSpace (TrimSpace s) = TrimSpace s := by
  unfold TrimSpace
  rw [trimSpaceList_idem]

/-- The commit probe never sets highlights. -/
theorem githubCommit_Check_highlights (g : githubCommit W) (prevSeen : String) (opts : Options)
    (w : W) : (g.Check prevSeen opts w).1.1.Highlights = "" := by
  unfold githubCommit.Check
  simp only
  split
  · rfl
  · split <;> rfl

/-- The title of an entry is a trimmed text. -/
theorem entryTitle_trimmed (entry : atomEntry) : TrimSpace (entryTitle entry) = entryTitle entry := by
  unfold entryTitle
  split <;> exact TrimSpace_idem _

/-- The release probe sets highlights only on the path of a feed with an
    entry, when notes are requested and a previous value is there that is not
    the current value. -/
theorem release_highlights_only_when [GoLib] (g : githubReleaseOrCommit W) (prevSeen : String)
    (opts : Options) (w : W) (h : (g.Check prevSeen opts w).1.1.Highlights ≠ "") :
    opts.IncludeNotes = true ∧ TrimSpace prevSeen ≠ "" ∧
      TrimSpace prevSeen ≠ (g.Check prevSeen opts w).1.1.Current ∧
      ∃ feed entry rest,
        GoLib.unmarshalAtomFeed (g.HTTP.Get g.feedURL [("User-Agent", g.UserAgent)] w).1.1
          = .ok feed ∧ feed.Entries = entry :: rest ∧
        (g.Check prevSeen opts w).1.1.Current = entryTitle entry ∧
        (g.Check prevSeen opts w).1.1.Highlights =
          extractHighlightsFromHTML entry.Content.Body := by
  cases hget : (g.HTTP.Get g.feedURL [("User-Agent", g.UserAgent)] w).1.2 with
  | some err =>
    exfalso
    apply h
    unfold githubReleaseOrCommit.Check
    simp only [hget]
  | none =>
    cases hfeed : GoLib.unmarshalAtomFeed
        (g.HTTP.Get g.feedURL [("User-Agent", g.UserAgent)] w).1.1 with
    | error err =>
      exfalso
      apply h
      unfold githubReleaseOrCommit.Check
      simp only [hget, hfeed]
    | ok feed =>
      cases hentries : feed.Entries with
      | nil =>
        exfalso
        apply h
        rw [release_Check_of_no_entry g prevSeen opts w feed hget hfeed hentries]
        split
        · rfl
        · exact githubCommit_Check_highlights _ _ _ _
      | cons entry rest =>
        rw [release_Check_of_entry g prevSeen opts w feed entry rest hget hfeed hentries] at h ⊢
        by_cases ht : entryTitle entry = ""
        · rw [if_pos ht] at h
          exact absurd rfl h
        · rw [if_neg ht] at h ⊢
          by_cases hc : TrimSpace prevSeen ≠ "" ∧ TrimSpace prevSeen ≠ entryTitle entry ∧
              opts.IncludeNotes = true
          · refine ⟨hc.2.2, hc.1, hc.2.1, feed, entry, rest, rfl, hentries, rfl, ?_⟩
            simp only [hc, ne_eq, not_false_eq_true, and_self, if_true]
          · simp only [hc, if_false] at h
            exact absurd rfl h

/-- C18: the release probe returns non-empty highlights only when notes are
    requested and there is a previous value (the trimmed `prevSeen` is not
    empty) that differs from the current value; such a `prevSeen` also differs
    from the current value as it stands.  For a feed with an entry a check that
    succeeds has the message "new release <title>" when there is a previous
    value that differs from the title, and "latest release <title>" otherwise,
    the title being the current value.  On a first run (no previous value)
    with the title `v1.2.3` the current value is `v1.2.3`, the message is
    "latest release v1.2.3" and there are no highlights; and the runner reports
    the status "ok" for such a source, with notes requested. -/
theorem C18_release_message_and_highlights [GoLib] (g : githubReleaseOrCommit W)
    (prevSeen : String) (opts : Options) (w : W) :
    ((g.Check prevSeen opts w).1.1.Highlights ≠ "" →
      opts.IncludeNotes = true ∧ TrimSpace prevSeen ≠ "" ∧
      TrimSpace prevSeen ≠ (g.Check prevSeen opts w).1.1.Current ∧
      prevSeen ≠ (g.Check prevSeen opts w).1.1.Current) ∧
    (∀ (feed : atomFeed) (entry : atomEntry) (rest : List atomEntry),
      (g.HTTP.Get g.feedURL [("User-Agent", g.UserAgent)] w).1.2 = none →
      GoLib.unmarshalAtomFeed (g.HTTP.Get g.feedURL [("User-Agent", g.UserAgent)] w).1.1
        = .ok feed →
      feed.Entries = entry :: rest →
      (g.Check prevSeen opts w).1.2 = none →
      (g.Check prevSeen opts w).1.1.Current = entryTitle entry ∧
      (TrimSpace prevSeen ≠ "" ∧ TrimSpace prevSeen ≠ entryTitle entry →
        (g.Check prevSeen opts w).1.1.Message = "new release " ++ entryTitle entry) ∧
      (¬ (TrimSpace prevSeen ≠ "" ∧ TrimSpace prevSeen ≠ entryTitle entry) →
        (g.Check prevSeen opts w).1.1.Message = "latest release " ++ entryTitle entry ∧
        (g.Check prevSeen opts w).1.1.Highlights = "") ∧
      (TrimSpace prevSeen = "" → entryTitle entry = "v1.2.3" →
        (g.Check prevSeen opts w).1.1.Current = "v1.2.3" ∧
        (g.Check prevSeen opts w).1.1.Message = "latest release v1.2.3" ∧
        (g.Check prevSeen opts w).1.1.Highlights = "")) ∧
    (@runOne _ sampleLib (@tableRunner sampleLib [(sampleFeedURL, feedBody)]) releaseAB {}
        []).1.1.Status = "ok" ∧
    (@runOne _ sampleLib (@tableRunner sampleLib [(sampleFeedURL, feedBody)]) releaseAB {}
        []).1.1.Current = "v1.2.3" ∧
    (@runOne _ sampleLib (@tableRunner sampleLib [(sampleFeedURL, feedBody)]) releaseAB {}
        []).1.1.Message = "latest release v1.2.3" ∧
    (@runOne _ sampleLib (@tableRunner sampleLib [(sampleFeedURL, feedBody)]) releaseAB {}
        []).1.1.Highlights = "" := by
  refine ⟨?_, ?_, by decide, by decide, by decide, by decide⟩
  · intro h
    obtain ⟨hn, hp, hd, feed, entry, rest, _, _, hcur, _⟩ :=
      release_highlights_only_when g prevSeen opts w h
    refine ⟨hn, hp, hd, ?_⟩
    intro heq
    apply hd
    rw [hcur] at heq ⊢
    rw [heq]
    exact entryTitle_trimmed entry
  · intro feed entry rest hget hfeed hentries
    rw [release_Check_of_entry g prevSeen opts w feed entry rest hget hfeed hentries]
    by_cases ht : entryTitle entry = ""
    · rw [if_pos ht]
      intro herr
      exact absurd herr (Option.some_ne_none _)
    · rw [if_neg ht]
      intro _
      refine ⟨rfl, ?_, ?_, ?_⟩
      · intro hc
        simp only [hc, ne_eq, not_false_eq_true, and_self, if_true]
      · intro hc
        have hc2 : ¬ (TrimSpace prevSeen ≠ "" ∧ TrimSpace prevSeen ≠ entryTitle entry ∧
            opts.IncludeNotes = true) := fun h => hc ⟨h.1, h.2.1⟩
        simp only [hc, hc2, if_false, and_self]
      · intro hp hv
        have hc : ¬ (TrimSpace prevSeen ≠ "" ∧ TrimSpace prevSeen ≠ entryTitle entry) :=
          fun h => h.1 hp
        have hc2 : ¬ (TrimSpace prevSeen ≠ "" ∧ TrimSpace prevSeen ≠ entryTitle entry ∧
            opts.IncludeNotes = true) := fun h => h.1 hp
        rw [if_neg hc, if_neg hc2, hv]
        have hm : "latest release " ++ "v1.2.3" = "latest release v1.2.3" := by decide
        exact ⟨rfl, hm, rfl⟩

/-- C18 at the feed of `TestGitHubAtomParsing`: on a first run the message is
    "latest release v1.2.3" without highlights, and after `v1.0.0` the message
    is "new release v1.2.3". -/
theorem C18_release_message_and_highlights_witness :
    (@githubReleaseOrCommit.Check _ sampleLib
        (sampleReleaseProbe [(sampleFeedURL, feedBody)]) "" { IncludeNotes := true }
        []).1.1.Message = "latest release v1.2.3" ∧
      (@githubReleaseOrCommit.Check _ sampleLib
        (sampleReleaseProbe [(sampleFeedURL, feedBody)]) "" { IncludeNotes := true }
        []).1.1.Highlights = "" ∧
      (@githubReleaseOrCommit.Check _ sampleLib
        (sampleReleaseProbe [(sampleFeedURL, feedBody)]) "v1.0.0" { IncludeNotes := true }
        []).1.1.Message = "new release v1.2.3" :=
  have h0 := (@C18_release_message_and_highlights _ sampleLib
    (sampleReleaseProbe [(sampleFeedURL, feedBody)]) "" { IncludeNotes := true } []).2.1
    { Entries := [sampleEntry] } sampleEntry [] (by decide) rfl rfl (by decide)
  have h1 := (@C18_release_message_and_highlights _ sampleLib
    (sampleReleaseProbe [(sampleFeedURL, feedBody)]) "v1.0.0" { IncludeNotes := true } []).2.1
    { Entries := [sampleEntry] } sampleEntry [] (by decide) rfl rfl (by decide)
  have hf := h0.2.2.2 (by decide) (by decide)
  ⟨hf.2.1, hf.2.2, (h1.2.1 (by decide)).trans (by decide)⟩

/-! ## The length of the highlights -/
/-- The length in bytes of two lists laid end to end. -/
theorem utf8Len_append (a b : List Char) : utf8Len (a ++ b) = utf8Len a + utf8Len b := by
  induction a with
  | nil => simp [utf8Len]
  | cons c cs ih => simp [utf8Len, ih, Nat.add_assoc]

/-- A list has at most as many code points as bytes. -/
theorem length_le_utf8Len (l : List Char) : l.length ≤ utf8Len l := by
  induction l with
  | nil => exact Nat.le_refl _
  | cons c cs ih =>
    have := Char.utf8Size_pos c
    simp only [utf8Len, List.length_cons]
    omega

/-- The slice `l[:n]` has at most `n` bytes. -/
theorem utf8Len_takeBytes_le (n : Nat) (l : List Char) : utf8Len (takeBytes n l) ≤ n := by
  induction l generalizing n with
  | nil => simp [takeBytes, utf8Len]
  | cons c cs ih =>
    unfold takeBytes
    split
    · have := ih (n - c.utf8Size)
      simp only [utf8Len]
      omega
    · simp [utf8Len]

/-- The slice `l[:n]` is an initial part of `l`. -/
theorem takeBytes_initial (n : Nat) (l : List Char) : takeBytes n l <+: l := by
  induction l generalizing n with
  | nil => exact List.prefix_refl _
  | cons c cs ih =>
    unfold takeBytes
    split
    · exact List.cons_prefix_cons.mpr ⟨rfl, ih _⟩
    · exact List.nil_prefix

/-- On a list of code points of one byte each, bytes are counted as code
    points are. -/
theorem utf8Len_of_one_byte (l : List Char) (h : ∀ c ∈ l, c.utf8Size = 1) :
    utf8Len l = l.length := by
  induction l with
  | nil => rfl
  | cons c cs ih =>
    simp only [utf8Len, List.length_cons]
    rw [h c (List.mem_cons_self _ _), ih (fun d hd => h d (List.mem_cons_of_mem _ hd))]
    omega

/-- On a list of code points of one byte each, the slice `l[:n]` holds the
    first `n` code points. -/
theorem takeBytes_of_one_byte (n : Nat) (l : List Char) (h : ∀ c ∈ l, c.utf8Size = 1) :
    takeBytes n l = l.take n := by
  induction l generalizing n with
  | nil => simp [takeBytes]
  | cons c cs ih =>
    have hc := h c (List.mem_cons_self _ _)
    have ih2 := fun m => ih m (fun d hd => h d (List.mem_cons_of_mem _ hd))
    unfold takeBytes
    cases n with
    | zero => simp [hc]
    | succ m =>
      rw [hc, if_pos (by omega), List.take_succ_cons, ih2]
      simp

/-- A blank input has no bullets. -/
theorem joinedBullets_of_blank [GoLib] (raw : String) (h : TrimSpace raw = "") :
    joinedBullets raw = "" := by
  unfold joinedBullets
  simp only [h]
  rfl

/-- The function `extractHighlightsFromHTML` in terms of the joined bullets
    alone: the test for a blank input changes nothing. -/
theorem extractHighlightsFromHTML_eq [GoLib] (raw : String) :
    extractHighlightsFromHTML raw =
      if byteLen (joinedBullets raw) > 500 then sliceTo (joinedBullets raw) 500 ++ "..."
      else joinedBullets raw := by
  unfold extractHighlightsFromHTML
  by_cases h : TrimSpace raw = ""
  · rw [if_pos h, joinedBullets_of_blank raw h]
    rfl
  · rw [if_neg h]

set_option maxRecDepth 100000 in
/-- C20 as stated fails: for a list item of 167 euro signs the joined bullet
    text has 169 characters, which is at most 500, and yet it is not returned
    unchanged; its length in bytes is 503. -/
theorem C20_counterexample :
    (@joinedBullets plainLib euroItemHTML).length = 169 ∧
      byteLen (@joinedBullets plainLib euroItemHTML) = 503 ∧
      (@extractHighlightsFromHTML plainLib euroItemHTML).length = 171 ∧
      @extractHighlightsFromHTML plainLib euroItemHTML ≠ @joinedBullets plainLib euroItemHTML := by
  decide

/-- C20, amended: `extractHighlightsFromHTML` returns the joined bullet text
    unchanged when it is at most 500 bytes long, and otherwise its first 500
    bytes, an initial part of it, followed by "..."; the result is never
    longer than 503 bytes, nor than 503 characters.  When every code point of
    the joined text is one byte long, the lengths are lengths in characters
    and the first 500 bytes are the first 500 characters. -/
theorem C20_highlights_cut_at_500_bytes [GoLib] (raw : String) :
    (byteLen (joinedBullets raw) ≤ 500 →
      extractHighlightsFromHTML raw = joinedBullets raw) ∧
    (500 < byteLen (joinedBullets raw) →
      extractHighlightsFromHTML raw = sliceTo (joinedBullets raw) 500 ++ "..." ∧
      byteLen (sliceTo (joinedBullets raw) 500) ≤ 500 ∧
      HasPrefix (joinedBullets raw) (sliceTo (joinedBullets raw) 500) = true) ∧
    byteLen (extractHighlightsFromHTML raw) ≤ 503 ∧
    (extractHighlightsFromHTML raw).length ≤ 503 ∧
    ((∀ c ∈ (joinedBullets raw).data, c.utf8Size = 1) →
      byteLen (joinedBullets raw) = (joinedBullets raw).length ∧
      sliceTo (joinedBullets raw) 500 = ⟨(joinedBullets raw).data.take 500⟩) := by
  have hbytes : byteLen (extractHighlightsFromHTML raw) ≤ 503 := by
    rw [extractHighlightsFromHTML_eq]
    split
    · unfold byteLen sliceTo
      rw [String.data_append, utf8Len_append]
      have h1 := utf8Len_takeBytes_le 500 (joinedBullets raw).data
      have h2 : utf8Len ("..." : String).data = 3 := by decide
      simp only [h2]
      omega
    · omega
  refine ⟨?_, ?_, hbytes, ?_, ?_⟩
  · intro h
    rw [extractHighlightsFromHTML_eq, if_neg (by omega)]
  · intro h
    refine ⟨?_, utf8Len_takeBytes_le _ _, ?_⟩
    · rw [extractHighlightsFromHTML_eq, if_pos h]
    · unfold HasPrefix sliceTo
      rw [ List.isPrefixOf_iff_prefix]
      exact takeBytes_initial _ _
  · exact Nat.le_trans (length_le_utf8Len _) hbytes
  · intro h
    exact ⟨utf8Len_of_one_byte _ h, by unfold sliceTo; rw [takeBytes_of_one_byte _ _ h]⟩

/-- C20, amended, at the notes of `TestGitHubAtomParsing`: the joined bullet
    text is 15 bytes long and is returned unchanged. -/
theorem C20_highlights_cut_at_500_bytes_witness :
    byteLen (@joinedBullets plainLib sampleEntry.Content.Body) ≤ 500 ∧
      @extractHighlightsFromHTML plainLib sampleEntry.Content.Body = "- Fix A\n- Add B" :=
  ⟨by decide,
    ((@C20_highlights_cut_at_500_bytes plainLib sampleEntry.Content.Body).1 (by decide)).trans
      (by decide)⟩

/-! ## The lines of the highlights -/
/-- No field holds white space. -/
theorem fieldsList_no_space (l : List Char) :
    ∀ cur : List Char, (∀ c ∈ cur, isSpace c = false) →
      ∀ f ∈ fieldsList l cur, ∀ c ∈ f, isSpace c = false := by
  induction l with
  | nil =>
    intro cur hcur f hf c hc
    unfold fieldsList at hf
    split at hf
    · exact absurd hf (List.not_mem_nil _)
    · rw [List.mem_singleton] at hf
      rw [hf] at hc
      exact hcur c (List.mem_reverse.mp hc)
  | cons a rest ih =>
    intro cur hcur f hf c hc
    unfold fieldsList at hf
    by_cases ha : isSpace a = true
    · rw [if_pos ha] at hf
      split at hf
      · exact ih [] (fun _ h => absurd h (List.not_mem_nil _)) f hf c hc
      · rcases List.mem_cons.mp hf with h | h
        · rw [h] at hc
          exact hcur c (List.mem_reverse.mp hc)
        · exact ih [] (fun _ h => absurd h (List.not_mem_nil _)) f h c hc
    · rw [if_neg ha] at hf
      refine ih (a :: cur) ?_ f hf c hc
      intro d hd
      rcases List.mem_cons.mp hd with h | h
      · rw [h]
        exact Bool.eq_false_iff.mpr ha
      · exact hcur d h

/-- A code point of a joined list comes from the separator or from a part. -/
theorem mem_joinList (sep : List Char) (c : Char) :
    ∀ parts : List (List Char), c ∈ joinList sep parts → c ∈ sep ∨ ∃ x ∈ parts, c ∈ x := by
  intro parts
  induction parts with
  | nil =>
    intro h
    exact absurd h (List.not_mem_nil _)
  | cons a rest ih =>
    intro h
    cases rest with
    | nil => exact Or.inr ⟨a, List.mem_cons_self _ _, h⟩
    | cons b more =>
      unfold joinList at h
      rcases List.mem_append.mp h with h1 | h2
      · rcases List.mem_append.mp h1 with h3 | h4
        · exact Or.inr ⟨a, List.mem_cons_self _ _, h3⟩
        · exact Or.inl h4
      · rcases ih h2 with h5 | ⟨x, hx, hcx⟩
        · exact Or.inl h5
        · exact Or.inr ⟨x, List.mem_cons_of_mem _ hx, hcx⟩

/-- The text of a bullet holds no line feed. -/
theorem bulletText_no_line_feed [GoLib] (m : String) : '\n' ∉ (bulletText m).data := by
  intro h
  unfold bulletText Join Fields at h
  simp only at h
  rcases mem_joinList _ _ _ h with h1 | ⟨x, hx, hcx⟩
  · exact absurd h1 (by decide)
  · rw [List.map_map] at hx
    obtain ⟨f, hf, hfx⟩ := List.mem_map.mp hx
    have hsp := fieldsList_no_space _ [] (fun _ h => absurd h (List.not_mem_nil _)) f hf '\n'
      (by rw [← hfx] at hcx; exact hcx)
    exact absurd hsp (by decide)

/-- The lines that the loop over the matches collects: at most six, each
    beginning with "- " and free of line feeds. -/
theorem bulletLoop_lines [GoLib] (found : List String) :
    ∀ lines : List String, lines.length < 6 →
      (∀ x ∈ lines, HasPrefix x "- " = true ∧ '\n' ∉ x.data) →
      (bulletLoop found lines).length ≤ 6 ∧
      ∀ x ∈ bulletLoop found lines, HasPrefix x "- " = true ∧ '\n' ∉ x.data := by
  induction found with
  | nil =>
    intro lines hlen hall
    exact ⟨Nat.le_of_lt hlen, hall⟩
  | cons m rest ih =>
    intro lines hlen hall
    have hnew : ∀ x ∈ lines ++ ["- " ++ bulletText m],
        HasPrefix x "- " = true ∧ '\n' ∉ x.data := by
      intro x hx
      rcases List.mem_append.mp hx with h | h
      · exact hall x h
      · rw [List.mem_singleton] at h
        rw [h]
        constructor
        · unfold HasPrefix
          rw [ List.isPrefixOf_iff_prefix, String.data_append]
          exact List.prefix_append _ _
        · rw [String.data_append]
          intro hmem
          rcases List.mem_append.mp hmem with h1 | h2
          · exact absurd h1 (by decide)
          · exact bulletText_no_line_feed m h2
    unfold bulletLoop
    split
    · exact ih lines hlen hall
    · split
      · refine ⟨?_, hnew⟩
        rw [List.length_append, List.length_singleton]
        omega
      · rename_i hfull
        refine ih _ ?_ hnew
        omega

/-- The split into lines leaves at least one line. -/
theorem splitLines_ne_nil (l : List Char) : splitLines l ≠ [] := by
  cases l with
  | nil => exact List.cons_ne_nil _ _
  | cons c cs =>
    unfold splitLines
    split
    · exact List.cons_ne_nil _ _
    · split <;> exact List.cons_ne_nil _ _

/-- A list without a line feed is one line. -/
theorem splitLines_of_no_line_feed (x : List Char) (h : '\n' ∉ x) : splitLines x = [x] := by
  induction x with
  | nil => rfl
  | cons c cs ih =>
    have hc : c ≠ '\n' := fun e => h (by rw [e]; exact List.mem_cons_self _ _)
    have hcs : '\n' ∉ cs := fun e => h (List.mem_cons_of_mem _ e)
    unfold splitLines
    rw [if_neg hc, ih hcs]

/-- A first line followed by a line feed and more text. -/
theorem splitLines_line_then (a r : List Char) (h : '\n' ∉ a) :
    splitLines (a ++ '\n' :: r) = a :: splitLines r := by
  induction a with
  | nil =>
    rw [List.nil_append, splitLines, if_pos rfl]
  | cons c cs ih =>
    have hc : c ≠ '\n' := fun e => h (by rw [e]; exact List.mem_cons_self _ _)
    have hcs : '\n' ∉ cs := fun e => h (List.mem_cons_of_mem _ e)
    rw [List.cons_append, splitLines, if_neg hc, ih hcs]

/-- The lines of parts joined by line feeds are the parts. -/
theorem splitLines_joinList :
    ∀ parts : List (List Char), parts ≠ [] → (∀ x ∈ parts, '\n' ∉ x) →
      splitLines (joinList ['\n'] parts) = parts := by
  intro parts
  induction parts with
  | nil => intro h; exact absurd rfl h
  | cons a rest ih =>
    intro _ hall
    cases rest with
    | nil => exact splitLines_of_no_line_feed a (hall a (List.mem_cons_self _ _))
    | cons b more =>
      unfold joinList
      rw [List.append_assoc, List.singleton_append,
        splitLines_line_then _ _ (hall a (List.mem_cons_self _ _)),
        ih (List.cons_ne_nil _ _) (fun x hx => hall x (List.mem_cons_of_mem _ hx))]

/-- The lines of two lists laid end to end: the last line of the first list
    and the first line of the second become one line. -/
theorem splitLines_append (a : List Char) :
    ∃ (init : List (List Char)) (last : List Char), splitLines a = init ++ [last] ∧
      ∀ (b hb : List Char) (tb : List (List Char)), splitLines b = hb :: tb →
        splitLines (a ++ b) = init ++ [last ++ hb] ++ tb := by
  induction a with
  | nil =>
    refine ⟨[], [], rfl, ?_⟩
    intro b hb tb hsplit
    rw [List.nil_append, hsplit]
    rfl
  | cons c cs ih =>
    obtain ⟨init, last, hcs, happ⟩ := ih
    by_cases hc : c = '\n'
    · refine ⟨[] :: init, last, ?_, ?_⟩
      · unfold splitLines
        rw [if_pos hc, hcs]
        rfl
      · intro b hb tb hsplit
        rw [List.cons_append]
        unfold splitLines
        rw [if_pos hc, happ b hb tb hsplit]
        rfl
    · cases init with
      | nil =>
        refine ⟨[], c :: last, ?_, ?_⟩
        · unfold splitLines
          rw [if_neg hc, hcs]
          rfl
        · intro b hb tb hsplit
          rw [List.cons_append]
          unfold splitLines
          rw [if_neg hc, happ b hb tb hsplit]
          rfl
      | cons i more =>
        refine ⟨(c :: i) :: more, last, ?_, ?_⟩
        · unfold splitLines
          rw [if_neg hc, hcs]
          rfl
        · intro b hb tb hsplit
          rw [List.cons_append]
          unfold splitLines
          rw [if_neg hc, happ b hb tb hsplit]
          rfl

/-- The lines of an initial part of joined bullet lines, followed by a text
    without a line feed: no more lines than there are bullet lines, each line
    but the last a bullet line, and the last line an initial part of a bullet
    line followed by that text. -/
theorem splitLines_cut (parts : List (List Char)) (hne : parts ≠ [])
    (hall : ∀ x ∈ parts, '\n' ∉ x) (p d : List Char) (hp : p <+: joinList ['\n'] parts)
    (hd : '\n' ∉ d) :
    ∃ (init : List (List Char)) (last : List Char),
      splitLines (p ++ d) = init ++ [last ++ d] ∧ init.length + 1 ≤ parts.length ∧
      (∀ x ∈ init, x ∈ parts) ∧ ∃ b ∈ parts, last <+: b := by
  obtain ⟨s, hs⟩ := hp
  obtain ⟨init, last, _, happ⟩ := splitLines_append p
  obtain ⟨hb, tb, hsplit⟩ := List.exists_cons_of_ne_nil (splitLines_ne_nil s)
  have hjoin := happ s hb tb hsplit
  rw [hs, splitLines_joinList parts hne hall] at hjoin
  have hcut := happ d d [] (splitLines_of_no_line_feed d hd)
  rw [List.append_nil] at hcut
  refine ⟨init, last, hcut, ?_, ?_, last ++ hb, ?_, List.prefix_append _ _⟩
  · rw [hjoin]
    simp only [List.length_append, List.length_singleton]
    omega
  · intro x hx
    rw [hjoin]
    exact List.mem_append_left _ (List.mem_append_left _ hx)
  · rw [hjoin]
    exact List.mem_append_left _ (List.mem_append_right _ (List.mem_singleton_self _))

/-- The joined bullets are at most six bullet lines joined by line feeds. -/
theorem joinedBullets_lines [GoLib] (raw : String) :
    ∃ lines : List String, lines.length ≤ 6 ∧
      (∀ x ∈ lines, HasPrefix x "- " = true ∧ '\n' ∉ x.data) ∧
      (joinedBullets raw).data = joinList ['\n'] (lines.map String.data) := by
  unfold joinedBullets
  simp only
  exact ⟨_, (bulletLoop_lines _ [] (by decide) (fun _ h => absurd h (List.not_mem_nil _))).1,
    (bulletLoop_lines _ [] (by decide) (fun _ h => absurd h (List.not_mem_nil _))).2, rfl⟩

set_option maxRecDepth 100000 in
/-- C19 as stated fails: for a list item of 497 letters followed by a short
    one, the joined text is cut right after the line feed that ends the first
    line, and the last line of the result is "...", which is not prefixed with
    "- ". -/
theorem C19_counterexample :
    (textLines (@extractHighlightsFromHTML plainLib longItemHTML)).length = 2 ∧
      (textLines (@extractHighlightsFromHTML plainLib longItemHTML)).getLast? = some "..." ∧
      HasPrefix "..." "- " = false := by
  decide

/-- C19, amended: the text returned by `extractHighlightsFromHTML` consists
    of at most 6 lines; when the joined bullet text is at most 500 bytes long
    every line of it is prefixed with "- "; and in every case every line but
    the last is prefixed with "- ", the last line of a text that was cut being
    an initial part of a bullet line followed by "...". -/
theorem C19_highlights_lines [GoLib] (raw : String) :
    (textLines (extractHighlightsFromHTML raw)).length ≤ 6 ∧
    (byteLen (joinedBullets raw) ≤ 500 →
      ∀ l ∈ textLines (extractHighlightsFromHTML raw), HasPrefix l "- " = true) ∧
    (∀ l ∈ (textLines (extractHighlightsFromHTML raw)).dropLast, HasPrefix l "- " = true) ∧
    (500 < byteLen (joinedBullets raw) →
      ∃ pre b : String, (textLines (extractHighlightsFromHTML raw)).getLast? = some (pre ++ "...") ∧
        b ∈ textLines (joinedBullets raw) ∧ HasPrefix b "- " = true ∧ HasPrefix b pre = true) := by
  obtain ⟨lines, hlen, hall, hdata⟩ := joinedBullets_lines raw
  have hnolf : ∀ x ∈ lines.map String.data, '\n' ∉ x := by
    intro x hx
    obtain ⟨y, hy, hyx⟩ := List.mem_map.mp hx
    rw [← hyx]
    exact (hall y hy).2
  have hback : (lines.map String.data).map String.mk = lines := by
    rw [List.map_map]
    exact List.map_id _
  -- the lines of the joined text, when there are any
  have hjoined : (joinedBullets raw).data ≠ [] → textLines (joinedBullets raw) = lines := by
    intro hne
    have hparts : lines.map String.data ≠ [] := by
      intro h
      rw [hdata, h] at hne
      exact hne rfl
    unfold textLines
    rw [if_neg hne, hdata, splitLines_joinList _ hparts hnolf, hback]
  by_cases hcut : 500 < byteLen (joinedBullets raw)
  · -- the text was cut
    have hne : (joinedBullets raw).data ≠ [] := by
      intro h
      unfold byteLen at hcut
      rw [h] at hcut
      exact absurd hcut (by decide)
    have hparts : lines.map String.data ≠ [] := by
      intro h
      rw [hdata, h] at hne
      exact hne rfl
    obtain ⟨init, last, hsplit, hinit, hmem, b, hb, hlast⟩ :=
      splitLines_cut (lines.map String.data) hparts hnolf
        (takeBytes 500 (joinedBullets raw).data) "...".data
        (by rw [← hdata]; exact takeBytes_initial _ _) (by decide)
    have hres : textLines (extractHighlightsFromHTML raw) =
        init.map String.mk ++ [String.mk last ++ "..."] := by
      rw [extractHighlightsFromHTML_eq, if_pos hcut]
      unfold textLines sliceTo
      rw [String.data_append, if_neg (by simp), hsplit, List.map_append]
      rfl
    have hinitmem : ∀ l ∈ init.map String.mk, l ∈ lines := by
      intro l hl
      obtain ⟨x, hx, hxl⟩ := List.mem_map.mp hl
      obtain ⟨y, hy, hyx⟩ := List.mem_map.mp (hmem x hx)
      rw [← hxl, ← hyx]
      exact hy
    rw [hres]
    refine ⟨?_, fun h => absurd hcut (by omega), ?_, fun _ => ?_⟩
    · rw [List.length_append, List.length_map, List.length_singleton]
      have : (lines.map String.data).length = lines.length := List.length_map _ _
      omega
    · intro l hl
      rw [List.dropLast_concat] at hl
      exact (hall l (hinitmem l hl)).1
    · obtain ⟨y, hy, hyb⟩ := List.mem_map.mp hb
      refine ⟨String.mk last, y, ?_, ?_, (hall y hy).1, ?_⟩
      · rw [List.getLast?_append]
        rfl
      · rw [hjoined hne]
        exact hy
      · unfold HasPrefix
        rw [ List.isPrefixOf_iff_prefix, hyb]
        exact hlast
  · -- the text is the joined text
    have hres : extractHighlightsFromHTML raw = joinedBullets raw := by
      rw [extractHighlightsFromHTML_eq, if_neg hcut]
    rw [hres]
    by_cases hne : (joinedBullets raw).data = []
    · have hempty : textLines (joinedBullets raw) = [] := by
        unfold textLines
        rw [if_pos hne]
      rw [hempty]
      exact ⟨Nat.zero_le _, fun _ l hl => absurd hl (List.not_mem_nil _),
        fun l hl => absurd hl (List.not_mem_nil _), fun h => absurd h hcut⟩
    · rw [hjoined hne]
      exact ⟨hlen, fun _ l hl => (hall l hl).1,
        fun l hl => (hall l (List.mem_of_mem_dropLast hl)).1, fun h => absurd h hcut⟩

/-- C19, amended, at the notes of `TestGitHubAtomParsing`: the two lines
    `- Fix A` and `- Add B`, each prefixed with "- ". -/
theorem C19_highlights_lines_witness :
    byteLen (@joinedBullets plainLib sampleEntry.Content.Body) ≤ 500 ∧
      textLines (@extractHighlightsFromHTML plainLib sampleEntry.Content.Body)
        = ["- Fix A", "- Add B"] ∧
      HasPrefix "- Add B" "- " = true :=
  ⟨by decide, by decide,
    (@C19_highlights_lines plainLib sampleEntry.Content.Body).2.1 (by decide) "- Add B"
      (by decide)⟩

/-! ## The list items behind the word highlights -/
/-- The offset that `strings.Index` returns for the first occurrence: the
    bytes of the code points before it. -/
theorem indexFrom_first (sub : List Char) :
    ∀ (l : List Char) (k off : Nat), sub.isPrefixOf (l.drop k) = true →
      (∀ j, j < k → sub.isPrefixOf (l.drop j) = false) →
      indexFrom sub l off = ((off + utf8Len (l.take k) : Nat) : Int) := by
  intro l
  induction l with
  | nil =>
    intro k off hk _
    rw [List.drop_nil] at hk
    simp [indexFrom, hk, utf8Len]
  | cons c cs ih =>
    intro k off hk hbefore
    cases k with
    | zero =>
      rw [List.drop_zero] at hk
      simp [indexFrom, hk, utf8Len]
    | succ k =>
      have h0 := hbefore 0 (Nat.succ_pos k)
      rw [List.drop_zero] at h0
      rw [indexFrom, h0]
      simp only [Bool.false_eq_true, if_false]
      rw [ih k (off + c.utf8Size) (by simpa using hk)
        (fun j hj => by simpa using hbefore (j + 1) (Nat.succ_lt_succ hj))]
      simp only [List.take_succ_cons, utf8Len]
      congr 1
      omega

/-- The slice `l[n:]` at the end of the first `k` code points. -/
theorem dropBytes_take (l : List Char) : ∀ k, dropBytes (utf8Len (l.take k)) l = l.drop k := by
  induction l with
  | nil => intro k; simp [dropBytes]
  | cons c cs ih =>
    intro k
    cases k with
    | zero => simp [dropBytes, utf8Len]
    | succ k =>
      have hpos := Char.utf8Size_pos c
      simp only [List.take_succ_cons, utf8Len, List.drop_succ_cons]
      rw [dropBytes, if_neg (by omega), Nat.add_sub_cancel_left]
      exact ih k

/-- A list whose code points keep their length in lower case has as many
    bytes in lower case. -/
theorem utf8Len_map_lower [GoLib] (l : List Char)
    (h : ∀ c ∈ l, (toLowerRune c).utf8Size = c.utf8Size) :
    utf8Len (l.map toLowerRune) = utf8Len l := by
  induction l with
  | nil => rfl
  | cons c cs ih =>
    simp only [List.map_cons, utf8Len]
    rw [h c (List.mem_cons_self _ _), ih (fun d hd => h d (List.mem_cons_of_mem _ hd))]

/-- The joined bullets of an input in which the word `highlights` occurs: the
    matches are looked for behind the first occurrence, and in the whole input
    when there is none behind it. -/
theorem joinedBullets_of_word [GoLib] (raw : String) (pre suf : List Char)
    (hsplit : (TrimSpace raw).data = pre ++ suf)
    (hword : "highlights".data.isPrefixOf (suf.map toLowerRune) = true)
    (hfirst : ∀ j, j < pre.length →
      "highlights".data.isPrefixOf (((TrimSpace raw).data.drop j).map toLowerRune) = false)
    (hsize : ∀ c ∈ pre, (toLowerRune c).utf8Size = c.utf8Size) :
    joinedBullets raw =
      if liReFindAllStringSubmatch ⟨suf⟩ ≠ [] then bulletsFrom ⟨suf⟩
      else bulletsFrom (TrimSpace raw) := by
  have hidx : Index (ToLower (TrimSpace raw)) "highlights" = ((utf8Len pre : Nat) : Int) := by
    unfold Index ToLower
    rw [indexFrom_first _ _ pre.length 0]
    · rw [hsplit, List.map_append, List.take_left' (List.length_map _ _), Nat.zero_add,
        utf8Len_map_lower pre hsize]
    · rw [← List.map_drop, hsplit, List.drop_left]
      exact hword
    · intro j hj
      rw [← List.map_drop]
      exact hfirst j hj
  have hcand : sliceFrom (TrimSpace raw) (utf8Len pre) = ⟨suf⟩ := by
    unfold sliceFrom
    have := dropBytes_take (TrimSpace raw).data pre.length
    rw [hsplit, List.take_left, List.drop_left] at this
    rw [hsplit, this]
  unfold joinedBullets bulletsFrom
  simp only [hidx, Int.toNat_ofNat, hcand, Int.natCast_nonneg, ge_iff_le, if_true]
  by_cases hfound : liReFindAllStringSubmatch ⟨suf⟩ = []
  · simp only [hfound, List.length_nil, true_and, ne_eq, not_true_eq_false, if_false]
    by_cases hsame : (⟨suf⟩ : String) = TrimSpace raw
    · rw [if_neg (fun h => h hsame), ← hsame, hfound]
    · rw [if_pos hsame]
  · have hlen : ¬ (liReFindAllStringSubmatch ⟨suf⟩).length = 0 :=
      fun h => hfound (List.length_eq_zero.mp h)
    simp only [hlen, false_and, if_false, ne_eq, hfound, not_false_eq_true, if_true]

/-- C21 as stated fails: the input contains the word `Highlights`, its only
    list item stands before the word, and that item is the bullet of the
    result. -/
theorem C21_counterexample :
    itemBeforeWordHTML = "<ul><li>Old</li></ul><h3>" ++ "Highlights</h3><p>None</p>" ∧
      Index (@ToLower plainLib itemBeforeWordHTML) "highlights" = 25 ∧
      liReFindAllStringSubmatch "Highlights</h3><p>None</p>" = [] ∧
      @extractHighlightsFromHTML plainLib itemBeforeWordHTML = "- Old" := by
  decide

/-- C21, amended: for an input whose trimmed text is `pre` followed by `suf`,
    where `suf` begins with the word `highlights` in any letter case, the word
    does not begin earlier, and the code points of `pre` keep their encoded
    length in lower case, `extractHighlightsFromHTML` builds its bullets only
    from the list items of `suf` when `suf` has a list item; when `suf` has
    none, it builds them from the list items of the whole trimmed input. -/
theorem C21_highlights_after_the_word [GoLib] (raw : String) (pre suf : List Char)
    (hsplit : (TrimSpace raw).data = pre ++ suf)
    (hword : "highlights".data.isPrefixOf (suf.map toLowerRune) = true)
    (hfirst : ∀ j, j < pre.length →
      "highlights".data.isPrefixOf (((TrimSpace raw).data.drop j).map toLowerRune) = false)
    (hsize : ∀ c ∈ pre, (toLowerRune c).utf8Size = c.utf8Size) :
    (liReFindAllStringSubmatch ⟨suf⟩ ≠ [] →
      extractHighlightsFromHTML raw = cutHighlights (bulletsFrom ⟨suf⟩)) ∧
    (liReFindAllStringSubmatch ⟨suf⟩ = [] →
      extractHighlightsFromHTML raw = cutHighlights (bulletsFrom (TrimSpace raw))) := by
  have hj := joinedBullets_of_word raw pre suf hsplit hword hfirst hsize
  constructor
  · intro h
    rw [if_pos h] at hj
    rw [extractHighlightsFromHTML_eq, hj]
    rfl
  · intro h
    rw [if_neg (fun hne => hne h)] at hj
    rw [extractHighlightsFromHTML_eq, hj]
    rfl

/-- C21, amended, at notes with a list item on either side of the word: the
    item before the word gives no bullet. -/
theorem C21_highlights_after_the_word_witness :
    @extractHighlightsFromHTML plainLib
        "<ul><li>Old</li></ul><h3>Highlights</h3><ul><li>New</li></ul>" = "- New" :=
  ((@C21_highlights_after_the_word plainLib
      "<ul><li>Old</li></ul><h3>Highlights</h3><ul><li>New</li></ul>"
      "<ul><li>Old</li></ul><h3>".data "Highlights</h3><ul><li>New</li></ul>".data
      (by decide) (by decide) (by decide) (by decide)).1 (by decide)).trans (by decide)

/-! ## The commit probe -/
/-- What the commit probe returns when the remote ref query succeeds and its
    output has a first field. -/
theorem githubCommit_Check_of_field (g : githubCommit W) (prevSeen : String) (opts : Options)
    (w : W) (sha : String) (rest : List String)
    (hrun : (g.Exec.Run "git"
      ["ls-remote", "https://github.com/" ++ g.Repo ++ ".git", "refs/heads/" ++ g.Branch] w).1.2
      = none)
    (hfields : Fields (g.Exec.Run "git"
      ["ls-remote", "https://github.com/" ++ g.Repo ++ ".git", "refs/heads/" ++ g.Branch] w).1.1
      = sha :: rest) :
    g.Check prevSeen opts w =
      (({ Current := sha,
          Message := if TrimSpace prevSeen ≠ "" ∧ TrimSpace prevSeen ≠ sha then
              "new commits on " ++ g.Branch ++ " (" ++ shortSHA (TrimSpace prevSeen) ++ " -> " ++
                shortSHA sha ++ ")"
            else "latest commit on " ++ g.Branch ++ " (" ++ shortSHA sha ++ ")",
          Links := if TrimSpace prevSeen ≠ "" ∧ TrimSpace prevSeen ≠ sha then
              mapSet [("repo", "https://github.com/" ++ g.Repo)] "compare"
                ("https://github.com/" ++ g.Repo ++ "/compare/" ++ TrimSpace prevSeen ++ "..." ++
                  sha)
            else [("repo", "https://github.com/" ++ g.Repo)] }, none),
        (g.Exec.Run "git"
          ["ls-remote", "https://github.com/" ++ g.Repo ++ ".git", "refs/heads/" ++ g.Branch]
          w).2) := by
  unfold githubCommit.Check
  simp only [hrun, hfields]

/-- C22 as stated fails: on a first run the previous value is empty and so
    differs from the current SHA, and the links hold no "compare" entry. -/
theorem C22_counterexample :
    (sampleCommitProbe.Check "" {} []).1.2 = none ∧
      (sampleCommitProbe.Check "" {} []).1.1.Current
        = "3f2a9c1d4e5b6a7f8091a2b3c4d5e6f708192a3b" ∧
      "" ≠ (sampleCommitProbe.Check "" {} []).1.1.Current ∧
      (sampleCommitProbe.Check "" {} []).1.1.Links.lookup "compare" = none := by
  decide

/-- C22, amended: for every commit check whose remote ref query succeeds,
    `Check` fails when the output has no field, and otherwise succeeds with
    `Current` the first whitespace-separated field of the output; whenever the
    previous value is not blank and, trimmed, differs from the current SHA, the
    links contain a "compare" entry of the form
    `<repo URL>/compare/<previous>...<current>` with the trimmed previous value,
    and when the previous value is blank or, trimmed, equal to the current SHA,
    no "compare" entry is present; the links always contain the "repo" entry.
    `Check` also fails when the query fails. -/
theorem C22_commit_current_and_compare_link (g : githubCommit W) (prevSeen : String)
    (opts : Options) (w : W) :
    ((g.Exec.Run "git"
        ["ls-remote", "https://github.com/" ++ g.Repo ++ ".git", "refs/heads/" ++ g.Branch] w).1.2
        ≠ none → (g.Check prevSeen opts w).1.2 ≠ none) ∧
    ((g.Exec.Run "git"
        ["ls-remote", "https://github.com/" ++ g.Repo ++ ".git", "refs/heads/" ++ g.Branch] w).1.2
        = none →
      (Fields (g.Exec.Run "git"
          ["ls-remote", "https://github.com/" ++ g.Repo ++ ".git", "refs/heads/" ++ g.Branch]
          w).1.1 = [] → (g.Check prevSeen opts w).1.2 ≠ none) ∧
      (∀ sha rest, Fields (g.Exec.Run "git"
          ["ls-remote", "https://github.com/" ++ g.Repo ++ ".git", "refs/heads/" ++ g.Branch]
          w).1.1 = sha :: rest →
        (g.Check prevSeen opts w).1.2 = none ∧
        (g.Check prevSeen opts w).1.1.Current = sha ∧
        (g.Check prevSeen opts w).1.1.Links.lookup "repo" = some ("https://github.com/" ++ g.Repo) ∧
        (TrimSpace prevSeen ≠ "" ∧ TrimSpace prevSeen ≠ sha →
          (g.Check prevSeen opts w).1.1.Links.lookup "compare" =
            some ("https://github.com/" ++ g.Repo ++ "/compare/" ++ TrimSpace prevSeen ++ "..." ++
              sha)) ∧
        (TrimSpace prevSeen = "" ∨ TrimSpace prevSeen = sha →
          (g.Check prevSeen opts w).1.1.Links.lookup "compare" = none))) := by
  constructor
  · intro hne
    unfold githubCommit.Check
    cases hq : (g.Exec.Run "git"
        ["ls-remote", "https://github.com/" ++ g.Repo ++ ".git", "refs/heads/" ++ g.Branch]
        w).1.2 with
    | none => exact absurd hq hne
    | some err =>
      simp only [hq]
      exact Option.some_ne_none _
  · intro hrun
    constructor
    · intro hnil
      unfold githubCommit.Check
      simp only [hrun, hnil]
      exact Option.some_ne_none _
    · intro sha rest hfields
      rw [githubCommit_Check_of_field g prevSeen opts w sha rest hrun hfields]
      have hrepo : ∀ a : String, ([("repo", a)] : Links).lookup "repo" = some a := by
        intro a
        simp [List.lookup]
      have hcmp : ∀ a : String, ([("repo", a)] : Links).lookup "compare" = none := by
        intro a
        have h1 : (("compare" : String) == "repo") = false := by decide
        simp [List.lookup, h1]
      refine ⟨rfl, rfl, ?_, ?_, ?_⟩
      · by_cases hc : TrimSpace prevSeen ≠ "" ∧ TrimSpace prevSeen ≠ sha
        · simp only [if_pos hc]
          rw [lookup_mapSet_ne _ _ _ _ (by decide)]
          exact hrepo _
        · simp only [if_neg hc]
          exact hrepo _
      · intro hc
        simp only [if_pos hc]
        exact lookup_mapSet_self _ _ _
      · intro hc
        have hn : ¬ (TrimSpace prevSeen ≠ "" ∧ TrimSpace prevSeen ≠ sha) := by
          intro h
          rcases hc with h1 | h1
          · exact h.1 h1
          · exact h.2 h1
        simp only [if_neg hn]
        exact hcmp _

/-- C22, amended, at the branch `main` of `a/b` after the value `abc`: the
    current value is the SHA of the output and the compare link leads from
    `abc` to it. -/
theorem C22_commit_current_and_compare_link_witness :
    (sampleCommitProbe.Check " abc " {} []).1.1.Current
        = "3f2a9c1d4e5b6a7f8091a2b3c4d5e6f708192a3b" ∧
      (sampleCommitProbe.Check " abc " {} []).1.1.Links.lookup "compare" =
        some "https://github.com/a/b/compare/abc...3f2a9c1d4e5b6a7f8091a2b3c4d5e6f708192a3b" :=
  have h := ((C22_commit_current_and_compare_link sampleCommitProbe " abc " {} []).2
    (by decide)).2 "3f2a9c1d4e5b6a7f8091a2b3c4d5e6f708192a3b" ["refs/heads/main"] (by decide)
  ⟨h.2.1, (h.2.2.2.1 (by decide)).trans (by decide)⟩

/-! ## The Homebrew probe -/
/-- The error of a response without formulae is not retryable. -/
theorem missing_formulae_not_retryable [GoLib] :
    isRetryable (some { Error := "brew info json: missing formulae" }) = false := by
  rfl

/-- The probe that `Registry.Build` gives for a Homebrew source. -/
theorem Build_of_brew [GoLib] (reg : trackers.Registry W) (cfg : TrackerEntry)
    (htype : cfg.Type_ = "brew") :
    reg.Build cfg =
      .ok { Check := brewFormula.Check { Exec := reg.Exec, Formula := cfg.Formula } } := by
  unfold trackers.Registry.Build
  rw [if_neg (by rw [htype]; decide), if_pos htype]

/-- The retry loop ends after a first attempt that fails with an error that
    is not retryable. -/
theorem retryLoop_of_terminal [GoLib] (tr : Tracker W) (cfg : TrackerEntry) (p : String)
    (notes : Bool) (n : Nat) (v : loopVars) (w : W) (e : GoError)
    (herr : (tr.Check p { IncludeNotes := notes } w).1.2 = some e)
    (hterm : isRetryable (some e) = false) :
    (retryLoop tr cfg p notes (n + 1) v w).1.lastErr = some e := by
  rw [retryLoop_succ]
  have hstop : stopsRetrying (tr.Check p { IncludeNotes := notes } w).1 = true := by
    unfold stopsRetrying
    rw [herr, hterm]
    rfl
  rw [if_pos hstop]
  exact herr

/-- C23: the Homebrew probe, when `brew info` runs and its output decodes,
    fails if the response contains no formulae or the stable version of the
    first formula is blank, and otherwise succeeds with the trimmed stable
    version as `Current`.  For a Homebrew source whose response has no formulae,
    a runner built on the registry, with a retry count that is not negative,
    classifies the source as "error", with the error text of the probe, and the
    `LastSeen` of the next state is that of the previous state. -/
theorem C23_brew_missing_formula [GoLib] (reg : trackers.Registry W) (cfg : TrackerEntry)
    (prevSeen : String) (opts : Options) (w : W) (info : brewInfoV2)
    (hrun : (reg.Exec.Run "brew" ["info", "--json=v2", cfg.Formula] w).1.2 = none)
    (hinfo : GoLib.unmarshalBrewInfo (reg.Exec.Run "brew" ["info", "--json=v2", cfg.Formula] w).1.1
      = .ok info) :
    (info.Formulae = [] →
      (brewFormula.Check { Exec := reg.Exec, Formula := cfg.Formula } prevSeen opts w).1.2
        ≠ none) ∧
    (∀ f rest, info.Formulae = f :: rest →
      (TrimSpace f.Versions.Stable = "" →
        (brewFormula.Check { Exec := reg.Exec, Formula := cfg.Formula } prevSeen opts w).1.2
          ≠ none) ∧
      (TrimSpace f.Versions.Stable ≠ "" →
        (brewFormula.Check { Exec := reg.Exec, Formula := cfg.Formula } prevSeen opts w).1.2
          = none ∧
        (brewFormula.Check { Exec := reg.Exec, Formula := cfg.Formula } prevSeen opts w).1.1.Current
          = TrimSpace f.Versions.Stable)) ∧
    (∀ (r : runner W) (prev : Item), r.Registry = reg.toRegistry → cfg.Type_ = "brew" →
      0 ≤ r.Retries → info.Formulae = [] →
      (runOne r cfg prev w).1.1.Status = "error" ∧
      (runOne r cfg prev w).1.1.Error = "brew info json: missing formulae" ∧
      (runOne r cfg prev w).1.2.LastSeen = prev.LastSeen ∧
      (runOne r cfg prev w).1.2.LastStatus = "error") := by
  refine ⟨?_, ?_, ?_⟩
  · intro hnil
    unfold brewFormula.Check
    simp only [hrun, hinfo, hnil]
    exact Option.some_ne_none _
  · intro f rest hcons
    constructor
    · intro hblank
      unfold brewFormula.Check
      simp only [hrun, hinfo, hcons, hblank, if_true]
      exact Option.some_ne_none _
    · intro hstable
      unfold brewFormula.Check
      simp only [hrun, hinfo, hcons, hstable, if_false]
      exact ⟨trivial, trivial⟩
  · intro r prev hreg htype hretries hnil
    have hbuild : r.Registry.Build cfg =
        .ok { Check := brewFormula.Check { Exec := reg.Exec, Formula := cfg.Formula } } := by
      rw [hreg]
      exact Build_of_brew reg cfg htype
    have hcheck : ∀ (p : String) (o : Options),
        (brewFormula.Check { Exec := reg.Exec, Formula := cfg.Formula } p o w).1.2 =
          some { Error := "brew info json: missing formulae" } := by
      intro p o
      unfold brewFormula.Check
      simp only [hrun, hinfo, hnil]
    obtain ⟨n, hn⟩ : ∃ n : Nat, (r.Retries + 1).toNat = n + 1 := by
      refine ⟨r.Retries.toNat, ?_⟩
      omega
    have hfail : (afterLoop r cfg prev
        { Check := brewFormula.Check { Exec := reg.Exec, Formula := cfg.Formula } } w).1.lastErr =
        some { Error := "brew info json: missing formulae" } := by
      show (retryLoop _ cfg prev.LastSeen r.Options.IncludeNotes (r.Retries + 1).toNat {} w).1.lastErr
        = _
      rw [hn]
      exact retryLoop_of_terminal _ cfg prev.LastSeen r.Options.IncludeNotes n {} w _
        (hcheck prev.LastSeen { IncludeNotes := r.Options.IncludeNotes })
        missing_formulae_not_retryable
    rw [runOne_of_failure r cfg prev w _ hbuild _ hfail]
    exact ⟨rfl, rfl, rfl, rfl⟩

/-- C23 at a Homebrew source whose `brew info` prints no formulae, after a
    run that saw the version `1.7.0`: the status is "error" and the next state
    keeps `1.7.0`. -/
theorem C23_brew_missing_formula_witness :
    (@runOne Unit localLib (@printingRunner localLib noFormulaeBody none) sampleBrew
        { LastSeen := "1.7.0" } ()).1.1.Status = "error" ∧
      (@runOne Unit localLib (@printingRunner localLib noFormulaeBody none) sampleBrew
        { LastSeen := "1.7.0" } ()).1.2.LastSeen = "1.7.0" ∧
      (@brewFormula.Check Unit localLib { Exec := constExec jqFormulaBody none, Formula := "jq" }
        "1.7.0" {} ()).1.1.Current = "1.7.1" :=
  have h := (@C23_brew_missing_formula Unit localLib
    { HTTP := noFetcher, Exec := constExec noFormulaeBody none, UserAgent := "x" } sampleBrew
    "1.7.0" {} () {} rfl rfl).2.2 (@printingRunner localLib noFormulaeBody none)
    { LastSeen := "1.7.0" } rfl rfl (by decide) rfl
  have h2 := ((@C23_brew_missing_formula Unit localLib
    { HTTP := noFetcher, Exec := constExec jqFormulaBody none, UserAgent := "x" } sampleBrew
    "1.7.0" {} ()
    { Formulae := [{ Name := "jq", Homepage := "https://jqlang.github.io/jq/",
                     Versions := { Stable := "1.7.1" } }] } rfl rfl).2.1 _ _ rfl).2 (by decide)
  ⟨h.1, h.2.2.1, h2.2.trans (by decide)⟩

/-! ## The previous value in the probes -/
/-- The commit probe and the previous value: the error, the current value
    and the world do not depend on it, and of the links only "compare" does. -/
theorem githubCommit_Check_prev (g : githubCommit W) (p1 p2 : String) (o1 o2 : Options) (w : W) :
    (g.Check p1 o1 w).1.2 = (g.Check p2 o2 w).1.2 ∧
    (g.Check p1 o1 w).1.1.Current = (g.Check p2 o2 w).1.1.Current ∧
    (g.Check p1 o1 w).1.1.Highlights = (g.Check p2 o2 w).1.1.Highlights ∧
    (g.Check p1 o1 w).2 = (g.Check p2 o2 w).2 ∧
    (∀ k, k ≠ "compare" →
      (g.Check p1 o1 w).1.1.Links.lookup k = (g.Check p2 o2 w).1.1.Links.lookup k) := by
  cases hrun : (g.Exec.Run "git"
      ["ls-remote", "https://github.com/" ++ g.Repo ++ ".git", "refs/heads/" ++ g.Branch]
      w).1.2 with
  | some err =>
    unfold githubCommit.Check
    simp only [hrun]
    exact ⟨trivial, trivial, trivial, trivial, fun _ _ => trivial⟩
  | none =>
    cases hfields : Fields (g.Exec.Run "git"
        ["ls-remote", "https://github.com/" ++ g.Repo ++ ".git", "refs/heads/" ++ g.Branch]
        w).1.1 with
    | nil =>
      unfold githubCommit.Check
      simp only [hrun, hfields]
      exact ⟨trivial, trivial, trivial, trivial, fun _ _ => trivial⟩
    | cons sha rest =>
      rw [githubCommit_Check_of_field g p1 o1 w sha rest hrun hfields,
        githubCommit_Check_of_field g p2 o2 w sha rest hrun hfields]
      refine ⟨rfl, rfl, rfl, rfl, ?_⟩
      intro k hk
      have hlinks : ∀ (c : Prop) [Decidable c] (v : String),
          (if c then mapSet [("repo", "https://github.com/" ++ g.Repo)] "compare" v
            else [("repo", "https://github.com/" ++ g.Repo)]).lookup k =
          ([("repo", "https://github.com/" ++ g.Repo)] : Links).lookup k := by
        intro c _ v
        split
        · exact lookup_mapSet_ne _ _ _ _ hk
        · rfl
      show List.lookup k (if _ then _ else _) = List.lookup k (if _ then _ else _)
      rw [hlinks, hlinks]

/-- The release probe and the previous value: the error, the current value
    and the world do not depend on it, of the links only "compare" does, and
    the highlights do not when notes are not requested. -/
theorem githubRelease_Check_prev [GoLib] (g : githubReleaseOrCommit W) (p1 p2 : String)
    (o : Options) (w : W) :
    (g.Check p1 o w).1.2 = (g.Check p2 o w).1.2 ∧
    (g.Check p1 o w).1.1.Current = (g.Check p2 o w).1.1.Current ∧
    (g.Check p1 o w).2 = (g.Check p2 o w).2 ∧
    (∀ k, k ≠ "compare" →
      (g.Check p1 o w).1.1.Links.lookup k = (g.Check p2 o w).1.1.Links.lookup k) ∧
    (o.IncludeNotes = false →
      (g.Check p1 o w).1.1.Highlights = (g.Check p2 o w).1.1.Highlights) := by
  cases hget : (g.HTTP.Get g.feedURL [("User-Agent", g.UserAgent)] w).1.2 with
  | some err =>
    unfold githubReleaseOrCommit.Check
    simp only [hget]
    exact ⟨trivial, trivial, trivial, fun _ _ => trivial, fun _ => trivial⟩
  | none =>
    cases hfeed : GoLib.unmarshalAtomFeed
        (g.HTTP.Get g.feedURL [("User-Agent", g.UserAgent)] w).1.1 with
    | error err =>
      unfold githubReleaseOrCommit.Check
      simp only [hget, hfeed]
      exact ⟨trivial, trivial, trivial, fun _ _ => trivial, fun _ => trivial⟩
    | ok feed =>
      cases hentries : feed.Entries with
      | nil =>
        rw [release_Check_of_no_entry g p1 o w feed hget hfeed hentries,
          release_Check_of_no_entry g p2 o w feed hget hfeed hentries]
        obtain ⟨herr, hcur, hhl, hworld, hlinks⟩ := githubCommit_Check_prev g.Fallback p1 p2 o o
          (g.HTTP.Get g.feedURL [("User-Agent", g.UserAgent)] w).2
        rw [← herr, ← hworld]
        cases hfb : (g.Fallback.Check p1 o
            (g.HTTP.Get g.feedURL [("User-Agent", g.UserAgent)] w).2).1.2 with
        | some e => exact ⟨rfl, rfl, rfl, fun _ _ => rfl, fun _ => rfl⟩
        | none =>
          refine ⟨rfl, hcur, rfl, ?_, fun _ => hhl⟩
          intro k hk
          show List.lookup k (mapSet _ "feed" _) = List.lookup k (mapSet _ "feed" _)
          by_cases hfeedk : k = "feed"
          · rw [hfeedk, lookup_mapSet_self, lookup_mapSet_self]
          · rw [lookup_mapSet_ne _ _ _ _ hfeedk, lookup_mapSet_ne _ _ _ _ hfeedk]
            exact hlinks k hk
      | cons entry rest =>
        rw [release_Check_of_entry g p1 o w feed entry rest hget hfeed hentries,
          release_Check_of_entry g p2 o w feed entry rest hget hfeed hentries]
        by_cases ht : entryTitle entry = ""
        · rw [if_pos ht, if_pos ht]
          exact ⟨rfl, rfl, rfl, fun _ _ => rfl, fun _ => rfl⟩
        · rw [if_neg ht, if_neg ht]
          refine ⟨rfl, rfl, rfl, fun _ _ => rfl, ?_⟩
          intro hnotes
          have hno : ∀ p : String, ¬ (TrimSpace p ≠ "" ∧ TrimSpace p ≠ entryTitle entry ∧
              o.IncludeNotes = true) := by
            intro p h
            rw [hnotes] at h
            exact absurd h.2.2 (by decide)
          show (if _ then _ else _) = (if _ then _ else _)
          rw [if_neg (hno p1), if_neg (hno p2)]

/-- The Homebrew probe and the previous value: only the message depends on it. -/
theorem brewFormula_Check_prev [GoLib] (b : brewFormula W) (p1 p2 : String) (o1 o2 : Options)
    (w : W) :
    (b.Check p1 o1 w).1.2 = (b.Check p2 o2 w).1.2 ∧
    (b.Check p1 o1 w).1.1.Current = (b.Check p2 o2 w).1.1.Current ∧
    (b.Check p1 o1 w).1.1.Links = (b.Check p2 o2 w).1.1.Links ∧
    (b.Check p1 o1 w).1.1.Highlights = (b.Check p2 o2 w).1.1.Highlights ∧
    (b.Check p1 o1 w).2 = (b.Check p2 o2 w).2 := by
  cases hrun : (b.Exec.Run "brew" ["info", "--json=v2", b.Formula] w).1.2 with
  | some err =>
    unfold brewFormula.Check
    simp only [hrun]
    exact ⟨trivial, trivial, trivial, trivial, trivial⟩
  | none =>
    cases hinfo : GoLib.unmarshalBrewInfo
        (b.Exec.Run "brew" ["info", "--json=v2", b.Formula] w).1.1 with
    | error err =>
      unfold brewFormula.Check
      simp only [hrun, hinfo]
      exact ⟨trivial, trivial, trivial, trivial, trivial⟩
    | ok info =>
      cases hf : info.Formulae with
      | nil =>
        unfold brewFormula.Check
        simp only [hrun, hinfo, hf]
        exact ⟨trivial, trivial, trivial, trivial, trivial⟩
      | cons f rest =>
        unfold brewFormula.Check
        by_cases hv : TrimSpace f.Versions.Stable = ""
        · simp only [hrun, hinfo, hf, hv, if_true]
          exact ⟨trivial, trivial, trivial, trivial, trivial⟩
        · simp only [hrun, hinfo, hf, hv, if_false]
          exact ⟨trivial, trivial, trivial, trivial, trivial⟩

/-- The npm probe and the previous value: only the message depends on it. -/
theorem npmPackage_Check_prev (n : npmPackage W) (p1 p2 : String) (o1 o2 : Options) (w : W) :
    (n.Check p1 o1 w).1.2 = (n.Check p2 o2 w).1.2 ∧
    (n.Check p1 o1 w).1.1.Current = (n.Check p2 o2 w).1.1.Current ∧
    (n.Check p1 o1 w).1.1.Links = (n.Check p2 o2 w).1.1.Links ∧
    (n.Check p1 o1 w).1.1.Highlights = (n.Check p2 o2 w).1.1.Highlights ∧
    (n.Check p1 o1 w).2 = (n.Check p2 o2 w).2 := by
  cases hrun : (n.Exec.Run "npm" ["view", n.Package, "version"] w).1.2 with
  | some err =>
    unfold npmPackage.Check
    simp only [hrun]
    exact ⟨trivial, trivial, trivial, trivial, trivial⟩
  | none =>
    unfold npmPackage.Check
    by_cases hv : TrimSpace (n.Exec.Run "npm" ["view", n.Package, "version"] w).1.1 = ""
    · simp only [hrun, hv, if_true]
      exact ⟨trivial, trivial, trivial, trivial, trivial⟩
    · simp only [hrun, hv, if_false]
      exact ⟨trivial, trivial, trivial, trivial, trivial⟩

/-- C24 as stated fails: the commit probe returns other links after the
    previous value `abc` than on a first run, and the release probe, with
    notes requested, returns highlights after `v1.0.0` and none on a first run. -/
theorem C24_counterexample :
    (sampleCommitProbe.Check "" {} []).1.1.Links ≠
        (sampleCommitProbe.Check "abc" {} []).1.1.Links ∧
      (@githubReleaseOrCommit.Check _ sampleLib
        (sampleReleaseProbe [(sampleFeedURL, feedBody)]) "" { IncludeNotes := true }
        []).1.1.Highlights = "" ∧
      (@githubReleaseOrCommit.Check _ sampleLib
        (sampleReleaseProbe [(sampleFeedURL, feedBody)]) "v1.0.0" { IncludeNotes := true }
        []).1.1.Highlights = "- Fix A\n- Add B" := by
  decide

/-- C24, amended: for the pull-request, Homebrew and npm probes, and every
    behaviour of the collaborators, any two previous values give the same
    error outcome, the same `Current`, `Links` and `Highlights`, and the same
    calls of the collaborators (the pull-request probe ignores the previous
    value altogether).  For the commit and the release probe they give the
    same error outcome, the same `Current` and the same calls, links that agree
    on every key other than "compare", and, for the commit probe always and for
    the release probe when notes are not requested, the same highlights. -/
theorem C24_previous_value_in_probes [GoLib] (p1 p2 : String) (o : Options) (w : W) :
    (∀ g : githubPR W, g.Check p1 o w = g.Check p2 o w) ∧
    (∀ b : brewFormula W,
      (b.Check p1 o w).1.2 = (b.Check p2 o w).1.2 ∧
      (b.Check p1 o w).1.1.Current = (b.Check p2 o w).1.1.Current ∧
      (b.Check p1 o w).1.1.Links = (b.Check p2 o w).1.1.Links ∧
      (b.Check p1 o w).1.1.Highlights = (b.Check p2 o w).1.1.Highlights ∧
      (b.Check p1 o w).2 = (b.Check p2 o w).2) ∧
    (∀ n : npmPackage W,
      (n.Check p1 o w).1.2 = (n.Check p2 o w).1.2 ∧
      (n.Check p1 o w).1.1.Current = (n.Check p2 o w).1.1.Current ∧
      (n.Check p1 o w).1.1.Links = (n.Check p2 o w).1.1.Links ∧
      (n.Check p1 o w).1.1.Highlights = (n.Check p2 o w).1.1.Highlights ∧
      (n.Check p1 o w).2 = (n.Check p2 o w).2) ∧
    (∀ g : githubCommit W,
      (g.Check p1 o w).1.2 = (g.Check p2 o w).1.2 ∧
      (g.Check p1 o w).1.1.Current = (g.Check p2 o w).1.1.Current ∧
      (g.Check p1 o w).1.1.Highlights = (g.Check p2 o w).1.1.Highlights ∧
      (g.Check p1 o w).2 = (g.Check p2 o w).2 ∧
      (∀ k, k ≠ "compare" →
        (g.Check p1 o w).1.1.Links.lookup k = (g.Check p2 o w).1.1.Links.lookup k)) ∧
    (∀ g : githubReleaseOrCommit W,
      (g.Check p1 o w).1.2 = (g.Check p2 o w).1.2 ∧
      (g.Check p1 o w).1.1.Current = (g.Check p2 o w).1.1.Current ∧
      (g.Check p1 o w).2 = (g.Check p2 o w).2 ∧
      (∀ k, k ≠ "compare" →
        (g.Check p1 o w).1.1.Links.lookup k = (g.Check p2 o w).1.1.Links.lookup k) ∧
      (o.IncludeNotes = false →
        (g.Check p1 o w).1.1.Highlights = (g.Check p2 o w).1.1.Highlights)) :=
  ⟨fun _ => rfl, fun b => brewFormula_Check_prev b p1 p2 o o w,
    fun n => npmPackage_Check_prev n p1 p2 o o w,
    fun g => githubCommit_Check_prev g p1 p2 o o w,
    fun g => githubRelease_Check_prev g p1 p2 o w⟩

/-- C24, amended, at the commit probe of `a/b`: the "repo" link on a first
    run is the one after the previous value `abc`; and at the release probe of
    the test without notes: the highlights are the same, namely none. -/
theorem C24_previous_value_in_probes_witness :
    (sampleCommitProbe.Check "" {} []).1.1.Links.lookup "repo" =
        (sampleCommitProbe.Check "abc" {} []).1.1.Links.lookup "repo" ∧
      (@githubReleaseOrCommit.Check _ sampleLib
        (sampleReleaseProbe [(sampleFeedURL, feedBody)]) "" {} []).1.1.Highlights =
      (@githubReleaseOrCommit.Check _ sampleLib
        (sampleReleaseProbe [(sampleFeedURL, feedBody)]) "v1.0.0" {} []).1.1.Highlights :=
  ⟨((@C24_previous_value_in_probes _ plainLib "" "abc" {} []).2.2.2.1 sampleCommitProbe).2.2.2.2
      "repo" (by decide),
    ((@C24_previous_value_in_probes _ sampleLib "" "v1.0.0" {} []).2.2.2.2
      (sampleReleaseProbe [(sampleFeedURL, feedBody)])).2.2.2.2 rfl⟩

/-! ## Construction errors -/
/-- The outcome of `Registry.Build`, by type and mode. -/
theorem Build_error_iff [GoLib] (reg : trackers.Registry W) (cfg : TrackerEntry) :
    (∃ e, reg.Build cfg = .error e) ↔
      (cfg.Type_ ≠ "github" ∧ cfg.Type_ ≠ "brew" ∧ cfg.Type_ ≠ "npm") ∨
      (cfg.Type_ = "github" ∧ cfg.Mode ≠ "release" ∧ cfg.Mode ≠ "commit" ∧ cfg.Mode ≠ "pr") := by
  unfold trackers.Registry.Build
  by_cases hg : cfg.Type_ = "github"
  · rw [if_pos hg]
    by_cases hc : cfg.Mode = "commit"
    · rw [if_pos hc]
      constructor
      · rintro ⟨e, he⟩
        exact absurd he (by simp)
      · rintro (h | h)
        · exact absurd hg h.1
        · exact absurd hc h.2.2.1
    · rw [if_neg hc]
      by_cases hr : cfg.Mode = "release"
      · rw [if_pos hr]
        constructor
        · rintro ⟨e, he⟩
          exact absurd he (by simp)
        · rintro (h | h)
          · exact absurd hg h.1
          · exact absurd hr h.2.1
      · rw [if_neg hr]
        by_cases hp : cfg.Mode = "pr"
        · rw [if_pos hp]
          constructor
          · rintro ⟨e, he⟩
            exact absurd he (by simp)
          · rintro (h | h)
            · exact absurd hg h.1
            · exact absurd hp h.2.2.2
        · rw [if_neg hp]
          exact ⟨fun _ => Or.inr ⟨hg, hr, hc, hp⟩, fun _ => ⟨_, rfl⟩⟩
  · rw [if_neg hg]
    by_cases hb : cfg.Type_ = "brew"
    · rw [if_pos hb]
      constructor
      · rintro ⟨e, he⟩
        exact absurd he (by simp)
      · rintro (h | h)
        · exact absurd hb h.2.1
        · exact absurd h.1 hg
    · rw [if_neg hb]
      by_cases hn : cfg.Type_ = "npm"
      · rw [if_pos hn]
        constructor
        · rintro ⟨e, he⟩
          exact absurd he (by simp)
        · rintro (h | h)
          · exact absurd hn h.2.2
          · exact absurd h.1 hg
      · rw [if_neg hn]
        exact ⟨fun _ => Or.inl ⟨hg, hb, hn⟩, fun _ => ⟨_, rfl⟩⟩

/-- The error of `Registry.Build` is made of the configuration alone. -/
theorem Build_error_of_cfg [GoLib] (reg reg2 : trackers.Registry W) (cfg : TrackerEntry)
    (e : GoError) (h : reg.Build cfg = .error e) : reg2.Build cfg = .error e := by
  unfold trackers.Registry.Build at h ⊢
  by_cases hg : cfg.Type_ = "github"
  · rw [if_pos hg] at h ⊢
    by_cases hc : cfg.Mode = "commit"
    · rw [if_pos hc] at h
      exact absurd h (by simp)
    · rw [if_neg hc] at h ⊢
      by_cases hr : cfg.Mode = "release"
      · rw [if_pos hr] at h
        exact absurd h (by simp)
      · rw [if_neg hr] at h ⊢
        by_cases hp : cfg.Mode = "pr"
        · rw [if_pos hp] at h
          exact absurd h (by simp)
        · rw [if_neg hp] at h ⊢
          exact h
  · rw [if_neg hg] at h ⊢
    by_cases hb : cfg.Type_ = "brew"
    · rw [if_pos hb] at h
      exact absurd h (by simp)
    · rw [if_neg hb] at h ⊢
      by_cases hn : cfg.Type_ = "npm"
      · rw [if_pos hn] at h
        exact absurd h (by simp)
      · rw [if_neg hn] at h ⊢
        exact h

/-- What `runOne` returns when `Build` fails. -/
theorem runOne_of_build_error [GoLib] (r : runner W) (cfg : TrackerEntry) (prev : Item) (w : W)
    (e : GoError) (hbuild : r.Registry.Build cfg = .error e) :
    runOne r cfg prev w =
      ((errorItem cfg e.Error,
        { LastCheckedAt := r.RunAt, LastSeen := prev.LastSeen, LastStatus := "error",
          LastError := e.Error }), w) := by
  unfold runOne
  simp only [hbuild]

/-- C25: `Registry.Build` fails exactly when the type is not one of github,
    brew, npm, or the type is github and the mode is not one of release,
    commit, pr.  When it fails with the error `e`, `runOne` of a runner on that
    registry classifies the source as "error" with the text of `e`, carries the
    previous `LastSeen` forward unchanged, and makes no call to the fetch or
    exec collaborators: it returns the world as it was, and returns the same
    for any other collaborators. -/
theorem C25_build_failure [GoLib] (reg : trackers.Registry W) (cfg : TrackerEntry) :
    ((∃ e, reg.Build cfg = .error e) ↔
      (cfg.Type_ ≠ "github" ∧ cfg.Type_ ≠ "brew" ∧ cfg.Type_ ≠ "npm") ∨
      (cfg.Type_ = "github" ∧ cfg.Mode ≠ "release" ∧ cfg.Mode ≠ "commit" ∧ cfg.Mode ≠ "pr")) ∧
    (∀ (e : GoError) (r : runner W) (prev : Item) (w : W),
      reg.Build cfg = .error e → r.Registry = reg.toRegistry →
      (runOne r cfg prev w).1.1.Status = "error" ∧
      (runOne r cfg prev w).1.1.Error = e.Error ∧
      (runOne r cfg prev w).1.2.LastSeen = prev.LastSeen ∧
      (runOne r cfg prev w).1.2.LastStatus = "error" ∧
      (runOne r cfg prev w).1.2.LastError = e.Error ∧
      (runOne r cfg prev w).2 = w ∧
      (∀ (reg2 : trackers.Registry W) (r2 : runner W), r2.Registry = reg2.toRegistry →
        r2.RunAt = r.RunAt → runOne r2 cfg prev w = runOne r cfg prev w)) := by
  refine ⟨Build_error_iff reg cfg, ?_⟩
  intro e r prev w hbuild hreg
  have hb : r.Registry.Build cfg = .error e := by
    rw [hreg]
    exact hbuild
  rw [runOne_of_build_error r cfg prev w e hb]
  refine ⟨rfl, rfl, rfl, rfl, rfl, rfl, ?_⟩
  intro reg2 r2 hreg2 hrunat
  have hb2 : r2.Registry.Build cfg = .error e := by
    rw [hreg2]
    exact Build_error_of_cfg reg reg2 cfg e hbuild
  rw [runOne_of_build_error r2 cfg prev w e hb2, hrunat]

/-- C25 at a source of the unknown type `pypi`, after a run that saw `1.0`:
    the status is "error" with the text of the construction error, and the next
    state keeps `1.0`. -/
theorem C25_build_failure_witness :
    (@runOne Unit plainLib (@printingRunner plainLib "" none) unknownTypeSource
        { LastSeen := "1.0" } ()).1.1.Status = "error" ∧
      (@runOne Unit plainLib (@printingRunner plainLib "" none) unknownTypeSource
        { LastSeen := "1.0" } ()).1.1.Error = "tracker x: unknown type: pypi" ∧
      (@runOne Unit plainLib (@printingRunner plainLib "" none) unknownTypeSource
        { LastSeen := "1.0" } ()).1.2.LastSeen = "1.0" :=
  have h := (@C25_build_failure Unit plainLib
    { HTTP := noFetcher, Exec := constExec "" none, UserAgent := "x" } unknownTypeSource).2
    { Error := "tracker x: unknown type: pypi" } (@printingRunner plainLib "" none)
    { LastSeen := "1.0" } () rfl rfl
  ⟨h.1, h.2.1, h.2.2.1⟩

/-! ## The key of the exec cache -/
/-- Two texts that agree, each cut at a separator that its first part does
    not hold, agree part by part. -/
theorem sep_split_inj (z : Char) :
    ∀ (a b r1 r2 : List Char), z ∉ a → z ∉ b → a ++ z :: r1 = b ++ z :: r2 → a = b ∧ r1 = r2 := by
  intro a
  induction a with
  | nil =>
    intro b r1 r2 _ hb h
    cases b with
    | nil => exact ⟨rfl, (List.cons.inj h).2⟩
    | cons c cs =>
      exfalso
      apply hb
      rw [List.nil_append, List.cons_append] at h
      rw [← (List.cons.inj h).1]
      exact List.mem_cons_self _ _
  | cons c cs ih =>
    intro b r1 r2 ha hb h
    cases b with
    | nil =>
      exfalso
      apply ha
      rw [List.nil_append, List.cons_append] at h
      rw [(List.cons.inj h).1]
      exact List.mem_cons_self _ _
    | cons d ds =>
      rw [List.cons_append, List.cons_append] at h
      obtain ⟨hcd, hrest⟩ := List.cons.inj h
      obtain ⟨h1, h2⟩ := ih ds r1 r2 (fun hm => ha (List.mem_cons_of_mem _ hm))
        (fun hm => hb (List.mem_cons_of_mem _ hm)) hrest
      exact ⟨by rw [hcd, h1], h2⟩

/-- Joining with a separator that no part holds loses nothing, for lists of
    parts that are not empty. -/
theorem joinList_inj (z : Char) :
    ∀ (xs ys : List (List Char)), xs ≠ [] → ys ≠ [] → (∀ x ∈ xs, z ∉ x) → (∀ y ∈ ys, z ∉ y) →
      joinList [z] xs = joinList [z] ys → xs = ys := by
  intro xs
  induction xs with
  | nil => intro ys h; exact absurd rfl h
  | cons a rest ih =>
    intro ys _ hys hxs hyy h
    cases ys with
    | nil => exact absurd rfl hys
    | cons b more =>
      cases rest with
      | nil =>
        cases more with
        | nil =>
          have : a = b := h
          rw [this]
        | cons b2 more2 =>
          exfalso
          apply hxs a (List.mem_cons_self _ _)
          have : a = b ++ [z] ++ joinList [z] (b2 :: more2) := h
          rw [this]
          simp
      | cons a2 rest2 =>
        cases more with
        | nil =>
          exfalso
          apply hyy b (List.mem_cons_self _ _)
          have : a ++ [z] ++ joinList [z] (a2 :: rest2) = b := h
          rw [← this]
          simp
        | cons b2 more2 =>
          have h2 : a ++ z :: joinList [z] (a2 :: rest2) = b ++ z :: joinList [z] (b2 :: more2) := by
            have : a ++ [z] ++ joinList [z] (a2 :: rest2) = b ++ [z] ++ joinList [z] (b2 :: more2) := h
            simpa using this
          obtain ⟨hab, hj⟩ := sep_split_inj z a b _ _ (hxs a (List.mem_cons_self _ _))
            (hyy b (List.mem_cons_self _ _)) h2
          rw [hab, ih (b2 :: more2) (List.cons_ne_nil _ _) (List.cons_ne_nil _ _)
            (fun x hx => hxs x (List.mem_cons_of_mem _ hx))
            (fun y hy => hyy y (List.mem_cons_of_mem _ hy)) hj]

/-- The code points of the key of `CachedRunner.Run`. -/
theorem CachedRunner_key_data (name : String) (args : List String) :
    (CachedRunner.key name args).data =
      name.data ++ '\x00' :: joinList ['\x00'] (args.map String.data) := by
  unfold CachedRunner.key Join
  rw [String.data_append, String.data_append]
  simp

/-- C27 as stated fails: the invocation of `ls` without arguments and the
    invocation of `ls` with one empty argument contain no NUL character and
    have the same key. -/
theorem C27_counterexample :
    CachedRunner.key "ls" [] = CachedRunner.key "ls" [""] ∧
      ([] : List String) ≠ [""] ∧ '\x00' ∉ "ls".data ∧ ∀ a ∈ [""], '\x00' ∉ a.data := by
  decide

/-- C27, amended: for any two invocations whose name and arguments contain no
    NUL character and whose argument lists are not empty, the keys built by
    `CachedRunner.Run` are equal only if the names are equal and the argument
    lists are equal. -/
theorem C27_exec_key_injective (name1 name2 : String) (args1 args2 : List String)
    (hn1 : '\x00' ∉ name1.data) (hn2 : '\x00' ∉ name2.data)
    (ha1 : ∀ a ∈ args1, '\x00' ∉ a.data) (ha2 : ∀ a ∈ args2, '\x00' ∉ a.data)
    (hne1 : args1 ≠ []) (hne2 : args2 ≠ [])
    (hkey : CachedRunner.key name1 args1 = CachedRunner.key name2 args2) :
    name1 = name2 ∧ args1 = args2 := by
  have hdata := congrArg String.data hkey
  rw [CachedRunner_key_data, CachedRunner_key_data] at hdata
  obtain ⟨hname, hjoin⟩ := sep_split_inj '\x00' _ _ _ _ hn1 hn2 hdata
  have hparts := joinList_inj '\x00' (args1.map String.data) (args2.map String.data)
    (by simpa using hne1) (by simpa using hne2)
    (by
      intro x hx
      obtain ⟨a, ha, hax⟩ := List.mem_map.mp hx
      rw [← hax]
      exact ha1 a ha)
    (by
      intro x hx
      obtain ⟨a, ha, hax⟩ := List.mem_map.mp hx
      rw [← hax]
      exact ha2 a ha)
    hjoin
  refine ⟨String.ext hname, ?_⟩
  have hinj : Function.Injective String.data := fun s t h => String.ext h
  exact List.map_injective_iff.mpr hinj hparts

/-- C27, amended, at two invocations of `git`: the key of `git ls-remote`
    with two arguments is met again only by the same invocation. -/
theorem C27_exec_key_injective_witness :
    CachedRunner.key "git" ["ls-remote", "https://github.com/a/b.git", "refs/heads/main"] =
        CachedRunner.key "git" ["ls-remote", "https://github.com/a/b.git", "refs/heads/main"] ∧
      (("git" : String) = "git" ∧
        ["ls-remote", "https://github.com/a/b.git", "refs/heads/main"] =
          ["ls-remote", "https://github.com/a/b.git", "refs/heads/main"]) :=
  ⟨rfl, C27_exec_key_injective "git" "git"
    ["ls-remote", "https://github.com/a/b.git", "refs/heads/main"]
    ["ls-remote", "https://github.com/a/b.git", "refs/heads/main"]
    (by decide) (by decide) (by decide) (by decide) (by decide) (by decide) rfl⟩

/-! ## The caches -/
/-- A sequence of calls in two parts. -/
theorem runCalls_append {α β S : Type} (step : α → S → β × S) :
    ∀ (xs ys : List α) (s : S),
      runCalls step (xs ++ ys) s =
        ((runCalls step xs s).1 ++ (runCalls step ys (runCalls step xs s).2).1,
          (runCalls step ys (runCalls step xs s).2).2) := by
  intro xs
  induction xs with
  | nil => intro ys s; rfl
  | cons a rest ih =>
    intro ys s
    rw [List.cons_append, runCalls, ih]
    rfl

/-- A sequence of calls has one outcome for each call. -/
theorem runCalls_length {α β S : Type} (step : α → S → β × S) :
    ∀ (xs : List α) (s : S), (runCalls step xs s).1.length = xs.length := by
  intro xs
  induction xs with
  | nil => intro s; rfl
  | cons a rest ih =>
    intro s
    rw [runCalls, List.length_cons, List.length_cons, ih]

/-- The method `CachedFetcher.Get` has the shape of `memoCall`. -/
theorem CachedFetcher_Get_eq (c : CachedFetcher W) (url : String) (headers : Links)
    (s : Links × W) :
    c.Get url headers s = memoCall url (c.Inner.Get url headers) (fun _ => "") s :=
  rfl

/-- The method `CachedRunner.Run` has the shape of `memoCall`. -/
theorem CachedRunner_Run_eq (c : CachedRunner W) (name : String) (args : List String)
    (s : Links × W) :
    c.Run name args s =
      memoCall (CachedRunner.key name args) (c.Inner.Run name args) (fun out => out) s :=
  rfl

/-- A call that finds its key in the cache returns the stored value and
    leaves the state as it is. -/
theorem memoCall_hit {V : Type} (key : String) (inner : V → (String × Option GoError) × V)
    (failOut : String → String) (s : Links × V) (v : String) (h : s.1.lookup key = some v) :
    memoCall key inner failOut s = ((v, none), s) := by
  unfold memoCall
  simp only [h]

/-- A call that does not find its key makes the inner call; a failure leaves
    the cache as it is, a success stores the value under the key. -/
theorem memoCall_miss {V : Type} (key : String) (inner : V → (String × Option GoError) × V)
    (failOut : String → String) (s : Links × V) (h : s.1.lookup key = none) :
    (memoCall key inner failOut s).1.2 = (inner s.2).1.2 ∧
    (memoCall key inner failOut s).2.2 = (inner s.2).2 ∧
    ((inner s.2).1.2 ≠ none → (memoCall key inner failOut s).2.1 = s.1 ∧
      (memoCall key inner failOut s).1.1 = failOut (inner s.2).1.1) ∧
    ((inner s.2).1.2 = none →
      (memoCall key inner failOut s).1.1 = (inner s.2).1.1 ∧
      (memoCall key inner failOut s).2.1 = mapSet s.1 key (inner s.2).1.1) := by
  unfold memoCall
  simp only [h]
  cases hq : (inner s.2).1.2 with
  | none => exact ⟨rfl, rfl, fun hne => absurd rfl hne, fun _ => ⟨rfl, rfl⟩⟩
  | some err => exact ⟨rfl, rfl, fun _ => ⟨rfl, rfl⟩, fun hn => absurd hn (Option.some_ne_none _)⟩

/-- The cache after a sequence of calls that began with the empty cache: it
    holds the value of every call that succeeded, under the key of the call, and
    nothing else. -/
theorem memo_history {α V : Type} (key : α → String)
    (inner : α → V → (String × Option GoError) × V) (failOut : String → String) (v0 : V) :
    ∀ before : List α,
      (∀ p ∈ List.zip (before.map key)
          (runCalls (fun a => memoCall (key a) (inner a) failOut) before ([], v0)).1,
        p.2.2 = none →
        (runCalls (fun a => memoCall (key a) (inner a) failOut) before ([], v0)).2.1.lookup p.1
          = some p.2.1) ∧
      (∀ k v,
        (runCalls (fun a => memoCall (key a) (inner a) failOut) before ([], v0)).2.1.lookup k
          = some v →
        ∃ p ∈ List.zip (before.map key)
            (runCalls (fun a => memoCall (key a) (inner a) failOut) before ([], v0)).1,
          p.1 = k ∧ p.2 = (v, none)) := by
  intro before
  induction before using List.reverseRecOn with
  | nil =>
    refine ⟨fun p hp => absurd hp (List.not_mem_nil _), ?_⟩
    intro k v h
    exact absurd h (by simp [runCalls])
  | append_singleton xs a ih =>
    obtain ⟨ih1, ih2⟩ := ih
    rw [runCalls_append]
    generalize hpast : runCalls (fun a => memoCall (key a) (inner a) failOut) xs ([], v0) = past
      at ih1 ih2
    have hlen : (xs.map key).length = past.1.length := by
      rw [List.length_map, ← hpast, runCalls_length]
    have hstep : runCalls (fun a => memoCall (key a) (inner a) failOut) [a] past.2 =
        ([(memoCall (key a) (inner a) failOut past.2).1],
          (memoCall (key a) (inner a) failOut past.2).2) := rfl
    rw [hstep, List.map_append, List.map_singleton]
    simp only
    rw [List.zip_append hlen]
    simp only [List.zip_cons_cons, List.zip_nil_right, List.mem_append, List.mem_singleton]
    cases hlook : past.2.1.lookup (key a) with
    | some v =>
      rw [memoCall_hit _ _ _ _ v hlook]
      constructor
      · rintro p (hp | hp) hok
        · exact ih1 p hp hok
        · rw [hp]
          exact hlook
      · intro k v2 h
        obtain ⟨p, hp, hpk⟩ := ih2 k v2 h
        exact ⟨p, Or.inl hp, hpk⟩
    | none =>
      obtain ⟨herr, _, hfail, hsucc⟩ := memoCall_miss (key a) (inner a) failOut past.2 hlook
      cases hq : (inner a past.2.2).1.2 with
      | some err =>
        obtain ⟨hcache, _⟩ := hfail (by rw [hq]; exact Option.some_ne_none _)
        rw [hcache]
        constructor
        · rintro p (hp | hp) hok
          · exact ih1 p hp hok
          · rw [hp] at hok
            rw [herr, hq] at hok
            exact absurd hok (Option.some_ne_none _)
        · intro k v2 h
          obtain ⟨p, hp, hpk⟩ := ih2 k v2 h
          exact ⟨p, Or.inl hp, hpk⟩
      | none =>
        obtain ⟨hval, hcache⟩ := hsucc hq
        rw [hcache]
        constructor
        · rintro p (hp | hp) hok
          · have hold := ih1 p hp hok
            have hne : p.1 ≠ key a := by
              intro h
              rw [h, hlook] at hold
              exact absurd hold (by simp)
            rw [lookup_mapSet_ne _ _ _ _ hne]
            exact hold
          · rw [hp]
            simp only
            rw [lookup_mapSet_self, hval]
        · intro k v2 h
          by_cases hk : k = key a
          · rw [hk, lookup_mapSet_self] at h
            refine ⟨_, Or.inr rfl, hk.symm, ?_⟩
            have hv : (inner a past.2.2).1.1 = v2 := Option.some.inj h
            apply Prod.ext
            · simp only
              rw [hval, hv]
            · simp only
              rw [herr, hq]
          · rw [lookup_mapSet_ne _ _ _ _ hk] at h
            obtain ⟨p, hp, hpk⟩ := ih2 k v2 h
            exact ⟨p, Or.inl hp, hpk⟩

/-- A key is in the cache exactly when an earlier call with that key
    succeeded, and every such call returned the value that the cache holds. -/
theorem memo_served {α V : Type} (key : α → String)
    (inner : α → V → (String × Option GoError) × V) (failOut : String → String) (v0 : V)
    (before : List α) (k : String) :
    (servedBefore (before.map key)
        (runCalls (fun a => memoCall (key a) (inner a) failOut) before ([], v0)).1 k ↔
      (runCalls (fun a => memoCall (key a) (inner a) failOut) before ([], v0)).2.1.lookup k
        ≠ none) ∧
    (∀ p ∈ List.zip (before.map key)
        (runCalls (fun a => memoCall (key a) (inner a) failOut) before ([], v0)).1,
      p.1 = k → p.2.2 = none →
      (runCalls (fun a => memoCall (key a) (inner a) failOut) before ([], v0)).2.1.lookup k
        = some p.2.1) := by
  obtain ⟨h1, h2⟩ := memo_history key inner failOut v0 before
  refine ⟨⟨?_, ?_⟩, ?_⟩
  · rintro ⟨p, hp, hk, hok⟩
    rw [← hk, h1 p hp hok]
    exact Option.some_ne_none _
  · intro hne
    cases hl : (runCalls (fun a => memoCall (key a) (inner a) failOut) before
        ([], v0)).2.1.lookup k with
    | none => exact absurd hl hne
    | some v =>
      obtain ⟨p, hp, hk, hv⟩ := h2 k v hl
      exact ⟨p, hp, hk, by rw [hv]⟩
  · intro p hp hk hok
    rw [← hk]
    exact h1 p hp hok

/-- The next call on a cache after a sequence of calls that began with the
    empty cache, when every inner call adds one to a counter in the world. -/
theorem memo_next {α : Type} (key : α → String)
    (inner : α → (W × Nat) → (String × Option GoError) × (W × Nat)) (failOut : String → String)
    (hcount : ∀ a v, (inner a v).2.2 = v.2 + 1) (v0 : W × Nat) (before : List α) (a : α)
    (past : List (String × Option GoError) × (Links × (W × Nat)))
    (out : (String × Option GoError) × (Links × (W × Nat)))
    (hpast : past = runCalls (fun a => memoCall (key a) (inner a) failOut) before ([], v0))
    (hout : out = memoCall (key a) (inner a) failOut past.2) :
    (out.2.2.2 = past.2.2.2 + 1 ↔ ¬ servedBefore (before.map key) past.1 (key a)) ∧
    (out.2.2.2 = past.2.2.2 ↔ servedBefore (before.map key) past.1 (key a)) ∧
    (¬ servedBefore (before.map key) past.1 (key a) →
      out.1.2 = (inner a past.2.2).1.2 ∧ out.2.2 = (inner a past.2.2).2) ∧
    (∀ p ∈ List.zip (before.map key) past.1, p.1 = key a → p.2.2 = none →
      out.1 = (p.2.1, none) ∧ out.2 = past.2) ∧
    (out.1.2 ≠ none → out.2.1 = past.2.1 ∧
      ∀ b, key b = key a → (memoCall (key b) (inner b) failOut out.2).2.2.2 = out.2.2.2 + 1) ∧
    (out.1.2 = none →
      ∀ b, key b = key a → memoCall (key b) (inner b) failOut out.2 = (out.1, out.2)) := by
  obtain ⟨hserved, hvalue⟩ := memo_served key inner failOut v0 before (key a)
  rw [← hpast] at hserved hvalue
  cases hlook : past.2.1.lookup (key a) with
  | some v =>
    have hs : servedBefore (before.map key) past.1 (key a) :=
      hserved.mpr (by rw [hlook]; exact Option.some_ne_none _)
    have hhit := memoCall_hit (key a) (inner a) failOut past.2 v hlook
    rw [hhit] at hout
    rw [hout]
    refine ⟨⟨fun h => absurd h (by simp), fun h => absurd hs h⟩, ⟨fun _ => hs, fun _ => rfl⟩,
      fun h => absurd hs h, ?_, fun h => absurd rfl h, ?_⟩
    · intro p hp hk hok
      have := hvalue p hp hk hok
      rw [hlook] at this
      rw [Option.some.inj this]
      exact ⟨rfl, rfl⟩
    · intro _ b hb
      rw [hb]
      exact memoCall_hit (key a) (inner b) failOut past.2 v hlook
  | none =>
    have hs : ¬ servedBefore (before.map key) past.1 (key a) :=
      fun h => hserved.mp h hlook
    obtain ⟨herr, hworld, hfail, hsucc⟩ := memoCall_miss (key a) (inner a) failOut past.2 hlook
    rw [← hout] at herr hworld hfail hsucc
    have hc : out.2.2.2 = past.2.2.2 + 1 := by rw [hworld, hcount]
    refine ⟨⟨fun _ => hs, fun _ => hc⟩, ⟨fun h => ?_, fun h => absurd h hs⟩,
      fun _ => ⟨herr, hworld⟩, ?_, ?_, ?_⟩
    · rw [hc] at h
      omega
    · intro p hp hk hok
      exact absurd ⟨p, hp, hk, hok⟩ hs
    · intro hne
      rw [herr] at hne
      obtain ⟨hcache, _⟩ := hfail hne
      refine ⟨hcache, ?_⟩
      intro b hb
      have hl : out.2.1.lookup (key b) = none := by rw [hcache, hb, hlook]
      rw [(memoCall_miss (key b) (inner b) failOut out.2 hl).2.1, hcount]
    · intro hok
      rw [herr] at hok
      obtain ⟨hval, hcache⟩ := hsucc hok
      intro b hb
      have hl : out.2.1.lookup (key b) = some out.1.1 := by
        rw [hcache, hb, lookup_mapSet_self, hval]
      rw [memoCall_hit (key b) (inner b) failOut out.2 _ hl]
      have : out.1 = (out.1.1, none) := by
        apply Prod.ext
        · rfl
        · simp only
          rw [herr, hok]
      rw [← this]

/-- C26: the fetch and exec caches memoize successes only.  In a sequence of
    calls on one cache that begins with the empty cache, the inner collaborator
    counting its invocations: a call invokes the inner collaborator (the count
    grows by one, and the error outcome is that of the inner call) if and only
    if no earlier call with the same key succeeded, and otherwise leaves the
    count as it is; a call served from the cache returns the value of the
    earlier success and leaves the state as it is; a failed call leaves the
    cache unchanged, so that the next call with that key invokes the inner
    collaborator again; and after a call that succeeds the next call with that
    key returns the same and invokes nothing, so that two successive successful
    calls with the same URL or command on a new cache make exactly one inner
    call.  The key is the URL for the fetch cache and the text made of the
    program name and the arguments for the exec cache. -/
theorem C26_caches_memoize_successes :
    (∀ (f : Fetcher W) (before : List (String × Links)) (url : String) (headers : Links) (w : W)
      (past : List (String × Option GoError) × (Links × (W × Nat)))
      (out : (String × Option GoError) × (Links × (W × Nat))),
      past = CachedFetcher.calls (CachedFetcher.mk f.counting) before ([], (w, 0)) →
      out = CachedFetcher.Get (CachedFetcher.mk f.counting) url headers past.2 →
      (out.2.2.2 = past.2.2.2 + 1 ↔ ¬ servedBefore (before.map (fun q => q.1)) past.1 url) ∧
      (out.2.2.2 = past.2.2.2 ↔ servedBefore (before.map (fun q => q.1)) past.1 url) ∧
      (¬ servedBefore (before.map (fun q => q.1)) past.1 url →
        out.1.2 = (f.Get url headers past.2.2.1).1.2) ∧
      (∀ p ∈ List.zip (before.map (fun q => q.1)) past.1, p.1 = url → p.2.2 = none →
        out.1 = (p.2.1, none) ∧ out.2 = past.2) ∧
      (out.1.2 ≠ none → out.2.1 = past.2.1 ∧
        ∀ h2, (CachedFetcher.Get (CachedFetcher.mk f.counting) url h2 out.2).2.2.2
          = out.2.2.2 + 1) ∧
      (out.1.2 = none →
        ∀ h2, CachedFetcher.Get (CachedFetcher.mk f.counting) url h2 out.2 = (out.1, out.2)) ∧
      (before = [] → out.1.2 = none →
        ∀ h2, (CachedFetcher.Get (CachedFetcher.mk f.counting) url h2 out.2).2.2.2 = 1)) ∧
    (∀ (e : ExecRunner W) (before : List (String × List String)) (name : String)
      (args : List String) (w : W)
      (past : List (String × Option GoError) × (Links × (W × Nat)))
      (out : (String × Option GoError) × (Links × (W × Nat))),
      past = CachedRunner.calls (CachedRunner.mk e.counting) before ([], (w, 0)) →
      out = CachedRunner.Run (CachedRunner.mk e.counting) name args past.2 →
      (out.2.2.2 = past.2.2.2 + 1 ↔
        ¬ servedBefore (before.map (fun q => CachedRunner.key q.1 q.2)) past.1
          (CachedRunner.key name args)) ∧
      (out.2.2.2 = past.2.2.2 ↔
        servedBefore (before.map (fun q => CachedRunner.key q.1 q.2)) past.1
          (CachedRunner.key name args)) ∧
      (¬ servedBefore (before.map (fun q => CachedRunner.key q.1 q.2)) past.1
          (CachedRunner.key name args) →
        out.1.2 = (e.Run name args past.2.2.1).1.2) ∧
      (∀ p ∈ List.zip (before.map (fun q => CachedRunner.key q.1 q.2)) past.1,
        p.1 = CachedRunner.key name args → p.2.2 = none →
        out.1 = (p.2.1, none) ∧ out.2 = past.2) ∧
      (out.1.2 ≠ none → out.2.1 = past.2.1 ∧
        (CachedRunner.Run (CachedRunner.mk e.counting) name args out.2).2.2.2
          = out.2.2.2 + 1) ∧
      (out.1.2 = none →
        CachedRunner.Run (CachedRunner.mk e.counting) name args out.2 = (out.1, out.2)) ∧
      (before = [] → out.1.2 = none →
        (CachedRunner.Run (CachedRunner.mk e.counting) name args out.2).2.2.2 = 1)) := by
  constructor
  · intro f before url headers w past out hpast hout
    have h := memo_next (fun q : String × Links => q.1)
      (fun q => f.counting.Get q.1 q.2) (fun _ => "") (fun _ _ => rfl) (w, 0) before
      (url, headers) past out hpast hout
    obtain ⟨h1, h2, h3, h4, h5, h6⟩ := h
    refine ⟨h1, h2, fun hs => (h3 hs).1, h4,
      fun hne => ⟨(h5 hne).1, fun hd => (h5 hne).2 (url, hd) rfl⟩,
      fun hok hd => h6 hok (url, hd) rfl, ?_⟩
    intro hnil hok hd
    have hnext := h6 hok (url, hd) rfl
    have hnot : ¬ servedBefore (before.map (fun q => q.1)) past.1 url := by
      rw [hnil]
      rintro ⟨p, hp, _⟩
      exact absurd hp (by simp)
    have hc := h1.mpr hnot
    have hzero : past.2.2.2 = 0 := by rw [hpast, hnil]; rfl
    show (memoCall url (f.counting.Get url hd) (fun _ => "") out.2).2.2.2 = 1
    rw [hnext, hc, hzero]
  · intro e before name args w past out hpast hout
    have h := memo_next (fun q : String × List String => CachedRunner.key q.1 q.2)
      (fun q => e.counting.Run q.1 q.2) (fun o => o) (fun _ _ => rfl) (w, 0) before
      (name, args) past out hpast hout
    obtain ⟨h1, h2, h3, h4, h5, h6⟩ := h
    refine ⟨h1, h2, fun hs => (h3 hs).1, h4,
      fun hne => ⟨(h5 hne).1, (h5 hne).2 (name, args) rfl⟩,
      fun hok => h6 hok (name, args) rfl, ?_⟩
    intro hnil hok
    have hnext := h6 hok (name, args) rfl
    have hnot : ¬ servedBefore (before.map (fun q => CachedRunner.key q.1 q.2)) past.1
        (CachedRunner.key name args) := by
      rw [hnil]
      rintro ⟨p, hp, _⟩
      exact absurd hp (by simp)
    have hc := h1.mpr hnot
    have hzero : past.2.2.2 = 0 := by rw [hpast, hnil]; rfl
    show (memoCall (CachedRunner.key name args) (e.counting.Run name args) (fun o => o)
      out.2).2.2.2 = 1
    rw [hnext, hc, hzero]

/-- C26 at a fetcher that first fails and then serves a body: the call after
    the failure invokes the fetcher again, and the call after the success is
    served from the cache, so that three calls with one URL make two inner
    calls; and at an exec runner whose command succeeds: two calls make one
    inner call. -/
theorem C26_caches_memoize_successes_witness :
    (CachedFetcher.calls (CachedFetcher.mk scriptedFetcher.counting)
        [("https://github.com/a/b/releases.atom", []),
         ("https://github.com/a/b/releases.atom", []),
         ("https://github.com/a/b/releases.atom", [])]
        ([], ([("", some { Error := "http 502" }), (feedBody, none)], 0))).2.2.2 = 2 ∧
      (CachedRunner.Run (CachedRunner.mk scriptedExec.counting) "npm" ["view", "left-pad", "version"]
        (CachedRunner.Run (CachedRunner.mk scriptedExec.counting) "npm"
          ["view", "left-pad", "version"] ([], ([("1.3.0", none)], 0))).2).2.2.2 = 1 :=
  ⟨((@C26_caches_memoize_successes (List (String × Option GoError))).1 scriptedFetcher
      [("https://github.com/a/b/releases.atom", []), ("https://github.com/a/b/releases.atom", [])]
      "https://github.com/a/b/releases.atom" []
      [("", some { Error := "http 502" }), (feedBody, none)] _ _ rfl rfl).2.1.mpr
      ⟨("https://github.com/a/b/releases.atom", (feedBody, none)), by decide, rfl, rfl⟩,
    (@C26_caches_memoize_successes (List (String × Option GoError))).2 scriptedExec []
      "npm" ["view", "left-pad", "version"] [("1.3.0", none)] _ _ rfl rfl |>.2.2.2.2.2.2 rfl rfl⟩

/-! ## The version pattern and the latest value -/
/-- The longest initial part within a class, of a list that begins with
    members of the class. -/
theorem takeWhile_all_append (p : Char → Bool) (a rest : List Char) (h : ∀ x ∈ a, p x = true) :
    (a ++ rest).takeWhile p = a ++ rest.takeWhile p ∧
      (a ++ rest).dropWhile p = rest.dropWhile p := by
  induction a with
  | nil => exact ⟨rfl, rfl⟩
  | cons c cs ih =>
    have hc := h c (List.mem_cons_self _ _)
    obtain ⟨h1, h2⟩ := ih (fun x hx => h x (List.mem_cons_of_mem _ hx))
    constructor
    · rw [List.cons_append, List.takeWhile_cons_of_pos hc, h1, List.cons_append]
    · rw [List.cons_append, List.dropWhile_cons_of_pos hc, h2]

/-- What a match of `[0-9]+` is. -/
theorem matchDigits_some (l ds r : List Char) (h : matchDigits l = some (ds, r)) :
    ds ≠ [] ∧ (∀ x ∈ ds, isDigit x = true) ∧ l = ds ++ r := by
  unfold matchDigits at h
  simp only at h
  split at h
  · exact absurd h (by simp)
  · rename_i hne
    have heq := Option.some.inj h
    have h1 : List.takeWhile isDigit l = ds := congrArg Prod.fst heq
    have h2 : List.dropWhile isDigit l = r := congrArg Prod.snd heq
    refine ⟨?_, ?_, ?_⟩
    · rw [← h1]
      intro hnil
      apply hne
      rw [hnil]
      rfl
    · intro x hx
      rw [← h1] at hx
      exact List.mem_takeWhile_imp hx
    · rw [← h1, ← h2, List.takeWhile_append_dropWhile]

/-- The match of `[0-9]+` on a list that begins with digits. -/
theorem matchDigits_of_digits (a rest : List Char) (hne : a ≠ [])
    (hall : ∀ x ∈ a, isDigit x = true) :
    matchDigits (a ++ rest) = some (a ++ rest.takeWhile isDigit, rest.dropWhile isDigit) := by
  unfold matchDigits
  obtain ⟨h1, h2⟩ := takeWhile_all_append isDigit a rest hall
  simp only [h1, h2]
  have : (a ++ List.takeWhile isDigit rest).isEmpty = false := by
    cases a with
    | nil => exact absurd rfl hne
    | cons c cs => rfl
  rw [this]
  rfl

/-- What a match of `\.[0-9]+` is. -/
theorem matchDotDigits_some (l b r : List Char) (h : matchDotDigits l = some (b, r)) :
    ∃ ds, b = '.' :: ds ∧ ds ≠ [] ∧ (∀ x ∈ ds, isDigit x = true) ∧ l = b ++ r := by
  unfold matchDotDigits at h
  split at h
  · rename_i rest
    split at h
    · rename_i ds r2 hm
      have heq := Option.some.inj h
      have h1 : '.' :: ds = b := congrArg Prod.fst heq
      have h2 : r2 = r := congrArg Prod.snd heq
      obtain ⟨hne, hall, hl⟩ := matchDigits_some rest ds r2 hm
      refine ⟨ds, h1.symm, hne, hall, ?_⟩
      rw [← h1, ← h2, hl]
      rfl
    · exact absurd h (by simp)
  · exact absurd h (by simp)

/-- The match of `\.[0-9]+` on a dot followed by digits. -/
theorem matchDotDigits_of_digits (a rest : List Char) (hne : a ≠ [])
    (hall : ∀ x ∈ a, isDigit x = true) :
    matchDotDigits ('.' :: (a ++ rest)) =
      some ('.' :: (a ++ rest.takeWhile isDigit), rest.dropWhile isDigit) := by
  rw [matchDotDigits, matchDigits_of_digits a rest hne hall]

/-- What a match of `(-[0-9A-Za-z.-]+)?` is. -/
theorem matchSuffix_spec (r : List Char) :
    (matchSuffix r = [] ∨
      ∃ body, matchSuffix r = '-' :: body ∧ body ≠ [] ∧ ∀ x ∈ body, isSuffixChar x = true) ∧
    matchSuffix r <+: r := by
  unfold matchSuffix
  split
  · rename_i rest
    simp only
    split
    · exact ⟨Or.inl rfl, List.nil_prefix⟩
    · rename_i hne
      refine ⟨Or.inr ⟨_, rfl, ?_, fun x hx => List.mem_takeWhile_imp hx⟩, ?_⟩
      · intro hnil
        apply hne
        rw [hnil]
        rfl
      · exact List.cons_prefix_cons.mpr ⟨rfl, List.takeWhile_prefix _⟩
  · exact ⟨Or.inl rfl, List.nil_prefix⟩

/-- A match of `versionRe` at the head of a list is a version token at the
    head of the list. -/
theorem matchVersionAt_sound (l m : List Char) (h : matchVersionAt l = some m) :
    isVersionToken m ∧ m <+: l := by
  unfold matchVersionAt at h
  split at h
  · exact absurd h (by simp)
  · rename_i a r1 h1
    split at h
    · exact absurd h (by simp)
    · rename_i b r2 h2
      split at h
      · exact absurd h (by simp)
      · rename_i c r3 h3
        have hm : a ++ b ++ c ++ matchSuffix r3 = m := Option.some.inj h
        obtain ⟨ha, hda, hl1⟩ := matchDigits_some l a r1 h1
        obtain ⟨bd, hb, hbne, hdb, hl2⟩ := matchDotDigits_some r1 b r2 h2
        obtain ⟨cd, hc, hcne, hdc, hl3⟩ := matchDotDigits_some r2 c r3 h3
        obtain ⟨hsuf, hpre⟩ := matchSuffix_spec r3
        constructor
        · refine ⟨a, bd, cd, matchSuffix r3, ?_, ha, hbne, hcne, hda, hdb, hdc, hsuf⟩
          rw [← hm, hb, hc]
        · obtain ⟨tail, htail⟩ := hpre
          refine ⟨tail, ?_⟩
          rw [← hm, hl1, hl2, hl3]
          simp only [List.append_assoc, htail]

/-- Where a version token stands at the head of a list, `versionRe` matches
    there, and its match begins with the token. -/
theorem matchVersionAt_of_token (l t : List Char) (htok : isVersionToken t) (hpre : t <+: l) :
    ∃ m, matchVersionAt l = some m ∧ t <+: m := by
  obtain ⟨a, b, c, suf, ht, ha, hb, hc, hda, hdb, hdc, hsuf⟩ := htok
  obtain ⟨rest, hrest⟩ := hpre
  have hl : l = a ++ ('.' :: (b ++ ('.' :: (c ++ (suf ++ rest))))) := by
    rw [← hrest, ht]
    simp only [List.append_assoc, List.cons_append]
  have hdot : ∀ X : List Char, ('.' :: X).takeWhile isDigit = [] ∧
      ('.' :: X).dropWhile isDigit = '.' :: X := by
    intro X
    exact ⟨rfl, rfl⟩
  have h1 : matchDigits l = some (a, '.' :: (b ++ ('.' :: (c ++ (suf ++ rest))))) := by
    rw [hl, matchDigits_of_digits a _ ha hda, (hdot _).1, (hdot _).2, List.append_nil]
  have h2 : matchDotDigits ('.' :: (b ++ ('.' :: (c ++ (suf ++ rest))))) =
      some ('.' :: b, '.' :: (c ++ (suf ++ rest))) := by
    rw [matchDotDigits_of_digits b _ hb hdb, (hdot _).1, (hdot _).2, List.append_nil]
  have h3 : matchDotDigits ('.' :: (c ++ (suf ++ rest))) =
      some ('.' :: (c ++ (suf ++ rest).takeWhile isDigit), (suf ++ rest).dropWhile isDigit) :=
    matchDotDigits_of_digits c _ hc hdc
  refine ⟨a ++ ('.' :: b) ++ ('.' :: (c ++ (suf ++ rest).takeWhile isDigit)) ++
    matchSuffix ((suf ++ rest).dropWhile isDigit), ?_, ?_⟩
  · unfold matchVersionAt
    simp only [h1, h2, h3]
  · rcases hsuf with hnil | ⟨body, hbody, hbne, hdbody⟩
    · rw [ht, hnil, List.append_nil]
      refine ⟨(rest).takeWhile isDigit ++ matchSuffix (([] ++ rest).dropWhile isDigit), ?_⟩
      simp only [List.append_assoc, List.cons_append, List.nil_append]
    · have hdash : (suf ++ rest).takeWhile isDigit = [] ∧
          (suf ++ rest).dropWhile isDigit = '-' :: (body ++ rest) := by
        rw [hbody]
        exact ⟨rfl, rfl⟩
      rw [hdash.1, hdash.2]
      have hms : matchSuffix ('-' :: (body ++ rest)) =
          '-' :: (body ++ rest.takeWhile isSuffixChar) := by
        unfold matchSuffix
        simp only [(takeWhile_all_append isSuffixChar body rest hdbody).1]
        have : (body ++ List.takeWhile isSuffixChar rest).isEmpty = false := by
          cases body with
          | nil => exact absurd rfl hbne
          | cons x xs => rfl
        rw [this]
        rfl
      rw [hms, ht, hbody]
      refine ⟨rest.takeWhile isSuffixChar, ?_⟩
      simp only [List.append_assoc, List.cons_append, List.append_nil]

/-- No version token stands at the head of a list where `versionRe` does not
    match. -/
theorem matchVersionAt_none (l : List Char) (h : matchVersionAt l = none) (t : List Char)
    (htok : isVersionToken t) : ¬ t <+: l := by
  intro hpre
  obtain ⟨m, hm, _⟩ := matchVersionAt_of_token l t htok hpre
  rw [h] at hm
  exact absurd hm (by simp)

/-- The leftmost match of `versionRe`: the match at some position before
    which no version token begins, or nothing when no version token begins
    anywhere. -/
theorem findVersion_spec (l : List Char) :
    (findVersion l = [] ∧ ∀ i t, ¬ tokenAt l i t) ∨
    (∃ i, matchVersionAt (l.drop i) = some (findVersion l) ∧ ∀ j, j < i → ∀ t, ¬ tokenAt l j t) := by
  induction l with
  | nil =>
    left
    refine ⟨rfl, ?_⟩
    intro i t ⟨htok, hpre⟩
    rw [List.drop_nil] at hpre
    exact matchVersionAt_none [] rfl t htok hpre
  | cons c cs ih =>
    cases hm : matchVersionAt (c :: cs) with
    | some m =>
      right
      refine ⟨0, ?_, fun j hj => absurd hj (Nat.not_lt_zero j)⟩
      rw [List.drop_zero, hm, findVersion, hm]
    | none =>
      have hfind : findVersion (c :: cs) = findVersion cs := by
        rw [findVersion, hm]
      have hzero : ∀ t, ¬ tokenAt (c :: cs) 0 t := by
        intro t ⟨htok, hpre⟩
        rw [List.drop_zero] at hpre
        exact matchVersionAt_none _ hm t htok hpre
      rcases ih with ⟨hnil, hno⟩ | ⟨i, hi, hbefore⟩
      · left
        refine ⟨by rw [hfind, hnil], ?_⟩
        intro i t
        cases i with
        | zero => exact hzero t
        | succ i =>
          intro ⟨htok, hpre⟩
          exact hno i t ⟨htok, by simpa using hpre⟩
      · right
        refine ⟨i + 1, ?_, ?_⟩
        · rw [List.drop_succ_cons, hfind]
          exact hi
        · intro j hj t
          cases j with
          | zero => exact hzero t
          | succ j =>
            intro ⟨htok, hpre⟩
            exact hbefore j (Nat.lt_of_succ_lt_succ hj) t ⟨htok, by simpa using hpre⟩

/-- A version token is not empty. -/
theorem isVersionToken_ne_nil (t : List Char) (h : isVersionToken t) : t ≠ [] := by
  obtain ⟨a, b, c, suf, ht, ha, _⟩ := h
  rw [ht]
  cases a with
  | nil => exact absurd rfl ha
  | cons x xs => simp

/-- C28: `normalizeLatest` returns the empty string for a blank current
    value, and the trimmed current value for every source that is not of type
    github and mode release.  For a release source whose trimmed current value
    contains a three-component dotted version token (optionally with a `-`
    pre-release part), it returns such a token at the leftmost position where
    one begins, and of the tokens that begin there the longest: each of them
    is an initial part of it; for a release source without such a token it
    returns the trimmed current value.  The value `v1.2.3` gives `1.2.3`. -/
theorem C28_normalizeLatest (cfg : TrackerEntry) (current : String) :
    (TrimSpace current = "" → normalizeLatest cfg current = "") ∧
    (¬ (cfg.Type_ = "github" ∧ cfg.Mode = "release") →
      normalizeLatest cfg current = TrimSpace current) ∧
    (cfg.Type_ = "github" → cfg.Mode = "release" →
      ((∃ i t, tokenAt (TrimSpace current).data i t) →
        ∃ i, tokenAt (TrimSpace current).data i (normalizeLatest cfg current).data ∧
          (∀ j t, tokenAt (TrimSpace current).data j t → i ≤ j) ∧
          (∀ t, tokenAt (TrimSpace current).data i t →
            t <+: (normalizeLatest cfg current).data)) ∧
      ((∀ i t, ¬ tokenAt (TrimSpace current).data i t) →
        normalizeLatest cfg current = TrimSpace current)) ∧
    normalizeLatest { Type_ := "github", Mode := "release" } "v1.2.3" = "1.2.3" := by
  refine ⟨?_, ?_, ?_, by decide⟩
  · intro h
    unfold normalizeLatest
    simp only [h, if_true]
  · intro h
    unfold normalizeLatest
    simp only
    by_cases hc : TrimSpace current = ""
    · rw [if_pos hc, hc]
    · rw [if_neg hc, if_neg (fun hh => h ⟨hh.1, hh.2.1⟩)]
  · intro htype hmode
    have hnorm : normalizeLatest cfg current =
        if TrimSpace current = "" then ""
        else if versionReFindString (TrimSpace current) ≠ "" then
          versionReFindString (TrimSpace current)
        else TrimSpace current := by
      unfold normalizeLatest
      simp only [htype, hmode, true_and]
    rcases findVersion_spec (TrimSpace current).data with ⟨hnil, hno⟩ | ⟨i, hi, hbefore⟩
    · constructor
      · rintro ⟨i, t, ht⟩
        exact absurd ht (hno i t)
      · intro _
        rw [hnorm]
        have hv : versionReFindString (TrimSpace current) = "" := by
          unfold versionReFindString
          rw [hnil]
        by_cases hc : TrimSpace current = ""
        · rw [if_pos hc, hc]
        · rw [if_neg hc, if_neg (fun hh => hh hv)]
    · obtain ⟨htok, hpre⟩ := matchVersionAt_sound _ _ hi
      have hne : versionReFindString (TrimSpace current) ≠ "" := by
        intro h
        have := congrArg String.data h
        exact isVersionToken_ne_nil _ htok this
      have hc : TrimSpace current ≠ "" := by
        intro h
        rw [h] at hi
        have hd : ("" : String).data.drop i = [] := List.drop_nil
        rw [hd] at hi
        exact absurd hi (by simp [matchVersionAt, matchDigits])
      have hres : normalizeLatest cfg current = versionReFindString (TrimSpace current) := by
        rw [hnorm, if_neg hc, if_pos hne]
      constructor
      · intro _
        refine ⟨i, ?_, ?_, ?_⟩
        · rw [hres]
          exact ⟨htok, hpre⟩
        · intro j t ht
          by_contra hlt
          exact hbefore j (Nat.lt_of_not_le hlt) t ht
        · intro t ht
          obtain ⟨m, hm, htm⟩ := matchVersionAt_of_token _ t ht.1 ht.2
          rw [hi] at hm
          rw [hres]
          show t <+: findVersion (TrimSpace current).data
          rw [Option.some.inj hm]
          exact htm
      · intro hno
        exact absurd ⟨htok, hpre⟩ (hno i _)

/-- C28 at the release title `Release v1.2.3-rc1 (beta)`: the latest value
    is the token `1.2.3-rc1`; and at the commit source, whose value is left as
    it is. -/
theorem C28_normalizeLatest_witness :
    normalizeLatest sampleRelease " Release v1.2.3-rc1 (beta) " = "1.2.3-rc1" ∧
      normalizeLatest sampleCommit " 3f2a9c1.2.3 " = "3f2a9c1.2.3" :=
  ⟨by decide,
    ((C28_normalizeLatest sampleCommit " 3f2a9c1.2.3 ").2.1 (by decide)).trans (by decide)⟩

/-! ## Local checks -/
/-- C29 as stated fails: the pattern `(` does not compile, the command runs
    successfully and prints nothing, and the local value is "unknown" with no
    error. -/
theorem C29_counterexample :
    (∃ msg, @GoLib.regexpCompile localLib badRegexSource.Local.Regex = .error msg) ∧
      ((@printingRunner localLib "" none).Registry.Exec.Run "zsh"
        ["-lc", badRegexSource.Local.Command] ()).1.2 = none ∧
      (@runLocalCheck Unit localLib (@printingRunner localLib "" none) badRegexSource ()).1
        = ("unknown", "") :=
  ⟨⟨_, rfl⟩, rfl, by decide⟩

/-- C29, amended: for a command-type local observation whose command runs
    successfully, empty output yields the value "unknown" with no error,
    whatever the configured regex.  For output that is not empty: when no regex
    is configured, a match of the default version pattern yields the matched
    text and no match yields "unknown", both with no error; a configured regex
    that fails to compile yields an empty local value with an
    "invalid local.regex" error; and a configured regex that compiles yields the
    matched text when the match is not empty and "unknown" otherwise, both with
    no error. -/
theorem C29_local_command [GoLib] (r : runner W) (cfg : TrackerEntry) (w : W) (out : String)
    (htype : TrimSpace cfg.Local.Type_ = "command")
    (hrun : (r.Registry.Exec.Run "zsh" ["-lc", cfg.Local.Command] w).1.2 = none)
    (hout : out = TrimSpace (r.Registry.Exec.Run "zsh" ["-lc", cfg.Local.Command] w).1.1) :
    (out = "" → (runLocalCheck r cfg w).1 = ("unknown", "")) ∧
    (out ≠ "" → TrimSpace cfg.Local.Regex = "" →
      (versionReFindString out ≠ "" → (runLocalCheck r cfg w).1 = (versionReFindString out, "")) ∧
      (versionReFindString out = "" → (runLocalCheck r cfg w).1 = ("unknown", ""))) ∧
    (out ≠ "" → TrimSpace cfg.Local.Regex ≠ "" →
      (∀ msg, GoLib.regexpCompile cfg.Local.Regex = .error msg →
        (runLocalCheck r cfg w).1 = ("", "invalid local.regex: " ++ msg)) ∧
      (∀ find, GoLib.regexpCompile cfg.Local.Regex = .ok find →
        (find out ≠ "" → (runLocalCheck r cfg w).1 = (find out, "")) ∧
        (find out = "" → (runLocalCheck r cfg w).1 = ("unknown", "")))) := by
  have hne : ¬ (("command" : String) = "") := by decide
  refine ⟨?_, ?_, ?_⟩
  · intro hempty
    rw [hout] at hempty
    unfold runLocalCheck
    simp only [htype, hne, if_false, if_true, hrun, hempty]
  · intro hnonempty hregex
    rw [hout] at hnonempty
    constructor
    · intro hm
      unfold runLocalCheck
      simp only [htype, hne, if_false, if_true, hrun, hnonempty, hregex]
      rw [hout] at hm ⊢
      simp only [hm, ne_eq, not_false_eq_true, if_true]
    · intro hm
      unfold runLocalCheck
      simp only [htype, hne, if_false, if_true, hrun, hnonempty, hregex]
      rw [hout] at hm
      simp only [hm, ne_eq, not_true_eq_false, if_false]
  · intro hnonempty hregex
    rw [hout] at hnonempty
    constructor
    · intro msg hcompile
      unfold runLocalCheck
      simp only [htype, hne, if_false, if_true, hrun, hnonempty, hregex, hcompile]
    · intro find hcompile
      constructor
      · intro hm
        unfold runLocalCheck
        simp only [htype, hne, if_false, if_true, hrun, hnonempty, hregex, hcompile]
        rw [hout] at hm ⊢
        simp only [hm, ne_eq, not_false_eq_true, if_true]
      · intro hm
        unfold runLocalCheck
        simp only [htype, hne, if_false, if_true, hrun, hnonempty, hregex, hcompile]
        rw [hout] at hm
        simp only [hm, ne_eq, not_true_eq_false, if_false]

/-- C29, amended, at a command that prints `tool 2.0`: with the pattern `(`
    the local value is empty and the error names the pattern; with the pattern
    `[0-9]+` the local value is `2`. -/
theorem C29_local_command_witness :
    (@runLocalCheck Unit localLib (@printingRunner localLib "tool 2.0\n" none) badRegexSource
        ()).1 = ("", "invalid local.regex: error parsing regexp: missing closing )") ∧
      (@runLocalCheck Unit localLib (@printingRunner localLib "tool 2.0\n" none)
        digitsRegexSource ()).1 = ("2", "") :=
  have h := @C29_local_command Unit localLib (@printingRunner localLib "tool 2.0\n" none)
    badRegexSource () "tool 2.0" (by decide) rfl (by decide)
  have h2 := @C29_local_command Unit localLib (@printingRunner localLib "tool 2.0\n" none)
    digitsRegexSource () "tool 2.0" (by decide) rfl (by decide)
  ⟨(h.2.2 (by decide) (by decide)).1 _ rfl,
    (((h2.2.2 (by decide) (by decide)).2 findDigits rfl).1 (by decide)).trans (by decide)⟩

/-- What `parseNpmListJSON` returns for a listing that decodes with a map of
    dependencies. -/
theorem parseNpmListJSON_of_deps [GoLib] (out pkg : String) (deps : String → Option String)
    (hout : TrimSpace out ≠ "")
    (hdec : GoLib.unmarshalNpmList (TrimSpace out) = some (some deps)) :
    (deps pkg = none → parseNpmListJSON out pkg = "") ∧
    (∀ version, deps pkg = some version → parseNpmListJSON out pkg = TrimSpace version) := by
  unfold parseNpmListJSON
  simp only [hout, if_false, hdec]
  constructor
  · intro h
    simp only [h]
  · intro version h
    simp only [h]

/-- C30 as stated fails: the listing decodes and has no entry for the
    package `left-pad`, the listing command exits zero, and the local value is
    "unknown", not "not-installed". -/
theorem C30_counterexample :
    (∃ deps, @GoLib.unmarshalNpmList localLib (TrimSpace emptyListingBody) = some (some deps) ∧
        deps "left-pad" = none) ∧
      ((@printingRunner localLib emptyListingBody none).Registry.Exec.Run "npm"
        ["list", "left-pad", "--depth=0", "-g", "--json"] ()).1.2 = none ∧
      (@runLocalCheck Unit localLib (@printingRunner localLib emptyListingBody none) sampleNpm
        ()).1 = ("unknown", "") :=
  ⟨⟨_, rfl, rfl⟩, rfl, by decide⟩

/-- C30, amended: for an npm-type local observation with a package name,
    when the listing has an entry for the package with a version that is not
    blank, the local value is the trimmed version field with no error, whether
    the listing command exited zero or not.  When the listing gives no version
    for the package (it has no entry, or does not decode, or the version is
    blank): the local value is "not-installed" with no error if the command
    failed with an error text that contains "missing", "not installed" or
    "empty" in any letter case; the local value is empty and the error text is
    reported if the command failed with another error; and the local value is
    "unknown" with no error if the command exited zero. -/
theorem C30_local_npm [GoLib] (r : runner W) (cfg : TrackerEntry) (w : W) (pkg : String)
    (htype : TrimSpace cfg.Local.Type_ = "npm")
    (hpkg : pkg = if TrimSpace cfg.Local.Package ≠ "" then cfg.Local.Package else cfg.NpmPackage)
    (hname : TrimSpace pkg ≠ "") :
    (∀ deps, TrimSpace (r.Registry.Exec.Run "npm" ["list", pkg, "--depth=0", "-g", "--json"] w).1.1
        ≠ "" →
      GoLib.unmarshalNpmList
        (TrimSpace (r.Registry.Exec.Run "npm" ["list", pkg, "--depth=0", "-g", "--json"] w).1.1)
        = some (some deps) →
      (∀ version, deps pkg = some version → TrimSpace version ≠ "" →
        (runLocalCheck r cfg w).1 = (TrimSpace version, "")) ∧
      (deps pkg = none →
        parseNpmListJSON
          (r.Registry.Exec.Run "npm" ["list", pkg, "--depth=0", "-g", "--json"] w).1.1 pkg
          = "")) ∧
    (parseNpmListJSON (r.Registry.Exec.Run "npm" ["list", pkg, "--depth=0", "-g", "--json"] w).1.1
        pkg = "" →
      ((r.Registry.Exec.Run "npm" ["list", pkg, "--depth=0", "-g", "--json"] w).1.2 = none →
        (runLocalCheck r cfg w).1 = ("unknown", "")) ∧
      (∀ e, (r.Registry.Exec.Run "npm" ["list", pkg, "--depth=0", "-g", "--json"] w).1.2 = some e →
        ((Contains (ToLower e.Error) "missing" || Contains (ToLower e.Error) "not installed" ||
            Contains (ToLower e.Error) "empty") = true →
          (runLocalCheck r cfg w).1 = ("not-installed", "")) ∧
        ((Contains (ToLower e.Error) "missing" || Contains (ToLower e.Error) "not installed" ||
            Contains (ToLower e.Error) "empty") = false →
          (runLocalCheck r cfg w).1 = ("", e.Error)))) := by
  have hne1 : ¬ (("npm" : String) = "") := by decide
  have hne2 : ¬ (("npm" : String) = "command") := by decide
  have hne3 : ¬ (("npm" : String) = "git") := by decide
  have hunfold : runLocalCheck r cfg w =
      if parseNpmListJSON
          (r.Registry.Exec.Run "npm" ["list", pkg, "--depth=0", "-g", "--json"] w).1.1 pkg ≠ ""
      then
        ((parseNpmListJSON
          (r.Registry.Exec.Run "npm" ["list", pkg, "--depth=0", "-g", "--json"] w).1.1 pkg, ""),
          (r.Registry.Exec.Run "npm" ["list", pkg, "--depth=0", "-g", "--json"] w).2)
      else
        match (r.Registry.Exec.Run "npm" ["list", pkg, "--depth=0", "-g", "--json"] w).1.2 with
        | some err =>
          if Contains (ToLower err.Error) "missing" || Contains (ToLower err.Error) "not installed"
              || Contains (ToLower err.Error) "empty" then
            (("not-installed", ""),
              (r.Registry.Exec.Run "npm" ["list", pkg, "--depth=0", "-g", "--json"] w).2)
          else (("", err.Error),
            (r.Registry.Exec.Run "npm" ["list", pkg, "--depth=0", "-g", "--json"] w).2)
        | none => (("unknown", ""),
            (r.Registry.Exec.Run "npm" ["list", pkg, "--depth=0", "-g", "--json"] w).2) := by
    unfold runLocalCheck
    simp only [htype, hne1, hne2, hne3, if_false, if_true, ← hpkg, hname]
  constructor
  · intro deps hout hdec
    obtain ⟨hnone, hsome⟩ := parseNpmListJSON_of_deps _ pkg deps hout hdec
    refine ⟨?_, hnone⟩
    intro version hv hblank
    rw [hunfold, hsome version hv, if_pos hblank]
  · intro hparse
    rw [hunfold, if_neg (fun h => h hparse)]
    constructor
    · intro hok
      simp only [hok]
    · intro e he
      constructor
      · intro hk
        simp only [he, hk, if_true]
      · intro hk
        simp only [he, hk, Bool.false_eq_true, if_false]

/-- C30, amended, at the package `left-pad`: with the listing that holds it
    the local value is `1.3.0`, and with the listing that does not, from a
    command that failed, the local value is empty and the error is reported. -/
theorem C30_local_npm_witness :
    (@runLocalCheck Unit localLib (@printingRunner localLib leftPadListingBody none) sampleNpm
        ()).1 = ("1.3.0", "") ∧
      (@runLocalCheck Unit localLib
        (@printingRunner localLib emptyListingBody (some { Error := "exit status 1" })) sampleNpm
        ()).1 = ("", "exit status 1") :=
  have h := @C30_local_npm Unit localLib (@printingRunner localLib leftPadListingBody none)
    sampleNpm () "left-pad" (by decide) (by decide) (by decide)
  have h2 := @C30_local_npm Unit localLib
    (@printingRunner localLib emptyListingBody (some { Error := "exit status 1" }))
    sampleNpm () "left-pad" (by decide) (by decide) (by decide)
  ⟨((h.1 (fun k => if k = "left-pad" then some "1.3.0" else none) (by decide) rfl).1 "1.3.0" rfl
      (by decide)).trans (by decide),
    ((h2.2 (by decide)).2 { Error := "exit status 1" } rfl).2 (by decide)⟩

/-! ## Idempotence of the latest value -/
/-- A digit is not white space. -/
theorem isDigit_not_space (x : Char) (h : isDigit x = true) : isSpace x = false := by
  unfold isDigit at h
  unfold isSpace
  simp only [Bool.and_eq_true, decide_eq_true_eq] at h
  have h0 : '0'.toNat = 48 := rfl
  have h9 : '9'.toNat = 57 := rfl
  rw [h0, h9] at h
  simp only [Bool.or_eq_false_iff, Bool.and_eq_false_iff, decide_eq_false_iff_not, beq_eq_false_iff_ne,
    ne_eq]
  omega

/-- A code point of the class `[0-9A-Za-z.-]` is not white space. -/
theorem isSuffixChar_not_space (x : Char) (h : isSuffixChar x = true) : isSpace x = false := by
  unfold isSuffixChar at h
  simp only [Bool.or_eq_true, Bool.and_eq_true, decide_eq_true_eq, beq_iff_eq] at h
  rcases h with (((h | h) | h) | h) | h
  · exact isDigit_not_space x h
  · unfold isSpace
    have hA : 'A'.toNat = 65 := rfl
    have hZ : 'Z'.toNat = 90 := rfl
    rw [hA, hZ] at h
    simp only [Bool.or_eq_false_iff, Bool.and_eq_false_iff, decide_eq_false_iff_not,
      beq_eq_false_iff_ne, ne_eq]
    omega
  · unfold isSpace
    have ha : 'a'.toNat = 97 := rfl
    have hz : 'z'.toNat = 122 := rfl
    rw [ha, hz] at h
    simp only [Bool.or_eq_false_iff, Bool.and_eq_false_iff, decide_eq_false_iff_not,
      beq_eq_false_iff_ne, ne_eq]
    omega
  · rw [h]
    rfl
  · rw [h]
    rfl

/-- A version token holds no white space. -/
theorem isVersionToken_no_space (t : List Char) (h : isVersionToken t) :
    ∀ x ∈ t, isSpace x = false := by
  obtain ⟨a, b, c, suf, ht, _, _, _, hda, hdb, hdc, hsuf⟩ := h
  intro x hx
  rw [ht] at hx
  simp only [List.mem_append, List.mem_cons] at hx
  rcases hx with ((hx | hx | hx) | hx | hx) | hx
  · exact isDigit_not_space x (hda x hx)
  · rw [hx]; rfl
  · exact isDigit_not_space x (hdb x hx)
  · rw [hx]; rfl
  · exact isDigit_not_space x (hdc x hx)
  · rcases hsuf with hnil | ⟨body, hbody, _, hdbody⟩
    · rw [hnil] at hx
      exact absurd hx (List.not_mem_nil _)
    · rw [hbody] at hx
      rcases List.mem_cons.mp hx with h1 | h1
      · rw [h1]; rfl
      · exact isSuffixChar_not_space x (hdbody x h1)

/-- Trimming leaves a list without white space as it is. -/
theorem trimSpaceList_of_no_space (l : List Char) (h : ∀ x ∈ l, isSpace x = false) :
    trimSpaceList l = l := by
  unfold trimSpaceList trimRight
  have hd : ∀ m : List Char, (∀ x ∈ m, isSpace x = false) → m.dropWhile isSpace = m := by
    intro m hm
    cases m with
    | nil => rfl
    | cons c cs =>
      rw [List.dropWhile_cons_of_neg]
      rw [hm c (List.mem_cons_self _ _)]
      exact Bool.false_ne_true
  rw [hd l h, hd l.reverse (fun x hx => h x (List.mem_reverse.mp hx)), List.reverse_reverse]

/-- The pattern `versionRe` matches the whole of a version token. -/
theorem matchVersionAt_token_self (t : List Char) (h : isVersionToken t) :
    matchVersionAt t = some t := by
  obtain ⟨m, hm, htm⟩ := matchVersionAt_of_token t t h (List.prefix_refl t)
  obtain ⟨_, hmt⟩ := matchVersionAt_sound t m hm
  have : m = t := List.IsPrefix.eq_of_length_le hmt htm.length_le
  rw [hm, this]

/-- The leftmost match of `versionRe` in a version token is the token. -/
theorem findVersion_token_self (t : List Char) (h : isVersionToken t) : findVersion t = t := by
  cases t with
  | nil => exact absurd rfl (isVersionToken_ne_nil [] h)
  | cons c cs =>
    rw [findVersion, matchVersionAt_token_self _ h]

/-- A match of `versionRe.FindString` that is not empty is a version token. -/
theorem versionReFindString_token (s : String) (h : versionReFindString s ≠ "") :
    isVersionToken (versionReFindString s).data := by
  rcases findVersion_spec s.data with ⟨hnil, _⟩ | ⟨i, hi, _⟩
  · exfalso
    apply h
    unfold versionReFindString
    rw [hnil]
  · exact (matchVersionAt_sound _ _ hi).1

/-- C39: `normalizeLatest` is idempotent: for every source config and every
    string `s`, normalizing the normalized value gives the normalized value
    again; in particular the version token extracted from a current value is
    itself a full match of the version pattern: `versionRe.FindString` on it
    returns the whole of it. -/
theorem C39_normalizeLatest_idempotent (cfg : TrackerEntry) (s : String) :
    normalizeLatest cfg (normalizeLatest cfg s) = normalizeLatest cfg s ∧
    (versionReFindString (TrimSpace s) ≠ "" →
      versionReFindString (versionReFindString (TrimSpace s)) = versionReFindString (TrimSpace s) ∧
      matchVersionAt (versionReFindString (TrimSpace s)).data =
        some (versionReFindString (TrimSpace s)).data) := by
  have hself : ∀ m : String, isVersionToken m.data → versionReFindString m = m ∧ TrimSpace m = m := by
    intro m hm
    constructor
    · unfold versionReFindString
      rw [findVersion_token_self _ hm]
    · unfold TrimSpace
      rw [trimSpaceList_of_no_space _ (isVersionToken_no_space _ hm)]
  constructor
  · unfold normalizeLatest
    simp only
    by_cases hc : TrimSpace s = ""
    · simp only [hc, if_true]
      have : TrimSpace "" = "" := by decide
      rw [this]
      rfl
    · rw [if_neg hc]
      by_cases hv : cfg.Type_ = "github" ∧ cfg.Mode = "release" ∧
          versionReFindString (TrimSpace s) ≠ ""
      · rw [if_pos hv]
        obtain ⟨hfind, htrim⟩ := hself _ (versionReFindString_token _ hv.2.2)
        rw [htrim, if_neg hv.2.2, hfind, if_pos hv]
      · rw [if_neg hv, TrimSpace_idem, if_neg hc, if_neg hv]
  · intro hne
    have htok := versionReFindString_token _ hne
    exact ⟨(hself _ htok).1, matchVersionAt_token_self _ htok⟩

/-- C39 at the release title `Release v1.2.3-rc1 (beta)`: the token that
    was extracted is extracted again from itself. -/
theorem C39_normalizeLatest_idempotent_witness :
    versionReFindString (TrimSpace " Release v1.2.3-rc1 (beta) ") = "1.2.3-rc1" ∧
      versionReFindString "1.2.3-rc1" = "1.2.3-rc1" :=
  ⟨by decide,
    ((C39_normalizeLatest_idempotent sampleRelease " Release v1.2.3-rc1 (beta) ").2
      (by decide)).1⟩

/-! ## Idempotence of a run -/
/-- Without a local observation there is no local change. -/
theorem localUpdateAvailable_of_no_local (cfg : TrackerEntry) (local_ latest : String)
    (h : TrimSpace cfg.Local.Type_ = "") : localUpdateAvailable cfg local_ latest = false := by
  unfold localUpdateAvailable
  simp only [h, if_true]

/-- The status of a successful check of a source without a local observation
    whose current value is the previous one. -/
theorem runOne_ok_of_same [GoLib] (r : runner W) (cfg : TrackerEntry) (prev : Item) (w : W)
    (tr : Tracker W) (hbuild : r.Registry.Build cfg = .ok tr)
    (hok : (afterLoop r cfg prev tr w).1.lastErr = none)
    (hlocal : TrimSpace cfg.Local.Type_ = "")
    (hsame : TrimSpace (afterLoop r cfg prev tr w).1.current = TrimSpace prev.LastSeen) :
    (runOne r cfg prev w).1.1.Status = "ok" ∧
    (runOne r cfg prev w).1.2 =
      { LastCheckedAt := r.RunAt, LastSeen := TrimSpace prev.LastSeen, LastStatus := "ok",
        LastError := "" } := by
  have hstatus : (runOne r cfg prev w).1.1.Status = "ok" := by
    rw [runOne_status_of_success r cfg prev w tr hbuild hok,
      localUpdateAvailable_of_no_local cfg _ _ hlocal, Bool.or_false]
    have hnot : ¬ remoteChangedSpec prev.LastSeen (afterLoop r cfg prev tr w).1.current :=
      fun h => h.2.2 hsame.symm
    rw [decide_eq_false hnot]
    rfl
  refine ⟨hstatus, ?_⟩
  rw [(runOne_next_of_success r cfg prev w tr hbuild hok).1, hstatus, hsame]

/-- C32: idempotence.  For a source with no local observation configured
    whose probe succeeds in two successive runs with the same current value
    and no remote change (the trimmed previous value of the first run is
    already the trimmed current value, and the second run starts from the
    record that the first run returned), the status is "ok" both times and the
    two next-state records are equal except for `LastCheckedAt`, which is the
    start time of each run. -/
theorem C32_idempotent_runs [GoLib] (r1 r2 : runner W) (cfg : TrackerEntry) (prev : Item)
    (w1 w2 : W) (tr1 tr2 : Tracker W)
    (hbuild1 : r1.Registry.Build cfg = .ok tr1) (hbuild2 : r2.Registry.Build cfg = .ok tr2)
    (hlocal : TrimSpace cfg.Local.Type_ = "")
    (hok1 : (afterLoop r1 cfg prev tr1 w1).1.lastErr = none)
    (hsame1 : TrimSpace (afterLoop r1 cfg prev tr1 w1).1.current = TrimSpace prev.LastSeen)
    (hok2 : (afterLoop r2 cfg (runOne r1 cfg prev w1).1.2 tr2 w2).1.lastErr = none)
    (hsame2 : TrimSpace (afterLoop r2 cfg (runOne r1 cfg prev w1).1.2 tr2 w2).1.current =
      TrimSpace (afterLoop r1 cfg prev tr1 w1).1.current) :
    (runOne r1 cfg prev w1).1.1.Status = "ok" ∧
    (runOne r2 cfg (runOne r1 cfg prev w1).1.2 w2).1.1.Status = "ok" ∧
    (runOne r2 cfg (runOne r1 cfg prev w1).1.2 w2).1.2 =
      { (runOne r1 cfg prev w1).1.2 with LastCheckedAt := r2.RunAt } ∧
    (runOne r1 cfg prev w1).1.2.LastCheckedAt = r1.RunAt ∧
    (runOne r1 cfg prev w1).1.2.LastSeen = TrimSpace prev.LastSeen := by
  obtain ⟨hs1, hn1⟩ := runOne_ok_of_same r1 cfg prev w1 tr1 hbuild1 hok1 hlocal hsame1
  have hprev2 : TrimSpace (afterLoop r2 cfg (runOne r1 cfg prev w1).1.2 tr2 w2).1.current =
      TrimSpace (runOne r1 cfg prev w1).1.2.LastSeen := by
    rw [hsame2, hsame1, hn1]
    exact (TrimSpace_idem _).symm
  obtain ⟨hs2, hn2⟩ := runOne_ok_of_same r2 cfg _ w2 tr2 hbuild2 hok2 hlocal hprev2
  refine ⟨hs1, hs2, ?_, ?_, ?_⟩
  · rw [hn2, hn1]
    simp only [TrimSpace_idem]
  · rw [hn1]
  · rw [hn1]

/-- C32 at a release source whose probe returns `v1.2.3`, after a run that
    saw `v1.2.3`: two runs give "ok" and the same record but for the time. -/
theorem C32_idempotent_runs_witness :
    (@runOne Unit plainLib releaseRunner sampleRelease { LastSeen := "v1.2.3" } ()).1.1.Status
        = "ok" ∧
      (@runOne Unit plainLib { releaseRunner with RunAt := 1700003600 } sampleRelease
        (@runOne Unit plainLib releaseRunner sampleRelease { LastSeen := "v1.2.3" } ()).1.2
        ()).1.2 =
        { LastCheckedAt := 1700003600, LastSeen := "v1.2.3", LastStatus := "ok",
          LastError := "" } :=
  have h := @C32_idempotent_runs Unit plainLib releaseRunner
    { releaseRunner with RunAt := 1700003600 } sampleRelease { LastSeen := "v1.2.3" } () ()
    (constTracker { Current := "v1.2.3", Message := "latest release v1.2.3" } none)
    (constTracker { Current := "v1.2.3", Message := "latest release v1.2.3" } none)
    rfl rfl (by decide) (by decide) (by decide) (by decide) (by decide)
  ⟨h.1, h.2.2.1.trans (by decide)⟩

/-! ## Highlights in the report -/
/-- The highlights, the world and the fields of the first check in the item
    that `runOne` returns when the retry loop ends without an error. -/
theorem runOne_backfill [GoLib] (r : runner W) (cfg : TrackerEntry) (prev : Item) (w : W)
    (tr : Tracker W) (hbuild : r.Registry.Build cfg = .ok tr)
    (hok : (afterLoop r cfg prev tr w).1.lastErr = none) :
    ((runOne r cfg prev w).1.1.Highlights, (runOne r cfg prev w).2) =
      (if (runOne r cfg prev w).1.1.Status = "update" ∧
          ¬ remoteChangedSpec prev.LastSeen (afterLoop r cfg prev tr w).1.current ∧
          cfg.Type_ = "github" ∧ cfg.Mode = "release" ∧
          TrimSpace (afterLoop r cfg prev tr w).1.highlights = "" ∧
          r.Options.IncludeNotes = true then
        (if (tr.Check "force-notes" { IncludeNotes := true }
              (runLocalCheck r cfg (afterLoop r cfg prev tr w).2).2).1.2 = none ∧
            TrimSpace (tr.Check "force-notes" { IncludeNotes := true }
              (runLocalCheck r cfg (afterLoop r cfg prev tr w).2).2).1.1.Highlights ≠ "" then
          (tr.Check "force-notes" { IncludeNotes := true }
            (runLocalCheck r cfg (afterLoop r cfg prev tr w).2).2).1.1.Highlights
         else (afterLoop r cfg prev tr w).1.highlights,
         (tr.Check "force-notes" { IncludeNotes := true }
            (runLocalCheck r cfg (afterLoop r cfg prev tr w).2).2).2)
       else ((afterLoop r cfg prev tr w).1.highlights,
         (runLocalCheck r cfg (afterLoop r cfg prev tr w).2).2)) ∧
    (runOne r cfg prev w).1.1.Current = TrimSpace (afterLoop r cfg prev tr w).1.current ∧
    (runOne r cfg prev w).1.1.Message = (afterLoop r cfg prev tr w).1.message ∧
    (runOne r cfg prev w).1.1.Links = (afterLoop r cfg prev tr w).1.links := by
  unfold runOne
  simp only [hbuild, hok]
  refine ⟨?_, trivial, trivial, trivial⟩
  simp only [decide_eq_false_iff_not, remoteChangedSpec]

/-- The pull-request probe never sets highlights. -/
theorem githubPR_Check_highlights [GoLib] (g : githubPR W) (p : String) (o : Options) (w : W) :
    (g.Check p o w).1.1.Highlights = "" := by
  unfold githubPR.Check
  simp only
  split
  · rfl
  · split
    · rfl
    · split <;> rfl

/-- The Homebrew probe never sets highlights. -/
theorem brewFormula_Check_highlights [GoLib] (b : brewFormula W) (p : String) (o : Options)
    (w : W) : (b.Check p o w).1.1.Highlights = "" := by
  unfold brewFormula.Check
  simp only
  split
  · rfl
  · split
    · rfl
    · split
      · rfl
      · split <;> rfl

/-- The npm probe never sets highlights. -/
theorem npmPackage_Check_highlights (n : npmPackage W) (p : String) (o : Options) (w : W) :
    (n.Check p o w).1.1.Highlights = "" := by
  unfold npmPackage.Check
  simp only
  split
  · rfl
  · split <;> rfl

/-- When the release probe returns highlights, there is a previous value, it
    is not the current value, and the current value is a trimmed text that is
    not empty. -/
theorem release_highlights_current [GoLib] (g : githubReleaseOrCommit W) (p : String)
    (o : Options) (w : W) (h : (g.Check p o w).1.1.Highlights ≠ "") :
    TrimSpace p ≠ "" ∧ TrimSpace p ≠ (g.Check p o w).1.1.Current ∧
      (g.Check p o w).1.1.Current ≠ "" ∧
      TrimSpace (g.Check p o w).1.1.Current = (g.Check p o w).1.1.Current := by
  cases hget : (g.HTTP.Get g.feedURL [("User-Agent", g.UserAgent)] w).1.2 with
  | some err =>
    exfalso
    apply h
    unfold githubReleaseOrCommit.Check
    simp only [hget]
  | none =>
    cases hfeed : GoLib.unmarshalAtomFeed
        (g.HTTP.Get g.feedURL [("User-Agent", g.UserAgent)] w).1.1 with
    | error err =>
      exfalso
      apply h
      unfold githubReleaseOrCommit.Check
      simp only [hget, hfeed]
    | ok feed =>
      cases hentries : feed.Entries with
      | nil =>
        exfalso
        apply h
        rw [release_Check_of_no_entry g p o w feed hget hfeed hentries]
        split
        · rfl
        · exact githubCommit_Check_highlights _ _ _ _
      | cons entry rest =>
        rw [release_Check_of_entry g p o w feed entry rest hget hfeed hentries] at h ⊢
        by_cases ht : entryTitle entry = ""
        · rw [if_pos ht] at h
          exact absurd rfl h
        · rw [if_neg ht] at h ⊢
          by_cases hc : TrimSpace p ≠ "" ∧ TrimSpace p ≠ entryTitle entry ∧
              o.IncludeNotes = true
          · exact ⟨hc.1, hc.2.1, ht, entryTitle_trimmed entry⟩
          · simp only [hc, if_false] at h
            exact absurd rfl h

/-- When a probe built by the registry returns highlights, there is a previous
    value, it is not the current value, and the current value is a trimmed text
    that is not empty. -/
theorem Build_highlights [GoLib] (reg : trackers.Registry W) (cfg : TrackerEntry)
    (tr : Tracker W) (hbuild : reg.Build cfg = .ok tr) (p : String) (o : Options) (w : W)
    (h : (tr.Check p o w).1.1.Highlights ≠ "") :
    TrimSpace p ≠ "" ∧ TrimSpace p ≠ (tr.Check p o w).1.1.Current ∧
      (tr.Check p o w).1.1.Current ≠ "" ∧
      TrimSpace (tr.Check p o w).1.1.Current = (tr.Check p o w).1.1.Current := by
  unfold trackers.Registry.Build at hbuild
  by_cases hg : cfg.Type_ = "github"
  · rw [if_pos hg] at hbuild
    by_cases hc : cfg.Mode = "commit"
    · rw [if_pos hc] at hbuild
      have htr := Except.ok.inj hbuild
      rw [← htr] at h
      exact absurd (githubCommit_Check_highlights _ p o w) h
    · rw [if_neg hc] at hbuild
      by_cases hr : cfg.Mode = "release"
      · rw [if_pos hr] at hbuild
        have htr := Except.ok.inj hbuild
        rw [← htr] at h ⊢
        exact release_highlights_current _ p o w h
      · rw [if_neg hr] at hbuild
        by_cases hp : cfg.Mode = "pr"
        · rw [if_pos hp] at hbuild
          have htr := Except.ok.inj hbuild
          rw [← htr] at h
          exact absurd (githubPR_Check_highlights _ p o w) h
        · rw [if_neg hp] at hbuild
          exact absurd hbuild (by simp)
  · rw [if_neg hg] at hbuild
    by_cases hb : cfg.Type_ = "brew"
    · rw [if_pos hb] at hbuild
      have htr := Except.ok.inj hbuild
      rw [← htr] at h
      exact absurd (brewFormula_Check_highlights _ p o w) h
    · rw [if_neg hb] at hbuild
      by_cases hn : cfg.Type_ = "npm"
      · rw [if_pos hn] at hbuild
        have htr := Except.ok.inj hbuild
        rw [← htr] at h
        exact absurd (npmPackage_Check_highlights _ p o w) h
      · rw [if_neg hn] at hbuild
        exact absurd hbuild (by simp)

/-- Every call in a run of successive calls is a call of `Check` in some world. -/
theorem nthCall_eq_Check (tr : Tracker W) (p : String) (o : Options) :
    ∀ (k : Nat) (w : W), ∃ w', nthCall tr p o k w = tr.Check p o w' := by
  intro k
  induction k with
  | zero => intro w; exact ⟨w, rfl⟩
  | succ k ih =>
    intro w
    exact ih (tr.Check p o w).2

/-- The variables of `runOne` after the retry loop are those it began with,
    when the budget is empty, or come from one call of `Check`. -/
theorem afterLoop_cases [GoLib] (r : runner W) (cfg : TrackerEntry) (prev : Item)
    (tr : Tracker W) (w : W) :
    (afterLoop r cfg prev tr w).1 = {} ∨
    ∃ w', (afterLoop r cfg prev tr w).1 =
      attemptVars cfg (tr.Check prev.LastSeen { IncludeNotes := r.Options.IncludeNotes } w').1 := by
  show (retryLoop tr cfg prev.LastSeen r.Options.IncludeNotes (r.Retries + 1).toNat {} w).1 = {} ∨ _
  cases hb : (r.Retries + 1).toNat with
  | zero =>
    left
    rfl
  | succ b =>
    right
    obtain ⟨k, _, heq, _, _⟩ := retryLoop_spec tr cfg prev.LastSeen r.Options.IncludeNotes b {} w
    obtain ⟨w', hw'⟩ := nthCall_eq_Check tr prev.LastSeen
      { IncludeNotes := r.Options.IncludeNotes } k w
    refine ⟨w', ?_⟩
    show (retryLoop tr cfg prev.LastSeen r.Options.IncludeNotes (r.Retries + 1).toNat {} w).1 = _
    rw [hb, heq, hw']

/-- A code point that fails the test of `dropWhile` is kept. -/
theorem mem_dropWhile_of_false (p : Char → Bool) (c : Char) (hc : p c = false) :
    ∀ l : List Char, c ∈ l → c ∈ l.dropWhile p := by
  intro l
  induction l with
  | nil => intro h; exact h
  | cons a rest ih =>
    intro h
    rw [List.dropWhile_cons]
    by_cases ha : p a = true
    · rw [if_pos ha]
      rcases List.mem_cons.mp h with e | e
      · rw [e, ha] at hc
        exact absurd hc (by decide)
      · exact ih e
    · rw [if_neg ha]
      exact h

/-- A text that holds a code point which is no white space is not blank. -/
theorem TrimSpace_ne_empty_of_mem (s : String) (c : Char) (hc : c ∈ s.data)
    (hns : isSpace c = false) : TrimSpace s ≠ "" := by
  intro h
  have hd : trimSpaceList s.data = [] := congrArg String.data h
  unfold trimSpaceList trimRight at hd
  have h1 := mem_dropWhile_of_false isSpace c hns _ hc
  have h2 := mem_dropWhile_of_false isSpace c hns _ (List.mem_reverse.mpr h1)
  have h3 := List.mem_reverse.mpr h2
  rw [hd] at h3
  exact absurd h3 (List.not_mem_nil c)

/-- The highlights that `extractHighlightsFromHTML` returns are empty or not
    blank. -/
theorem extractHighlights_not_blank [GoLib] (raw : String)
    (h : extractHighlightsFromHTML raw ≠ "") : TrimSpace (extractHighlightsFromHTML raw) ≠ "" := by
  rw [extractHighlightsFromHTML_eq] at h ⊢
  by_cases hlen : byteLen (joinedBullets raw) > 500
  · rw [if_pos hlen]
    apply TrimSpace_ne_empty_of_mem _ '.' _ (by decide)
    rw [String.data_append]
    exact List.mem_append_right _ (by decide)
  · rw [if_neg hlen] at h ⊢
    obtain ⟨lines, _, hall, hdata⟩ := joinedBullets_lines raw
    cases lines with
    | nil =>
      exfalso
      apply h
      apply String.ext
      rw [hdata]
      rfl
    | cons x rest =>
      have hx := (hall x (List.mem_cons_self _ _)).1
      unfold HasPrefix at hx
      rw [ List.isPrefixOf_iff_prefix] at hx
      obtain ⟨t, ht⟩ := hx
      apply TrimSpace_ne_empty_of_mem _ '-' _ (by decide)
      rw [hdata, List.map_cons]
      have hmem : '-' ∈ x.data := by
        rw [← ht]
        exact List.mem_append_left _ (by decide)
      cases rest with
      | nil => exact hmem
      | cons y more =>
        rw [List.map_cons, joinList]
        exact List.mem_append_left _ (List.mem_append_left _ hmem)

/-- C31, on the code: for a release source on a first run whose latest
    release is titled `force-notes`, with the local version `1.0.0` behind and
    notes requested, the status is "update" with `remoteChanged` false and the
    first check produced no highlights; `runOne` asks the feed a second time,
    with the previous value `force-notes`, and the extraction from the latest
    release entry is `- Fix A`, `- Add B`, and yet the highlights of the item
    are empty: the previous value that is to force the extraction is the title
    itself. -/
theorem C31_sentinel_title_gets_no_highlights :
    (@runOne _ sentinelLib (@sentinelRunner sentinelLib) releaseABWithLocal {} []).1.1.Status
        = "update" ∧
      ¬ remoteChangedSpec ({} : Item).LastSeen "force-notes" ∧
      (@runOne _ sentinelLib (@sentinelRunner sentinelLib) releaseABWithLocal {} []).1.1.Current
        = "force-notes" ∧
      (@sentinelRunner sentinelLib).Options.IncludeNotes = true ∧
      (@runOne _ sentinelLib (@sentinelRunner sentinelLib) releaseABWithLocal {} []).2
        = [sampleFeedURL, sampleFeedURL] ∧
      @extractHighlightsFromHTML sentinelLib sentinelEntry.Content.Body = "- Fix A\n- Add B" ∧
      (@runOne _ sentinelLib (@sentinelRunner sentinelLib) releaseABWithLocal {} []).1.1.Highlights
        = "" := by
  decide

/-- Highlight backfill on every input.  When the probe of a source succeeds,
    the status is "update" with `remoteChanged` false, the source is of type
    github and mode release, the first check produced no highlights and notes
    are requested, `runOne` invokes the probe once more, after the local check, with
    the previous value "force-notes" and notes requested, and the highlights of
    the item are those that this check returns whenever it succeeds and they
    are not blank, and those of the first check otherwise; `Current`, `Message`
    and `Links` stay those of the first check.  When any of the conditions
    fails, the probe is not invoked again: `runOne` returns the world of the
    local check and the highlights of the first check.  The release probe,
    invoked with "force-notes" and notes requested on a feed whose first entry
    has a title other than that text, returns the highlights extracted from the
    content of that entry, which are not blank whenever they are not empty. -/
theorem runOne_highlight_backfill [GoLib] (r : runner W) (cfg : TrackerEntry) (prev : Item) (w : W)
    (tr : Tracker W) (hbuild : r.Registry.Build cfg = .ok tr)
    (hok : (afterLoop r cfg prev tr w).1.lastErr = none) :
    ((runOne r cfg prev w).1.1.Status = "update" →
      ¬ remoteChangedSpec prev.LastSeen (afterLoop r cfg prev tr w).1.current →
      cfg.Type_ = "github" → cfg.Mode = "release" →
      TrimSpace (afterLoop r cfg prev tr w).1.highlights = "" →
      r.Options.IncludeNotes = true →
      (runOne r cfg prev w).2 =
        (tr.Check "force-notes" { IncludeNotes := true }
          (runLocalCheck r cfg (afterLoop r cfg prev tr w).2).2).2 ∧
      ((tr.Check "force-notes" { IncludeNotes := true }
            (runLocalCheck r cfg (afterLoop r cfg prev tr w).2).2).1.2 = none →
        TrimSpace (tr.Check "force-notes" { IncludeNotes := true }
            (runLocalCheck r cfg (afterLoop r cfg prev tr w).2).2).1.1.Highlights ≠ "" →
        (runOne r cfg prev w).1.1.Highlights =
          (tr.Check "force-notes" { IncludeNotes := true }
            (runLocalCheck r cfg (afterLoop r cfg prev tr w).2).2).1.1.Highlights) ∧
      (¬ ((tr.Check "force-notes" { IncludeNotes := true }
            (runLocalCheck r cfg (afterLoop r cfg prev tr w).2).2).1.2 = none ∧
          TrimSpace (tr.Check "force-notes" { IncludeNotes := true }
            (runLocalCheck r cfg (afterLoop r cfg prev tr w).2).2).1.1.Highlights ≠ "") →
        (runOne r cfg prev w).1.1.Highlights = (afterLoop r cfg prev tr w).1.highlights)) ∧
    (¬ ((runOne r cfg prev w).1.1.Status = "update" ∧
        ¬ remoteChangedSpec prev.LastSeen (afterLoop r cfg prev tr w).1.current ∧
        cfg.Type_ = "github" ∧ cfg.Mode = "release" ∧
        TrimSpace (afterLoop r cfg prev tr w).1.highlights = "" ∧
        r.Options.IncludeNotes = true) →
      (runOne r cfg prev w).2 = (runLocalCheck r cfg (afterLoop r cfg prev tr w).2).2 ∧
      (runOne r cfg prev w).1.1.Highlights = (afterLoop r cfg prev tr w).1.highlights) ∧
    ((runOne r cfg prev w).1.1.Current = TrimSpace (afterLoop r cfg prev tr w).1.current ∧
      (runOne r cfg prev w).1.1.Message = (afterLoop r cfg prev tr w).1.message ∧
      (runOne r cfg prev w).1.1.Links = (afterLoop r cfg prev tr w).1.links) ∧
    (∀ (g : githubReleaseOrCommit W) (w2 : W) (feed : atomFeed) (entry : atomEntry)
      (rest : List atomEntry),
      (g.HTTP.Get g.feedURL [("User-Agent", g.UserAgent)] w2).1.2 = none →
      GoLib.unmarshalAtomFeed (g.HTTP.Get g.feedURL [("User-Agent", g.UserAgent)] w2).1.1
        = .ok feed →
      feed.Entries = entry :: rest → entryTitle entry ≠ "" → entryTitle entry ≠ "force-notes" →
      (g.Check "force-notes" { IncludeNotes := true } w2).1.2 = none ∧
      (g.Check "force-notes" { IncludeNotes := true } w2).1.1.Highlights =
        extractHighlightsFromHTML entry.Content.Body ∧
      (extractHighlightsFromHTML entry.Content.Body ≠ "" →
        TrimSpace (g.Check "force-notes" { IncludeNotes := true } w2).1.1.Highlights ≠ "")) := by
  obtain ⟨hback, hcur, hmsg, hlinks⟩ := runOne_backfill r cfg prev w tr hbuild hok
  refine ⟨?_, ?_, ⟨hcur, hmsg, hlinks⟩, ?_⟩
  · intro h1 h2 h3 h4 h5 h6
    rw [if_pos ⟨h1, h2, h3, h4, h5, h6⟩] at hback
    have hw := congrArg Prod.snd hback
    have hh := congrArg Prod.fst hback
    simp only at hw hh
    refine ⟨hw, ?_, ?_⟩
    · intro herr hne
      rw [hh, if_pos ⟨herr, hne⟩]
    · intro hnot
      rw [hh, if_neg hnot]
  · intro hnot
    rw [if_neg hnot] at hback
    exact ⟨congrArg Prod.snd hback, congrArg Prod.fst hback⟩
  · intro g w2 feed entry rest hget hfeed hentries ht hsent
    have hchk := release_Check_of_entry g "force-notes" { IncludeNotes := true } w2 feed entry
      rest hget hfeed hentries
    rw [if_neg ht] at hchk
    have htrim : TrimSpace "force-notes" = "force-notes" := by decide
    have hcond : TrimSpace "force-notes" ≠ "" ∧ TrimSpace "force-notes" ≠ entryTitle entry ∧
        ({ IncludeNotes := true } : Options).IncludeNotes = true := by
      rw [htrim]
      exact ⟨by decide, fun h => hsent h.symm, rfl⟩
    have hhl : (g.Check "force-notes" { IncludeNotes := true } w2).1.1.Highlights =
        extractHighlightsFromHTML entry.Content.Body := by
      rw [hchk]
      show (if _ then _ else _) = _
      rw [if_pos hcond]
    refine ⟨by rw [hchk], hhl, fun hne => ?_⟩
    rw [hhl]
    exact extractHighlights_not_blank _ hne

/-- The backfill at the release source of `a/b` on a first run, with the local
    version `1.0.0` behind the release `v1.2.3`: the status is "update" and the
    highlights are those of the release notes, while the message is that of the
    first check. -/
theorem runOne_highlight_backfill_example :
    (@runOne _ sampleLib (@notesRunner sampleLib) releaseABWithLocal {} []).1.1.Status
        = "update" ∧
      (@runOne _ sampleLib (@notesRunner sampleLib) releaseABWithLocal {} []).1.1.Highlights
        = "- Fix A\n- Add B" ∧
      (@runOne _ sampleLib (@notesRunner sampleLib) releaseABWithLocal {} []).1.1.Message
        = "latest release v1.2.3" :=
  have h := @runOne_highlight_backfill _ sampleLib (@notesRunner sampleLib) releaseABWithLocal {} []
    _ rfl (by decide)
  have hb := h.1 (by decide) (by decide) rfl rfl (by decide) rfl
  ⟨by decide, (hb.2.1 (by decide) (by decide)).trans (by decide),
    h.2.2.1.2.1.trans (by decide)⟩

/-! ## Highlights only when the status is update -/
/-- A text that is not blank is not empty (for the highlights). -/
theorem ne_empty_of_not_blank (s : String) (h : TrimSpace s ≠ "") : s ≠ "" :=
  ne_empty_of_TrimSpace_ne_empty s h

/-- An item of `runOne`, for a runner on the registry, that carries
    highlights has the status "update". -/
theorem runOne_highlights_update [GoLib] (reg : trackers.Registry W) (r : runner W)
    (hreg : r.Registry = reg.toRegistry) (cfg : TrackerEntry) (prev : Item) (w : W)
    (h : TrimSpace (runOne r cfg prev w).1.1.Highlights ≠ "") :
    (runOne r cfg prev w).1.1.Status = "update" := by
  have hblank : TrimSpace "" = "" := by decide
  cases hbuild : r.Registry.Build cfg with
  | error e =>
    exfalso
    apply h
    rw [runOne_of_build_error r cfg prev w e hbuild]
    exact hblank
  | ok tr =>
    cases hloop : (afterLoop r cfg prev tr w).1.lastErr with
    | some e =>
      exfalso
      apply h
      rw [runOne_of_failure r cfg prev w tr hbuild e hloop]
      exact hblank
    | none =>
      obtain ⟨hback, _, _, _⟩ := runOne_backfill r cfg prev w tr hbuild hloop
      by_cases hcond : (runOne r cfg prev w).1.1.Status = "update" ∧
          ¬ remoteChangedSpec prev.LastSeen (afterLoop r cfg prev tr w).1.current ∧
          cfg.Type_ = "github" ∧ cfg.Mode = "release" ∧
          TrimSpace (afterLoop r cfg prev tr w).1.highlights = "" ∧
          r.Options.IncludeNotes = true
      · exact hcond.1
      · rw [if_neg hcond] at hback
        have hh : (runOne r cfg prev w).1.1.Highlights = (afterLoop r cfg prev tr w).1.highlights :=
          congrArg Prod.fst hback
        rw [hh] at h
        have hne := ne_empty_of_not_blank _ h
        have hb : reg.Build cfg = .ok tr := by
          rw [hreg] at hbuild
          exact hbuild
        rcases afterLoop_cases r cfg prev tr w with hzero | ⟨w', hw'⟩
        · rw [hzero] at hne
          exact absurd rfl hne
        · rw [hw'] at hne
          obtain ⟨hp, hpc, hc, htrim⟩ := Build_highlights reg cfg tr hb prev.LastSeen
            { IncludeNotes := r.Options.IncludeNotes } w' hne
          have hremote : remoteChangedSpec prev.LastSeen (afterLoop r cfg prev tr w).1.current := by
            rw [hw']
            show TrimSpace prev.LastSeen ≠ "" ∧
              TrimSpace (tr.Check prev.LastSeen { IncludeNotes := r.Options.IncludeNotes }
                w').1.1.Current ≠ "" ∧
              TrimSpace prev.LastSeen ≠
                TrimSpace (tr.Check prev.LastSeen { IncludeNotes := r.Options.IncludeNotes }
                  w').1.1.Current
            rw [htrim]
            exact ⟨hp, hc, hpc⟩
          rw [runOne_status_of_success r cfg prev w tr hbuild hloop, decide_eq_true hremote,
            Bool.true_or]
          rfl

/-- C33: release highlights are only included when the status is "update".
    For every runner on the registry, every source and every run, an item with
    highlights that are not blank has the status "update": in what `runOne`
    returns, and in the report of `runner.Run`, whatever the order in which the
    jobs are carried out. -/
theorem C33_highlights_only_on_update [GoLib] (reg : trackers.Registry W) (r : runner W)
    (hreg : r.Registry = reg.toRegistry) :
    (∀ (cfg : TrackerEntry) (prev : Item) (w : W),
      TrimSpace (runOne r cfg prev w).1.1.Highlights ≠ "" →
      (runOne r cfg prev w).1.1.Status = "update") ∧
    (∀ (cfgs : List TrackerEntry) (st : State) (sched : List Nat) (w : W),
      sched.Perm (List.range cfgs.length) →
      ∀ it ∈ (Run r cfgs st sched w).1.1, TrimSpace it.Highlights ≠ "" →
        it.Status = "update") := by
  refine ⟨fun cfg prev w h => runOne_highlights_update reg r hreg cfg prev w h, ?_⟩
  intro cfgs st sched w hsched it hit hne
  have hnd : sched.Nodup := (hsched.nodup_iff).mpr (List.nodup_range _)
  obtain ⟨hlen, _, hin⟩ := run_fold_results r cfgs
    (match st.Items with
      | none => fun _ => none
      | some m => m) sched
    { results := List.replicate cfgs.length {}, nextItems :=
        (match st.Items with
          | none => fun _ => none
          | some m => m), world := w } hnd
  obtain ⟨i, hi⟩ := List.mem_iff_getElem?.mp hit
  have hlt : i < cfgs.length := by
    have h1 := (List.getElem?_eq_some_iff.mp hi).1
    have h2 : (Run r cfgs st sched w).1.1.length = cfgs.length :=
      hlen.trans (List.length_replicate _ _)
    omega
  obtain ⟨cfg, hcfg⟩ : ∃ cfg, cfgs[i]? = some cfg := ⟨cfgs[i], List.getElem?_eq_getElem hlt⟩
  obtain ⟨w', hw'⟩ := hin i cfg (hsched.mem_iff.mpr (List.mem_range.mpr hlt)) hcfg
    (by simpa using hlt)
  have hsame : some it = some (runOne r cfg
      (((match st.Items with
        | none => fun _ => none
        | some m => m) cfg.Name).getD {}) w').1.1 := by
    rw [← hi, ← hw']
    rfl
  have hitem := Option.some.inj hsame
  rw [hitem] at hne ⊢
  exact runOne_highlights_update reg r hreg cfg _ w' hne

/-- C33 at the release source of `a/b` with the local version behind: the
    item carries highlights and its status is "update". -/
theorem C33_highlights_only_on_update_witness :
    TrimSpace (@runOne _ sampleLib (@notesRunner sampleLib) releaseABWithLocal {}
        []).1.1.Highlights ≠ "" ∧
      (@runOne _ sampleLib (@notesRunner sampleLib) releaseABWithLocal {} []).1.1.Status
        = "update" :=
  ⟨by decide,
    (@C33_highlights_only_on_update _ sampleLib
      { HTTP := tableFetcher [(sampleFeedURL, feedBody)], Exec := versionExec, UserAgent := "x" }
      (@notesRunner sampleLib) rfl).1 releaseABWithLocal {} [] (by decide)⟩

/-! ## Stale state -/
/-- The next-state map after a series of jobs, under a name that no job of the
    series carries: the entry is as before. -/
theorem run_fold_frame [GoLib] (r : runner W) (cfgs : List TrackerEntry)
    (prevItems : String → Option Item) (name : String) :
    ∀ (sched : List Nat) (acc : runVars W),
      (∀ i cfg, i ∈ sched → cfgs[i]? = some cfg → cfg.Name ≠ name) →
      (sched.foldl (runJob r cfgs prevItems) acc).nextItems name = acc.nextItems name := by
  intro sched
  induction sched with
  | nil => intro acc _; rfl
  | cons idx rest ih =>
    intro acc h
    rw [List.foldl_cons, ih _ (fun i cfg hi hc => h i cfg (List.mem_cons_of_mem _ hi) hc)]
    unfold runJob
    cases hc : cfgs[idx]? with
    | none => rfl
    | some c =>
      have hne : name ≠ c.Name := fun e => h idx c (List.mem_cons_self _ _) hc e.symm
      simp [hne]

/-- The map of a state as a lookup (`st.Items[name]`), also for the nil map. -/
theorem prevItem_eq (st : State) (name : String) :
    prevItem st name = ((st.Items.getD (fun _ => none)) name).getD {} := by
  unfold prevItem
  cases st.Items <;> rfl

/-- The next state of `Run` in terms of the fold over the jobs. -/
theorem Run_next_eq [GoLib] (r : runner W) (cfgs : List TrackerEntry) (st : State)
    (sched : List Nat) (w : W) :
    (Run r cfgs st sched w).1.2.Items = some
      (sched.foldl (runJob r cfgs (st.Items.getD (fun _ => none)))
        { results := List.replicate cfgs.length {},
          nextItems := st.Items.getD (fun _ => none), world := w }).nextItems := by
  unfold Run
  cases st.Items <;> rfl

/-- C40: `runner.Run` carries over stale state.  For every previous state,
    every configuration with distinct source names and every order in which
    the jobs are carried out, the next state holds an entry exactly under the
    names of the previous state and the configured names; under a name that is
    not configured the entry is the one of the previous state; under a
    configured name it is the record that `runOne` returned for that source,
    started from the entry that the previous state holds under the name (the
    zero item when there is none).  The previous state is read as given: no
    record is computed from an entry written during the run. -/
theorem C40_stale_state_carried_over [GoLib] (r : runner W) (cfgs : List TrackerEntry)
    (st : State) (sched : List Nat) (w : W)
    (hsched : sched.Perm (List.range cfgs.length))
    (hnames : (cfgs.map (fun c => c.Name)).Nodup) :
    ∃ m, (Run r cfgs st sched w).1.2.Items = some m ∧
      (∀ name, (m name).isSome = true ↔
        (((st.Items.getD (fun _ => none)) name).isSome = true ∨
          ∃ cfg, cfg ∈ cfgs ∧ cfg.Name = name)) ∧
      (∀ name, (∀ cfg, cfg ∈ cfgs → cfg.Name ≠ name) →
        m name = (st.Items.getD (fun _ => none)) name) ∧
      (∀ cfg, cfg ∈ cfgs →
        ∃ w', m cfg.Name = some (runOne r cfg (prevItem st cfg.Name) w').1.2) := by
  refine ⟨_, Run_next_eq r cfgs st sched w, ?_, ?_, ?_⟩
  · intro name
    by_cases hcfg : ∃ cfg, cfg ∈ cfgs ∧ cfg.Name = name
    · obtain ⟨c, hc, hn⟩ := hcfg
      obtain ⟨i, hi⟩ := List.mem_iff_getElem?.mp hc
      have hlt : i < cfgs.length := (List.getElem?_eq_some_iff.mp hi).1
      obtain ⟨c', w', _, _, hnext⟩ := run_fold_next r cfgs (st.Items.getD (fun _ => none)) sched
        { results := List.replicate cfgs.length {},
          nextItems := st.Items.getD (fun _ => none), world := w }
        (fun _ => False) (fun _ h => absurd h id) name
        (Or.inr ⟨i, c, hsched.mem_iff.mpr (List.mem_range.mpr hlt), hi, hn⟩)
      rw [hnext]
      exact ⟨fun _ => Or.inr ⟨c, hc, hn⟩, fun _ => rfl⟩
    · rw [run_fold_frame r cfgs _ name sched _
        (fun i cfg _ hc hn => hcfg ⟨cfg, List.getElem?_mem hc, hn⟩)]
      exact ⟨fun h => Or.inl h, fun h => h.resolve_right hcfg⟩
  · intro name hname
    exact run_fold_frame r cfgs _ name sched _
      (fun i cfg _ hc hn => hname cfg (List.getElem?_mem hc) hn)
  · intro c hc
    obtain ⟨i, hi⟩ := List.mem_iff_getElem?.mp hc
    have hlt : i < cfgs.length := (List.getElem?_eq_some_iff.mp hi).1
    obtain ⟨c', w', hc', hn', hnext⟩ := run_fold_next r cfgs (st.Items.getD (fun _ => none)) sched
      { results := List.replicate cfgs.length {},
        nextItems := st.Items.getD (fun _ => none), world := w }
      (fun _ => False) (fun _ h => absurd h id) c.Name
      (Or.inr ⟨i, c, hsched.mem_iff.mpr (List.mem_range.mpr hlt), hi, rfl⟩)
    have hsame : c' = c := List.inj_on_of_nodup_map hnames hc' hc hn'
    subst hsame
    exact ⟨w', by rw [hnext, prevItem_eq]⟩

/-- C40 at a previous state with the stale name `old` and one configured
    release source `tool`, both stored before: the entry of `old` is kept and the
    entry of `tool` is the record of the run. -/
theorem C40_stale_state_carried_over_witness :
    ∃ m, (@Run Unit plainLib sampleRunner [sampleRelease]
        { Items := some (fun k => if k = "old" then some { LastSeen := "v0.1.0" } else
            if k = "tool" then some { LastSeen := "v1.2.3" } else none) } [0] ()).1.2.Items = some m ∧
      m "old" = some { LastSeen := "v0.1.0" } ∧
      ∃ w', m sampleRelease.Name = some (@runOne Unit plainLib sampleRunner sampleRelease
        { LastSeen := "v1.2.3" } w').1.2 :=
  have h := @C40_stale_state_carried_over Unit plainLib sampleRunner [sampleRelease]
    { Items := some (fun k => if k = "old" then some { LastSeen := "v0.1.0" } else
        if k = "tool" then some { LastSeen := "v1.2.3" } else none) } [0] ()
    (by decide) (by decide)
  match h with
  | ⟨m, hm, _, hstale, hconf⟩ =>
    ⟨m, hm, (hstale "old" (by decide)).trans (by decide),
      match hconf sampleRelease (by decide) with
      | ⟨w', hw'⟩ => ⟨w', hw'.trans rfl⟩⟩

/-! ## Validation of the configuration -/
/-- An error about a tracker is an error. -/
theorem trackerErr_ne_none (i : Nat) (rest : String) : trackerErr i rest ≠ none := by
  unfold trackerErr
  exact Option.some_ne_none _

/-- The switch on the type reports a github tracker in commit mode without a
    branch. -/
theorem validateType_missing_branch (i : Nat) (t : TrackerEntry) (hty : t.Type_ = "github")
    (hmode : t.Mode = "commit") (hbranch : TrimSpace t.Branch = "") :
    validateType i t ≠ none := by
  unfold validateType
  rw [if_pos hty]
  by_cases hrepo : TrimSpace t.Repo = ""
  · rw [if_pos hrepo]
    exact trackerErr_ne_none _ _
  · rw [if_neg hrepo, if_neg (fun h => h.2 hmode), if_pos ⟨hmode, hbranch⟩]
    exact trackerErr_ne_none _ _

/-- The loop of `Validate` reports a list that holds a github tracker in
    commit mode without a branch. -/
theorem validateLoop_missing_branch (t : TrackerEntry) (hty : t.Type_ = "github")
    (hmode : t.Mode = "commit") (hbranch : TrimSpace t.Branch = "") :
    ∀ (l : List TrackerEntry) (i : Nat) (seenNames : List String), t ∈ l →
      validateLoop l i seenNames ≠ none := by
  intro l
  induction l with
  | nil => intro i seenNames h; exact absurd h (List.not_mem_nil t)
  | cons a rest ih =>
    intro i seenNames hmem
    rw [validateLoop]
    split_ifs with h1 h2 h3
    · exact trackerErr_ne_none _ _
    · exact Option.some_ne_none _
    · exact trackerErr_ne_none _ _
    · cases hvt : validateType i a with
      | some e => exact Option.some_ne_none _
      | none =>
        cases hvl : validateLocal i a with
        | some e => exact Option.some_ne_none _
        | none =>
          rcases List.mem_cons.mp hmem with h | h
          · subst h
            exact absurd hvt (validateType_missing_branch i t hty hmode hbranch)
          · exact ih (i + 1) (a.Name :: seenNames) h

/-- C34: `Config.Validate` rejects every configuration that contains a github
    tracker in commit mode whose branch is missing or blank: it returns an
    error.  For the configuration of `TestValidate_MissingRequired` (a single
    tracker with name `x`, type github, mode commit, repo `a/b`, under valid
    defaults) the error is the one about the branch. -/
theorem C34_validate_missing_branch (c : Config) (t : TrackerEntry) (hmem : t ∈ c.Trackers)
    (hty : t.Type_ = "github") (hmode : t.Mode = "commit") (hbranch : TrimSpace t.Branch = "") :
    (∃ e, c.Validate = some e) ∧
    missingBranchConfig.Validate =
      some { Error := "config: trackers[0].branch is required (github commit)" } := by
  refine ⟨?_, by decide⟩
  apply Option.ne_none_iff_exists'.mp
  unfold Config.Validate
  split_ifs
  · exact Option.some_ne_none _
  · exact Option.some_ne_none _
  · exact Option.some_ne_none _
  · exact Option.some_ne_none _
  · exact Option.some_ne_none _
  · exact validateLoop_missing_branch t hty hmode hbranch c.Trackers 0 [] hmem

/-- C34 at the sample configuration with the branch of its commit source
    blanked: `Validate` returns the error about the branch of tracker 1. -/
theorem C34_validate_missing_branch_witness :
    ∃ e, ({ sampleConfig with Trackers :=
        [{ Name := "clawdbot", Type_ := "github", Mode := "release", Repo := "anthropics/clawdbot" },
         { Name := "lobster", Type_ := "github", Mode := "commit", Repo := "openclaw/lobster",
           Branch := "  " }] } : Config).Validate = some e :=
  (C34_validate_missing_branch
    { sampleConfig with Trackers :=
        [{ Name := "clawdbot", Type_ := "github", Mode := "release", Repo := "anthropics/clawdbot" },
         { Name := "lobster", Type_ := "github", Mode := "commit", Repo := "openclaw/lobster",
           Branch := "  " }] }
    { Name := "lobster", Type_ := "github", Mode := "commit", Repo := "openclaw/lobster",
      Branch := "  " }
    (by decide) rfl rfl (by decide)).1

/-- A tracker that passes the switch on the type has a type and mode that
    `Registry.Build` knows. -/
theorem validateType_none (i : Nat) (t : TrackerEntry) (h : validateType i t = none) :
    (t.Type_ = "github" ∧ (t.Mode = "release" ∨ t.Mode = "commit")) ∨ t.Type_ = "brew" ∨
      t.Type_ = "npm" := by
  unfold validateType at h
  by_cases hg : t.Type_ = "github"
  · rw [if_pos hg] at h
    by_cases hrepo : TrimSpace t.Repo = ""
    · rw [if_pos hrepo] at h
      exact absurd h (trackerErr_ne_none _ _)
    · rw [if_neg hrepo] at h
      by_cases hm : t.Mode ≠ "release" ∧ t.Mode ≠ "commit"
      · rw [if_pos hm] at h
        exact absurd h (trackerErr_ne_none _ _)
      · refine Or.inl ⟨hg, ?_⟩
        by_contra hc
        exact hm ⟨fun e => hc (Or.inl e), fun e => hc (Or.inr e)⟩
  · rw [if_neg hg] at h
    by_cases hb : t.Type_ = "brew"
    · exact Or.inr (Or.inl hb)
    · rw [if_neg hb] at h
      by_cases hn : t.Type_ = "npm"
      · exact Or.inr (Or.inr hn)
      · rw [if_neg hn] at h
        exact absurd h (trackerErr_ne_none _ _)

/-- Every tracker of a list that the loop of `Validate` accepts passes the
    switch on the type. -/
theorem validateLoop_none :
    ∀ (l : List TrackerEntry) (i : Nat) (seenNames : List String),
      validateLoop l i seenNames = none → ∀ t, t ∈ l → ∃ j, validateType j t = none := by
  intro l
  induction l with
  | nil => intro i seenNames _ t h; exact absurd h (List.not_mem_nil t)
  | cons a rest ih =>
    intro i seenNames hv t hmem
    rw [validateLoop] at hv
    split_ifs at hv with h1 h2 h3
    · exact absurd hv (trackerErr_ne_none _ _)
    · exact absurd hv (trackerErr_ne_none _ _)
    · cases hvt : validateType i a with
      | some e => rw [hvt] at hv; exact absurd hv (Option.some_ne_none _)
      | none =>
        rw [hvt] at hv
        cases hvl : validateLocal i a with
        | some e => rw [hvl] at hv; exact absurd hv (Option.some_ne_none _)
        | none =>
          rw [hvl] at hv
          rcases List.mem_cons.mp hmem with h | h
          · subst h
            exact ⟨i, hvt⟩
          · exact ih (i + 1) (a.Name :: seenNames) hv t h

/-- The trackers of a configuration that `Validate` accepts went through the
    loop. -/
theorem Validate_none_loop (c : Config) (h : c.Validate = none) :
    validateLoop c.Trackers 0 [] = none := by
  unfold Config.Validate at h
  split_ifs at h
  exact h

/-- C38: every configuration accepted by `Config.Validate` is buildable.  For
    every tracker entry of a configuration for which `Validate` returns no
    error, `Registry.Build` returns a probe and no error; hence, for a runner on
    that registry, an item of the entry with the status "error" is never the
    item of a construction failure: its error is the one with which the retry
    loop over the probe ended. -/
theorem C38_validated_is_buildable [GoLib] (c : Config) (hvalid : c.Validate = none)
    (reg : trackers.Registry W) (t : TrackerEntry) (hmem : t ∈ c.Trackers) :
    ∃ tr, reg.Build t = .ok tr ∧
      ∀ (r : runner W), r.Registry = reg.toRegistry → ∀ (prev : Item) (w : W),
        (runOne r t prev w).1.1.Status = "error" →
          ∃ e, (afterLoop r t prev tr w).1.lastErr = some e ∧
            (runOne r t prev w).1.1.Error = e.Error := by
  obtain ⟨j, hj⟩ := validateLoop_none c.Trackers 0 [] (Validate_none_loop c hvalid) t hmem
  have hty := validateType_none j t hj
  have hnoerr : ¬ ∃ e, reg.Build t = .error e := by
    rw [Build_error_iff]
    rintro (⟨h1, h2, h3⟩ | ⟨hg, h2, h3, _⟩)
    · rcases hty with ⟨h, _⟩ | h | h
      · exact h1 h
      · exact h2 h
      · exact h3 h
    · rcases hty with ⟨_, h | h⟩ | h | h
      · exact h2 h
      · exact h3 h
      · rw [hg] at h
        exact absurd h (by decide)
      · rw [hg] at h
        exact absurd h (by decide)
  cases hb : reg.Build t with
  | error e => exact absurd ⟨e, hb⟩ hnoerr
  | ok tr =>
    refine ⟨tr, rfl, ?_⟩
    intro r hreg prev w hstatus
    have hbuild : r.Registry.Build t = .ok tr := by
      rw [hreg]
      exact hb
    cases hloop : (afterLoop r t prev tr w).1.lastErr with
    | some e =>
      refine ⟨e, rfl, ?_⟩
      rw [runOne_of_failure r t prev w tr hbuild e hloop]
    | none =>
      exfalso
      rw [runOne_status_of_success r t prev w tr hbuild hloop] at hstatus
      split_ifs at hstatus <;> exact absurd hstatus (by decide)

/-- C38 at the sample configuration: the registry builds a probe for its brew
    source. -/
theorem C38_validated_is_buildable_witness :
    sampleConfig.Validate = none ∧
      ∃ tr, (@trackers.Registry.Build _ plainLib
        ({ HTTP := tableFetcher [], Exec := lsRemoteExec } : trackers.Registry (List String))
        { Name := "ffmpeg", Type_ := "brew", Formula := "ffmpeg" }) = .ok tr :=
  ⟨by decide,
    match @C38_validated_is_buildable _ plainLib sampleConfig (by decide)
      { HTTP := tableFetcher [], Exec := lsRemoteExec }
      { Name := "ffmpeg", Type_ := "brew", Formula := "ffmpeg" } (by decide) with
    | ⟨tr, htr, _⟩ => ⟨tr, htr⟩⟩

/-! ## The groups of the Discord-style output -/
/-- A value is among the first appearances exactly when it is in the list. -/
theorem mem_firstAppearance (x : String) : ∀ l : List String, x ∈ firstAppearance l ↔ x ∈ l := by
  intro l
  induction l with
  | nil => simp [firstAppearance]
  | cons k rest ih =>
    rw [firstAppearance, List.mem_cons, List.mem_cons, List.mem_filter, ih]
    by_cases h : x = k
    · simp [h]
    · simp [h]

/-- The first appearances are distinct. -/
theorem nodup_firstAppearance : ∀ l : List String, (firstAppearance l).Nodup := by
  intro l
  induction l with
  | nil => simp [firstAppearance]
  | cons k rest ih =>
    rw [firstAppearance, List.nodup_cons]
    refine ⟨?_, ih.filter _⟩
    intro h
    have := (List.mem_filter.mp h).2
    simp at this

/-- The first appearances of a list with one more value at its end. -/
theorem firstAppearance_snoc (k : String) : ∀ l : List String,
    firstAppearance (l ++ [k]) = if k ∈ l then firstAppearance l else firstAppearance l ++ [k] := by
  intro l
  induction l with
  | nil => simp [firstAppearance]
  | cons a l ih =>
    rw [List.cons_append, firstAppearance, ih, firstAppearance]
    by_cases hk : k ∈ l
    · rw [if_pos hk, if_pos (List.mem_cons_of_mem _ hk)]
    · rw [if_neg hk]
      by_cases hka : k = a
      · rw [if_pos (by rw [hka]; exact List.mem_cons_self _ _)]
        rw [List.filter_append]
        simp [hka]
      · rw [if_neg (by simp [hka, hk])]
        rw [List.filter_append]
        simp [hka]

/-- The assignment to the group at the position of a name, on groups made
    from distinct names: the item goes to the end of the group of that name. -/
theorem appendAt_indexOf (k : String) (it : ReportItem) (F : String → List ReportItem) :
    ∀ names : List String, names.Nodup → k ∈ names →
      appendAt (names.map (fun n => ({ Name := n, Items := F n } : group)))
          (names.indexOf k) it =
        names.map (fun n =>
          ({ Name := n, Items := F n ++ if k = n then [it] else [] } : group)) := by
  intro names
  induction names with
  | nil => intro _ h; exact absurd h (List.not_mem_nil k)
  | cons a rest ih =>
    intro hnd hmem
    obtain ⟨hnot, hrest⟩ := List.nodup_cons.mp hnd
    by_cases hka : a = k
    · subst hka
      rw [List.indexOf_cons_self, List.map_cons, appendAt, List.map_cons, if_pos rfl]
      congr 1
      apply List.map_congr_left
      intro n hn
      have hne : a ≠ n := fun e => hnot (e ▸ hn)
      rw [if_neg hne, List.append_nil]
    · have hk : k ∈ rest := by
        rcases List.mem_cons.mp hmem with h | h
        · exact absurd h.symm hka
        · exact h
      rw [List.indexOf_cons_ne _ hka, List.map_cons, appendAt, List.map_cons, ih hrest hk,
        if_neg (fun e => hka e.symm), List.append_nil]

/-- The closure `add` on an item whose group name is in the index map. -/
theorem add_hit (v : groupVars) (it : ReportItem) (idx : Nat)
    (h : v.groupIdx.lookup (groupKey it) = some idx) :
    add v it.Group it = { v with groups := appendAt v.groups idx it } := by
  unfold add
  have hkey : (if TrimSpace it.Group = "" then "__default__" else TrimSpace it.Group)
      = groupKey it := rfl
  simp only [hkey, h]

/-- The closure `add` on an item whose group name is not in the index map. -/
theorem add_miss (v : groupVars) (it : ReportItem)
    (h : v.groupIdx.lookup (groupKey it) = none) :
    add v it.Group it =
      { groups := v.groups ++ [{ Name := groupKey it, Items := [it] }],
        groupIdx := (groupKey it, v.groups.length) :: v.groupIdx } := by
  unfold add
  have hkey : (if TrimSpace it.Group = "" then "__default__" else TrimSpace it.Group)
      = groupKey it := rfl
  simp only [hkey, h]

/-- The variables of `discordMarkdown` after the loop over the items: the
    groups are the grouping of the specification, and the index map sends a
    group name to the position of its group. -/
theorem add_fold (items : List ReportItem) :
    (items.foldl (fun v it => add v it.Group it) {}).groups = groupedItems items ∧
    ∀ k, (items.foldl (fun v it => add v it.Group it) {}).groupIdx.lookup k =
      if k ∈ firstAppearance (items.map groupKey) then
        some ((firstAppearance (items.map groupKey)).indexOf k)
      else none := by
  induction items using List.reverseRecOn with
  | nil =>
    refine ⟨rfl, fun k => ?_⟩
    simp [firstAppearance]
  | append_singleton p it ih =>
    obtain ⟨hg, hidx⟩ := ih
    rw [List.foldl_append, List.foldl_cons, List.foldl_nil]
    generalize p.foldl (fun v it => add v it.Group it) {} = v at hg hidx ⊢
    have hnames : firstAppearance ((p ++ [it]).map groupKey) =
        if groupKey it ∈ p.map groupKey then firstAppearance (p.map groupKey)
        else firstAppearance (p.map groupKey) ++ [groupKey it] := by
      rw [List.map_append, List.map_cons, List.map_nil, firstAppearance_snoc]
    have hfilter : ∀ n, (p ++ [it]).filter (fun u => decide (groupKey u = n)) =
        p.filter (fun u => decide (groupKey u = n)) ++ if groupKey it = n then [it] else [] := by
      intro n
      rw [List.filter_append]
      by_cases h : groupKey it = n
      · simp [h]
      · simp [h]
    by_cases hk : groupKey it ∈ firstAppearance (p.map groupKey)
    · have hk2 : groupKey it ∈ p.map groupKey := (mem_firstAppearance _ _).mp hk
      rw [add_hit v it _ ((hidx (groupKey it)).trans (if_pos hk))]
      simp only []
      rw [hnames, if_pos hk2]
      refine ⟨?_, hidx⟩
      rw [hg]
      unfold groupedItems
      rw [hnames, if_pos hk2, appendAt_indexOf (groupKey it) it _ _ (nodup_firstAppearance _) hk]
      apply List.map_congr_left
      intro n _
      rw [hfilter n]
    · have hk2 : groupKey it ∉ p.map groupKey := fun h => hk ((mem_firstAppearance _ _).mpr h)
      rw [add_miss v it ((hidx (groupKey it)).trans (if_neg hk))]
      simp only []
      rw [hnames, if_neg hk2]
      refine ⟨?_, ?_⟩
      · rw [hg]
        unfold groupedItems
        rw [hnames, if_neg hk2, List.map_append, List.map_cons, List.map_nil]
        congr 1
        · apply List.map_congr_left
          intro n hn
          have hne : groupKey it ≠ n := fun e => hk (e ▸ hn)
          rw [hfilter n, if_neg hne, List.append_nil]
        · rw [hfilter, if_pos rfl]
          have hnone : p.filter (fun u => decide (groupKey u = groupKey it)) = [] := by
            apply List.filter_eq_nil_iff.mpr
            intro u hu
            simp only [decide_eq_true_eq]
            intro e
            exact hk2 (List.mem_map.mpr ⟨u, hu, e⟩)
          rw [hnone, List.nil_append]
      · intro k
        rw [hg]
        have hl : (groupedItems p).length = (firstAppearance (p.map groupKey)).length := by
          unfold groupedItems
          rw [List.length_map]
        rw [hl]
        by_cases hkk : k = groupKey it
        · subst hkk
          rw [if_pos (List.mem_append_right _ (List.mem_singleton_self _)),
            List.indexOf_append_of_not_mem hk]
          simp [List.lookup]
        · have hmem : k ∈ firstAppearance (p.map groupKey) ++ [groupKey it] ↔
              k ∈ firstAppearance (p.map groupKey) := by
            simp [hkk]
          rw [List.lookup_cons]
          have hbeq : (k == groupKey it) = false := by simpa using hkk
          rw [hbeq]
          simp only [cond_false]
          rw [hidx k]
          by_cases hin : k ∈ firstAppearance (p.map groupKey)
          · rw [if_pos hin, if_pos (hmem.mpr hin), List.indexOf_append_of_mem hin]
          · rw [if_neg hin, if_neg (fun h => hin (hmem.mp h))]

/-! ## The text of the Discord-style output -/
/-- The function `strings.Join` on a list with a first element. -/
theorem Join_cons (a : String) (rest : List String) (sep : String) :
    Join (a :: rest) sep = if rest = [] then a else a ++ sep ++ Join rest sep := by
  cases rest with
  | nil => rfl
  | cons b more =>
    rw [if_neg (List.cons_ne_nil _ _)]
    apply String.ext
    rw [String.data_append, String.data_append]
    rfl

/-- The function `strings.Join` on the empty list. -/
theorem Join_nil (sep : String) : Join [] sep = "" := rfl

/-- The inner loop of `discordMarkdown` writes, behind what the builder
    holds, the renderings of the items with one blank line between them. -/
theorem writeItems_eq : ∀ (items : List ReportItem) (ii : Nat) (b : String),
    writeItems items ii b =
      (if ii > 0 ∧ items ≠ [] then b ++ "\n\n" else b) ++
        Join (items.map renderDiscordItem) "\n\n" := by
  intro items
  induction items with
  | nil =>
    intro ii b
    rw [writeItems, if_neg (fun h => h.2 rfl), List.map_nil, Join_nil, String.append_empty]
  | cons it rest ih =>
    intro ii b
    rw [writeItems, ih, List.map_cons, Join_cons]
    by_cases hrest : rest = []
    · subst hrest
      rw [if_neg (fun h => h.2 rfl), List.map_nil, Join_nil, String.append_empty,
        if_pos rfl]
      by_cases hii : ii > 0
      · rw [if_pos hii, if_pos ⟨hii, List.cons_ne_nil _ _⟩]
      · rw [if_neg hii, if_neg (fun h => hii h.1)]
    · have hmap : rest.map renderDiscordItem ≠ [] := by
        intro h
        exact hrest (List.map_eq_nil_iff.mp h)
      rw [if_pos ⟨Nat.succ_pos _, hrest⟩, if_neg hmap]
      by_cases hii : ii > 0
      · rw [if_pos hii, if_pos ⟨hii, List.cons_ne_nil _ _⟩]
        simp only [String.append_assoc]
      · rw [if_neg hii, if_neg (fun h => hii h.1)]
        simp only [String.append_assoc]

/-- The outer loop of `discordMarkdown` writes, behind what the builder
    holds, the texts of the groups with one blank line between them. -/
theorem writeGroups_eq [GoText] : ∀ (gs : List group) (gi : Nat) (b : String),
    writeGroups gs gi b =
      (if gi > 0 ∧ gs ≠ [] then b ++ "\n\n" else b) ++ Join (gs.map groupText) "\n\n" := by
  intro gs
  induction gs with
  | nil =>
    intro gi b
    rw [writeGroups, if_neg (fun h => h.2 rfl), List.map_nil, Join_nil, String.append_empty]
  | cons g rest ih =>
    intro gi b
    have hblock : ∀ b1 : String,
        writeItems g.Items 0
          (if EqualFold g.Name "lobster" = true ∧
            g.Items.any (fun it => decide (it.Status = "update")) = true then b1 ++ lobsterHeader
          else b1) = b1 ++ groupText g := by
      intro b1
      rw [writeItems_eq, if_neg (fun h => absurd h.1 (Nat.lt_irrefl 0))]
      unfold groupText
      by_cases hc : EqualFold g.Name "lobster" = true ∧
          g.Items.any (fun it => decide (it.Status = "update")) = true
      · rw [if_pos hc, if_pos hc, String.append_assoc]
      · rw [if_neg hc, if_neg hc, String.empty_append]
    rw [writeGroups, hblock, ih, List.map_cons, Join_cons]
    by_cases hrest : rest = []
    · subst hrest
      rw [if_neg (fun h => h.2 rfl), List.map_nil, Join_nil, String.append_empty, if_pos rfl]
      by_cases hgi : gi > 0
      · rw [if_pos hgi, if_pos ⟨hgi, List.cons_ne_nil _ _⟩]
      · rw [if_neg hgi, if_neg (fun h => hgi h.1)]
    · have hmap : rest.map groupText ≠ [] := by
        intro h
        exact hrest (List.map_eq_nil_iff.mp h)
      rw [if_pos ⟨Nat.succ_pos _, hrest⟩, if_neg hmap]
      by_cases hgi : gi > 0
      · rw [if_pos hgi, if_pos ⟨hgi, List.cons_ne_nil _ _⟩]
        simp only [String.append_assoc]
      · rw [if_neg hgi, if_neg (fun h => hgi h.1)]
        simp only [String.append_assoc]

/-- The function `discordMarkdown` in terms of the grouping of the
    specification: the texts of the groups with one blank line between them,
    the white space at the end removed, and one line feed. -/
theorem discordMarkdown_eq [GoText] (r : Report) :
    discordMarkdown r =
      TrimRight (Join ((groupedItems r.Items).map groupText) "\n\n") " \n\t" ++ "\n" := by
  unfold discordMarkdown
  simp only []
  rw [(add_fold r.Items).1, writeGroups_eq, if_neg (fun h => absurd h.1 (Nat.lt_irrefl 0)),
    String.empty_append]

/-- The first code point that `dropWhile` leaves does not satisfy the test. -/
theorem head_dropWhile_false (p : Char → Bool) : ∀ (l : List Char) (x : Char),
    (l.dropWhile p).head? = some x → p x = false := by
  intro l
  induction l with
  | nil => intro x h; exact absurd h (by simp)
  | cons c cs ih =>
    intro x h
    rw [List.dropWhile_cons] at h
    by_cases hc : p c = true
    · rw [if_pos hc] at h
      exact ih x h
    · rw [if_neg hc] at h
      have : c = x := by simpa using h
      rw [← this]
      simpa using hc

/-- The function `dropWhile` stops at a code point that fails the test. -/
theorem dropWhile_append_stop (p : Char → Bool) (y : Char) (ys : List Char) (hy : p y = false) :
    ∀ xs : List Char, (xs ++ y :: ys).dropWhile p = xs.dropWhile p ++ y :: ys := by
  intro xs
  induction xs with
  | nil => simp [List.dropWhile_cons, hy]
  | cons c cs ih =>
    rw [List.cons_append, List.dropWhile_cons, List.dropWhile_cons]
    by_cases hc : p c = true
    · rw [if_pos hc, if_pos hc, ih]
    · rw [if_neg hc, if_neg hc, List.cons_append]

/-- The text that `strings.TrimRight` returns does not end in a code point of
    the cutset. -/
theorem TrimRight_last (s cutset : String) (c : Char) (hc : c ∈ cutset.data) :
    (TrimRight s cutset).data.getLast? ≠ some c := by
  unfold TrimRight
  simp only []
  rw [List.getLast?_reverse]
  intro h
  have := head_dropWhile_false (fun c => cutset.data.contains c) _ c h
  simp at this
  exact this hc

/-- The function `strings.TrimRight` keeps a beginning of the text that ends in
    a code point outside the cutset. -/
theorem TrimRight_keeps (a z cutset : String) (init : List Char) (c : Char)
    (ha : a.data = init ++ [c]) (hc : c ∉ cutset.data) :
    ∃ t, TrimRight (a ++ z) cutset = a ++ t := by
  refine ⟨⟨(z.data.reverse.dropWhile (fun c => cutset.data.contains c)).reverse⟩, ?_⟩
  apply String.ext
  unfold TrimRight
  simp only [String.data_append]
  have hp : (fun c => cutset.data.contains c) c = false := by simpa using hc
  rw [ha, List.reverse_append, List.reverse_append, List.reverse_singleton, List.singleton_append,
    dropWhile_append_stop _ c _ hp, List.reverse_append, List.reverse_cons, List.reverse_reverse]

/-! ## The rendering of a comparison -/
/-- The function `short7` on a trimmed value: its first seven bytes, or all of
    it when it has fewer. -/
theorem short7_of_trimmed (s : String) :
    short7 (TrimSpace s) =
      if byteLen (TrimSpace s) ≥ 7 then sliceTo (TrimSpace s) 7 else TrimSpace s := by
  unfold short7
  simp only [TrimSpace_idem]

/-- The function `short7` on a value that is not blank shows something. -/
theorem short7_ne_empty (s : String) (h : TrimSpace s ≠ "") : short7 (TrimSpace s) ≠ "" := by
  rw [short7_of_trimmed]
  by_cases hlen : byteLen (TrimSpace s) ≥ 7
  · rw [if_pos hlen]
    intro he
    have hd := congrArg String.data he
    cases hdata : (TrimSpace s).data with
    | nil => exact h (String.ext hdata)
    | cons c cs =>
      unfold sliceTo at hd
      simp only [hdata] at hd
      unfold takeBytes at hd
      have hc : c.utf8Size ≤ 7 := le_trans (Char.utf8Size_le_four c) (by decide)
      rw [if_pos hc] at hd
      exact absurd hd (by simp)
  · rw [if_neg hlen]
    exact h

/-- C36, counterexample: an npm item with display "compare" that is no error
    and whose local value `not-installed` equals its latest value renders as
    not installed, and not as up to date. -/
theorem C36_counterexample :
    notInstalledItem.Status ≠ "error" ∧ TrimSpace notInstalledItem.Display = "compare" ∧
      TrimSpace notInstalledItem.Local ≠ "" ∧
      TrimSpace notInstalledItem.Local = TrimSpace notInstalledItem.Latest ∧
      renderDiscordItem notInstalledItem = "pkg: ❌ not installed" ∧
      renderDiscordItem notInstalledItem ≠ "pkg: ✅ not-installed (up-to-date)" ∧
      @discordMarkdown trackLib { Items := [notInstalledItem] } = "pkg: ❌ not installed\n" := by
  decide

/-- C36, amended: in the Discord-style Markdown output, every non-error item
    with display "compare" whose non-empty local value equals its latest value
    (both as `renderCompare` reads them, without the white space around them),
    other than an npm item whose local value is `not-installed`, renders as
    `<label>: ✅ <local> (up-to-date)`; for a github item in commit mode the
    value shown is `short7` of the local value, a beginning of it of at most
    seven bytes, which for a SHA (one byte per character) is its first seven
    characters.  The output is the texts of the groups, separated by one blank
    line, the groups by name in the order of first appearance, every text
    being the renderings of the group's items separated by one blank line
    (behind the Lobster header, if any); the white space at the end is removed
    and one line feed follows, so that the output ends with exactly one line
    feed. -/
theorem C36_compare_rendering [GoText] (r : Report) (it : ReportItem)
    (hstatus : it.Status ≠ "error") (hdisplay : TrimSpace it.Display = "compare")
    (hlocal : TrimSpace it.Local ≠ "") (hsame : TrimSpace it.Local = TrimSpace it.Latest)
    (hnpm : ¬ (it.Type_ = "npm" ∧ TrimSpace it.Local = "not-installed")) :
    renderDiscordItem it =
      itemLabel it ++ ": ✅ " ++
        (if it.Type_ = "github" ∧ it.Mode = "commit" then short7 (TrimSpace it.Local)
         else TrimSpace it.Local) ++ " (up-to-date)" ∧
    ((short7 (TrimSpace it.Local)).data <+: (TrimSpace it.Local).data ∧
      byteLen (short7 (TrimSpace it.Local)) ≤ 7 ∧
      ((∀ c ∈ (TrimSpace it.Local).data, c.utf8Size = 1) →
        (short7 (TrimSpace it.Local)).data = (TrimSpace it.Local).data.take 7)) ∧
    discordMarkdown r =
      TrimRight (Join ((groupedItems r.Items).map groupText) "\n\n") " \n\t" ++ "\n" ∧
    (∀ g, g ∈ groupedItems r.Items →
      groupText g =
        (if EqualFold g.Name "lobster" = true ∧
            g.Items.any (fun u => decide (u.Status = "update")) = true then lobsterHeader
          else "") ++ Join (g.Items.map renderDiscordItem) "\n\n") ∧
    (∃ t : String, discordMarkdown r = t ++ "\n" ∧ t.data.getLast? ≠ some '\n') := by
  refine ⟨?_, ⟨?_, ?_, ?_⟩, discordMarkdown_eq r, fun g _ => rfl, ?_⟩
  · have hlabel : (if TrimSpace it.Label = "" then it.Name else TrimSpace it.Label)
        = itemLabel it := rfl
    have hnc : TrimSpace it.Display ≠ "clawdbot" := by
      rw [hdisplay]
      decide
    unfold renderDiscordItem
    simp only [hlabel]
    rw [if_neg hnc, if_pos hdisplay]
    unfold renderCompare
    simp only []
    rw [if_neg hstatus, if_neg (fun h => hlocal h.2)]
    have hlatest : TrimSpace it.Latest ≠ "" := hsame ▸ hlocal
    by_cases hn : it.Type_ = "npm"
    · have hni : TrimSpace it.Local ≠ "not-installed" := fun h => hnpm ⟨hn, h⟩
      have hng : ¬ (it.Type_ = "github" ∧ it.Mode = "commit") := by
        rw [hn]
        exact fun h => absurd h.1 (by decide)
      rw [if_pos hn, if_neg hni, if_pos ⟨hlocal, hlatest, hsame⟩, if_neg hng]
    · rw [if_neg hn]
      by_cases hg : it.Type_ = "github"
      · rw [if_pos hg]
        by_cases hm : it.Mode = "commit"
        · have hls := short7_ne_empty it.Local hlocal
          have hrs : short7 (TrimSpace it.Latest) ≠ "" := hsame ▸ hls
          rw [if_pos hm, if_pos ⟨hls, hrs, Or.inr (Or.inr hsame)⟩, if_pos ⟨hg, hm⟩]
        · rw [if_neg hm, if_neg (fun h => hm h.2)]
          unfold renderCompareRest
          rw [if_pos ⟨hlocal, hlatest, hsame⟩]
      · rw [if_neg hg, if_neg (fun h => hg h.1)]
        unfold renderCompareRest
        rw [if_pos ⟨hlocal, hlatest, hsame⟩]
  · rw [short7_of_trimmed]
    by_cases hlen : byteLen (TrimSpace it.Local) ≥ 7
    · rw [if_pos hlen]
      exact takeBytes_initial 7 _
    · rw [if_neg hlen]
  · rw [short7_of_trimmed]
    by_cases hlen : byteLen (TrimSpace it.Local) ≥ 7
    · rw [if_pos hlen]
      exact utf8Len_takeBytes_le 7 _
    · rw [if_neg hlen]
      omega
  · intro hone
    rw [short7_of_trimmed]
    by_cases hlen : byteLen (TrimSpace it.Local) ≥ 7
    · rw [if_pos hlen]
      exact takeBytes_of_one_byte 7 _ hone
    · rw [if_neg hlen]
      have hl : (TrimSpace it.Local).data.length < 7 := by
        have := utf8Len_of_one_byte _ hone
        unfold byteLen at hlen
        omega
      rw [List.take_of_length_le (by omega)]
  · refine ⟨TrimRight (Join ((groupedItems r.Items).map groupText) "\n\n") " \n\t",
      discordMarkdown_eq r, ?_⟩
    exact TrimRight_last _ " \n\t" '\n' (by decide)

set_option maxRecDepth 100000 in
/-- C36 at the report of `TestMarkdown_DiscordStyle_CompareAndClawdbot`: the
    commit item `Local Clone` shows the first seven characters of its SHA, and
    the output is the one the test expects, with the symbols of `output.go`. -/
theorem C36_compare_rendering_witness :
    renderDiscordItem
        { Name := "lobster", Label := "Local Clone", Group := "lobster", Display := "compare",
          Type_ := "github", Mode := "commit", Status := "ok",
          Local := "1006798459a17e11903137ce09198e64686a4dbb",
          Latest := "1006798459a17e11903137ce09198e64686a4dbb", Message := "ignored" }
        = "Local Clone: ✅ 1006798 (up-to-date)" ∧
      @discordMarkdown trackLib compareReport =
        "🔄 **Clawdbot Update Available!**\n\nCurrent: 2026.1.24-3\nLatest:  2026.2.2\n\n(several versions behind)\n\nHighlights:\n- A\n- B\n\n🔗 https://example.com/release\n\nNPM Package: ✅ 2026.1.24 (up-to-date)\n\nLocal Clone: ✅ 1006798 (up-to-date)\n" :=
  have h := @C36_compare_rendering trackLib compareReport
    { Name := "lobster", Label := "Local Clone", Group := "lobster", Display := "compare",
      Type_ := "github", Mode := "commit", Status := "ok",
      Local := "1006798459a17e11903137ce09198e64686a4dbb",
      Latest := "1006798459a17e11903137ce09198e64686a4dbb", Message := "ignored" }
    (by decide) (by decide) (by decide) (by decide) (by decide)
  ⟨h.1.trans (by decide), h.2.2.1.trans (by decide)⟩

/-! ## The Lobster header -/
/-- The name of the default group is not `lobster` in any letter case. -/
theorem default_not_lobster [GoText] : EqualFold "__default__" "lobster" = false := by
  rfl

/-- The first appearances of a list all of whose values are the same. -/
theorem firstAppearance_of_same (k : String) : ∀ l : List String, (∀ x ∈ l, x = k) →
    firstAppearance (k :: l) = [k] := by
  intro l
  induction l with
  | nil => intro _; rfl
  | cons a rest ih =>
    intro h
    have ha : a = k := h a (List.mem_cons_self _ _)
    subst ha
    rw [firstAppearance, ih (fun x hx => h x (List.mem_cons_of_mem _ hx))]
    simp

/-- The grouping of a report begins with the group of its first item. -/
theorem groupedItems_cons (it : ReportItem) (rest : List ReportItem) :
    ∃ gs, groupedItems (it :: rest) =
      { Name := groupKey it,
        Items := (it :: rest).filter (fun u => decide (groupKey u = groupKey it)) } :: gs := by
  unfold groupedItems
  rw [List.map_cons, firstAppearance, List.map_cons]
  exact ⟨_, rfl⟩

/-- A report whose first item is in a group named `lobster` goes to the
    Discord-style output. -/
theorem Markdown_of_lobster [GoText] (r : Report) (it : ReportItem) (rest : List ReportItem)
    (hitems : r.Items = it :: rest) (hname : EqualFold (groupKey it) "lobster" = true) :
    Markdown r = discordMarkdown r := by
  have hgroup : TrimSpace it.Group ≠ "" := by
    intro h
    unfold groupKey at hname
    rw [if_pos h, default_not_lobster] at hname
    exact absurd hname (by decide)
  unfold Markdown
  rw [if_pos]
  rw [hitems, List.any_cons]
  simp [hgroup]

/-- C37: for every report whose first group is named `lobster`, compared
    without regard to letter case, and holds at least one item with the
    status "update", the output of `Markdown` begins with the header
    `🔄 **Lobster Update Available!**`.  The output is the texts of the groups
    with one blank line between them, and the text of a group with no item of
    status "update", whatever its name, is the renderings of its items alone,
    with no header written; so a report that is one lobster group without an
    update is rendered as its items. -/
theorem C37_lobster_header [GoText] (r : Report) (it : ReportItem) (rest : List ReportItem)
    (hitems : r.Items = it :: rest) (hname : EqualFold (groupKey it) "lobster" = true) :
    ((∃ u, u ∈ r.Items ∧ groupKey u = groupKey it ∧ u.Status = "update") →
      ∃ t, Markdown r = "🔄 **Lobster Update Available!**" ++ t) ∧
    Markdown r =
      TrimRight (Join ((groupedItems r.Items).map groupText) "\n\n") " \n\t" ++ "\n" ∧
    (∀ g, g ∈ groupedItems r.Items → (∀ u, u ∈ g.Items → u.Status ≠ "update") →
      groupText g = Join (g.Items.map renderDiscordItem) "\n\n") ∧
    ((∀ u, u ∈ r.Items → groupKey u = groupKey it ∧ u.Status ≠ "update") →
      Markdown r =
        TrimRight (Join (r.Items.map renderDiscordItem) "\n\n") " \n\t" ++ "\n") := by
  have hroute := Markdown_of_lobster r it rest hitems hname
  have hnohead : ∀ g : group, (∀ u, u ∈ g.Items → u.Status ≠ "update") →
      groupText g = Join (g.Items.map renderDiscordItem) "\n\n" := by
    intro g hg
    unfold groupText
    have hany : ¬ (g.Items.any (fun u => decide (u.Status = "update")) = true) := by
      intro h
      obtain ⟨u, hu, hst⟩ := List.any_eq_true.mp h
      exact hg u hu (of_decide_eq_true hst)
    rw [if_neg (fun h => hany h.2), String.empty_append]
  refine ⟨?_, ?_, fun g _ hg => hnohead g hg, ?_⟩
  · rintro ⟨u, hu, hkey, hupd⟩
    rw [hroute, discordMarkdown_eq, hitems]
    obtain ⟨gs, hgs⟩ := groupedItems_cons it rest
    rw [hgs, List.map_cons, Join_cons]
    have hany : ((it :: rest).filter (fun u => decide (groupKey u = groupKey it))).any
        (fun u => decide (u.Status = "update")) = true := by
      apply List.any_eq_true.mpr
      refine ⟨u, List.mem_filter.mpr ⟨hitems ▸ hu, decide_eq_true hkey⟩, decide_eq_true hupd⟩
    have htext : ∀ (g : group) (z : String), EqualFold g.Name "lobster" = true →
        g.Items.any (fun u => decide (u.Status = "update")) = true →
        ∃ y : String, groupText g ++ z = "🔄 **Lobster Update Available!**" ++ y := by
      intro g z h1 h2
      unfold groupText
      rw [if_pos ⟨h1, h2⟩]
      refine ⟨"\n\n" ++ (Join (g.Items.map renderDiscordItem) "\n\n" ++ z), ?_⟩
      have hh : lobsterHeader = "🔄 **Lobster Update Available!**" ++ "\n\n" := by decide
      rw [hh]
      simp only [String.append_assoc]
    have hkeep : ∀ y : String, ∃ t, TrimRight ("🔄 **Lobster Update Available!**" ++ y) " \n\t" ++
        "\n" = "🔄 **Lobster Update Available!**" ++ t := by
      intro y
      obtain ⟨t, ht⟩ := TrimRight_keeps "🔄 **Lobster Update Available!**" y " \n\t"
        "🔄 **Lobster Update Available!*".data '*' (by decide) (by decide)
      exact ⟨t ++ "\n", by rw [ht, String.append_assoc]⟩
    by_cases hgs2 : gs.map groupText = []
    · rw [if_pos hgs2]
      obtain ⟨y, hy⟩ := htext ⟨groupKey it,
        (it :: rest).filter (fun u => decide (groupKey u = groupKey it))⟩ "" hname hany
      rw [String.append_empty] at hy
      rw [hy]
      exact hkeep y
    · rw [if_neg hgs2, String.append_assoc]
      obtain ⟨y, hy⟩ := htext ⟨groupKey it,
        (it :: rest).filter (fun u => decide (groupKey u = groupKey it))⟩
        ("\n\n" ++ Join (gs.map groupText) "\n\n") hname hany
      rw [hy]
      exact hkeep y
  · rw [hroute, discordMarkdown_eq]
  · intro hall
    rw [hroute, discordMarkdown_eq]
    have hkeys : ∀ x ∈ rest.map groupKey, x = groupKey it := by
      intro x hx
      obtain ⟨u, hu, hux⟩ := List.mem_map.mp hx
      rw [← hux]
      exact (hall u (hitems ▸ List.mem_cons_of_mem _ hu)).1
    have hfilter : r.Items.filter (fun u => decide (groupKey u = groupKey it)) = r.Items := by
      apply List.filter_eq_self.mpr
      intro u hu
      exact decide_eq_true (hall u hu).1
    have hgrouped : groupedItems r.Items = [{ Name := groupKey it, Items := r.Items }] := by
      unfold groupedItems
      rw [hitems] at hfilter ⊢
      rw [List.map_cons, firstAppearance_of_same _ _ hkeys, List.map_cons, List.map_nil, hfilter]
    rw [hgrouped, List.map_cons, List.map_nil, Join_cons, if_pos rfl,
      hnohead _ (fun u hu => (hall u hu).2)]

/-- C37 at the report of `TestMarkdown_DiscordStyle_LobsterHeaderOnUpdate`:
    the output begins with the header. -/
theorem C37_lobster_header_witness :
    ∃ t, @Markdown trackLib lobsterReport = "🔄 **Lobster Update Available!**" ++ t :=
  (@C37_lobster_header trackLib lobsterReport
    { Name := "lobster", Label := "Local Clone", Group := "lobster", Display := "compare",
      Type_ := "github", Mode := "commit", Status := "update", Local := "aaaaaaa1111111",
      Latest := "bbbbbbb2222222", Message := "ignored" } [] rfl (by decide)).1
    ⟨{ Name := "lobster", Label := "Local Clone", Group := "lobster", Display := "compare",
       Type_ := "github", Mode := "commit", Status := "update", Local := "aaaaaaa1111111",
       Latest := "bbbbbbb2222222", Message := "ignored" }, by decide, rfl, rfl⟩

/-! ## Pull-request sources and the command `track` -/
/-- The switch on the type reports a github tracker in pr mode. -/
theorem validateType_of_pr (i : Nat) (t : TrackerEntry) (hty : t.Type_ = "github")
    (hmode : t.Mode = "pr") : validateType i t ≠ none := by
  unfold validateType
  rw [if_pos hty]
  by_cases hrepo : TrimSpace t.Repo = ""
  · rw [if_pos hrepo]
    exact trackerErr_ne_none _ _
  · rw [if_neg hrepo, if_pos (by rw [hmode]; decide)]
    exact trackerErr_ne_none _ _

/-- The loop of `Validate` reports a list that holds a tracker which the
    switch on the type reports at every index. -/
theorem validateLoop_of_rejected (t : TrackerEntry) (ht : ∀ i, validateType i t ≠ none) :
    ∀ (l : List TrackerEntry) (i : Nat) (seenNames : List String), t ∈ l →
      validateLoop l i seenNames ≠ none := by
  intro l
  induction l with
  | nil => intro i seenNames h; exact absurd h (List.not_mem_nil t)
  | cons a rest ih =>
    intro i seenNames hmem
    rw [validateLoop]
    split_ifs with h1 h2 h3
    · exact trackerErr_ne_none _ _
    · exact Option.some_ne_none _
    · exact trackerErr_ne_none _ _
    · cases hvt : validateType i a with
      | some e => exact Option.some_ne_none _
      | none =>
        cases hvl : validateLocal i a with
        | some e => exact Option.some_ne_none _
        | none =>
          rcases List.mem_cons.mp hmem with h | h
          · subst h
            exact absurd hvt (ht i)
          · exact ih (i + 1) (a.Name :: seenNames) h

/-- The method `Validate` reports every configuration that holds a github
    tracker in pr mode. -/
theorem Validate_of_pr (c : Config) (t : TrackerEntry) (hmem : t ∈ c.Trackers)
    (hty : t.Type_ = "github") (hmode : t.Mode = "pr") : ∃ e, c.Validate = some e := by
  apply Option.ne_none_iff_exists'.mp
  unfold Config.Validate
  split_ifs
  · exact Option.some_ne_none _
  · exact Option.some_ne_none _
  · exact Option.some_ne_none _
  · exact Option.some_ne_none _
  · exact Option.some_ne_none _
  · exact validateLoop_of_rejected t (fun i => validateType_of_pr i t hty hmode) c.Trackers 0 []
      hmem

/-- C35, on the code: `upd track add --url https://github.com/a/b/pull/123`
    is no command of the program.  The switch of `main` has no case for
    `track`: whatever the handlers of the commands are, `main` writes
    `unknown command: track` and the usage to standard error and exits with
    status 2, and calls no handler.  Nor can a pull-request source come in
    through the configuration file: the sample configuration is valid, with a
    github tracker in pr mode for `a/b` behind its trackers `Config.Validate`
    returns the error about the mode of tracker 4, and it returns an error for
    every configuration that holds a github tracker in pr mode, whatever the
    other fields of the tracker. -/
theorem C35_track_is_no_command :
    (∀ (V : Type) (c : Commands V) (w : V),
      main c ["upd", "track", "add", "--url", "https://github.com/a/b/pull/123"] w =
        (2, c.usageRoot .Stderr (c.Fprintf .Stderr "unknown command: track\n\n" w))) ∧
    sampleConfig.Validate = none ∧
    prConfig.Validate =
      some { Error := "config: trackers[4].mode must be release|commit (github)" } ∧
    (∀ (c : Config) (t : TrackerEntry), ∃ e,
      ({ c with Trackers := c.Trackers ++ [{ t with Type_ := "github", Mode := "pr" }] } :
        Config).Validate = some e) := by
  refine ⟨fun V c w => rfl, by decide, by decide, ?_⟩
  intro c t
  exact Validate_of_pr _ { t with Type_ := "github", Mode := "pr" }
    (List.mem_append_right _ (List.mem_singleton_self _)) rfl rfl

end UpdateTracker
